import Mathlib

/-!
# tomato: schema engine (`orm/schema.go`) and query engine (`rest/query.go`)

A shallow embedding of the schema engine and of the query engine of the tomato
document backend, and theorems about them.

Conventions of the embedding

* `interface{}` values are the closed type `Value`; `types.M`
  (`map[string]interface{}`) is an association list `M` read in list order, so a
  `range` loop visits the entries in the order of the list and a statement
  quantified over every `M` covers every iteration order of the Go map.
* `m[k]` is `M.get m k` (`Value.null`, Go's `nil`, when `k` is absent);
  `_, ok := m[k]` is `M.has m k`; `m[k] = v` is `M.set m k v`.
* Go's `error` results are `Option Fault` (`none` is `nil`); `(value, error)`
  results are `Except Fault value`.  `errs.E(code, msg)` keeps its code only.
  A run-time panic (index out of range, write to a nil map) is `Fault.panic`.
* Stateful methods take the receiver and return the receiver after the call.
* A Go string is a `String` read as its sequence of characters; indexing and
  slicing by bytes agree with it on the ASCII delimiters the code cuts at.  The one
  cut that is not at a delimiter is the last byte of a relation type: see
  `mongoFieldTypeToSchemaAPIType`.
  A JSON number (`float64`) is kept as an integer: no function here computes with
  numbers.
* A Go map is shared by reference.  Where the query engine writes to a map it has
  found inside the where tree, the embedding writes the new map back at the place
  where the search found it; a nested query that works on a part of the tree hands
  that part back.
* The query engine calls itself through nested queries.  `Execute` takes a bound
  `fuel` on the depth of nested queries and on the rounds of each replace method;
  a result `none` means that the bound did not suffice.
-/

namespace Tomato

/-! ## Values -/

/-- A dynamically typed Go value (`interface{}`) as it arrives from decoded JSON. -/
inductive Value where
  | null
  | bool (b : Bool)
  | num (n : Int)
  | str (s : String)
  | arr (xs : List Value)
  | obj (kvs : List (String × Value))
deriving Inhabited

mutual
/-- Structural equality test on values. -/
def Value.beq : Value → Value → Bool
  | .null, .null => true
  | .bool a, .bool b => a == b
  | .num a, .num b => a == b
  | .str a, .str b => a == b
  | .arr a, .arr b => Value.beqList a b
  | .obj a, .obj b => Value.beqFields a b
  | _, _ => false
/-- Structural equality test on slices of values. -/
def Value.beqList : List Value → List Value → Bool
  | [], [] => true
  | x :: xs, y :: ys => Value.beq x y && Value.beqList xs ys
  | _, _ => false
/-- Structural equality test on the entries of a map. -/
def Value.beqFields : List (String × Value) → List (String × Value) → Bool
  | [], [] => true
  | (k, x) :: xs, (k2, y) :: ys => k == k2 && Value.beq x y && Value.beqFields xs ys
  | _, _ => false
end

mutual
theorem Value.beq_eq : ∀ a b : Value, Value.beq a b = true ↔ a = b
  | .null, b => by cases b <;> simp [Value.beq]
  | .bool a, b => by cases b <;> simp [Value.beq]
  | .num a, b => by cases b <;> simp [Value.beq]
  | .str a, b => by cases b <;> simp [Value.beq]
  | .arr a, b => by
      cases b <;> simp [Value.beq]
      exact Value.beqList_eq a _
  | .obj a, b => by
      cases b <;> simp [Value.beq]
      exact Value.beqFields_eq a _
theorem Value.beqList_eq : ∀ a b : List Value, Value.beqList a b = true ↔ a = b
  | [], b => by cases b <;> simp [Value.beqList]
  | x :: xs, b => by
      cases b with
      | nil => simp [Value.beqList]
      | cons y ys => simp [Value.beqList, Value.beq_eq x y, Value.beqList_eq xs ys]
theorem Value.beqFields_eq :
    ∀ a b : List (String × Value), Value.beqFields a b = true ↔ a = b
  | [], b => by cases b <;> simp [Value.beqFields]
  | (k, x) :: xs, b => by
      cases b with
      | nil => simp [Value.beqFields]
      | cons y ys =>
        obtain ⟨k2, y⟩ := y
        simp [Value.beqFields, Value.beq_eq x y, Value.beqFields_eq xs ys, and_assoc]
end

instance : DecidableEq Value := fun a b =>
  decidable_of_iff (Value.beq a b = true) (Value.beq_eq a b)

/-- The Go type `types.M`: a string-keyed map of dynamic values. -/
abbrev M := List (String × Value)

/-- The Go type `types.S`: a slice of dynamic values. -/
abbrev S := List Value

/-- Go's comparison `v == nil` on an interface value. -/
def Value.isNil : Value → Bool
  | .null => true
  | _ => false

/-- Lookup of the first entry for a key. -/
def M.find? : M → String → Option Value
  | [], _ => none
  | (k', v) :: rest, k => if k' = k then some v else M.find? rest k

/-- The Go expression `m[k]`: the stored value, or `nil` when the key is absent. -/
def M.get (m : M) (k : String) : Value :=
  (M.find? m k).getD Value.null

/-- The Go expression `_, ok := m[k]`. -/
def M.has (m : M) (k : String) : Bool :=
  (M.find? m k).isSome

/-- The Go statement `m[k] = v`. -/
def M.set : M → String → Value → M
  | [], k, v => [(k, v)]
  | (k', v') :: rest, k, v =>
    if k' = k then (k, v) :: rest else (k', v') :: M.set rest k v

/-- The Go statement `delete(m, k)`. -/
def M.delete (m : M) (k : String) : M :=
  m.filter (fun p => decide (p.1 ≠ k))

/-! ## Errors -/

/-- The error codes of package `errs` used by the schema and query engines. -/
inductive ErrCode where
  | InvalidClassName
  | InvalidKeyName
  | ClassNotEmpty
  | ChangedImmutableFieldError
  | IncorrectType
  | MissingRequiredFieldError
  | InvalidJSON
  | InvalidQuery
  | InvalidSessionToken
  | OperationForbidden
  | PermissionDenied
deriving DecidableEq, Repr, Inhabited

/-- A failed call: an `errs.E` error, an error raised by the storage collaborator,
or a run-time panic. -/
inductive Fault where
  | err (code : ErrCode)
  | storage (msg : String)
  | panic
deriving DecidableEq, Repr, Inhabited

instance instDecidableEqExcept {ε α : Type} [DecidableEq ε] [DecidableEq α] :
    DecidableEq (Except ε α)
  | .ok a, .ok b => if h : a = b then isTrue (by rw [h]) else isFalse (by simpa using h)
  | .error a, .error b =>
    if h : a = b then isTrue (by rw [h]) else isFalse (by simpa using h)
  | .ok _, .error _ => isFalse (by simp)
  | .error _, .ok _ => isFalse (by simp)

/-- Go's `error`: `none` is `nil`. -/
abbrev Error := Option Fault

/-! ## Package `utils`

The helpers of package `utils` are not part of the sources at hand; they are the
usual checked type assertions. -/

/-- Modelled from the spec: `utils.String` is missing from the sources; it is the
checked assertion `v.(string)`, giving `""` for every value that is not a string. -/
def utils.String : Value → String
  | .str s => s
  | _ => ""

/-- Modelled from the spec: `utils.MapInterface` is missing from the sources; it is
the checked assertion to a map, giving the nil map (`none`) for every other value. -/
def utils.MapInterface : Value → Option M
  | .obj m => some m
  | _ => none

/-- Modelled from the spec: `utils.SliceInterface` is missing from the sources; it
is the checked assertion to a slice, giving the nil slice (`none`) otherwise. -/
def utils.SliceInterface : Value → Option S
  | .arr xs => some xs
  | _ => none

/-- Reading `m[k]` from a possibly nil map: a nil map reads as `nil` everywhere. -/
def nilGet (m : Option M) (k : String) : Value :=
  match m with
  | some m => M.get m k
  | none => Value.null

/-- Ranging over a possibly nil map: a nil map has no entries. -/
def nilEntries (m : Option M) : M :=
  m.getD []

/-- Modelled from the spec: `utils.CopyMap` is missing from the sources; it is a
shallow copy into a fresh map (a nil map copies to an empty map). -/
def utils.CopyMap (m : Option M) : M :=
  nilEntries m

/-! ## Regular expressions of the package

Each pattern handed to `regexp.MatchString` is written as a recogniser over the
characters of the subject string. -/

/-- The character class `[A-Za-z]`. -/
def isAlpha (c : Char) : Bool :=
  ('A' ≤ c && c ≤ 'Z') || ('a' ≤ c && c ≤ 'z')

/-- The character class `[0-9]`. -/
def isDigit (c : Char) : Bool :=
  '0' ≤ c && c ≤ '9'

/-- The character class `[A-Za-z0-9_]`. -/
def isWord (c : Char) : Bool :=
  isAlpha c || isDigit c || c = '_'

/-- The character class `[a-zA-Z0-9]`. -/
def isAlnum (c : Char) : Bool :=
  isAlpha c || isDigit c

/-- The pattern `classAndFieldRegex`, `^[A-Za-z][A-Za-z0-9_]*$`. -/
def matchClassAndField : List Char → Bool
  | [] => false
  | c :: cs => isAlpha c && cs.all isWord

/-- Strip a literal prefix, as a regular expression does for a literal. -/
def stripLit : List Char → List Char → Option (List Char)
  | [], cs => some cs
  | _ :: _, [] => none
  | p :: ps, c :: cs => if p = c then stripLit ps cs else none

/-- The pattern `joinClassRegex`, `^_Join:[A-Za-z0-9_]+:[A-Za-z0-9_]+`: anchored at
the start only, so anything may follow the match. -/
def matchJoinClass (cs : List Char) : Bool :=
  match stripLit "_Join:".toList cs with
  | none => false
  | some rest =>
    let a := rest.takeWhile isWord
    match rest.dropWhile isWord with
    | ':' :: b :: _ => !a.isEmpty && isWord b
    | _ => false

/-- The pattern `userIDRegex`, `^[a-zA-Z0-9]{24}$`. -/
def matchUserID (cs : List Char) : Bool :=
  decide (cs.length = 24) && cs.all isAlnum

/-- The pattern `roleRegex`, `^role:.*`: anchored at the start only. -/
def matchRole (cs : List Char) : Bool :=
  (stripLit "role:".toList cs).isSome

/-- The pattern `publicRegex`, `^\*$`. -/
def matchPublic (cs : List Char) : Bool :=
  decide (cs = ['*'])

/-! ## Package-level tables -/

/-- The table `clpValidKeys`. -/
def clpValidKeys : List String :=
  ["find", "get", "create", "update", "delete", "addField"]

/-- A wire type `{"type": t}`. -/
def apiT (t : String) : Value :=
  .obj [("type", .str t)]

/-- A wire type `{"type": t, "targetClass": c}`. -/
def apiTC (t c : String) : Value :=
  .obj [("type", .str t), ("targetClass", .str c)]

/-- The table `defaultColumns` as `init` fills it. -/
def defaultColumns : List (String × M) :=
  [ ("_Default",
      [ ("objectId", apiT "String"), ("createdAt", apiT "Date"),
        ("updatedAt", apiT "Date"), ("ACL", apiT "ACL") ]),
    ("_User",
      [ ("username", apiT "String"), ("password", apiT "String"),
        ("authData", apiT "Object"), ("email", apiT "String"),
        ("emailVerified", apiT "Boolean") ]),
    ("_Installation",
      [ ("installationId", apiT "String"), ("deviceToken", apiT "String"),
        ("channels", apiT "Array"), ("deviceType", apiT "String"),
        ("pushType", apiT "String"), ("GCMSenderId", apiT "String"),
        ("timeZone", apiT "String"), ("localeIdentifier", apiT "String"),
        ("badge", apiT "Number") ]),
    ("_Role",
      [ ("name", apiT "String"), ("users", apiTC "Relation" "_User"),
        ("roles", apiTC "Relation" "_Role") ]),
    ("_Session",
      [ ("restricted", apiT "Boolean"), ("user", apiTC "Pointer" "_User"),
        ("installationId", apiT "String"), ("sessionToken", apiT "String"),
        ("expiresAt", apiT "Date"), ("createdWith", apiT "Object") ]),
    ("_Product",
      [ ("productIdentifier", apiT "String"), ("download", apiT "File"),
        ("downloadName", apiT "String"), ("icon", apiT "File"),
        ("order", apiT "Number"), ("title", apiT "String"),
        ("subtitle", apiT "String") ]) ]

/-- The Go expression `defaultColumns[className]`: `none` is the nil map. -/
def defaultColumnsOf (className : String) : Option M :=
  defaultColumns.lookup className

/-- The table `requiredColumns`. -/
def requiredColumns : List (String × List String) :=
  [ ("_Product", ["productIdentifier", "icon", "order", "title", "subtitle"]),
    ("_Role", ["name", "ACL"]) ]

/-! ## Names -/

/-- The function `fieldNameIsValid`. -/
def fieldNameIsValid (fieldName : String) : Bool :=
  matchClassAndField fieldName.toList

/-- The function `joinClassIsValid`. -/
def joinClassIsValid (className : String) : Bool :=
  matchJoinClass className.toList

/-- The function `ClassNameIsValid`. -/
def ClassNameIsValid (className : String) : Bool :=
  className = "_User" ||
  className = "_Installation" ||
  className = "_Session" ||
  className = "_Role" ||
  className = "_Product" ||
  joinClassIsValid className ||
  fieldNameIsValid className

/-- The function `fieldNameIsValidForClass`. -/
def fieldNameIsValidForClass (fieldName className : String) : Bool :=
  if fieldNameIsValid fieldName = false then false
  else if !(nilGet (defaultColumnsOf "_Default") fieldName).isNil then false
  else if (defaultColumnsOf className).isSome
      && !(nilGet (defaultColumnsOf className) fieldName).isNil then false
  else true

/-! ## Type Mapper -/

/-- The function `schemaAPITypeToMongoFieldType`; the argument is a possibly nil
map, the result the map `{"result": token}`. -/
def schemaAPITypeToMongoFieldType (t : Option M) : Except Fault M :=
  if utils.String (nilGet t "type") = "" then
    .error (.err .InvalidJSON)
  else
    let apiType := utils.String (nilGet t "type")
    if apiType = "Pointer" then
      if (nilGet t "targetClass").isNil then
        .error (.err .MissingRequiredFieldError)
      else if utils.String (nilGet t "targetClass") = "" then
        .error (.err .InvalidJSON)
      else
        let targetClass := utils.String (nilGet t "targetClass")
        if ClassNameIsValid targetClass = false then
          .error (.err .InvalidClassName)
        else
          .ok [("result", .str ("*" ++ targetClass))]
    else if apiType = "Relation" then
      if (nilGet t "targetClass").isNil then
        .error (.err .MissingRequiredFieldError)
      else if utils.String (nilGet t "targetClass") = "" then
        .error (.err .InvalidJSON)
      else
        let targetClass := utils.String (nilGet t "targetClass")
        if ClassNameIsValid targetClass = false then
          .error (.err .InvalidClassName)
        else
          .ok [("result", .str ("relation<" ++ targetClass ++ ">"))]
    else if apiType = "Number" then .ok [("result", .str "number")]
    else if apiType = "String" then .ok [("result", .str "string")]
    else if apiType = "Boolean" then .ok [("result", .str "boolean")]
    else if apiType = "Date" then .ok [("result", .str "date")]
    else if apiType = "Object" then .ok [("result", .str "object")]
    else if apiType = "Array" then .ok [("result", .str "array")]
    else if apiType = "GeoPoint" then .ok [("result", .str "geopoint")]
    else if apiType = "File" then .ok [("result", .str "file")]
    else .error (.err .InvalidJSON)

/-- The function `mongoFieldTypeToSchemaAPIType`.  The index `t[0]` panics on the
empty string and the slice `t[len("relation<") : len(t)-1]` panics when the upper
bound is below the lower one.  The slice drops the last byte of `t`; here it drops the
last character, which is the same when that character is one byte long, as the `>`
that ends a relation type is.  For a `t` that ends in a longer character the Go slice
ends inside that character and its result is no valid string: such a result has no
counterpart in `String`, and what is stated here about the target class of a relation
holds for the types that end in a one-byte character. -/
def mongoFieldTypeToSchemaAPIType (t : String) : Except Fault M :=
  match t.toList with
  | [] => .error .panic
  | c :: rest =>
    if c = '*' then
      .ok [("type", .str "Pointer"), ("targetClass", .str (String.mk rest))]
    else if "relation<".toList.isPrefixOf t.toList then
      if t.length - 1 < "relation<".length then .error .panic
      else
        .ok [("type", .str "Relation"),
             ("targetClass",
               .str (String.mk ((t.toList.take (t.length - 1)).drop "relation<".length)))]
    else if t = "number" then .ok [("type", .str "Number")]
    else if t = "string" then .ok [("type", .str "String")]
    else if t = "boolean" then .ok [("type", .str "Boolean")]
    else if t = "date" then .ok [("type", .str "Date")]
    else if t = "map" then .ok [("type", .str "Object")]
    else if t = "object" then .ok [("type", .str "Object")]
    else if t = "array" then .ok [("type", .str "Array")]
    else if t = "geopoint" then .ok [("type", .str "GeoPoint")]
    else if t = "file" then .ok [("type", .str "File")]
    else .ok []

/-! ## Permission Validator -/

/-- The function `verifyPermissionKey`: the key has to match one of the patterns of
`permissionKeyRegex`. -/
def verifyPermissionKey (key : String) : Error :=
  let result :=
    (false || matchUserID key.toList || matchRole key.toList) || matchPublic key.toList
  if result = false then some (.err .InvalidJSON) else none

/-- The inner loop of `validateCLP` over the subjects of one operation. -/
def validateCLPSubjects : M → Error
  | [] => none
  | (key, p) :: rest =>
    match verifyPermissionKey key with
    | some e => some e
    | none =>
      match p with
      | .bool v => if v = false then some (.err .InvalidJSON) else validateCLPSubjects rest
      | _ => some (.err .InvalidJSON)

/-- The outer loop of `validateCLP` over the operations of the document. -/
def validateCLPOperations : M → Error
  | [] => none
  | (operation, perm) :: rest =>
    if clpValidKeys.contains operation = false then some (.err .InvalidJSON)
    else
      match validateCLPSubjects (nilEntries (utils.MapInterface perm)) with
      | some e => some e
      | none => validateCLPOperations rest

/-- The function `validateCLP`; `none` as argument is the nil document. -/
def validateCLP (perms : Option M) : Error :=
  match perms with
  | none => none
  | some m => validateCLPOperations m

/-! ## Building the persisted record -/

/-- A possibly nil map stored in an `interface{}`: it reads as a map without
entries when nil. -/
def mapValue (m : Option M) : Value :=
  .obj (nilEntries m)

/-- The first loop of `mongoSchemaFromFieldsAndClassNameAndCLP`: the field names are
checked. -/
def checkFieldNames (className : String) : M → Error
  | [] => none
  | (fieldName, _) :: rest =>
    if fieldNameIsValid fieldName = false then some (.err .InvalidKeyName)
    else if fieldNameIsValidForClass fieldName className = false then
      some (.err .ChangedImmutableFieldError)
    else checkFieldNames className rest

/-- The loop `for fieldName := range defaultColumns[className]` of
`mongoSchemaFromFieldsAndClassNameAndCLP`, started on the entries of the table. -/
def addDefaultColumns (className : String) : M → M → Except Fault M
  | [], mongoObject => .ok mongoObject
  | (fieldName, _) :: rest, mongoObject =>
    match schemaAPITypeToMongoFieldType
        (utils.MapInterface (nilGet (defaultColumnsOf className) fieldName)) with
    | .error e => .error e
    | .ok validatedField =>
      addDefaultColumns className rest
        (M.set mongoObject fieldName (M.get validatedField "result"))

/-- The loop `for fieldName := range fields` of
`mongoSchemaFromFieldsAndClassNameAndCLP`, started on the entries of `fields`: as
in the source, the type handed to the Type Mapper is read from
`defaultColumns[className][fieldName]`. -/
def addOtherFields (className : String) : M → M → Except Fault M
  | [], mongoObject => .ok mongoObject
  | (fieldName, _) :: rest, mongoObject =>
    match schemaAPITypeToMongoFieldType
        (utils.MapInterface (nilGet (defaultColumnsOf className) fieldName)) with
    | .error e => .error e
    | .ok validatedField =>
      addOtherFields className rest
        (M.set mongoObject fieldName (M.get validatedField "result"))

/-- The list `geoPoints` of `mongoSchemaFromFieldsAndClassNameAndCLP`. -/
def geoPointKeys (mongoObject : M) : List String :=
  (mongoObject.filter (fun p => decide (utils.String p.2 = "geopoint"))).map Prod.fst

/-- The function `mongoSchemaFromFieldsAndClassNameAndCLP`. -/
def mongoSchemaFromFieldsAndClassNameAndCLP (fields : Option M) (className : String)
    (classLevelPermissions : Option M) : Except Fault M :=
  if ClassNameIsValid className = false then .error (.err .InvalidClassName)
  else
    match checkFieldNames className (nilEntries fields) with
    | some e => .error e
    | none =>
      let mongoObject : M :=
        [ ("_id", .str className), ("objectId", .str "string"),
          ("updatedAt", .str "string"), ("createdAt", .str "string") ]
      match addDefaultColumns className (nilEntries (defaultColumnsOf className))
          mongoObject with
      | .error e => .error e
      | .ok mongoObject =>
        match addOtherFields className (nilEntries fields) mongoObject with
        | .error e => .error e
        | .ok mongoObject =>
          if (geoPointKeys mongoObject).length > 1 then .error (.err .IncorrectType)
          else
            match validateCLP classLevelPermissions with
            | some e => .error e
            | none =>
              let metadata : Option M :=
                if (M.get mongoObject "_metadata").isNil
                    && (utils.MapInterface (M.get mongoObject "_metadata")).isNone then
                  some []
                else utils.MapInterface (M.get mongoObject "_metadata")
              match classLevelPermissions with
              | none =>
                let metadata := metadata.map (fun m => M.delete m "class_permissions")
                .ok [("result", .obj (M.set mongoObject "_metadata" (mapValue metadata)))]
              | some clp =>
                match metadata with
                | none => .error .panic
                | some m =>
                  let metadata := M.set m "class_permissions" (.obj clp)
                  .ok [("result", .obj (M.set mongoObject "_metadata" (.obj metadata)))]

/-! ## Storage collaborator -/

/-- Modelled from the spec: `MongoSchemaCollection` (`GetAllSchemas`, `addSchema`,
`updateSchema`, `upsertSchema`), `DropCollection` and
`AdaptiveCollection(...).UpdateMany` are missing from the sources.  They are the
operations of the persisted store named in the external interfaces of the spec,
taken here as parameters over an arbitrary database state `σ`: a write returns its
error and the database after the call, a read leaves the database as it is. -/
structure Storage (σ : Type) where
  GetAllSchemas : σ → Except Fault (List M)
  addSchema : σ → String → Option M → Error × σ
  updateSchema : σ → String → M → Error × σ
  upsertSchema : σ → String → M → M → Error × σ
  DropCollection : σ → String → Error × σ
  UpdateMany : σ → String → M → M → Error × σ

/-- The struct `Schema`; `collection` is the database reached through the
collection handle. -/
structure Schema (σ : Type) where
  collection : σ
  data : M
  perms : M

/-- What the loop over one row in `reloadData` has read so far. -/
structure RowScan where
  className : String
  classData : M
  permsData : Value

/-- The body of the loop `for k, v := range obj` of `reloadData`. -/
def scanEntry (acc : RowScan) (kv : String × Value) : RowScan :=
  if kv.1 = "_id" then { acc with className := utils.String kv.2 }
  else if kv.1 = "_metadata" then
    if !kv.2.isNil && (utils.MapInterface kv.2).isSome
        && !(nilGet (utils.MapInterface kv.2) "class_permissions").isNil then
      { acc with permsData := nilGet (utils.MapInterface kv.2) "class_permissions" }
    else acc
  else { acc with classData := M.set acc.classData kv.1 kv.2 }

/-- One row of the schema collection read by `reloadData`. -/
def scanRow (obj : M) : RowScan :=
  obj.foldl scanEntry { className := "", classData := [], permsData := .null }

/-- The body of the loop `for _, obj := range results` of `reloadData`, on the pair
of `data` and `perms`. -/
def loadRow (acc : M × M) (obj : M) : M × M :=
  let r := scanRow obj
  if r.className ≠ "" then
    ( M.set acc.1 r.className (.obj r.classData),
      if !r.permsData.isNil then M.set acc.2 r.className r.permsData else acc.2 )
  else acc

/-- The method `reloadData`. -/
def Schema.reloadData {σ : Type} (st : Storage σ) (s : Schema σ) : Schema σ :=
  match st.GetAllSchemas s.collection with
  | .error _ => { s with data := [], perms := [] }
  | .ok results =>
    let dp := results.foldl loadRow ([], [])
    { s with data := dp.1, perms := dp.2 }

/-- The function `Load`. -/
def Load {σ : Type} (st : Storage σ) (collection : σ) : Schema σ :=
  Schema.reloadData st { collection := collection, data := [], perms := [] }

/-- The method `AddClassIfNotExists`. -/
def Schema.AddClassIfNotExists {σ : Type} (st : Storage σ) (s : Schema σ)
    (className : String) (fields classLevelPermissions : Option M) :
    Except Fault (Option M) × Schema σ :=
  if !(M.get s.data className).isNil then (.error (.err .InvalidClassName), s)
  else
    match mongoSchemaFromFieldsAndClassNameAndCLP fields className
        classLevelPermissions with
    | .error e => (.error e, s)
    | .ok mongoObject =>
      let w := st.addSchema s.collection className
        (utils.MapInterface (M.get mongoObject "result"))
      match w.1 with
      | some e => (.error e, { s with collection := w.2 })
      | none =>
        (.ok (utils.MapInterface (M.get mongoObject "result")),
          { s with collection := w.2 })

/-- The method `validatePermission`. -/
def Schema.validatePermission {σ : Type} (s : Schema σ) (className : String)
    (aclGroup : List String) (operation : String) : Error :=
  if (M.get s.perms className).isNil
      && (nilGet (utils.MapInterface (M.get s.perms className)) operation).isNil then
    none
  else
    let cls := utils.MapInterface (M.get s.perms className)
    let perms := utils.MapInterface (nilGet cls operation)
    if (nilEntries perms).has "*" then none
    else
      let found := aclGroup.any (fun v => (nilEntries perms).has v)
      if found = false then none
      else none

/-- Modelled from the spec: `transformKey` is missing from the sources; its result
is discarded at its only call site here and it is taken to leave the schema and
the database as they are. -/
def transformKey {σ : Type} (s : Schema σ) (_className _key : String) : Schema σ :=
  s

/-- The Go expression `strings.Index(key, ".") > 0`. -/
def dotAfterStart (key : String) : Bool :=
  match key.toList with
  | [] => false
  | c :: rest => decide (c ≠ '.') && rest.contains '.'

/-- The Go expression `strings.Split(key, ".")[0]`. -/
def beforeFirstDot (key : String) : String :=
  String.mk (key.toList.takeWhile (fun c => decide (c ≠ '.')))

/-- The body of the method `validateField`; `self` stands for the method at its
recursive call. -/
def Schema.validateFieldBody {σ : Type} (st : Storage σ)
    (self : Schema σ → String → String → String → Bool → Error × Schema σ)
    (s : Schema σ) (className key fieldtype : String) (freeze : Bool) :
    Error × Schema σ :=
  let s := transformKey s className key
  let key' := if dotAfterStart key then beforeFirstDot key else key
  let fieldtype' := if dotAfterStart key then "object" else fieldtype
  let expected := utils.String (nilGet (utils.MapInterface (M.get s.data className)) key')
  if expected ≠ "" then
    let expected := if expected = "map" then "object" else expected
    if expected = key' then (none, s)
    else (none, s)
  else if freeze then (none, s)
  else if fieldtype' = "" then (none, s)
  else if fieldtype' = "geopoint"
      && (nilEntries (utils.MapInterface (M.get s.data className))).any
          (fun p => decide (utils.String p.2 = "geopoint")) then
    (none, s)
  else
    let query : M := [(key', .obj [("$exists", .bool true)])]
    let update : M := [("$set", .obj [(key', .str fieldtype')])]
    let w := st.upsertSchema s.collection className query update
    let s := Schema.reloadData st { s with collection := w.2 }
    let r := self s className key' fieldtype' true
    (none, r.2)

/-- The method `validateField`.  A call with `freeze` set returns before the
recursive call, so two unfoldings of the body are the whole method. -/
def Schema.validateField {σ : Type} (st : Storage σ) (s : Schema σ)
    (className key fieldtype : String) (freeze : Bool) : Error × Schema σ :=
  Schema.validateFieldBody st
    (Schema.validateFieldBody st (fun s _ _ _ _ => (none, s)))
    s className key fieldtype freeze

/-- The method `setPermissions`. -/
def Schema.setPermissions {σ : Type} (st : Storage σ) (s : Schema σ)
    (className : String) (perms : Option M) : Error × Schema σ :=
  let _ := validateCLP perms
  let metadata : M := [("_metadata", .obj [("class_permissions", mapValue perms)])]
  let update : M := [("$set", .obj metadata)]
  let w := st.updateSchema s.collection className update
  (none, Schema.reloadData st { s with collection := w.2 })

/-- The method `hasClass`. -/
def Schema.hasClass {σ : Type} (st : Storage σ) (s : Schema σ) (className : String) :
    Bool × Schema σ :=
  let s := Schema.reloadData st s
  (!(M.get s.data className).isNil, s)

/-- The method `deleteField`. -/
def Schema.deleteField {σ : Type} (st : Storage σ) (s : Schema σ)
    (fieldName className : String) : Error × Schema σ :=
  if ClassNameIsValid className = false then (some (.err .InvalidClassName), s)
  else if fieldNameIsValid fieldName = false then (some (.err .InvalidKeyName), s)
  else if fieldNameIsValidForClass fieldName className = false then
    (some (.err .ChangedImmutableFieldError), s)
  else
    let s := Schema.reloadData st s
    let h := Schema.hasClass st s className
    let s := h.2
    if h.1 = false then (some (.err .InvalidClassName), s)
    else
      let cls := utils.MapInterface (M.get s.data className)
      if (nilGet cls fieldName).isNil then (some (.err .ClassNotEmpty), s)
      else
        let name := utils.String (nilGet cls fieldName)
        let dataStep : Error × σ :=
          if "relation<".toList.isPrefixOf name.toList then
            st.DropCollection s.collection ("_Join:" ++ fieldName ++ ":" ++ className)
          else
            let mongoFieldName :=
              if "*".toList.isPrefixOf name.toList then "_p_" ++ fieldName else fieldName
            let update : M := [("$unset", .obj [(mongoFieldName, .null)])]
            st.UpdateMany s.collection className [] update
        match dataStep.1 with
        | some e => (some e, { s with collection := dataStep.2 })
        | none =>
          let update : M := [("$unset", .obj [(fieldName, .null)])]
          let w := st.updateSchema dataStep.2 className update
          (w.1, { s with collection := w.2 })

/-! ## Wire responses and merging -/

/-- The table `defaultClassLevelPermissions` as `init` fills it. -/
def defaultClassLevelPermissions : M :=
  clpValidKeys.map (fun v => (v, Value.obj [("*", .bool true)]))

/-- The table `nonFieldSchemaKeys`. -/
def nonFieldSchemaKeys : List String :=
  ["_id", "_metadata", "_client_permissions"]

/-- The loop of `mongoSchemaAPIResponseFields` that converts every listed field. -/
def convertFields (schema : M) : List String → M → Except Fault M
  | [], response => .ok response
  | v :: rest, response =>
    match mongoFieldTypeToSchemaAPIType (utils.String (M.get schema v)) with
    | .error e => .error e
    | .ok t => convertFields schema rest (M.set response v (.obj t))

/-- The function `mongoSchemaAPIResponseFields`; the argument is a possibly nil
map. -/
def mongoSchemaAPIResponseFields (schema : Option M) : Except Fault M :=
  let fieldNames :=
    ((nilEntries schema).map Prod.fst).filter (fun k => !nonFieldSchemaKeys.contains k)
  match convertFields (nilEntries schema) fieldNames [] with
  | .error e => .error e
  | .ok response =>
    let response := M.set response "ACL" (apiT "ACL")
    let response := M.set response "createdAt" (apiT "Date")
    let response := M.set response "updatedAt" (apiT "Date")
    .ok (M.set response "objectId" (apiT "String"))

/-- The function `MongoSchemaToSchemaAPIResponse`. -/
def MongoSchemaToSchemaAPIResponse (schema : Option M) : Except Fault M :=
  match mongoSchemaAPIResponseFields schema with
  | .error e => .error e
  | .ok fields =>
    let result : M := [("className", nilGet schema "_id"), ("fields", .obj fields)]
    let classLevelPermissions := utils.CopyMap (some defaultClassLevelPermissions)
    let classLevelPermissions :=
      if !(nilGet schema "_metadata").isNil
          && (utils.MapInterface (nilGet schema "_metadata")).isSome then
        let metadata := utils.MapInterface (nilGet schema "_metadata")
        if !(nilGet metadata "class_permissions").isNil
            && (utils.MapInterface (nilGet metadata "class_permissions")).isSome then
          (nilEntries (utils.MapInterface (nilGet metadata "class_permissions"))).foldl
            (fun acc kv => M.set acc kv.1 kv.2) classLevelPermissions
        else classLevelPermissions
      else classLevelPermissions
    .ok (M.set result "classLevelPermissions" (.obj classLevelPermissions))

/-- The list `sysSchemaField` of `buildMergedSchemaObject`: the keys of the default
columns of the class named by `_id`. -/
def sysSchemaFieldOf (id : String) : List String :=
  match defaultColumns.find? (fun kv => decide (kv.1 = id)) with
  | some kv => kv.2.map Prod.fst
  | none => []

/-- The loop of `buildMergedSchemaObject` over the stored fields. -/
def mergeOldFields (sysSchemaField : List String) (putRequest : Option M) :
    M → M → Except Fault M
  | [], newSchema => .ok newSchema
  | (oldField, v) :: rest, newSchema =>
    if oldField ≠ "_id" && oldField ≠ "ACL" && oldField ≠ "updatedAt"
        && oldField ≠ "createdAt" && oldField ≠ "objectId" then
      if decide (sysSchemaField.length > 0) && sysSchemaField.contains oldField then
        mergeOldFields sysSchemaField putRequest rest newSchema
      else
        let fieldIsDeleted :=
          !(nilGet putRequest oldField).isNil
            && decide (utils.String
                (nilGet (utils.MapInterface (nilGet putRequest oldField)) "__op")
                  = "Delete")
        if fieldIsDeleted = false then
          match mongoFieldTypeToSchemaAPIType (utils.String v) with
          | .error e => .error e
          | .ok t =>
            mergeOldFields sysSchemaField putRequest rest (M.set newSchema oldField (.obj t))
        else mergeOldFields sysSchemaField putRequest rest newSchema
    else mergeOldFields sysSchemaField putRequest rest newSchema

/-- The loop of `buildMergedSchemaObject` over the fields of the request. -/
def mergeNewFields (sysSchemaField : List String) : M → M → M
  | [], newSchema => newSchema
  | (newField, v) :: rest, newSchema =>
    if newField ≠ "objectId"
        && decide (utils.String (nilGet (utils.MapInterface v) "__op") ≠ "Delete") then
      if decide (sysSchemaField.length > 0) && sysSchemaField.contains newField then
        mergeNewFields sysSchemaField rest newSchema
      else mergeNewFields sysSchemaField rest (M.set newSchema newField v)
    else mergeNewFields sysSchemaField rest newSchema

/-- The function `buildMergedSchemaObject`. -/
def buildMergedSchemaObject (mongoObject : M) (putRequest : Option M) :
    Except Fault M :=
  let sysSchemaField := sysSchemaFieldOf (utils.String (M.get mongoObject "_id"))
  match mergeOldFields sysSchemaField putRequest mongoObject [] with
  | .error e => .error e
  | .ok newSchema => .ok (mergeNewFields sysSchemaField (nilEntries putRequest) newSchema)

/-! ## UpdateClass -/

/-- The first loop of `UpdateClass`: the operation on every submitted field is
checked against the existing fields. -/
def checkSubmitted (existingFields : M) : M → Error
  | [] => none
  | (name, v) :: rest =>
    let op := utils.String (nilGet (utils.MapInterface v) "__op")
    if !(M.get existingFields name).isNil && op ≠ "Delete" then
      some (.err .ClassNotEmpty)
    else if (M.get existingFields name).isNil && op = "Delete" then
      some (.err .ClassNotEmpty)
    else checkSubmitted existingFields rest

/-- The second loop of `UpdateClass`: fields with `Delete` are deleted, the names
of the others are collected in `insertedFields`. -/
def deleteSubmitted {σ : Type} (st : Storage σ) (className : String) :
    M → List String → Schema σ → Except Fault (List String) × Schema σ
  | [], insertedFields, s => (.ok insertedFields, s)
  | (name, v) :: rest, insertedFields, s =>
    let op := utils.String (nilGet (utils.MapInterface v) "__op")
    if op = "Delete" then
      let r := Schema.deleteField st s name className
      match r.1 with
      | some e => (.error e, r.2)
      | none => deleteSubmitted st className rest insertedFields r.2
    else deleteSubmitted st className rest (insertedFields ++ [name]) s

/-- The third loop of `UpdateClass`: every inserted field is validated. -/
def validateInserted {σ : Type} (st : Storage σ) (className : String)
    (mongoResult : Option M) : List String → Schema σ → Error × Schema σ
  | [], s => (none, s)
  | fieldName :: rest, s =>
    let mongoType := utils.String (nilGet mongoResult fieldName)
    let r := Schema.validateField st s className fieldName mongoType false
    match r.1 with
    | some e => (some e, r.2)
    | none => validateInserted st className mongoResult rest r.2

/-- The method `UpdateClass`. -/
def Schema.UpdateClass {σ : Type} (st : Storage σ) (s : Schema σ) (className : String)
    (submittedFields classLevelPermissions : Option M) :
    Except Fault M × Schema σ :=
  if (M.get s.data className).isNil then (.error (.err .InvalidClassName), s)
  else
    let existingFields := utils.CopyMap (utils.MapInterface (M.get s.data className))
    let existingFields := M.set existingFields "_id" (.str className)
    match checkSubmitted existingFields (nilEntries submittedFields) with
    | some e => (.error e, s)
    | none =>
      match buildMergedSchemaObject existingFields submittedFields with
      | .error e => (.error e, s)
      | .ok newSchema =>
        match mongoSchemaFromFieldsAndClassNameAndCLP (some newSchema) className
            classLevelPermissions with
        | .error e => (.error e, s)
        | .ok mongoObject =>
          let d := deleteSubmitted st className (nilEntries submittedFields) [] s
          match d.1 with
          | .error e => (.error e, d.2)
          | .ok insertedFields =>
            let s := Schema.reloadData st d.2
            let mongoResult := utils.MapInterface (M.get mongoObject "result")
            let v := validateInserted st className mongoResult insertedFields s
            match v.1 with
            | some e => (.error e, v.2)
            | none =>
              let p := Schema.setPermissions st v.2 className classLevelPermissions
              match p.1 with
              | some e => (.error e, p.2)
              | none => (MongoSchemaToSchemaAPIResponse mongoResult, p.2)

/-! ## An in-memory store -/

/-- A database held in memory: the rows of the schema collection and the rows of
every other collection by name. -/
structure MemDB where
  schemas : List M
  collections : List (String × List M)
deriving DecidableEq

/-- One update document applied to one row: `$set` stores every listed entry,
`$unset` removes every listed key. -/
def applyUpdate (row update : M) : M :=
  let row := (nilEntries (utils.MapInterface (M.get update "$set"))).foldl
    (fun r kv => M.set r kv.1 kv.2) row
  (nilEntries (utils.MapInterface (M.get update "$unset"))).foldl
    (fun r kv => M.delete r kv.1) row

/-- A row satisfies a query of `{key: {"$exists": b}}` conditions. -/
def rowMatches (row query : M) : Bool :=
  query.all (fun kv =>
    match nilGet (utils.MapInterface kv.2) "$exists" with
    | .bool b => M.has row kv.1 == b
    | _ => true)

/-- The update of the first row that satisfies a test. -/
def updateFirst (test : M → Bool) (f : M → M) : List M → List M
  | [] => []
  | r :: rest => if test r then f r :: rest else r :: updateFirst test f rest

/-- Modelled from the spec: the persisted store is missing from the sources; this
is the store of the external interfaces of the spec held in memory: one schema row
per class keyed by `_id` (a second insert of a key fails), updates by `$set` and
`$unset`, an upsert that updates the matching row or inserts a new one. -/
def memStorage : Storage MemDB where
  GetAllSchemas db := .ok db.schemas
  addSchema db name fields :=
    if db.schemas.any (fun r => decide (utils.String (M.get r "_id") = name)) then
      (some (.storage "duplicate key"), db)
    else
      (none, { db with schemas := db.schemas ++ [M.set (nilEntries fields) "_id" (.str name)] })
  updateSchema db name update :=
    let rows := updateFirst (fun r => decide (utils.String (M.get r "_id") = name))
      (fun r => applyUpdate r update) db.schemas
    (none, { db with schemas := rows })
  upsertSchema db name query update :=
    let test := fun r => decide (utils.String (M.get r "_id") = name) && rowMatches r query
    if db.schemas.any test then
      (none, { db with schemas := updateFirst test (fun r => applyUpdate r update) db.schemas })
    else if db.schemas.any (fun r => decide (utils.String (M.get r "_id") = name)) then
      (some (.storage "duplicate key"), db)
    else
      (none, { db with schemas := db.schemas ++ [applyUpdate [("_id", .str name)] update] })
  DropCollection db name :=
    (none, { db with collections := db.collections.filter (fun c => decide (c.1 ≠ name)) })
  UpdateMany db name query update :=
    let touch : String × List M → String × List M := fun c =>
      if c.1 = name then
        (c.1, c.2.map (fun r => if rowMatches r query then applyUpdate r update else r))
      else c
    (none, { db with collections := db.collections.map touch })

/-! ## What the specification says, in its own words -/

/-- One of the five system classes. -/
def IsSystemClass (name : String) : Prop :=
  name = "_User" ∨ name = "_Installation" ∨ name = "_Session" ∨ name = "_Role"
    ∨ name = "_Product"

/-- A string matching `^_Join:[A-Za-z0-9_]+:[A-Za-z0-9_]+`: the literal `_Join:`, a
non-empty run of word characters, a colon, a non-empty run of word characters, and
then anything. -/
def MatchesJoinPattern (cs : List Char) : Prop :=
  ∃ a b rest, cs = "_Join:".toList ++ (a ++ ':' :: (b ++ rest)) ∧ a ≠ [] ∧ b ≠ []
    ∧ (∀ c ∈ a, isWord c = true) ∧ (∀ c ∈ b, isWord c = true)

/-- A string matching `^[A-Za-z][A-Za-z0-9_]*$`: a letter followed by word
characters only. -/
def MatchesIdentifier (cs : List Char) : Prop :=
  ∃ c rest, cs = c :: rest ∧ isAlpha c = true ∧ ∀ x ∈ rest, isWord x = true

/-- The map `t` restricted to its `type` and `targetClass` keys. -/
def restrictWire (t : M) : M :=
  t.filter (fun p => decide (p.1 = "type") || decide (p.1 = "targetClass"))

/-- A wire type description: a map with `type` and, for `Pointer` and `Relation`
only, `targetClass`. -/
def IsWireType (t : M) : Prop :=
  M.has t "type" = true ∧
  (M.has t "targetClass" = true →
    utils.String (M.get t "type") = "Pointer" ∨ utils.String (M.get t "type") = "Relation")

/-- A subject key of a class-level permission: a 24-character alphanumeric id, a
string starting with `role:`, or exactly `*`. -/
def IsSubjectKey (key : String) : Prop :=
  (key.toList.length = 24 ∧ ∀ c ∈ key.toList, isAlnum c = true)
    ∨ (∃ rest, key.toList = "role:".toList ++ rest)
    ∨ key = "*"

/-- A CLP document whose operation values are maps, made from its operations and
their subject maps. -/
def clpDocument (ops : List (String × M)) : M :=
  ops.map (fun e => (e.1, Value.obj e.2))

/-! ## Concrete inputs -/

/-- A schema whose class `Book` allows `find` to `role:admin` only. -/
def adminOnlySchema : Schema Unit :=
  { collection := (), data := [("Book", .obj [])],
    perms := [("Book", .obj [("find", .obj [("role:admin", .bool true)])])] }

/-- The subjects allowed to `find` on `Book` in `adminOnlySchema`. -/
def adminOnlyEntry : M :=
  nilEntries (utils.MapInterface
    (nilGet (utils.MapInterface (M.get adminOnlySchema.perms "Book")) "find"))

/-- The empty database. -/
def emptyDB : MemDB :=
  { schemas := [], collections := [] }

/-- A database whose only class `Book` has the field `title` of type `string`. -/
def titleDB : MemDB :=
  { schemas := [[("_id", .str "Book"), ("title", .str "string")]], collections := [] }

/-- A database whose only class `Book` has no field. -/
def bareDB : MemDB :=
  { schemas := [[("_id", .str "Book")]], collections := [] }

/-- A database whose class `Book` has a relation field `authors`, a pointer field
`cover` and a string field `title`, with one object row and the join collection of
`authors`. -/
def libraryDB : MemDB :=
  { schemas :=
      [[("_id", .str "Book"), ("authors", .str "relation<Author>"),
        ("cover", .str "*Image"), ("title", .str "string")]],
    collections :=
      [("Book", [[("_id", .str "b1"), ("_p_cover", .str "Image$i1"),
          ("title", .str "Dune")]]),
       ("_Join:authors:Book", [[("owningId", .str "b1"), ("relatedId", .str "a1")]])] }

/-- The errors a storage collaborator returns from its writes are its own: none of
them is an `errs.E` error of the engine. -/
def Storage.OwnFaults {σ : Type} (st : Storage σ) : Prop :=
  ∀ (db : σ) (code : ErrCode),
    (∀ n u, (st.updateSchema db n u).1 ≠ some (.err code))
    ∧ (∀ n, (st.DropCollection db n).1 ≠ some (.err code))
    ∧ (∀ n q u, (st.UpdateMany db n q u).1 ≠ some (.err code))

/-- A database whose class `Book` has the columns written at its creation and the
field `title`, with one object row. -/
def shelfDB : MemDB :=
  { schemas :=
      [[("_id", .str "Book"), ("objectId", .str "string"), ("updatedAt", .str "string"),
        ("createdAt", .str "string"), ("title", .str "string")]],
    collections := [("Book", [[("_id", .str "b1"), ("title", .str "Dune")]])] }

/-- Ranging over a possibly nil slice: a nil slice has no elements. -/
def nilEntriesS (s : Option S) : S :=
  s.getD []

/-! ## Type inference -/

mutual
/-- The function `getObjectType`.  The recursive calls on `object["$ne"]` and on
`ops[0]` are made through `getObjectTypeAt` and `getObjectTypeFirst`, which look
the value up in the entries of the map.  The index `objects[0]` or `ops[0]` of an
empty or nil slice panics. -/
def getObjectType : Value → Except Fault String
  | .arr _ => .ok "array"
  | .obj object =>
    let afterType : Except Fault String :=
      if !(M.get object "$ne").isNil then getObjectTypeAt object "$ne"
      else if !(M.get object "__op").isNil then
        let op := utils.String (M.get object "__op")
        if op = "Increment" then .ok "number"
        else if op = "Delete" then .ok ""
        else if op = "Add" ∨ op = "AddUnique" ∨ op = "Remove" then .ok "array"
        else if op = "AddRelation" ∨ op = "RemoveRelation" then
          match nilEntriesS (utils.SliceInterface (M.get object "objects")) with
          | [] => .error .panic
          | o :: _ =>
            .ok ("relation<" ++ utils.String (nilGet (utils.MapInterface o) "className")
              ++ ">")
        else if op = "Batch" then getObjectTypeFirst object "ops"
        else .ok ""
      else .ok "object"
    if !(M.get object "__type").isNil then
      let t := utils.String (M.get object "__type")
      if t = "Pointer" then
        if !(M.get object "className").isNil then
          .ok ("*" ++ utils.String (M.get object "className"))
        else afterType
      else if t = "File" then
        if !(M.get object "name").isNil then .ok "file" else afterType
      else if t = "Date" then
        if !(M.get object "iso").isNil then .ok "date" else afterType
      else if t = "GeoPoint" then
        if !(M.get object "latitude").isNil && !(M.get object "longitude").isNil then
          .ok "geopoint"
        else afterType
      else if t = "Bytes" then
        if !(M.get object "base64").isNil then .ok "bytes" else afterType
      else .ok ""
    else afterType
  | _ => .ok "object"
/-- The call `getObjectType(object[key])`, on the entries of `object`. -/
def getObjectTypeAt : List (String × Value) → String → Except Fault String
  | [], _ => .ok "object"
  | (k, v) :: rest, key => if k = key then getObjectType v else getObjectTypeAt rest key
/-- The call `getObjectType(utils.SliceInterface(object[key])[0])`, on the entries
of `object`. -/
def getObjectTypeFirst : List (String × Value) → String → Except Fault String
  | [], _ => .error .panic
  | (k, v) :: rest, key =>
    if k = key then
      match v with
      | .arr (o :: _) => getObjectType o
      | _ => .error .panic
    else getObjectTypeFirst rest key
end

/-- The function `getType`. -/
def getType : Value → Except Fault String
  | .bool _ => .ok "boolean"
  | .str _ => .ok "string"
  | .num _ => .ok "number"
  | .obj m => getObjectType (.obj m)
  | .arr xs => getObjectType (.arr xs)
  | .null => .ok ""

/-- The part of `getObjectType` on a map after the `__type` switch: the `$ne` test
and the `__op` switch. -/
def getObjectType_rest (object : M) : Except Fault String :=
  if !(M.get object "$ne").isNil then getObjectTypeAt object "$ne"
  else if !(M.get object "__op").isNil then
    let op := utils.String (M.get object "__op")
    if op = "Increment" then .ok "number"
    else if op = "Delete" then .ok ""
    else if op = "Add" ∨ op = "AddUnique" ∨ op = "Remove" then .ok "array"
    else if op = "AddRelation" ∨ op = "RemoveRelation" then
      match nilEntriesS (utils.SliceInterface (M.get object "objects")) with
      | [] => .error .panic
      | o :: _ =>
        .ok ("relation<" ++ utils.String (nilGet (utils.MapInterface o) "className")
          ++ ">")
    else if op = "Batch" then getObjectTypeFirst object "ops"
    else .ok ""
  else .ok "object"

/-! ## Object validation -/

/-- The body of the method `validateClassName`; `self` stands for the method at its
recursive call.  The method returns nothing. -/
def Schema.validateClassNameBody {σ : Type} (st : Storage σ)
    (self : Schema σ → String → Bool → Schema σ)
    (s : Schema σ) (className : String) (freeze : Bool) : Schema σ :=
  if !(M.get s.data className).isNil then s
  else if freeze then s
  else
    let w := st.addSchema s.collection className (some [])
    let s := Schema.reloadData st { s with collection := w.2 }
    self s className true

/-- The method `validateClassName`.  A call with `freeze` set returns before the
recursive call, so two unfoldings of the body are the whole method. -/
def Schema.validateClassName {σ : Type} (st : Storage σ) (s : Schema σ)
    (className : String) (freeze : Bool) : Schema σ :=
  Schema.validateClassNameBody st
    (Schema.validateClassNameBody st (fun s _ _ => s)) s className freeze

/-- The slice `missingColumns` that `validateRequiredColumns` builds over the
required columns of a class. -/
def missingColumns (columns : List String) (object query : Option M) : List String :=
  columns.filter (fun column =>
    if query.isSome && !(nilGet query "objectId").isNil then
      !(nilGet object column).isNil
        && (utils.MapInterface (nilGet object column)).isSome
        && decide (utils.String
            (nilGet (utils.MapInterface (nilGet object column)) "__op") = "Delete")
    else (nilGet object column).isNil)

/-- The method `validateRequiredColumns`; it returns nothing and changes nothing,
also when `missingColumns` is not empty. -/
def Schema.validateRequiredColumns {σ : Type} (_s : Schema σ) (className : String)
    (object query : Option M) : Unit :=
  match requiredColumns.lookup className with
  | none => ()
  | some columns =>
    if columns.length = 0 then ()
    else if (missingColumns columns object query).length > 0 then ()
    else ()

/-- The function `thenValidateField`. -/
def thenValidateField {σ : Type} (st : Storage σ) (schema : Schema σ)
    (className key fieldtype : String) : Schema σ :=
  (Schema.validateField st schema className key fieldtype false).2

/-- The function `thenValidateRequiredColumns`. -/
def thenValidateRequiredColumns {σ : Type} (schema : Schema σ) (className : String)
    (object query : Option M) : Unit :=
  Schema.validateRequiredColumns schema className object query

/-- The loop of `validateObject` over the entries of the object, with the running
`geocount`: `none` when the loop ends, `some err` when the method returns `err`
from inside the loop (`nil` on a second GeoPoint, a panic of `getType`). -/
def validateObjectLoop {σ : Type} (st : Storage σ) (className : String) :
    M → Nat → Schema σ → Option Error × Schema σ
  | [], _, s => (none, s)
  | (k, v) :: rest, geocount, s =>
    if v.isNil then validateObjectLoop st className rest geocount s
    else
      match getType v with
      | .error f => (some (some f), s)
      | .ok expected =>
        let geocount := if expected = "geopoint" then geocount + 1 else geocount
        if geocount > 1 then (some none, s)
        else if expected = "" then validateObjectLoop st className rest geocount s
        else
          validateObjectLoop st className rest geocount
            (thenValidateField st s className k expected)

/-- The method `validateObject`. -/
def Schema.validateObject {σ : Type} (st : Storage σ) (s : Schema σ) (className : String)
    (object query : Option M) : Error × Schema σ :=
  let s := Schema.validateClassName st s className false
  let r := validateObjectLoop st className (nilEntries object) 0 s
  match r.1 with
  | some err => (err, r.2)
  | none =>
    let _ := thenValidateRequiredColumns r.2 className object query
    (none, r.2)

/-! # Query engine (`rest/query.go`)

## Strings -/

/-- The Go function `strings.Split` with a separator of one character, on the
characters of the string: the pieces between the separators, one piece more than
there are separators. -/
def splitChars (sep : Char) : List Char → List (List Char)
  | [] => [[]]
  | c :: cs =>
    if c = sep then [] :: splitChars sep cs
    else
      match splitChars sep cs with
      | [] => [[c]]
      | p :: ps => (c :: p) :: ps

/-- The Go function `strings.Join` with a separator of one character, on the
characters of the strings. -/
def joinChars (sep : Char) : List (List Char) → List Char
  | [] => []
  | [p] => p
  | p :: q :: ps => p ++ sep :: joinChars sep (q :: ps)

/-- The Go call `strings.Split(s, sep)` for a separator of one character. -/
def stringsSplit (s : String) (sep : Char) : List String :=
  (splitChars sep s.toList).map String.mk

/-- The Go call `strings.Join(parts, sep)` for a separator of one character. -/
def stringsJoin (parts : List String) (sep : Char) : String :=
  String.mk (joinChars sep (parts.map String.toList))

/-- The order of Go's string comparison on the characters of two strings:
lexicographic, a proper prefix first. -/
def leChars : List Char → List Char → Bool
  | [], _ => true
  | _ :: _, [] => false
  | a :: as, b :: bs => if a < b then true else if b < a then false else leChars as bs

/-- The relation `s <= t` of Go strings. -/
def StringsLE (s t : String) : Prop :=
  leChars s.toList t.toList = true

instance : DecidableRel StringsLE :=
  fun s t => inferInstanceAs (Decidable (leChars s.toList t.toList = true))

/-- The Go function `sort.Strings`: the strings in increasing order. -/
def sortStrings (l : List String) : List String :=
  l.insertionSort StringsLE

/-! ## Collaborators of the query engine -/

/-- Modelled from the spec: the struct `Auth` is missing from the sources; it is
the capability of the spec: `IsMaster`, the optional `User` and the result of the
role-resolution operation `GetUserRoles`. -/
structure Auth where
  IsMaster : Bool
  User : Option M
  GetUserRoles : List String
deriving DecidableEq

/-- Modelled from the spec: `orm.Find`, `orm.RedirectClassNameForKey`,
`orm.CollectionExists` and the setting `config.TConfig.AllowClientClassCreation` are
missing from the sources; they are the reads of the storage collaborator and of the
configuration, taken here as parameters. -/
structure Orm where
  Find : String → Option M → M → S
  RedirectClassNameForKey : String → String → String
  CollectionExists : String → Bool
  AllowClientClassCreation : Bool

/-- Modelled from the spec: `utils.HasResults` is missing from the sources; it tells
whether the response holds a non-empty `results` slice. -/
def utils.HasResults (response : Option M) : Bool :=
  !(nilEntriesS (utils.SliceInterface (nilGet response "results"))).isEmpty

/-! ## The query -/

/-- The struct `Query`; the field `include` is `include_` here. -/
structure Query where
  auth : Auth
  className : String
  Where : Option M
  findOptions : M
  response : M
  doCount : Bool
  include_ : List (List String)
  keys : List String
  redirectKey : String
  redirectClassName : String
deriving DecidableEq

/-- A possibly nil map as an element of a slice or a value of a map: `nil` when the
map is nil. -/
def whereValue (m : Option M) : Value :=
  match m with
  | some m => .obj m
  | none => .null

/-- A slice of strings stored in an `interface{}`. -/
def stringsValue (l : List String) : Value :=
  .arr (l.map Value.str)

/-- The prefixes `parts[0:lenght]` for `lenght` from 1 to `len(parts)`, joined with
dots. -/
def joinedPrefixes (parts : List String) : List String :=
  (List.range parts.length).map (fun i => stringsJoin (parts.take (i + 1)) '.')

/-- The slice `pathSet` that `NewQuery` builds from the paths of the `include`
option, before it is sorted. -/
def pathSetOf : List String → List String
  | [] => []
  | path :: paths => joinedPrefixes (stringsSplit path '.') ++ pathSetOf paths

/-- The body of the loop `for k, v := range options` of `NewQuery`. -/
def applyOption (query : Query) (k : String) (v : Value) : Except Fault Query :=
  if k = "keys" then
    match v with
    | .str s =>
      .ok { query with keys := stringsSplit s ',' ++ ["objectId", "createdAt", "updatedAt"] }
    | _ => .ok query
  else if k = "count" then .ok { query with doCount := true }
  else if k = "skip" then .ok { query with findOptions := M.set query.findOptions "skip" v }
  else if k = "limit" then
    .ok { query with findOptions := M.set query.findOptions "limit" v }
  else if k = "order" then
    match v with
    | .str s =>
      .ok { query with
        findOptions := M.set query.findOptions "sort" (stringsValue (stringsSplit s ',')) }
    | _ => .ok query
  else if k = "include" then
    match v with
    | .str s =>
      let pathSet := sortStrings (pathSetOf (stringsSplit s ','))
      .ok { query with
        include_ := query.include_ ++ pathSet.map (fun set => stringsSplit set '.') }
    | _ => .ok query
  else if k = "redirectClassNameForKey" then
    match v with
    | .str s => .ok { query with redirectKey := s, redirectClassName := "" }
    | _ => .ok query
  else .error (.err .InvalidJSON)

/-- The loop `for k, v := range options` of `NewQuery`. -/
def applyOptions : M → Query → Except Fault Query
  | [], query => .ok query
  | (k, v) :: rest, query =>
    match applyOption query k v with
    | .error e => .error e
    | .ok query => applyOptions rest query

/-- The struct literal `NewQuery` starts from. -/
def initialQuery (auth : Auth) (className : String) (restWhere : Option M) : Query :=
  { auth := auth, className := className, Where := restWhere, findOptions := [],
    response := [], doCount := false, include_ := [], keys := [], redirectKey := "",
    redirectClassName := "" }

/-- The function `NewQuery`; the parameter `where` is `restWhere` here.  The assertion `auth.User["objectId"].(string)` panics
when the value is not a string. -/
def NewQuery (auth : Auth) (className : String) (restWhere options : Option M) :
    Except Fault Query :=
  let query : Query := initialQuery auth className restWhere
  let afterScope : Except Fault Query :=
    if auth.IsMaster = false then
      let withAcl : Except Fault Query :=
        if auth.User.isSome then
          match nilGet auth.User "objectId" with
          | .str id =>
            .ok { query with
              findOptions := M.set query.findOptions "acl" (stringsValue [id]) }
          | _ => .error .panic
        else .ok { query with findOptions := M.set query.findOptions "acl" .null }
      match withAcl with
      | .error e => .error e
      | .ok query =>
        if className = "_Session" then
          if (M.get query.findOptions "acl").isNil then
            .error (.err .InvalidSessionToken)
          else
            let user : M :=
              [("__type", .str "Pointer"), ("className", .str "_User"),
               ("objectId", nilGet auth.User "objectId")]
            let andList : S := [whereValue restWhere, .obj user]
            .ok { query with Where := some [("$and", .arr andList)] }
        else .ok query
    else .ok query
  match afterScope with
  | .error e => .error e
  | .ok query => applyOptions (nilEntries options) query

/-! ## The where tree

Go maps are shared by reference: `findObjectWithKey` returns the map it finds
inside the tree, and the caller then writes to that map.  Here the search returns the
entries of the map, and `replaceObjectWithKey` writes a new map back at the place
where the search found it. -/

mutual
/-- The function `findObjectWithKey`: the first map, in depth-first order, whose
value under `key` is not `nil`. -/
def findObjectWithKey : Value → String → Option M
  | .arr s, key => findObjectWithKeyS s key
  | .obj m, key =>
    if (M.get m key).isNil then findObjectWithKeyM m key else some m
  | _, _ => none
/-- The loop `for _, v := range s` of `findObjectWithKey`. -/
def findObjectWithKeyS : List Value → String → Option M
  | [], _ => none
  | v :: rest, key =>
    match findObjectWithKey v key with
    | some answer => some answer
    | none => findObjectWithKeyS rest key
/-- The loop `for _, v := range m` of `findObjectWithKey`. -/
def findObjectWithKeyM : List (String × Value) → String → Option M
  | [], _ => none
  | (_, v) :: rest, key =>
    match findObjectWithKey v key with
    | some answer => some answer
    | none => findObjectWithKeyM rest key
end

mutual
/-- The tree in which the map that `findObjectWithKey` returns for `key` has the
entries `new`: the effect of writing to the map that was found. -/
def replaceObjectWithKey (new : M) : Value → String → Value
  | .arr s, key => .arr (replaceObjectWithKeyS new s key)
  | .obj m, key =>
    if (M.get m key).isNil then .obj (replaceObjectWithKeyM new m key) else .obj new
  | v, _ => v
/-- The same inside a slice: the first element with an answer is rewritten. -/
def replaceObjectWithKeyS (new : M) : List Value → String → List Value
  | [], _ => []
  | v :: rest, key =>
    match findObjectWithKey v key with
    | some _ => replaceObjectWithKey new v key :: rest
    | none => v :: replaceObjectWithKeyS new rest key
/-- The same inside a map: the first value with an answer is rewritten. -/
def replaceObjectWithKeyM (new : M) : List (String × Value) → String →
    List (String × Value)
  | [], _ => []
  | (k, v) :: rest, key =>
    match findObjectWithKey v key with
    | some _ => (k, replaceObjectWithKey new v key) :: rest
    | none => (k, v) :: replaceObjectWithKeyM new rest key
end

/-- The field `Where` after a write to the map found for `key`. -/
def writeObjectWithKey (restWhere : Option M) (key : String) (new : M) : Option M :=
  utils.MapInterface (replaceObjectWithKey new (whereValue restWhere) key)

/-! ## The steps of `BuildRestWhere` before the operators -/

/-- The method `getUserAndRoleACL`; the assertion `.(string)` panics when the
`objectId` of the user is not a string. -/
def getUserAndRoleACL (q : Query) : Error × Query :=
  if q.auth.IsMaster || q.auth.User.isNone then (none, q)
  else
    match nilGet q.auth.User "objectId" with
    | .str id =>
      let roles := q.auth.GetUserRoles ++ [id]
      (none, { q with findOptions := M.set q.findOptions "acl" (stringsValue roles) })
    | _ => (some .panic, q)

/-- The method `redirectClassNameForKey`. -/
def redirectClassNameForKey (orm : Orm) (q : Query) : Error × Query :=
  if q.redirectKey = "" then (none, q)
  else
    let newClassName := orm.RedirectClassNameForKey q.className q.redirectKey
    (none, { q with className := newClassName, redirectClassName := newClassName })

/-- The method `validateClientClassCreation`. -/
def validateClientClassCreation (orm : Orm) (q : Query) : Error × Query :=
  let sysClass := ["_User", "_Installation", "_Role", "_Session", "_Product"]
  if orm.AllowClientClassCreation then (none, q)
  else if q.auth.IsMaster then (none, q)
  else if sysClass.any (fun v => v = q.className) then (none, q)
  else if orm.CollectionExists q.className then (none, q)
  else (some (.err .OperationForbidden), q)

/-! ## The operators

A nested query is run by `exec`, which stands for `Execute` one level down; it gives
`none` when the run does not finish, and else the response, the error and the nested
query after the run. -/

/-- The values collected by `replaceSelect` and `replaceDontSelect` from the response
of the nested query: the values of `key` that are not `nil`, in row order. -/
def selectValues (response : Option M) (key : String) : S :=
  if utils.HasResults response then
    (nilEntriesS (utils.SliceInterface (nilGet response "results"))).filterMap
      (fun v =>
        let result := utils.MapInterface v
        if (nilGet result key).isNil then none else some (nilGet result key))
  else []

/-- The values collected by `replaceInQuery` and `replaceNotInQuery` from the
response of the nested query: one pointer for each row. -/
def pointerValues (response : Option M) (className : Value) : S :=
  if utils.HasResults response then
    (nilEntriesS (utils.SliceInterface (nilGet response "results"))).map
      (fun v =>
        let result := utils.MapInterface v
        .obj [("__type", .str "Pointer"), ("className", className),
          ("objectId", nilGet result "objectId")])
  else []

/-- The end of each of the four replace methods: the operator `op` is deleted from
the map that was found, and `values` go under `out`, after the slice that is already
there if there is one. -/
def replaceOperator (object : M) (op out : String) (values : S) : M :=
  let object := M.delete object op
  if !(M.get object out).isNil && (utils.SliceInterface (M.get object out)).isSome then
    M.set object out (.arr (nilEntriesS (utils.SliceInterface (M.get object out)) ++ values))
  else M.set object out (.arr values)

/-- The methods `replaceSelect` (`op` is `$select`, `out` is `$in`) and
`replaceDontSelect` (`op` is `$dontSelect`, `out` is `$nin`), which differ in these
two strings only.  The variable `where` handed to the nested query is the empty map
when the nested `where` is `nil`, and is left `nil` in the other branch. -/
def replaceSelectFamily (exec : Query → Option (Option M × Error × Query))
    (op out : String) : Nat → Query → Option (Error × Query)
  | 0, _ => none
  | fuel + 1, q =>
    match findObjectWithKey (whereValue q.Where) op with
    | none => some (none, q)
    | some selectObject =>
      let selectValue := utils.MapInterface (M.get selectObject op)
      if selectValue.isNone || (nilGet selectValue "query").isNil
          || (nilGet selectValue "key").isNil
          || decide ((nilEntries selectValue).length ≠ 2) then
        some (some (.err .InvalidQuery), q)
      else
        let queryValue := utils.MapInterface (nilGet selectValue "query")
        if queryValue.isNone || (nilGet queryValue "className").isNil then
          some (some (.err .InvalidQuery), q)
        else
          let restWhere : Option M :=
            if (nilGet queryValue "where").isNil then some [] else none
          match NewQuery q.auth (utils.String (nilGet queryValue "className")) restWhere
              (some []) with
          | .error e => some (some e, q)
          | .ok query =>
            match exec query with
            | none => none
            | some (_, some e, _) => some (some e, q)
            | some (response, none, _) =>
              let values := selectValues response (utils.String (nilGet selectValue "key"))
              let selectObject := replaceOperator selectObject op out values
              replaceSelectFamily exec op out fuel
                { q with Where := writeObjectWithKey q.Where op selectObject }

/-- The map given to a nested `NewQuery` as `where`, read back from the nested query
after its run: `NewQuery` keeps it as `Where`, or wraps it as the first element of
`$and` for a `_Session` query of a caller that is not master. -/
def nestedWhere (auth : Auth) (className : String) (query : Query) : Option M :=
  if auth.IsMaster = false ∧ className = "_Session" then
    match nilGet query.Where "$and" with
    | .arr (v :: _) => utils.MapInterface v
    | _ => none
  else query.Where

/-- The methods `replaceInQuery` (`op` is `$inQuery`, `out` is `$in`) and
`replaceNotInQuery` (`op` is `$notInQuery`, `out` is `$nin`), which differ in these
two strings only.  The nested query works on the very map that is the nested `where`,
so what it wrote there is in the tree when the nested run fails. -/
def replaceInQueryFamily (exec : Query → Option (Option M × Error × Query))
    (op out : String) : Nat → Query → Option (Error × Query)
  | 0, _ => none
  | fuel + 1, q =>
    match findObjectWithKey (whereValue q.Where) op with
    | none => some (none, q)
    | some inQueryObject =>
      let inQueryValue := utils.MapInterface (M.get inQueryObject op)
      if inQueryValue.isNone || (nilGet inQueryValue "where").isNil
          || (nilGet inQueryValue "className").isNil
          || decide ((nilEntries inQueryValue).length ≠ 2) then
        some (some (.err .InvalidQuery), q)
      else
        let className := utils.String (nilGet inQueryValue "className")
        let restWhere := utils.MapInterface (nilGet inQueryValue "where")
        match NewQuery q.auth className restWhere (some []) with
        | .error e => some (some e, q)
        | .ok query =>
          match exec query with
          | none => none
          | some (_, some e, query) =>
            let written : M :=
              if restWhere.isSome then
                M.set inQueryObject op (.obj (M.set (nilEntries inQueryValue) "where"
                  (whereValue (nestedWhere q.auth className query))))
              else inQueryObject
            some (some e, { q with Where := writeObjectWithKey q.Where op written })
          | some (response, none, _) =>
            let values := pointerValues response (nilGet inQueryValue "className")
            let inQueryObject := replaceOperator inQueryObject op out values
            replaceInQueryFamily exec op out fuel
              { q with Where := writeObjectWithKey q.Where op inQueryObject }

/-- The method `replaceSelect`. -/
def replaceSelectWith (exec : Query → Option (Option M × Error × Query)) :
    Nat → Query → Option (Error × Query) :=
  replaceSelectFamily exec "$select" "$in"

/-- The method `replaceDontSelect`. -/
def replaceDontSelectWith (exec : Query → Option (Option M × Error × Query)) :
    Nat → Query → Option (Error × Query) :=
  replaceSelectFamily exec "$dontSelect" "$nin"

/-- The method `replaceInQuery`. -/
def replaceInQueryWith (exec : Query → Option (Option M × Error × Query)) :
    Nat → Query → Option (Error × Query) :=
  replaceInQueryFamily exec "$inQuery" "$in"

/-- The method `replaceNotInQuery`. -/
def replaceNotInQueryWith (exec : Query → Option (Option M × Error × Query)) :
    Nat → Query → Option (Error × Query) :=
  replaceInQueryFamily exec "$notInQuery" "$nin"

/-- One step of `BuildRestWhere` after another: `err = step(); if err != nil return`. -/
def andThen (r : Option (Error × Query)) (next : Query → Option (Error × Query)) :
    Option (Error × Query) :=
  match r with
  | none => none
  | some (some e, q) => some (some e, q)
  | some (none, q) => next q

/-- The method `BuildRestWhere`, with the nested runs left to `exec`. -/
def BuildRestWhereWith (orm : Orm) (exec : Query → Option (Option M × Error × Query))
    (fuel : Nat) (q : Query) : Option (Error × Query) :=
  andThen (some (getUserAndRoleACL q)) fun q =>
  andThen (some (redirectClassNameForKey orm q)) fun q =>
  andThen (some (validateClientClassCreation orm q)) fun q =>
  andThen (replaceSelectWith exec fuel q) fun q =>
  andThen (replaceDontSelectWith exec fuel q) fun q =>
  andThen (replaceInQueryWith exec fuel q) fun q =>
  andThen (replaceNotInQueryWith exec fuel q) fun q =>
  some (none, q)

/-! ## Finding rows -/

/-- The projection of one row on `keys` in `runFind`. -/
def projectKeys (obj : Option M) (keys : List String) : M :=
  keys.foldl (fun newObj s =>
    if (nilGet obj s).isNil then newObj else M.set newObj s (nilGet obj s)) []

/-- The method `runFind`; it returns no error. -/
def runFind (orm : Orm) (q : Query) : Error × Query :=
  let response := orm.Find q.className q.Where q.findOptions
  let response : S :=
    if q.className = "_User" then
      response.map (fun v =>
        match utils.MapInterface v with
        | some user => .obj (M.delete user "password")
        | none => v)
    else response
  let results : S :=
    if q.keys.length > 0 ∧ response.length > 0 then
      response.map (fun v => .obj (projectKeys (utils.MapInterface v) q.keys))
    else []
  (none, { q with response := M.set q.response "results" (.arr results) })

/-- The method `runCount`; the index `[0]` panics on an empty slice. -/
def runCount (orm : Orm) (q : Query) : Error × Query :=
  if q.doCount = false then (none, q)
  else
    let findOptions := M.set q.findOptions "count" (.bool true)
    let findOptions := M.delete findOptions "skip"
    let findOptions := M.delete findOptions "limit"
    let q := { q with findOptions := findOptions }
    match orm.Find q.className q.Where q.findOptions with
    | v :: _ => (none, { q with response := M.set q.response "count" v })
    | [] => (some .panic, q)

/-! ## Includes -/

mutual
/-- The function `findPointers`. -/
def findPointers : Value → List String → S
  | .arr s, path => findPointersS s path
  | .obj m, [] => if M.get m "__type" = .str "Pointer" then [.obj m] else []
  | .obj m, k :: path => findPointersField m k path
  | _, _ => []
/-- The loop of `findPointers` over a slice. -/
def findPointersS : List Value → List String → S
  | [], _ => []
  | v :: rest, path => findPointers v path ++ findPointersS rest path
/-- The step `subobject := obj[path[0]]` of `findPointers`, and the search below it. -/
def findPointersField : List (String × Value) → String → List String → S
  | [], _, _ => []
  | (k', v) :: rest, k, path =>
    if k' = k then (if v.isNil then [] else findPointers v path)
    else findPointersField rest k path
end

/-- The body of the loop of `replacePointers` for one pointer. -/
def replacePointer (replace : M) (pointer : M) : M :=
  let objectID := utils.String (M.get pointer "objectId")
  if (M.get replace objectID).isNil then pointer
  else
    let rpl := utils.MapInterface (M.get replace objectID)
    let pointer := (nilEntries rpl).foldl (fun pointer kv => M.set pointer kv.1 kv.2) pointer
    M.set pointer "__type" (.str "Object")

/-- The function `replacePointers`, giving the pointers after the loop.  An element
that is not a map reads as the nil map, whose object id is `""`; the write to it
panics when `replace` holds an entry for `""`. -/
def replacePointers : S → M → Except Fault S
  | [], _ => .ok []
  | v :: rest, replace =>
    match utils.MapInterface v with
    | some pointer =>
      match replacePointers rest replace with
      | .error e => .error e
      | .ok after => .ok (.obj (replacePointer replace pointer) :: after)
    | none =>
      if (M.get replace "").isNil then
        match replacePointers rest replace with
        | .error e => .error e
        | .ok after => .ok (v :: after)
      else .error .panic

mutual
/-- The tree after `replacePointers` has written to the maps that `findPointers`
returned for `path`. -/
def splicePointers (replace : M) : Value → List String → Value
  | .arr s, path => .arr (splicePointersS replace s path)
  | .obj m, [] =>
    if M.get m "__type" = .str "Pointer" then .obj (replacePointer replace m) else .obj m
  | .obj m, k :: path => .obj (splicePointersField replace m k path)
  | v, _ => v
/-- The same for the elements of a slice. -/
def splicePointersS (replace : M) : List Value → List String → List Value
  | [], _ => []
  | v :: rest, path => splicePointers replace v path :: splicePointersS replace rest path
/-- The same below the field `path[0]` of a map. -/
def splicePointersField (replace : M) : List (String × Value) → String → List String →
    List (String × Value)
  | [], _, _ => []
  | (k', v) :: rest, k, path =>
    if k' = k then (k', if v.isNil then v else splicePointers replace v path) :: rest
    else (k', v) :: splicePointersField replace rest k path
end

/-- The first loop of `includePath`: the class name and the object ids of the
pointers, or `none` when the loop returns because two pointers differ in class. -/
def includeTargets : S → String → List String → Option (String × List String)
  | [], className, objectIDs => some (className, objectIDs)
  | v :: rest, className, objectIDs =>
    let pointer := utils.MapInterface v
    if className = "" then
      includeTargets rest (utils.String (nilGet pointer "className"))
        (objectIDs ++ [utils.String (nilGet pointer "objectId")])
    else if className ≠ utils.String (nilGet pointer "className") then none
    else includeTargets rest className (objectIDs ++ [utils.String (nilGet pointer "objectId")])

/-- The second loop of `includePath`: the map `replace` from object id to row. -/
def includeReplace (className : String) (results : S) : M :=
  results.foldl (fun replace v =>
    let obj := utils.MapInterface v
    let obj := if className = "_User" then obj.map (fun o => M.delete o "sessionToken") else obj
    M.set replace (utils.String (nilGet obj "objectId")) (whereValue obj)) []

/-- The function `includePath`, giving the error and the response after the call;
`none` when the nested run does not finish. -/
def includePathWith (exec : Query → Option (Option M × Error × Query))
    (auth : Auth) (response : M) (path : List String) : Option (Error × M) :=
  let pointers := findPointers (M.get response "results") path
  if pointers.length = 0 then some (none, response)
  else
    match includeTargets pointers "" [] with
    | none => some (none, response)
    | some (className, objectIDs) =>
      if className = "" then some (none, response)
      else
        let objectID : M := [("$in", stringsValue objectIDs)]
        let restWhere : M := [("objectId", .obj objectID)]
        match NewQuery auth className (some restWhere) (some []) with
        | .error e => some (some e, response)
        | .ok query =>
          match exec query with
          | none => none
          | some (_, some e, _) => some (some e, response)
          | some (includeResponse, none, _) =>
            if utils.HasResults includeResponse = false then some (none, response)
            else
              let results := nilEntriesS (utils.SliceInterface (nilGet includeResponse "results"))
              let replace := includeReplace className results
              some (none, M.set response "results"
                (splicePointers replace (M.get response "results") path))

/-- The recursion of `handleInclude` over `q.include`; the result of `includePath`
is not looked at. -/
def handleIncludeLoop (exec : Query → Option (Option M × Error × Query)) (auth : Auth) :
    List (List String) → M → Option M
  | [], response => some response
  | path :: rest, response =>
    match includePathWith exec auth response path with
    | none => none
    | some (_, response) => handleIncludeLoop exec auth rest response

/-- The method `handleInclude`. -/
def handleIncludeWith (exec : Query → Option (Option M × Error × Query)) (q : Query) :
    Option (Error × Query) :=
  match handleIncludeLoop exec q.auth q.include_ q.response with
  | none => none
  | some response => some (none, { q with include_ := [], response := response })

/-! ## Execute -/

/-- The method `Execute` with `fuel` levels of nested queries and `fuel` rounds in
each replace method: the response, the error, and the query after the run; `none`
when the fuel does not suffice. -/
def Execute (orm : Orm) : Nat → Query → Option (Option M × Error × Query)
  | 0, _ => none
  | fuel + 1, q =>
    match BuildRestWhereWith orm (Execute orm fuel) (fuel + 1) q with
    | none => none
    | some (some e, q) => some (none, some e, q)
    | some (none, q) =>
      match runFind orm q with
      | (some e, q) => some (none, some e, q)
      | (none, q) =>
        match runCount orm q with
        | (some e, q) => some (none, some e, q)
        | (none, q) =>
          match handleIncludeWith (Execute orm fuel) q with
          | none => none
          | some (some e, q) => some (none, some e, q)
          | some (none, q) => some (some q.response, none, q)

/-- The method `BuildRestWhere`. -/
def BuildRestWhere (orm : Orm) (fuel : Nat) (q : Query) : Option (Error × Query) :=
  BuildRestWhereWith orm (Execute orm fuel) fuel q

/-- The method `replaceSelect`. -/
def replaceSelect (orm : Orm) (fuel : Nat) (q : Query) : Option (Error × Query) :=
  replaceSelectWith (Execute orm fuel) fuel q

/-- The method `replaceDontSelect`. -/
def replaceDontSelect (orm : Orm) (fuel : Nat) (q : Query) : Option (Error × Query) :=
  replaceDontSelectWith (Execute orm fuel) fuel q

/-- The method `replaceInQuery`. -/
def replaceInQuery (orm : Orm) (fuel : Nat) (q : Query) : Option (Error × Query) :=
  replaceInQueryWith (Execute orm fuel) fuel q

/-- The method `replaceNotInQuery`. -/
def replaceNotInQuery (orm : Orm) (fuel : Nat) (q : Query) : Option (Error × Query) :=
  replaceNotInQueryWith (Execute orm fuel) fuel q

/-- The method `handleInclude`. -/
def handleInclude (orm : Orm) (fuel : Nat) (q : Query) : Option (Error × Query) :=
  handleIncludeWith (Execute orm fuel) q

/-- The function `includePath`. -/
def includePath (orm : Orm) (fuel : Nat) (auth : Auth) (response : M)
    (path : List String) : Option (Error × M) :=
  includePathWith (Execute orm fuel) auth response path

/-! ## Occurrences of a key in a tree -/

mutual
/-- Some map of the tree has the key `key`, whatever its value. -/
def hasKeyAnywhere (key : String) : Value → Bool
  | .arr s => hasKeyAnywhereS key s
  | .obj m => M.has m key || hasKeyAnywhereM key m
  | _ => false
/-- The same for the elements of a slice. -/
def hasKeyAnywhereS (key : String) : List Value → Bool
  | [] => false
  | v :: rest => hasKeyAnywhere key v || hasKeyAnywhereS key rest
/-- The same for the values of a map. -/
def hasKeyAnywhereM (key : String) : List (String × Value) → Bool
  | [] => false
  | (_, v) :: rest => hasKeyAnywhere key v || hasKeyAnywhereM key rest
end

mutual
/-- Some map of the tree has a value other than `nil` under the key `key`. -/
def bindsKeyAnywhere (key : String) : Value → Bool
  | .arr s => bindsKeyAnywhereS key s
  | .obj m => !(M.get m key).isNil || bindsKeyAnywhereM key m
  | _ => false
/-- The same for the elements of a slice. -/
def bindsKeyAnywhereS (key : String) : List Value → Bool
  | [] => false
  | v :: rest => bindsKeyAnywhere key v || bindsKeyAnywhereS key rest
/-- The same for the values of a map. -/
def bindsKeyAnywhereM (key : String) : List (String × Value) → Bool
  | [] => false
  | (_, v) :: rest => bindsKeyAnywhere key v || bindsKeyAnywhereM key rest
end

/-- The four operators that `BuildRestWhere` rewrites. -/
def desugaredKeys : List String :=
  ["$select", "$dontSelect", "$inQuery", "$notInQuery"]

/-- The value is a map with exactly the two keys `k1` and `k2`. -/
def hasExactlyKeys (v : Value) (k1 k2 : String) : Bool :=
  match v with
  | .obj m => decide (m.length = 2) && M.has m k1 && M.has m k2
  | _ => false

/-- A run of a query that has no `keys`, no `include`, no `count` gives a response
without result rows. -/
def NoRows (exec : Query → Option (Option M × Error × Query)) : Prop :=
  ∀ (query : Query) (response : Option M) (after : Query),
    query.keys = [] → query.include_ = [] → query.doCount = false →
    exec query = some (response, none, after) → utils.HasResults response = false

/-- The fields of the query that `BuildRestWhere` leaves alone. -/
def sameFrame (q after : Query) : Prop :=
  after.auth = q.auth ∧ after.keys = q.keys ∧ after.include_ = q.include_
    ∧ after.doCount = q.doCount ∧ after.response = q.response

/-! ## Sample data for the query engine -/

/-- A storage collaborator that returns one `Team` row for every find. -/
def teamOrm : Orm :=
  { Find := fun _ _ _ => [.obj [("objectId", .str "t1"), ("city", .str "abc")]],
    RedirectClassNameForKey := fun className _ => className,
    CollectionExists := fun _ => true,
    AllowClientClassCreation := true }

/-- The master caller. -/
def masterAuth : Auth := ⟨true, none, []⟩

/-- The query of the comment on `replaceSelect`: the players whose hometown is the
city of a team. -/
def hometownQuery : Query :=
  initialQuery masterAuth "Player"
    (some [("hometown", .obj [("$select", .obj [("query", .obj [("className", .str "Team"),
      ("where", .obj [("winPct", .obj [("$gt", .num 1)])])]), ("key", .str "city")])])])

/-- A query whose `$select` is `null`. -/
def nullSelectQuery : Query :=
  initialQuery masterAuth "Player" (some [("a", .obj [("$select", .null)])])

/-- A query whose `$select` has a `query` and no `key`. -/
def keylessSelectQuery : Query :=
  initialQuery masterAuth "Player"
    (some [("a", .obj [("$select", .obj [("query", .obj [("className", .str "Team")])])])])

/-! ## Reading the response -/

/-- The rows of `response["results"]` of a query. -/
def resultsOf (q : Query) : S :=
  nilEntriesS (utils.SliceInterface (M.get q.response "results"))

/-- A storage collaborator that returns one `_User` row, with a password, for every
find. -/
def userOrm : Orm :=
  { Find := fun _ _ _ =>
      [.obj [("objectId", .str "u1"), ("username", .str "ann"), ("password", .str "secret")]],
    RedirectClassNameForKey := fun className _ => className,
    CollectionExists := fun _ => true,
    AllowClientClassCreation := true }

/-- A query on `_User` by the master caller, with the `keys` of the option string
`password`. -/
def passwordQuery : Query :=
  { initialQuery masterAuth "_User" (some []) with
    keys := ["password", "objectId", "createdAt", "updatedAt"] }

/-- A query on `Team` by the master caller, built without options. -/
def teamQuery : Query :=
  initialQuery masterAuth "Team" (some [])

/-- A storage collaborator whose every row points to a `_Session` object through
the field `user`. -/
def sessionPointerOrm : Orm :=
  { Find := fun _ _ _ =>
      [.obj [("objectId", .str "p1"), ("user", .obj [("__type", .str "Pointer"),
        ("className", .str "_Session"), ("objectId", .str "s1")])]],
    RedirectClassNameForKey := fun className _ => className,
    CollectionExists := fun _ => true,
    AllowClientClassCreation := true }

/-- A caller that is not master and has no user. -/
def anonymousAuth : Auth := ⟨false, none, []⟩

/-- The query on `Post` by the anonymous caller with the options `keys` and
`include` both `user`. -/
def includeQuery : Query :=
  { initialQuery anonymousAuth "Post" (some []) with
    findOptions := [("acl", .null)],
    keys := ["user", "objectId", "createdAt", "updatedAt"],
    include_ := [["user"]] }

/-- The response of `includeQuery` after `runFind` on `sessionPointerOrm`. -/
def includeResponse : M :=
  [("results", .arr [.obj [("user", .obj [("__type", .str "Pointer"),
    ("className", .str "_Session"), ("objectId", .str "s1")]), ("objectId", .str "p1")]])]

/-! ## Sample data for the schema writes -/

/-- A schema whose registry was loaded when `Book` had no field, over a database in
which the row of `Book` holds the field `title` by now. -/
def staleSchema : Schema MemDB :=
  { Load memStorage bareDB with collection := titleDB }

/-- A CLP document with the operation `drop`, which `validateCLP` rejects. -/
def dropCLP : M :=
  [("drop", .obj [("*", .bool true)])]

/-! ## Sample data for the includes -/

/-- A pointer to the user `u1`, with a field `note` of its own. -/
def userPointer : M :=
  [("__type", .str "Pointer"), ("className", .str "_User"), ("objectId", .str "u1"),
   ("note", .str "old")]

/-- A pointer to the user `u2`. -/
def strayPointer : M :=
  [("__type", .str "Pointer"), ("className", .str "_User"), ("objectId", .str "u2")]

/-- A replacement map that resolves `u1` only. -/
def userReplace : M :=
  [("u1", .obj [("objectId", .str "u1"), ("username", .str "ann"), ("note", .str "new")])]

/-! ## Sample data for the operators -/

/-- A storage collaborator that returns two `Team` rows, with `minAge` 18 and 21,
for every find. -/
def minAgeOrm : Orm :=
  { Find := fun _ _ _ =>
      [.obj [("objectId", .str "t1"), ("minAge", .num 18)],
       .obj [("objectId", .str "t2"), ("minAge", .num 21)]],
    RedirectClassNameForKey := fun className _ => className,
    CollectionExists := fun _ => true,
    AllowClientClassCreation := true }

/-- The node `{"$select": {"query": {"className": "Team", "where": {}}, "key":
"minAge"}}`. -/
def minAgeSelect : M :=
  [("$select", .obj [("query", .obj [("className", .str "Team"), ("where", .obj [])]),
    ("key", .str "minAge")])]

/-- The query on `Player` with the where `{"age": minAgeSelect}`. -/
def ageQuery : Query :=
  initialQuery masterAuth "Player" (some [("age", .obj minAgeSelect)])

/-- A query with a well-formed `$select` under `age` and a `$dontSelect` that is
not a map under `name`. -/
def halfQuery : Query :=
  initialQuery masterAuth "Player"
    (some [("age", .obj minAgeSelect), ("name", .obj [("$dontSelect", .num 5)])])

/-- A query whose `$inQuery` holds a nested where with a well-formed `$inQuery`
under `a` and a `$notInQuery` that is not a map under `b`. -/
def nestedFailQuery : Query :=
  initialQuery masterAuth "Player"
    (some [("post", .obj [("$inQuery", .obj [("where", .obj [
        ("a", .obj [("$inQuery", .obj [("where", .obj []), ("className", .str "Post")])]),
        ("b", .obj [("$notInQuery", .num 1)])]),
      ("className", .str "Post")])])])

/-! ## Counting the operators of a tree -/

mutual
/-- The number of maps of the tree that hold a value other than `nil` under the key
`key`. -/
def countKey (key : String) : Value → Nat
  | .arr s => countKeyS key s
  | .obj m => (if (M.get m key).isNil then 0 else 1) + countKeyM key m
  | _ => 0
/-- The same for the elements of a slice. -/
def countKeyS (key : String) : List Value → Nat
  | [] => 0
  | v :: rest => countKey key v + countKeyS key rest
/-- The same for the values of a map. -/
def countKeyM (key : String) : List (String × Value) → Nat
  | [] => 0
  | (_, v) :: rest => countKey key v + countKeyM key rest
end

/-- The number of occurrences of the four operators in a tree. -/
def operatorCount (v : Value) : Nat :=
  countKey "$select" v + countKey "$dontSelect" v + countKey "$inQuery" v
    + countKey "$notInQuery" v

/-! ## Merging: the words of the claim -/

/-- The value is a map whose `__op` is `Delete`. -/
def isDeleteOp (v : Value) : Bool :=
  decide (utils.String (nilGet (utils.MapInterface v) "__op") = "Delete")

/-- The put request deletes the field: it holds a value other than `nil` under the
field, with `__op` `Delete`. -/
def deletesField (putRequest : Option M) (field : String) : Bool :=
  !(nilGet putRequest field).isNil && isDeleteOp (nilGet putRequest field)

/-- The five keys that the first loop of `buildMergedSchemaObject` leaves out. -/
def mergeSkippedKeys : List String :=
  ["_id", "ACL", "updatedAt", "createdAt", "objectId"]

/-! ## Rounds of the replace methods

A run of a replace method is a chain of rounds: each call finds one map, and the call
`return q.replaceSelect()` at its end starts the next round. -/

/-- A round of `replaceSelect` (`op` is `$select`, `out` is `$in`) or
`replaceDontSelect` that reaches the recursive call at its end: the query at that
call, with the operator replaced; `none` when the round returns before it. -/
def selectRound (exec : Query → Option (Option M × Error × Query))
    (op out : String) (q : Query) : Option Query :=
  match findObjectWithKey (whereValue q.Where) op with
  | none => none
  | some selectObject =>
    let selectValue := utils.MapInterface (M.get selectObject op)
    if selectValue.isNone || (nilGet selectValue "query").isNil
        || (nilGet selectValue "key").isNil
        || decide ((nilEntries selectValue).length ≠ 2) then
      none
    else
      let queryValue := utils.MapInterface (nilGet selectValue "query")
      if queryValue.isNone || (nilGet queryValue "className").isNil then
        none
      else
        let restWhere : Option M :=
          if (nilGet queryValue "where").isNil then some [] else none
        match NewQuery q.auth (utils.String (nilGet queryValue "className")) restWhere
            (some []) with
        | .error _ => none
        | .ok query =>
          match exec query with
          | some (response, none, _) =>
            let values := selectValues response (utils.String (nilGet selectValue "key"))
            let selectObject := replaceOperator selectObject op out values
            some { q with Where := writeObjectWithKey q.Where op selectObject }
          | _ => none

/-- A round of `replaceInQuery` (`op` is `$inQuery`, `out` is `$in`) or
`replaceNotInQuery` that reaches the recursive call at its end: the query at that
call, with the operator replaced; `none` when the round returns before it. -/
def inQueryRound (exec : Query → Option (Option M × Error × Query))
    (op out : String) (q : Query) : Option Query :=
  match findObjectWithKey (whereValue q.Where) op with
  | none => none
  | some inQueryObject =>
    let inQueryValue := utils.MapInterface (M.get inQueryObject op)
    if inQueryValue.isNone || (nilGet inQueryValue "where").isNil
        || (nilGet inQueryValue "className").isNil
        || decide ((nilEntries inQueryValue).length ≠ 2) then
      none
    else
      let className := utils.String (nilGet inQueryValue "className")
      let restWhere := utils.MapInterface (nilGet inQueryValue "where")
      match NewQuery q.auth className restWhere (some []) with
      | .error _ => none
      | .ok query =>
        match exec query with
        | some (response, none, _) =>
          let values := pointerValues response (nilGet inQueryValue "className")
          let inQueryObject := replaceOperator inQueryObject op out values
          some { q with Where := writeObjectWithKey q.Where op inQueryObject }
        | _ => none

/-- A round of `replaceInQuery` or `replaceNotInQuery` whose nested query returns an
error: the query when the round returns, with what the nested query wrote to the
nested `where`; `none` for every other round. -/
def inQueryFailure (exec : Query → Option (Option M × Error × Query))
    (op : String) (q : Query) : Option Query :=
  match findObjectWithKey (whereValue q.Where) op with
  | none => none
  | some inQueryObject =>
    let inQueryValue := utils.MapInterface (M.get inQueryObject op)
    if inQueryValue.isNone || (nilGet inQueryValue "where").isNil
        || (nilGet inQueryValue "className").isNil
        || decide ((nilEntries inQueryValue).length ≠ 2) then
      none
    else
      let className := utils.String (nilGet inQueryValue "className")
      let restWhere := utils.MapInterface (nilGet inQueryValue "where")
      match NewQuery q.auth className restWhere (some []) with
      | .error _ => none
      | .ok query =>
        match exec query with
        | some (_, some _, query) =>
          let written : M :=
            if restWhere.isSome then
              M.set inQueryObject op (.obj (M.set (nilEntries inQueryValue) "where"
                (whereValue (nestedWhere q.auth className query))))
            else inQueryObject
          some { q with Where := writeObjectWithKey q.Where op written }
        | _ => none

/-- The query after `n` rounds in a row, each of which reaches the recursive call at
its end; `none` when one of them returns before that. -/
def roundsOf (round : Query → Option Query) : Nat → Query → Option Query
  | 0, q => some q
  | n + 1, q =>
    match round q with
    | none => none
    | some next => roundsOf round n next

/-- The three steps of `BuildRestWhere` that come before the replace methods: the
first error among them, and the query after them. -/
def guardSteps (orm : Orm) (q : Query) : Error × Query :=
  match getUserAndRoleACL q with
  | (some e, q) => (some e, q)
  | (none, q) =>
    match redirectClassNameForKey orm q with
    | (some e, q) => (some e, q)
    | (none, q) => validateClientClassCreation orm q

mutual
/-- Some map of the tree has the key `op` with a value that is not a map with exactly
the two keys `k1` and `k2`. -/
def malformedAnywhere (op k1 k2 : String) : Value → Bool
  | .arr s => malformedAnywhereS op k1 k2 s
  | .obj m => (M.has m op && !hasExactlyKeys (M.get m op) k1 k2)
      || malformedAnywhereM op k1 k2 m
  | _ => false
/-- The same for the elements of a slice. -/
def malformedAnywhereS (op k1 k2 : String) : List Value → Bool
  | [] => false
  | v :: rest => malformedAnywhere op k1 k2 v || malformedAnywhereS op k1 k2 rest
/-- The same for the values of a map. -/
def malformedAnywhereM (op k1 k2 : String) : List (String × Value) → Bool
  | [] => false
  | (_, v) :: rest => malformedAnywhere op k1 k2 v || malformedAnywhereM op k1 k2 rest
end

/-! ## More sample data for the query engine -/

/-- A query with a well-formed `$select` under `age` and a `$select` that is not a
map under `name`. -/
def twoSelectQuery : Query :=
  initialQuery masterAuth "Player"
    (some [("age", .obj minAgeSelect), ("name", .obj [("$select", .num 5)])])

/-- The query of a caller that is not master and has no user, with a well-formed
`$select` on the class `_Session` under `age` and a `$select` that is not a map under
`name`. -/
def sessionSelectQuery : Query :=
  initialQuery anonymousAuth "Player"
    (some [("age", .obj [("$select", .obj [("query", .obj [("className", .str "_Session"),
        ("where", .obj [])]), ("key", .str "minAge")])]),
      ("name", .obj [("$select", .num 5)])])

/-- A query whose well-formed `$select` holds, inside its nested `where`, a `$select`
that is not a map. -/
def innerSelectQuery : Query :=
  initialQuery masterAuth "Player"
    (some [("age", .obj [("$select", .obj [("query", .obj [("className", .str "Team"),
        ("where", .obj [("name", .obj [("$select", .num 5)])])]),
      ("key", .str "minAge")])])])

/-! # Theorems -/

/-! ## Names: proofs -/

theorem stripLit_eq_some (p cs r : List Char) : stripLit p cs = some r ↔ cs = p ++ r := by
  induction p generalizing cs with
  | nil => simp [stripLit, eq_comm]
  | cons x xs ih =>
    cases cs with
    | nil => simp [stripLit]
    | cons c cs =>
      by_cases h : x = c
      · subst h; simp [stripLit, ih]
      · simp [stripLit, h, Ne.symm h]

theorem takeWhile_word_append (a tl : List Char) (ha : ∀ c ∈ a, isWord c = true) :
    (a ++ ':' :: tl).takeWhile isWord = a := by
  induction a with
  | nil => simp [List.takeWhile, show isWord ':' = false by decide]
  | cons x xs ih =>
    have hx : isWord x = true := ha x (List.mem_cons_self _ _)
    simp [List.takeWhile, hx, ih (fun c hc => ha c (List.mem_cons_of_mem _ hc))]

theorem dropWhile_word_append (a tl : List Char) (ha : ∀ c ∈ a, isWord c = true) :
    (a ++ ':' :: tl).dropWhile isWord = ':' :: tl := by
  induction a with
  | nil => simp [List.dropWhile, show isWord ':' = false by decide]
  | cons x xs ih =>
    have hx : isWord x = true := ha x (List.mem_cons_self _ _)
    simp [List.dropWhile, hx, ih (fun c hc => ha c (List.mem_cons_of_mem _ hc))]

theorem matchJoinClass_iff (cs : List Char) :
    matchJoinClass cs = true ↔ MatchesJoinPattern cs := by
  constructor
  · intro h
    unfold matchJoinClass at h
    cases hs : stripLit "_Join:".toList cs with
    | none => rw [hs] at h; cases h
    | some rest =>
      rw [hs] at h
      dsimp only at h
      have hcs := (stripLit_eq_some _ _ _).1 hs
      have hsplit := List.takeWhile_append_dropWhile isWord rest
      cases hd : rest.dropWhile isWord with
      | nil => rw [hd] at h; cases h
      | cons x tl =>
        rw [hd] at h hsplit
        cases tl with
        | nil =>
          exfalso
          split at h
          · rename_i heq; cases heq
          · cases h
        | cons b tl2 =>
          by_cases hx : x = ':'
          · subst hx
            have h2 : (!(rest.takeWhile isWord).isEmpty && isWord b) = true := h
            rw [Bool.and_eq_true] at h2
            refine ⟨rest.takeWhile isWord, [b], tl2, ?_, ?_, by simp, ?_, ?_⟩
            · rw [hcs]
              exact congrArg (fun l => "_Join:".toList ++ l) hsplit.symm
            · intro he; rw [he] at h2; simp at h2
            · intro c hc; exact (List.mem_takeWhile_imp hc)
            · intro c hc
              rw [List.mem_singleton] at hc
              rw [hc]; exact h2.2
          · exfalso
            split at h
            · rename_i heq
              injection heq with h1 h2
              exact hx h1
            · cases h
  · rintro ⟨a, b, rest, rfl, ha, hb, hwa, hwb⟩
    unfold matchJoinClass
    have hs : stripLit "_Join:".toList ("_Join:".toList ++ (a ++ ':' :: (b ++ rest)))
        = some (a ++ ':' :: (b ++ rest)) := (stripLit_eq_some _ _ _).2 rfl
    rw [hs]
    cases b with
    | nil => exact absurd rfl hb
    | cons b0 bt =>
      simp only [takeWhile_word_append a _ hwa, dropWhile_word_append a _ hwa,
        List.cons_append]
      have hb0 : isWord b0 = true := hwb b0 (List.mem_cons_self _ _)
      cases a with
      | nil => exact absurd rfl ha
      | cons a0 at' => simp [hb0]

theorem matchClassAndField_iff (cs : List Char) :
    matchClassAndField cs = true ↔ MatchesIdentifier cs := by
  cases cs with
  | nil => simp [matchClassAndField, MatchesIdentifier]
  | cons c rest =>
    constructor
    · intro h
      simp only [matchClassAndField, Bool.and_eq_true, List.all_eq_true] at h
      exact ⟨c, rest, rfl, h.1, h.2⟩
    · rintro ⟨c2, rest2, heq, hc, hr⟩
      injection heq with h1 h2
      subst h1; subst h2
      simp only [matchClassAndField, Bool.and_eq_true, List.all_eq_true]
      exact ⟨hc, hr⟩

theorem char_le_iff (a b : Char) : a ≤ b ↔ a.toNat ≤ b.toNat := by
  rfl

theorem isDigit_not_alpha (c : Char) (h : isDigit c = true) :
    isAlpha c = false ∧ c ≠ '_' := by
  simp only [isDigit, Bool.and_eq_true, decide_eq_true_eq, char_le_iff] at h
  have h0 : ('0' : Char).toNat = 48 := rfl
  have h9 : ('9' : Char).toNat = 57 := rfl
  rw [h0, h9] at h
  constructor
  · simp only [isAlpha, Bool.or_eq_false_iff, Bool.and_eq_false_iff, decide_eq_false_iff_not,
      char_le_iff]
    have hA : ('A' : Char).toNat = 65 := rfl
    have ha : ('a' : Char).toNat = 97 := rfl
    rw [hA, ha]
    constructor <;> left <;> omega
  · intro hc
    subst hc
    have hu : ('_' : Char).toNat = 95 := rfl
    rw [hu] at h
    omega

theorem ClassNameIsValid_eq_true_iff (name : String) :
    ClassNameIsValid name = true ↔
      IsSystemClass name ∨ MatchesJoinPattern name.toList
        ∨ MatchesIdentifier name.toList := by
  simp only [ClassNameIsValid, joinClassIsValid, fieldNameIsValid, Bool.or_eq_true,
    decide_eq_true_eq, matchJoinClass_iff, matchClassAndField_iff, IsSystemClass, or_assoc]

/-- C5: `ClassNameIsValid name` is true exactly when `name` is one of the five
system classes, or matches `^_Join:[A-Za-z0-9_]+:[A-Za-z0-9_]+`, or matches the
identifier rule `^[A-Za-z][A-Za-z0-9_]*$`; so the empty string is rejected, a name
starting with a digit is rejected, a name starting with an underscore is rejected
unless it is a system class or a join name, and a name holding a character outside
`[A-Za-z0-9_]` is rejected unless it is a join name. -/
theorem ClassNameIsValid_spec :
    (∀ name : String, ClassNameIsValid name = true ↔
      IsSystemClass name ∨ MatchesJoinPattern name.toList
        ∨ MatchesIdentifier name.toList)
    ∧ ClassNameIsValid "" = false
    ∧ (∀ (c : Char) (rest : List Char), isDigit c = true →
        ClassNameIsValid (String.mk (c :: rest)) = false)
    ∧ (∀ rest : List Char, ¬ IsSystemClass (String.mk ('_' :: rest)) →
        ¬ MatchesJoinPattern ('_' :: rest) →
        ClassNameIsValid (String.mk ('_' :: rest)) = false)
    ∧ (∀ name : String, (∃ c ∈ name.toList, isWord c = false) →
        ¬ MatchesJoinPattern name.toList → ClassNameIsValid name = false) := by
  refine ⟨ClassNameIsValid_eq_true_iff, by decide, ?_, ?_, ?_⟩
  · intro c rest hc
    obtain ⟨hna, hnu⟩ := isDigit_not_alpha c hc
    rw [← Bool.not_eq_true, ClassNameIsValid_eq_true_iff]
    rintro (hs | hj | hi)
    · have h1 : ∀ s : String, IsSystemClass s → s.toList.head? = some '_' := by
        rintro s (h | h | h | h | h) <;> subst h <;> rfl
      have := h1 _ hs
      simp only [String.toList, List.head?_cons, Option.some.injEq] at this
      exact hnu this
    · obtain ⟨a, b, r, heq, -⟩ := hj
      have : c = '_' := by
        have := congrArg List.head? heq
        simpa [String.toList] using this
      exact hnu this
    · obtain ⟨c2, r2, heq, hal, -⟩ := hi
      have : c = c2 := by
        have := congrArg List.head? heq
        simpa [String.toList] using this
      subst this
      rw [hna] at hal
      cases hal
  · intro rest hs hj
    rw [← Bool.not_eq_true, ClassNameIsValid_eq_true_iff]
    rintro (h | h | h)
    · exact hs h
    · exact hj h
    · obtain ⟨c2, r2, heq, hal, -⟩ := h
      have : '_' = c2 := by
        have := congrArg List.head? heq
        simpa [String.toList] using this
      subst this
      revert hal
      decide
  · rintro name ⟨c, hc, hw⟩ hj
    rw [← Bool.not_eq_true, ClassNameIsValid_eq_true_iff]
    rintro (h | h | h)
    · have h1 : ∀ s : String, IsSystemClass s → s.toList.all isWord = true := by
        rintro s (h | h | h | h | h) <;> subst h <;> decide
      have := List.all_eq_true.1 (h1 _ h) c hc
      rw [hw] at this
      cases this
    · exact hj h
    · obtain ⟨c2, r2, heq, hal, hr⟩ := h
      rw [heq] at hc
      rcases List.mem_cons.1 hc with h1 | h1
      · subst h1
        have : isWord c = true := by simp [isWord, hal]
        rw [hw] at this
        cases this
      · have := hr c h1
        rw [hw] at this
        cases this

/-- C5, at concrete names: `Book` is accepted by the identifier rule and `9lives`
is rejected for its leading digit. -/
theorem ClassNameIsValid_spec_witness :
    ClassNameIsValid "Book" = true ∧ ClassNameIsValid "9lives" = false :=
  ⟨(ClassNameIsValid_spec.1 "Book").2
      (Or.inr (Or.inr ⟨'B', ['o', 'o', 'k'], rfl, by decide, by decide⟩)),
    ClassNameIsValid_spec.2.2.1 '9' ['l', 'i', 'v', 'e', 's'] (by decide)⟩

/-! ## Type Mapper: proofs -/

theorem find?_filter_key (t : M) (p : String → Bool) (k : String) :
    M.find? (t.filter (fun e => p e.1)) k = if p k then M.find? t k else none := by
  induction t with
  | nil => simp [M.find?]
  | cons e rest ih =>
    obtain ⟨k', v⟩ := e
    by_cases hk : k' = k
    · subst hk
      by_cases hp : p k' = true
      · simp [List.filter, hp, M.find?]
      · simp only [Bool.not_eq_true] at hp
        simp [List.filter, hp, M.find?, ih]
    · by_cases hp : p k' = true
      · simp [List.filter, hp, M.find?, hk, ih]
      · simp only [Bool.not_eq_true] at hp
        simp [List.filter, hp, M.find?, hk, ih]

theorem find?_of_String_ne (t : M) (k : String) (h : utils.String (M.get t k) ≠ "") :
    M.find? t k = some (.str (utils.String (M.get t k))) := by
  unfold M.get at h ⊢
  cases hf : M.find? t k with
  | none => rw [hf] at h; exact absurd rfl h
  | some v =>
    rw [hf] at h
    cases v <;> first | rfl | exact absurd rfl h

theorem find?_none_of_not_has (t : M) (k : String) (h : ¬ M.has t k = true) :
    M.find? t k = none := by
  unfold M.has at h
  cases hf : M.find? t k with
  | none => rfl
  | some v => rw [hf] at h; exact absurd rfl h

theorem pointer_token (tc : String) :
    mongoFieldTypeToSchemaAPIType ("*" ++ tc)
      = .ok [("type", .str "Pointer"), ("targetClass", .str tc)] := by
  have h : ("*" ++ tc).toList = '*' :: tc.toList := by
    simp [String.toList, String.data_append]
  unfold mongoFieldTypeToSchemaAPIType
  rw [h]
  simp [String.toList]

theorem relation_token (tc : String) :
    mongoFieldTypeToSchemaAPIType ("relation<" ++ tc ++ ">")
      = .ok [("type", .str "Relation"), ("targetClass", .str tc)] := by
  have h2 : ("relation<" ++ tc ++ ">").toList
      = "relation<".toList ++ (tc.toList ++ ['>']) := by
    simp only [String.toList, String.data_append, List.append_assoc]
  have h : ("relation<" ++ tc ++ ">").toList
      = 'r' :: ("elation<".toList ++ (tc.toList ++ ['>'])) := by
    rw [h2]; rfl
  have hl : ("relation<" ++ tc ++ ">").length = tc.length + 10 := by
    show ("relation<" ++ tc ++ ">").toList.length = _
    rw [h2]
    simp only [List.length_append, String.length, String.toList]
    have : ("relation<" : String).data.length = 9 := rfl
    rw [this]
    simp only [List.length_singleton]
    omega
  have hp : "relation<".toList.isPrefixOf ("relation<" ++ tc ++ ">").toList = true := by
    rw [h2]
    exact List.isPrefixOf_iff_prefix.2 (List.prefix_append _ _)
  have h3 : (List.take (tc.length + 10 - 1) ("relation<" ++ tc ++ ">").toList).drop 9
      = tc.toList := by
    rw [h2]
    have e : tc.length + 10 - 1 = ("relation<".toList).length + tc.toList.length := by
      have : ("relation<".toList).length = 9 := rfl
      rw [this]
      simp only [String.length, String.toList]
      omega
    rw [e, List.take_append, List.take_left' rfl]
    exact List.drop_left' rfl
  have hlt : ¬ (tc.length + 10 - 1 < 9) := by omega
  have h9 : "relation<".length = 9 := rfl
  unfold mongoFieldTypeToSchemaAPIType
  rw [h]
  simp only [show ('r' = '*') = False by decide, if_false]
  rw [← h, hl, hp, h9]
  simp only [if_true]
  rw [if_neg hlt, h3]
  rfl

theorem toMongo_empty (t : Option M) (hT : utils.String (nilGet t "type") = "") :
    schemaAPITypeToMongoFieldType t = .error (.err .InvalidJSON) := by
  unfold schemaAPITypeToMongoFieldType
  rw [if_pos hT]

theorem toMongo_pointer (t : Option M) (hT : utils.String (nilGet t "type") = "Pointer") :
    schemaAPITypeToMongoFieldType t =
      if (nilGet t "targetClass").isNil then .error (.err .MissingRequiredFieldError)
      else if utils.String (nilGet t "targetClass") = "" then .error (.err .InvalidJSON)
      else if ClassNameIsValid (utils.String (nilGet t "targetClass")) = false then
        .error (.err .InvalidClassName)
      else .ok [("result", .str ("*" ++ utils.String (nilGet t "targetClass")))] := by
  unfold schemaAPITypeToMongoFieldType
  rw [hT]
  simp

theorem toMongo_relation (t : Option M) (hT : utils.String (nilGet t "type") = "Relation") :
    schemaAPITypeToMongoFieldType t =
      if (nilGet t "targetClass").isNil then .error (.err .MissingRequiredFieldError)
      else if utils.String (nilGet t "targetClass") = "" then .error (.err .InvalidJSON)
      else if ClassNameIsValid (utils.String (nilGet t "targetClass")) = false then
        .error (.err .InvalidClassName)
      else
        .ok [("result", .str ("relation<" ++ utils.String (nilGet t "targetClass") ++ ">"))] := by
  unfold schemaAPITypeToMongoFieldType
  rw [hT]
  simp

theorem toMongo_simple (t : Option M) (T tok : String)
    (hT : utils.String (nilGet t "type") = T)
    (hmem : (T, tok) ∈ [("Number", "number"), ("String", "string"), ("Boolean", "boolean"),
      ("Date", "date"), ("Object", "object"), ("Array", "array"),
      ("GeoPoint", "geopoint"), ("File", "file")]) :
    schemaAPITypeToMongoFieldType t = .ok [("result", .str tok)] := by
  simp only [List.mem_cons, Prod.mk.injEq, List.mem_singleton, List.not_mem_nil,
    or_false] at hmem
  unfold schemaAPITypeToMongoFieldType
  rw [hT]
  rcases hmem with ⟨rfl, rfl⟩ | ⟨rfl, rfl⟩ | ⟨rfl, rfl⟩ | ⟨rfl, rfl⟩ | ⟨rfl, rfl⟩
    | ⟨rfl, rfl⟩ | ⟨rfl, rfl⟩ | ⟨rfl, rfl⟩ <;> simp

theorem toMongo_other (t : Option M)
    (hT : utils.String (nilGet t "type") ∉ ["Pointer", "Relation", "Number", "String",
      "Boolean", "Date", "Object", "Array", "GeoPoint", "File"]) :
    schemaAPITypeToMongoFieldType t = .error (.err .InvalidJSON) := by
  simp only [List.mem_cons, List.mem_singleton, List.not_mem_nil, or_false, not_or] at hT
  obtain ⟨h1, h2, h3, h4, h5, h6, h7, h8, h9, h10⟩ := hT
  unfold schemaAPITypeToMongoFieldType
  by_cases h0 : utils.String (nilGet t "type") = ""
  · rw [if_pos h0]
  · rw [if_neg h0]
    simp only []
    rw [if_neg h1, if_neg h2, if_neg h3, if_neg h4, if_neg h5, if_neg h6, if_neg h7,
      if_neg h8, if_neg h9, if_neg h10]

/-- The ten wire type names or anything else. -/
theorem type_cases (T : String) :
    T = "Pointer" ∨ T = "Relation"
    ∨ (∃ tok, (T, tok) ∈ [("Number", "number"), ("String", "string"),
        ("Boolean", "boolean"), ("Date", "date"), ("Object", "object"),
        ("Array", "array"), ("GeoPoint", "geopoint"), ("File", "file")])
    ∨ T ∉ ["Pointer", "Relation", "Number", "String",
      "Boolean", "Date", "Object", "Array", "GeoPoint", "File"] := by
  by_cases h1 : T = "Pointer"
  · exact Or.inl h1
  by_cases h2 : T = "Relation"
  · exact Or.inr (Or.inl h2)
  by_cases h3 : T = "Number"
  · exact Or.inr (Or.inr (Or.inl ⟨"number", by simp [h3]⟩))
  by_cases h4 : T = "String"
  · exact Or.inr (Or.inr (Or.inl ⟨"string", by simp [h4]⟩))
  by_cases h5 : T = "Boolean"
  · exact Or.inr (Or.inr (Or.inl ⟨"boolean", by simp [h5]⟩))
  by_cases h6 : T = "Date"
  · exact Or.inr (Or.inr (Or.inl ⟨"date", by simp [h6]⟩))
  by_cases h7 : T = "Object"
  · exact Or.inr (Or.inr (Or.inl ⟨"object", by simp [h7]⟩))
  by_cases h8 : T = "Array"
  · exact Or.inr (Or.inr (Or.inl ⟨"array", by simp [h8]⟩))
  by_cases h9 : T = "GeoPoint"
  · exact Or.inr (Or.inr (Or.inl ⟨"geopoint", by simp [h9]⟩))
  by_cases h10 : T = "File"
  · exact Or.inr (Or.inr (Or.inl ⟨"file", by simp [h10]⟩))
  exact Or.inr (Or.inr (Or.inr (by simp [h1, h2, h3, h4, h5, h6, h7, h8, h9, h10])))

theorem restrictWire_find? (t : M) (k : String) :
    M.find? (restrictWire t) k
      = if k = "type" ∨ k = "targetClass" then M.find? t k else none := by
  have := find?_filter_key t (fun k => decide (k = "type") || decide (k = "targetClass")) k
  unfold restrictWire
  rw [this]
  by_cases h1 : k = "type"
  · simp [h1]
  · by_cases h2 : k = "targetClass"
    · simp [h2]
    · simp [h1, h2]

theorem wire_eq_with_target (t : M) (T tc : String)
    (hT : utils.String (M.get t "type") = T) (hTne : T ≠ "")
    (hc : utils.String (M.get t "targetClass") = tc) (hcne : tc ≠ "") (k : String) :
    M.find? [("type", .str T), ("targetClass", .str tc)] k = M.find? (restrictWire t) k := by
  rw [restrictWire_find?]
  by_cases h1 : k = "type"
  · subst h1
    rw [if_pos (Or.inl rfl), find?_of_String_ne t "type" (by rw [hT]; exact hTne), hT]
    simp [M.find?]
  · by_cases h2 : k = "targetClass"
    · subst h2
      rw [if_pos (Or.inr rfl),
        find?_of_String_ne t "targetClass" (by rw [hc]; exact hcne), hc]
      simp [M.find?]
    · rw [if_neg (by simp [h1, h2])]
      simp [M.find?, Ne.symm h1, Ne.symm h2]

theorem wire_eq_simple (t : M) (T : String)
    (hT : utils.String (M.get t "type") = T) (hTne : T ≠ "")
    (hno : ¬ M.has t "targetClass" = true) (k : String) :
    M.find? [("type", .str T)] k = M.find? (restrictWire t) k := by
  rw [restrictWire_find?]
  by_cases h1 : k = "type"
  · subst h1
    rw [if_pos (Or.inl rfl), find?_of_String_ne t "type" (by rw [hT]; exact hTne), hT]
    simp [M.find?]
  · by_cases h2 : k = "targetClass"
    · subst h2
      rw [if_pos (Or.inr rfl), find?_none_of_not_has t _ hno]
      simp [M.find?]
    · rw [if_neg (by simp [h1, h2])]
      simp [M.find?, Ne.symm h1]

/-- C1: on every wire type description `t` (a map with `type` and, for `Pointer`
and `Relation` only, `targetClass`) that `schemaAPITypeToMongoFieldType` accepts
with storage token `r`, `mongoFieldTypeToSchemaAPIType` returns, for that token, a
map that holds under every key what `t` restricted to its `type` and `targetClass`
keys holds. -/
theorem typeMapper_roundtrip (t r : M) (hw : IsWireType t)
    (h : schemaAPITypeToMongoFieldType (some t) = .ok r) :
    ∃ w, mongoFieldTypeToSchemaAPIType (utils.String (M.get r "result")) = .ok w
      ∧ ∀ k, M.find? w k = M.find? (restrictWire t) k := by
  have hres : ∀ tok : String,
      utils.String (M.get [("result", Value.str tok)] "result") = tok := by
    intro tok; simp [M.get, M.find?, utils.String]
  have target : ∀ T : String, utils.String (M.get t "type") = T → T ≠ "" →
      (if (nilGet (some t) "targetClass").isNil then
          (.error (.err .MissingRequiredFieldError) : Except Fault M)
        else if utils.String (nilGet (some t) "targetClass") = "" then
          .error (.err .InvalidJSON)
        else if ClassNameIsValid (utils.String (nilGet (some t) "targetClass")) = false then
          .error (.err .InvalidClassName)
        else .ok r) = .ok r →
      ∀ k, M.find? [("type", .str T),
          ("targetClass", .str (utils.String (M.get t "targetClass")))] k
        = M.find? (restrictWire t) k := by
    intro T hT hne hif
    split_ifs at hif with a b c
    exact wire_eq_with_target t _ _ hT hne rfl b
  rcases type_cases (utils.String (nilGet (some t) "type")) with hP | hR | ⟨tok, hS⟩ | hO
  · rw [toMongo_pointer _ hP] at h
    have hr : r = [("result", .str ("*" ++ utils.String (M.get t "targetClass")))] := by
      split_ifs at h
      injection h with h
      exact h.symm
    refine ⟨_, by rw [hr, hres]; exact pointer_token _, ?_⟩
    apply target "Pointer" hP (by decide)
    rw [hr] at h
    rw [hr]
    exact h
  · rw [toMongo_relation _ hR] at h
    have hr : r = [("result",
        .str ("relation<" ++ utils.String (M.get t "targetClass") ++ ">"))] := by
      split_ifs at h
      injection h with h
      exact h.symm
    refine ⟨_, by rw [hr, hres]; exact relation_token _, ?_⟩
    apply target "Relation" hR (by decide)
    rw [hr] at h
    rw [hr]
    exact h
  · rw [toMongo_simple _ _ tok rfl hS] at h
    injection h with h
    subst h
    rw [hres]
    have hno : ¬ M.has t "targetClass" = true := by
      intro hh
      have hT := hw.2 hh
      simp only [List.mem_cons, Prod.mk.injEq, List.mem_singleton, List.not_mem_nil,
        or_false] at hS
      change utils.String (nilGet (some t) "type") = "Pointer"
        ∨ utils.String (nilGet (some t) "type") = "Relation" at hT
      rcases hT with hT | hT <;> rw [hT] at hS <;> simp at hS
    simp only [List.mem_cons, Prod.mk.injEq, List.mem_singleton, List.not_mem_nil,
      or_false] at hS
    rcases hS with ⟨h1, rfl⟩ | ⟨h1, rfl⟩ | ⟨h1, rfl⟩ | ⟨h1, rfl⟩ | ⟨h1, rfl⟩
      | ⟨h1, rfl⟩ | ⟨h1, rfl⟩ | ⟨h1, rfl⟩ <;>
      exact ⟨_, by decide, wire_eq_simple t _ h1 (by decide) hno⟩
  · rw [toMongo_other _ hO] at h
    cases h

/-- C1, at the wire type `{"type": "Relation", "targetClass": "Author"}`. -/
theorem typeMapper_roundtrip_witness :
    ∃ w, mongoFieldTypeToSchemaAPIType
        (utils.String (M.get [("result", .str "relation<Author>")] "result")) = .ok w
      ∧ ∀ k, M.find? w k
          = M.find? (restrictWire
              [("type", .str "Relation"), ("targetClass", .str "Author")]) k :=
  typeMapper_roundtrip [("type", .str "Relation"), ("targetClass", .str "Author")]
    [("result", .str "relation<Author>")]
    ⟨by decide, fun _ => Or.inr (by decide)⟩ (by decide)

/-- C2: `schemaAPITypeToMongoFieldType` fails as documented.  When `type` is
`Pointer` or `Relation`: a missing `targetClass` (the lookup is `nil`) gives
`MissingRequiredFieldError`, an empty or non-string `targetClass` gives
`InvalidJSON`, a `targetClass` rejected by `ClassNameIsValid` gives
`InvalidClassName`, and an accepted one succeeds.  When `type` is missing, is not a
string or is none of the ten type names the result is `InvalidJSON`.  For the eight
other type names the call succeeds. -/
theorem schemaAPITypeToMongoFieldType_errors (t : Option M) :
    ((utils.String (nilGet t "type") = "Pointer"
        ∨ utils.String (nilGet t "type") = "Relation") →
      ((nilGet t "targetClass").isNil = true →
        schemaAPITypeToMongoFieldType t = .error (.err .MissingRequiredFieldError))
      ∧ ((nilGet t "targetClass" = .str ""
            ∨ ((nilGet t "targetClass").isNil = false
                ∧ ∀ s, nilGet t "targetClass" ≠ .str s)) →
        schemaAPITypeToMongoFieldType t = .error (.err .InvalidJSON))
      ∧ (∀ s, nilGet t "targetClass" = .str s → s ≠ "" → ClassNameIsValid s = false →
        schemaAPITypeToMongoFieldType t = .error (.err .InvalidClassName))
      ∧ (∀ s, nilGet t "targetClass" = .str s → s ≠ "" → ClassNameIsValid s = true →
        ∃ r, schemaAPITypeToMongoFieldType t = .ok r))
    ∧ (utils.String (nilGet t "type") ∉ ["Pointer", "Relation", "Number", "String",
          "Boolean", "Date", "Object", "Array", "GeoPoint", "File"] →
        schemaAPITypeToMongoFieldType t = .error (.err .InvalidJSON))
    ∧ (utils.String (nilGet t "type") ∈ ["Number", "String", "Boolean", "Date",
          "Object", "Array", "GeoPoint", "File"] →
        ∃ r, schemaAPITypeToMongoFieldType t = .ok r) := by
  refine ⟨?_, toMongo_other t, ?_⟩
  · intro hty
    have hrw : schemaAPITypeToMongoFieldType t =
        if (nilGet t "targetClass").isNil then .error (.err .MissingRequiredFieldError)
        else if utils.String (nilGet t "targetClass") = "" then .error (.err .InvalidJSON)
        else if ClassNameIsValid (utils.String (nilGet t "targetClass")) = false then
          .error (.err .InvalidClassName)
        else .ok [("result", .str
          (if utils.String (nilGet t "type") = "Pointer"
            then "*" ++ utils.String (nilGet t "targetClass")
            else "relation<" ++ utils.String (nilGet t "targetClass") ++ ">"))] := by
      rcases hty with h | h
      · rw [toMongo_pointer t h, h]; simp
      · rw [toMongo_relation t h, h]; simp
    refine ⟨?_, ?_, ?_, ?_⟩
    · intro hn
      rw [hrw, if_pos hn]
    · rintro (he | ⟨hn, hs⟩)
      · rw [hrw, he]; rfl
      · rw [hrw, if_neg (by rw [hn]; decide), if_pos]
        cases hv : nilGet t "targetClass" <;> first | rfl | exact absurd hv (hs _)
    · intro s hs hne hv
      rw [hrw, hs]
      simp only [Value.isNil, utils.String, Bool.false_eq_true, if_false, if_neg hne, hv,
        if_true]
    · intro s hs hne hv
      rw [hrw, hs]
      simp only [Value.isNil, utils.String, Bool.false_eq_true, if_false, if_neg hne, hv]
      exact ⟨_, rfl⟩
  · intro hmem
    simp only [List.mem_cons, List.mem_singleton, List.not_mem_nil, or_false] at hmem
    rcases hmem with h | h | h | h | h | h | h | h
    · exact ⟨_, toMongo_simple t _ "number" h (by simp)⟩
    · exact ⟨_, toMongo_simple t _ "string" h (by simp)⟩
    · exact ⟨_, toMongo_simple t _ "boolean" h (by simp)⟩
    · exact ⟨_, toMongo_simple t _ "date" h (by simp)⟩
    · exact ⟨_, toMongo_simple t _ "object" h (by simp)⟩
    · exact ⟨_, toMongo_simple t _ "array" h (by simp)⟩
    · exact ⟨_, toMongo_simple t _ "geopoint" h (by simp)⟩
    · exact ⟨_, toMongo_simple t _ "file" h (by simp)⟩

/-- C2, at `{"type": "Pointer"}`, `{"type": "Pointer", "targetClass": 7}`,
`{"type": "Pointer", "targetClass": "9x"}`, `{"type": "Blob"}` and
`{"type": "Date"}`. -/
theorem schemaAPITypeToMongoFieldType_errors_witness :
    schemaAPITypeToMongoFieldType (some [("type", .str "Pointer")])
        = .error (.err .MissingRequiredFieldError)
    ∧ schemaAPITypeToMongoFieldType (some [("type", .str "Pointer"), ("targetClass", .num 7)])
        = .error (.err .InvalidJSON)
    ∧ schemaAPITypeToMongoFieldType
        (some [("type", .str "Pointer"), ("targetClass", .str "9x")])
        = .error (.err .InvalidClassName)
    ∧ schemaAPITypeToMongoFieldType (some [("type", .str "Blob")])
        = .error (.err .InvalidJSON)
    ∧ (∃ r, schemaAPITypeToMongoFieldType (some [("type", .str "Date")]) = .ok r) :=
  ⟨((schemaAPITypeToMongoFieldType_errors (some [("type", .str "Pointer")])).1
      (Or.inl (by decide))).1 (by decide),
    ((schemaAPITypeToMongoFieldType_errors
      (some [("type", .str "Pointer"), ("targetClass", .num 7)])).1
      (Or.inl (by decide))).2.1 (Or.inr ⟨by decide, fun s h => Value.noConfusion h⟩),
    ((schemaAPITypeToMongoFieldType_errors
      (some [("type", .str "Pointer"), ("targetClass", .str "9x")])).1
      (Or.inl (by decide))).2.2.1 "9x" (by decide) (by decide) (by decide),
    (schemaAPITypeToMongoFieldType_errors (some [("type", .str "Blob")])).2.1 (by decide),
    (schemaAPITypeToMongoFieldType_errors (some [("type", .str "Date")])).2.2 (by decide)⟩

/-! ## Permission Validator: proofs -/

theorem verifyPermissionKey_eq_none_iff (key : String) :
    verifyPermissionKey key = none ↔ IsSubjectKey key := by
  have h1 : matchUserID key.toList = true ↔
      (key.toList.length = 24 ∧ ∀ c ∈ key.toList, isAlnum c = true) := by
    simp [matchUserID, List.all_eq_true]
  have h2 : matchRole key.toList = true ↔ ∃ rest, key.toList = "role:".toList ++ rest := by
    unfold matchRole
    constructor
    · intro h
      cases hs : stripLit "role:".toList key.toList with
      | none => rw [hs] at h; cases h
      | some r => exact ⟨r, (stripLit_eq_some _ _ _).1 hs⟩
    · rintro ⟨r, hr⟩
      rw [(stripLit_eq_some _ _ r).2 hr]
      rfl
  have h3 : matchPublic key.toList = true ↔ key = "*" := by
    unfold matchPublic
    rw [decide_eq_true_eq]
    constructor
    · intro h
      exact String.ext h
    · intro h
      rw [h]
      rfl
  unfold verifyPermissionKey IsSubjectKey
  rw [← h1, ← h2, ← h3]
  cases matchUserID key.toList <;> cases matchRole key.toList
    <;> cases matchPublic key.toList <;> simp

theorem verifyPermissionKey_code (key : String) :
    verifyPermissionKey key = none ∨ verifyPermissionKey key = some (.err .InvalidJSON) := by
  unfold verifyPermissionKey
  dsimp only
  split_ifs
  · exact Or.inr rfl
  · exact Or.inl rfl

theorem validateCLPSubjects_cons (key : String) (p : Value) (rest : M) :
    validateCLPSubjects ((key, p) :: rest) =
      match verifyPermissionKey key with
      | some e => some e
      | none =>
        match p with
        | .bool v => if v = false then some (.err .InvalidJSON) else validateCLPSubjects rest
        | _ => some (.err .InvalidJSON) := rfl

theorem validateCLPSubjects_eq_none_iff (m : M) :
    validateCLPSubjects m = none ↔
      ∀ e ∈ m, IsSubjectKey e.1 ∧ e.2 = .bool true := by
  induction m with
  | nil => simp [validateCLPSubjects]
  | cons e rest ih =>
    obtain ⟨key, p⟩ := e
    rw [validateCLPSubjects_cons, List.forall_mem_cons, ← ih,
      ← verifyPermissionKey_eq_none_iff]
    cases hk : verifyPermissionKey key with
    | some e => simp
    | none =>
      cases p with
      | bool v => cases v <;> simp
      | _ => simp

theorem validateCLPSubjects_code (m : M) :
    validateCLPSubjects m = none ∨ validateCLPSubjects m = some (.err .InvalidJSON) := by
  induction m with
  | nil => exact Or.inl rfl
  | cons e rest ih =>
    obtain ⟨key, p⟩ := e
    rw [validateCLPSubjects_cons]
    rcases verifyPermissionKey_code key with hk | hk
    · rw [hk]
      cases p with
      | bool v => cases v <;> simp [ih]
      | _ => simp
    · rw [hk]; exact Or.inr rfl

theorem validateCLPOperations_cons (op : String) (perm : Value) (rest : M) :
    validateCLPOperations ((op, perm) :: rest) =
      if clpValidKeys.contains op = false then some (.err .InvalidJSON)
      else
        match validateCLPSubjects (nilEntries (utils.MapInterface perm)) with
        | some e => some e
        | none => validateCLPOperations rest := rfl

theorem validateCLPOperations_eq_none_iff (d : M) :
    validateCLPOperations d = none ↔
      ∀ e ∈ d, clpValidKeys.contains e.1 = true
        ∧ validateCLPSubjects (nilEntries (utils.MapInterface e.2)) = none := by
  induction d with
  | nil => simp [validateCLPOperations]
  | cons e rest ih =>
    obtain ⟨op, perm⟩ := e
    rw [validateCLPOperations_cons, List.forall_mem_cons, ← ih]
    cases hc : clpValidKeys.contains op with
    | false => simp
    | true =>
      cases hs : validateCLPSubjects (nilEntries (utils.MapInterface perm)) with
      | none => simp
      | some e => simp

theorem validateCLPOperations_code (d : M) :
    validateCLPOperations d = none
      ∨ validateCLPOperations d = some (.err .InvalidJSON) := by
  induction d with
  | nil => exact Or.inl rfl
  | cons e rest ih =>
    obtain ⟨op, perm⟩ := e
    rw [validateCLPOperations_cons]
    cases hc : clpValidKeys.contains op with
    | false => exact Or.inr rfl
    | true =>
      rcases validateCLPSubjects_code (nilEntries (utils.MapInterface perm)) with hs | hs
      · rw [hs]; simpa using ih
      · rw [hs]; exact Or.inr rfl

/-- C3: `validateCLP` accepts the nil document; a document whose operation values
are maps is accepted exactly when every operation key is one of `find`, `get`,
`create`, `update`, `delete`, `addField`, every subject key is a 24-character
alphanumeric id, a string starting with `role:`, or `*`, and every subject value is
the boolean `true`; a document that is not accepted gets `InvalidJSON`; and
`{"publish":{"*":true}}`, `{"find":{"bob":true}}`, `{"find":{"*":false}}` are
rejected. -/
theorem validateCLP_spec :
    validateCLP none = none
    ∧ (∀ ops : List (String × M),
        (validateCLP (some (clpDocument ops)) = none ↔
          ∀ e ∈ ops,
            e.1 ∈ ["find", "get", "create", "update", "delete", "addField"]
              ∧ ∀ s ∈ e.2, IsSubjectKey s.1 ∧ s.2 = .bool true)
        ∧ (validateCLP (some (clpDocument ops)) = none
            ∨ validateCLP (some (clpDocument ops)) = some (.err .InvalidJSON)))
    ∧ validateCLP (some (clpDocument [("publish", [("*", .bool true)])]))
        = some (.err .InvalidJSON)
    ∧ validateCLP (some (clpDocument [("find", [("bob", .bool true)])]))
        = some (.err .InvalidJSON)
    ∧ validateCLP (some (clpDocument [("find", [("*", .bool false)])]))
        = some (.err .InvalidJSON) := by
  refine ⟨rfl, ?_, by decide, by decide, by decide⟩
  intro ops
  have hkeys : ∀ op : String, clpValidKeys.contains op = true ↔
      op ∈ ["find", "get", "create", "update", "delete", "addField"] := by
    intro op; simp [clpValidKeys]
  refine ⟨?_, validateCLPOperations_code _⟩
  show validateCLPOperations (clpDocument ops) = none ↔ _
  rw [validateCLPOperations_eq_none_iff]
  unfold clpDocument
  constructor
  · intro h e he
    have := h (e.1, Value.obj e.2) (List.mem_map.2 ⟨e, he, rfl⟩)
    exact ⟨(hkeys _).1 this.1, (validateCLPSubjects_eq_none_iff _).1 this.2⟩
  · intro h e he
    obtain ⟨a, ha, rfl⟩ := List.mem_map.1 he
    exact ⟨(hkeys _).2 (h a ha).1, (validateCLPSubjects_eq_none_iff _).2 (h a ha).2⟩

/-- C3, at the document `{"find": {"*": true, "role:admin": true}}`, which is
accepted. -/
theorem validateCLP_spec_witness :
    validateCLP (some (clpDocument
      [("find", [("*", .bool true), ("role:admin", .bool true)])])) = none :=
  ((validateCLP_spec.2.1 [("find", [("*", .bool true), ("role:admin", .bool true)])]).1).2
    (by
      intro e he
      rw [List.mem_singleton] at he
      subst he
      refine ⟨by decide, ?_⟩
      intro s hs
      simp only [List.mem_cons, List.mem_singleton, List.not_mem_nil, or_false] at hs
      rcases hs with rfl | rfl
      · exact ⟨Or.inr (Or.inr rfl), rfl⟩
      · exact ⟨Or.inr (Or.inl ⟨"admin".toList, rfl⟩), rfl⟩)

/-! ## validatePermission -/

theorem validatePermission_eq_none {σ : Type} (s : Schema σ) (className : String)
    (aclGroup : List String) (operation : String) :
    Schema.validatePermission s className aclGroup operation = none := by
  unfold Schema.validatePermission
  dsimp only
  split_ifs <;> rfl

/-- C4, the code at a failing input: class `Book` allows `find` to `role:admin`
only, the caller's group is one user id that is not a subject, `*` is not a subject
either, and `validatePermission` still returns `nil` where the claim has
`PermissionDenied`. -/
theorem validatePermission_allows_stranger :
    (M.get adminOnlySchema.perms "Book").isNil = false
      ∧ M.has adminOnlyEntry "*" = false
      ∧ (["abcdefghijklmnopqrstuvwx"].any (fun v => M.has adminOnlyEntry v)) = false
      ∧ Schema.validatePermission adminOnlySchema "Book" ["abcdefghijklmnopqrstuvwx"]
          "find" = none
      ∧ Schema.validatePermission adminOnlySchema "Book" ["abcdefghijklmnopqrstuvwx"]
          "find" ≠ some (.err .PermissionDenied) := by
  decide

/-! ## Building the persisted record: proofs -/

theorem checkFieldNames_cons (className fieldName : String) (v : Value) (rest : M) :
    checkFieldNames className ((fieldName, v) :: rest) =
      if fieldNameIsValid fieldName = false then some (.err .InvalidKeyName)
      else if fieldNameIsValidForClass fieldName className = false then
        some (.err .ChangedImmutableFieldError)
      else checkFieldNames className rest := rfl

theorem fieldNameIsValid_of_forClass (fieldName className : String)
    (h : fieldNameIsValidForClass fieldName className = true) :
    fieldNameIsValid fieldName = true := by
  unfold fieldNameIsValidForClass at h
  by_cases hv : fieldNameIsValid fieldName = false
  · rw [if_pos hv] at h; cases h
  · simpa using hv

theorem checkFieldNames_eq_none (className : String) (fields : M)
    (hn : ∀ e ∈ fields, fieldNameIsValidForClass e.1 className = true) :
    checkFieldNames className fields = none := by
  induction fields with
  | nil => rfl
  | cons e rest ih =>
    obtain ⟨fieldName, v⟩ := e
    have h1 := hn (fieldName, v) (List.mem_cons_self _ _)
    have h2 := fieldNameIsValid_of_forClass _ _ h1
    rw [checkFieldNames_cons, if_neg (by simp [h2]), if_neg (by simp [h1])]
    exact ih (fun e he => hn e (List.mem_cons_of_mem _ he))

theorem addDefaultColumns_cons (className fieldName : String) (v : Value) (rest mo : M) :
    addDefaultColumns className ((fieldName, v) :: rest) mo =
      match schemaAPITypeToMongoFieldType
          (utils.MapInterface (nilGet (defaultColumnsOf className) fieldName)) with
      | .error e => .error e
      | .ok validatedField =>
        addDefaultColumns className rest
          (M.set mo fieldName (M.get validatedField "result")) := rfl

theorem addOtherFields_cons (className fieldName : String) (v : Value) (rest mo : M) :
    addOtherFields className ((fieldName, v) :: rest) mo =
      match schemaAPITypeToMongoFieldType
          (utils.MapInterface (nilGet (defaultColumnsOf className) fieldName)) with
      | .error e => .error e
      | .ok validatedField =>
        addOtherFields className rest
          (M.set mo fieldName (M.get validatedField "result")) := rfl

/-- A field name that may be added to a class has no entry in the default columns
of that class. -/
theorem defaultColumn_nil_of_validForClass (fieldName className : String)
    (h : fieldNameIsValidForClass fieldName className = true) :
    nilGet (defaultColumnsOf className) fieldName = .null := by
  unfold fieldNameIsValidForClass at h
  split_ifs at h with h1 h2 h3
  cases hd : defaultColumnsOf className with
  | none => rfl
  | some cols =>
    rw [hd] at h3
    simp only [Option.isSome_some, Bool.true_and, Bool.not_eq_true', Bool.not_eq_false] at h3
    cases hv : nilGet (some cols) fieldName <;> rw [hv] at h3 <;> first | rfl | cases h3

theorem convert_default_of_validForClass (fieldName className : String)
    (h : fieldNameIsValidForClass fieldName className = true) :
    schemaAPITypeToMongoFieldType
        (utils.MapInterface (nilGet (defaultColumnsOf className) fieldName))
      = .error (.err .InvalidJSON) := by
  rw [defaultColumn_nil_of_validForClass _ _ h]
  exact toMongo_empty _ rfl

theorem addOtherFields_fails (className : String) (fields mo : M) (hne : fields ≠ [])
    (hn : ∀ e ∈ fields, fieldNameIsValidForClass e.1 className = true) :
    addOtherFields className fields mo = .error (.err .InvalidJSON) := by
  cases fields with
  | nil => exact absurd rfl hne
  | cons e rest =>
    obtain ⟨fieldName, v⟩ := e
    rw [addOtherFields_cons,
      convert_default_of_validForClass _ _ (hn (fieldName, v) (List.mem_cons_self _ _))]

theorem addDefaultColumns_ok (className : String) (es : M)
    (h : ∀ e ∈ es, ∃ r, schemaAPITypeToMongoFieldType
      (utils.MapInterface (nilGet (defaultColumnsOf className) e.1)) = .ok r) (mo : M) :
    ∃ mo', addDefaultColumns className es mo = .ok mo' := by
  induction es generalizing mo with
  | nil => exact ⟨mo, rfl⟩
  | cons e rest ih =>
    obtain ⟨fieldName, v⟩ := e
    obtain ⟨r, hr⟩ := h (fieldName, v) (List.mem_cons_self _ _)
    rw [addDefaultColumns_cons, hr]
    exact ih (fun e he => h e (List.mem_cons_of_mem _ he)) _

/-- Every default column of a valid class name has a type the Type Mapper
accepts. -/
theorem defaults_accepted (className : String) (hc : ClassNameIsValid className = true) :
    ∀ e ∈ nilEntries (defaultColumnsOf className), ∃ r, schemaAPITypeToMongoFieldType
      (utils.MapInterface (nilGet (defaultColumnsOf className) e.1)) = .ok r := by
  have key : ∀ cn : String,
      (nilEntries (defaultColumnsOf cn)).all (fun e =>
        match schemaAPITypeToMongoFieldType
          (utils.MapInterface (nilGet (defaultColumnsOf cn) e.1)) with
        | .ok _ => true
        | .error _ => false) = true →
      ∀ e ∈ nilEntries (defaultColumnsOf cn), ∃ r, schemaAPITypeToMongoFieldType
        (utils.MapInterface (nilGet (defaultColumnsOf cn) e.1)) = .ok r := by
    intro cn hall e he
    have := List.all_eq_true.1 hall e he
    cases hx : schemaAPITypeToMongoFieldType
        (utils.MapInterface (nilGet (defaultColumnsOf cn) e.1)) with
    | ok r => exact ⟨r, rfl⟩
    | error x => rw [hx] at this; cases this
  by_cases h0 : className = "_Default"
  · subst h0; exact absurd hc (by decide)
  by_cases h1 : className = "_User"
  · subst h1; exact key _ (by decide)
  by_cases h2 : className = "_Installation"
  · subst h2; exact key _ (by decide)
  by_cases h3 : className = "_Role"
  · subst h3; exact key _ (by decide)
  by_cases h4 : className = "_Session"
  · subst h4; exact key _ (by decide)
  by_cases h5 : className = "_Product"
  · subst h5; exact key _ (by decide)
  have hnone : defaultColumnsOf className = none := by
    have e0 : (className == "_Default") = false := beq_eq_false_iff_ne.2 h0
    have e1 : (className == "_User") = false := beq_eq_false_iff_ne.2 h1
    have e2 : (className == "_Installation") = false := beq_eq_false_iff_ne.2 h2
    have e3 : (className == "_Role") = false := beq_eq_false_iff_ne.2 h3
    have e4 : (className == "_Session") = false := beq_eq_false_iff_ne.2 h4
    have e5 : (className == "_Product") = false := beq_eq_false_iff_ne.2 h5
    unfold defaultColumnsOf defaultColumns
    simp only [List.lookup, e0, e1, e2, e3, e4, e5]
  rw [hnone]
  intro e he
  cases he

theorem mongoSchema_rejects_fields (fields : M) (className : String) (clp : Option M)
    (hc : ClassNameIsValid className = true) (hne : fields ≠ [])
    (hn : ∀ e ∈ fields, fieldNameIsValidForClass e.1 className = true) :
    mongoSchemaFromFieldsAndClassNameAndCLP (some fields) className clp
      = .error (.err .InvalidJSON) := by
  obtain ⟨mo, hmo⟩ := addDefaultColumns_ok className _ (defaults_accepted className hc)
    [ ("_id", .str className), ("objectId", .str "string"),
      ("updatedAt", .str "string"), ("createdAt", .str "string") ]
  unfold mongoSchemaFromFieldsAndClassNameAndCLP
  rw [if_neg (by simp [hc])]
  change (match checkFieldNames className fields with
    | some e => _
    | none => _) = _
  rw [checkFieldNames_eq_none className fields hn]
  dsimp only
  rw [hmo]
  dsimp only
  rw [show nilEntries (some fields) = fields from rfl,
    addOtherFields_fails className fields mo hne hn]

/-- C6, the code at the claim's example: `Book` is a valid class name that is not
registered, `title` is a valid field name that is no default column and `String` a
valid wire type, and `AddClassIfNotExists("Book", {"title": {"type": "String"}},
nil)` returns `InvalidJSON` and persists nothing; with no caller fields the call
succeeds and returns the persisted record (storage tokens, no `ACL`), not a schema
in wire format. -/
theorem AddClassIfNotExists_book_title_fails :
    ClassNameIsValid "Book" = true
    ∧ fieldNameIsValidForClass "title" "Book" = true
    ∧ schemaAPITypeToMongoFieldType (utils.MapInterface (apiT "String"))
        = .ok [("result", .str "string")]
    ∧ (M.get (Load memStorage emptyDB).data "Book").isNil = true
    ∧ (Schema.AddClassIfNotExists memStorage (Load memStorage emptyDB) "Book"
        (some [("title", apiT "String")]) none).1 = .error (.err .InvalidJSON)
    ∧ (Schema.AddClassIfNotExists memStorage (Load memStorage emptyDB) "Book"
        (some [("title", apiT "String")]) none).2.collection = emptyDB
    ∧ (Schema.AddClassIfNotExists memStorage (Load memStorage emptyDB) "Book"
        (some []) none).1
        = .ok (some [("_id", .str "Book"), ("objectId", .str "string"),
            ("updatedAt", .str "string"), ("createdAt", .str "string"),
            ("_metadata", .obj [])]) := by
  decide

/-- The registry after a successful `AddClassIfNotExists` is the registry before
it. -/
theorem AddClassIfNotExists_data (σ : Type) (st : Storage σ) (s : Schema σ)
    (className : String) (fields clp : Option M) :
    (Schema.AddClassIfNotExists st s className fields clp).2.data = s.data := by
  unfold Schema.AddClassIfNotExists
  split_ifs
  · rfl
  · cases mongoSchemaFromFieldsAndClassNameAndCLP fields className clp with
    | error e => rfl
    | ok mo =>
      dsimp only
      cases (st.addSchema s.collection className
        (utils.MapInterface (M.get mo "result"))).1 <;> rfl

/-- C7, the code after a first successful call: the registry of the schema is what
it was before the call, so the class is still absent from it, and the second
identical call passes the registry check and hands the same record to `addSchema`
again; its result is whatever that insert returns. -/
theorem AddClassIfNotExists_twice (σ : Type) (st : Storage σ) (s : Schema σ)
    (className : String) (fields clp : Option M) (r : Option M)
    (h : (Schema.AddClassIfNotExists st s className fields clp).1 = .ok r) :
    (Schema.AddClassIfNotExists st s className fields clp).2.data = s.data
    ∧ (M.get (Schema.AddClassIfNotExists st s className fields clp).2.data
        className).isNil = true
    ∧ (Schema.AddClassIfNotExists st
        (Schema.AddClassIfNotExists st s className fields clp).2 className fields clp).1
      = (match (st.addSchema
            (Schema.AddClassIfNotExists st s className fields clp).2.collection
            className r).1 with
        | some e => .error e
        | none => .ok r) := by
  have hd := AddClassIfNotExists_data σ st s className fields clp
  have hnil : (M.get s.data className).isNil = true := by
    unfold Schema.AddClassIfNotExists at h
    by_cases hx : (M.get s.data className).isNil = true
    · exact hx
    · rw [if_pos (by simpa using hx)] at h
      cases h
  refine ⟨hd, by rw [hd]; exact hnil, ?_⟩
  generalize hs' : (Schema.AddClassIfNotExists st s className fields clp).2 = s' at hd ⊢
  have hr : ∃ mo, mongoSchemaFromFieldsAndClassNameAndCLP fields className clp = .ok mo
      ∧ utils.MapInterface (M.get mo "result") = r := by
    unfold Schema.AddClassIfNotExists at h
    rw [if_neg (by simp [hnil])] at h
    cases hm : mongoSchemaFromFieldsAndClassNameAndCLP fields className clp with
    | error e => rw [hm] at h; cases h
    | ok mo =>
      rw [hm] at h
      dsimp only at h
      refine ⟨mo, rfl, ?_⟩
      cases hw : (st.addSchema s.collection className
        (utils.MapInterface (M.get mo "result"))).1 with
      | some e => rw [hw] at h; cases h
      | none =>
        rw [hw] at h
        injection h
  obtain ⟨mo, hmo, hres⟩ := hr
  unfold Schema.AddClassIfNotExists
  rw [hd, if_neg (by simp [hnil]), hmo]
  dsimp only
  rw [hres]
  cases (st.addSchema s'.collection className r).1 <;> rfl

/-- C7, on the in-memory store: `AddClassIfNotExists("Book", nil, nil)` succeeds on
the empty database, and the second identical call fails in the store with its
duplicate-key error, not with `InvalidClassName`. -/
theorem AddClassIfNotExists_twice_witness :
    ((Schema.AddClassIfNotExists memStorage (Load memStorage emptyDB) "Book"
        none none).2.data = (Load memStorage emptyDB).data
      ∧ (M.get (Schema.AddClassIfNotExists memStorage (Load memStorage emptyDB) "Book"
          none none).2.data "Book").isNil = true
      ∧ (Schema.AddClassIfNotExists memStorage
          (Schema.AddClassIfNotExists memStorage (Load memStorage emptyDB) "Book"
            none none).2 "Book" none none).1
        = (match (memStorage.addSchema
              (Schema.AddClassIfNotExists memStorage (Load memStorage emptyDB) "Book"
                none none).2.collection "Book"
              (some [("_id", .str "Book"), ("objectId", .str "string"),
                ("updatedAt", .str "string"), ("createdAt", .str "string"),
                ("_metadata", .obj [])])).1 with
          | some e => .error e
          | none => .ok (some [("_id", .str "Book"), ("objectId", .str "string"),
                ("updatedAt", .str "string"), ("createdAt", .str "string"),
                ("_metadata", .obj [])])))
    ∧ (Schema.AddClassIfNotExists memStorage
          (Schema.AddClassIfNotExists memStorage (Load memStorage emptyDB) "Book"
            none none).2 "Book" none none).1 = .error (.storage "duplicate key") :=
  ⟨AddClassIfNotExists_twice MemDB memStorage (Load memStorage emptyDB) "Book" none none
      (some [("_id", .str "Book"), ("objectId", .str "string"),
        ("updatedAt", .str "string"), ("createdAt", .str "string"),
        ("_metadata", .obj [])]) (by decide),
    by decide⟩

/-- C8, the code on the claim's inputs: for a valid class name and a field map with
valid, non-default field names of which two or more have wire type `GeoPoint`,
`mongoSchemaFromFieldsAndClassNameAndCLP` returns `InvalidJSON`, not
`IncorrectType`. -/
theorem mongoSchema_two_geopoints (fields : M) (className : String) (clp : Option M)
    (hc : ClassNameIsValid className = true)
    (hn : ∀ e ∈ fields,
      fieldNameIsValid e.1 = true ∧ fieldNameIsValidForClass e.1 className = true)
    (hgeo : 2 ≤ (fields.filter (fun e =>
      decide (utils.String (nilGet (utils.MapInterface e.2) "type") = "GeoPoint"))).length) :
    mongoSchemaFromFieldsAndClassNameAndCLP (some fields) className clp
        = .error (.err .InvalidJSON)
    ∧ mongoSchemaFromFieldsAndClassNameAndCLP (some fields) className clp
        ≠ .error (.err .IncorrectType) := by
  have hne : fields ≠ [] := by
    intro h
    rw [h] at hgeo
    simp at hgeo
  have := mongoSchema_rejects_fields fields className clp hc hne (fun e he => (hn e he).2)
  rw [this]
  exact ⟨rfl, by decide⟩

/-- C8, at class `Place` with the two `GeoPoint` fields `home` and `work`. -/
theorem mongoSchema_two_geopoints_witness :
    mongoSchemaFromFieldsAndClassNameAndCLP
        (some [("home", apiT "GeoPoint"), ("work", apiT "GeoPoint")]) "Place" none
        = .error (.err .InvalidJSON)
    ∧ mongoSchemaFromFieldsAndClassNameAndCLP
        (some [("home", apiT "GeoPoint"), ("work", apiT "GeoPoint")]) "Place" none
        ≠ .error (.err .IncorrectType) :=
  mongoSchema_two_geopoints [("home", apiT "GeoPoint"), ("work", apiT "GeoPoint")]
    "Place" none (by decide) (by decide) (by decide)

/-! ## validateField and UpdateClass: proofs -/

/-- C9, the code on a registered field: for every class `C`, every field `f`
registered for `C` with a storage type and every proposed type `T'`, equal to the
registered type or not, `validateField(C, f, T', freeze)` returns `nil` and leaves
the schema and the database as they are; no type-conflict error is ever returned. -/
theorem validateField_registered (σ : Type) (st : Storage σ) (s : Schema σ)
    (C f T' : String) (freeze : Bool)
    (hdot : dotAfterStart f = false)
    (hreg : utils.String (nilGet (utils.MapInterface (M.get s.data C)) f) ≠ "") :
    Schema.validateField st s C f T' freeze = (none, s) := by
  unfold Schema.validateField Schema.validateFieldBody transformKey
  simp only [hdot, Bool.false_eq_true, if_false]
  rw [if_pos hreg]
  split_ifs <;> rfl

/-- C9, at class `Book` whose field `title` is registered as `string`: the
proposed type `number` differs from the registered one and `validateField` returns
`nil`. -/
theorem validateField_registered_witness :
    utils.String (nilGet (utils.MapInterface (M.get (Load memStorage titleDB).data "Book"))
        "title") = "string"
    ∧ "number" ≠ "string"
    ∧ Schema.validateField memStorage (Load memStorage titleDB) "Book" "title" "number"
        false = (none, Load memStorage titleDB) :=
  ⟨by decide, by decide,
    validateField_registered MemDB memStorage (Load memStorage titleDB) "Book" "title"
      "number" false (by decide) (by decide)⟩

theorem get_set_ne (m : M) (k k' : String) (v : Value) (h : k' ≠ k) :
    M.get (M.set m k v) k' = M.get m k' := by
  unfold M.get
  congr 1
  induction m with
  | nil => simp [M.set, M.find?, Ne.symm h]
  | cons e rest ih =>
    obtain ⟨k0, v0⟩ := e
    by_cases h0 : k0 = k
    · subst h0
      simp [M.set, M.find?, Ne.symm h]
    · by_cases h1 : k0 = k'
      · subst h1
        simp [M.set, M.find?, h0]
      · simp [M.set, M.find?, h0, h1, ih]

theorem checkSubmitted_cons (existingFields : M) (name : String) (v : Value) (rest : M) :
    checkSubmitted existingFields ((name, v) :: rest) =
      if !(M.get existingFields name).isNil
          && utils.String (nilGet (utils.MapInterface v) "__op") ≠ "Delete" then
        some (.err .ClassNotEmpty)
      else if (M.get existingFields name).isNil
          && utils.String (nilGet (utils.MapInterface v) "__op") = "Delete" then
        some (.err .ClassNotEmpty)
      else checkSubmitted existingFields rest := rfl

theorem checkSubmitted_violation (existingFields submitted : M)
    (h : ∃ e ∈ submitted,
      ((M.get existingFields e.1).isNil = true
          ∧ utils.String (nilGet (utils.MapInterface e.2) "__op") = "Delete")
        ∨ ((M.get existingFields e.1).isNil = false
          ∧ utils.String (nilGet (utils.MapInterface e.2) "__op") ≠ "Delete")) :
    checkSubmitted existingFields submitted = some (.err .ClassNotEmpty) := by
  induction submitted with
  | nil => obtain ⟨e, he, -⟩ := h; cases he
  | cons x rest ih =>
    obtain ⟨name, v⟩ := x
    rw [checkSubmitted_cons]
    by_cases c1 : (!(M.get existingFields name).isNil
        && utils.String (nilGet (utils.MapInterface v) "__op") ≠ "Delete") = true
    · rw [if_pos c1]
    · rw [if_neg c1]
      by_cases c2 : ((M.get existingFields name).isNil
          && utils.String (nilGet (utils.MapInterface v) "__op") = "Delete") = true
      · rw [if_pos c2]
      · rw [if_neg c2]
        apply ih
        obtain ⟨e, he, hv⟩ := h
        rcases List.mem_cons.1 he with rfl | he'
        · exfalso
          rcases hv with ⟨a, b⟩ | ⟨a, b⟩
          · exact c2 (by simp [a, b])
          · exact c1 (by simp [a, b])
        · exact ⟨e, he', hv⟩

/-- C10 as amended: `UpdateClass` on a class that is not in the registry returns
`InvalidClassName`; on a registered class, if some submitted field other than `_id`
has `__op` `Delete` and is not registered for the class, or has any other op (or
none) and is registered, it returns `ClassNotEmpty`; in both cases the schema and
the database are left as they are. -/
theorem UpdateClass_lifecycle (σ : Type) (st : Storage σ) (s : Schema σ)
    (className : String) (submittedFields clp : Option M) :
    ((M.get s.data className).isNil = true →
      Schema.UpdateClass st s className submittedFields clp
        = (.error (.err .InvalidClassName), s))
    ∧ ((M.get s.data className).isNil = false →
      (∃ e ∈ nilEntries submittedFields, e.1 ≠ "_id" ∧
        (((nilGet (utils.MapInterface (M.get s.data className)) e.1).isNil = true
            ∧ utils.String (nilGet (utils.MapInterface e.2) "__op") = "Delete")
          ∨ ((nilGet (utils.MapInterface (M.get s.data className)) e.1).isNil = false
            ∧ utils.String (nilGet (utils.MapInterface e.2) "__op") ≠ "Delete"))) →
      Schema.UpdateClass st s className submittedFields clp
        = (.error (.err .ClassNotEmpty), s)) := by
  constructor
  · intro hnil
    unfold Schema.UpdateClass
    rw [if_pos hnil]
  · intro hreg hv
    unfold Schema.UpdateClass
    rw [if_neg (by simp [hreg])]
    dsimp only
    have hget : ∀ name : String, name ≠ "_id" →
        M.get (M.set (utils.CopyMap (utils.MapInterface (M.get s.data className))) "_id"
          (.str className)) name
        = nilGet (utils.MapInterface (M.get s.data className)) name := by
      intro name hne
      rw [get_set_ne _ _ _ _ hne]
      cases utils.MapInterface (M.get s.data className) <;> rfl
    have hcheck := checkSubmitted_violation
      (M.set (utils.CopyMap (utils.MapInterface (M.get s.data className))) "_id"
        (.str className)) (nilEntries submittedFields)
      (by
        obtain ⟨e, he, hne, hv⟩ := hv
        refine ⟨e, he, ?_⟩
        rw [hget e.1 hne]
        exact hv)
    rw [hcheck]

/-- C10 as amended, at a class that is not registered and at class `Book` with
field `title` registered: deleting the unregistered `pages` and retyping the
registered `title` both return `ClassNotEmpty`. -/
theorem UpdateClass_lifecycle_witness :
    Schema.UpdateClass memStorage (Load memStorage titleDB) "Film" none none
        = (.error (.err .InvalidClassName), Load memStorage titleDB)
    ∧ Schema.UpdateClass memStorage (Load memStorage titleDB) "Book"
        (some [("pages", .obj [("__op", .str "Delete")])]) none
        = (.error (.err .ClassNotEmpty), Load memStorage titleDB)
    ∧ Schema.UpdateClass memStorage (Load memStorage titleDB) "Book"
        (some [("title", apiT "Number")]) none
        = (.error (.err .ClassNotEmpty), Load memStorage titleDB) :=
  ⟨(UpdateClass_lifecycle MemDB memStorage (Load memStorage titleDB) "Film" none none).1
      (by decide),
    (UpdateClass_lifecycle MemDB memStorage (Load memStorage titleDB) "Book"
      (some [("pages", .obj [("__op", .str "Delete")])]) none).2 (by decide)
      ⟨("pages", .obj [("__op", .str "Delete")]), by decide, by decide,
        Or.inl ⟨by decide, by decide⟩⟩,
    (UpdateClass_lifecycle MemDB memStorage (Load memStorage titleDB) "Book"
      (some [("title", apiT "Number")]) none).2 (by decide)
      ⟨("title", apiT "Number"), by decide, by decide,
        Or.inr ⟨by decide, by decide⟩⟩⟩

/-- C10 as stated fails: in class `Book` the name `_id` is not registered, the
submitted field `_id` has `__op` `Delete`, and `UpdateClass` returns
`InvalidKeyName`, not `ClassNotEmpty`. -/
theorem UpdateClass_delete_id_counterexample :
    (M.get (Load memStorage bareDB).data "Book").isNil = false
    ∧ (nilGet (utils.MapInterface (M.get (Load memStorage bareDB).data "Book"))
        "_id").isNil = true
    ∧ (Schema.UpdateClass memStorage (Load memStorage bareDB) "Book"
        (some [("_id", .obj [("__op", .str "Delete")])]) none).1
        = .error (.err .InvalidKeyName)
    ∧ (Schema.UpdateClass memStorage (Load memStorage bareDB) "Book"
        (some [("_id", .obj [("__op", .str "Delete")])]) none).1
        ≠ .error (.err .ClassNotEmpty) := by
  decide

/-! ## deleteField: proofs -/

theorem reloadData_collection {σ : Type} (st : Storage σ) (s : Schema σ) :
    (Schema.reloadData st s).collection = s.collection := by
  unfold Schema.reloadData
  cases st.GetAllSchemas s.collection <;> rfl

theorem reloadData_congr {σ : Type} (st : Storage σ) (s s' : Schema σ)
    (h : s.collection = s'.collection) :
    Schema.reloadData st s = Schema.reloadData st s' := by
  unfold Schema.reloadData
  rw [h]

theorem reloadData_idem {σ : Type} (st : Storage σ) (s : Schema σ) :
    Schema.reloadData st (Schema.reloadData st s) = Schema.reloadData st s :=
  reloadData_congr st _ _ (reloadData_collection st s)

theorem hasClass_eq {σ : Type} (st : Storage σ) (s : Schema σ) (className : String) :
    Schema.hasClass st (Schema.reloadData st s) className
      = (!(M.get (Schema.reloadData st s).data className).isNil, Schema.reloadData st s) := by
  unfold Schema.hasClass
  rw [reloadData_idem]

/-- The checks of `deleteField`, in the order it makes them, with the rest of the
method after them. -/
theorem deleteField_after_checks {σ : Type} (st : Storage σ) (s : Schema σ)
    (fieldName className : String)
    (h1 : ClassNameIsValid className = true)
    (h3 : fieldNameIsValidForClass fieldName className = true)
    (h4 : (M.get (Schema.reloadData st s).data className).isNil = false) :
    Schema.deleteField st s fieldName className =
      if (nilGet (utils.MapInterface (M.get (Schema.reloadData st s).data className))
          fieldName).isNil then
        (some (.err .ClassNotEmpty), Schema.reloadData st s)
      else
        let name := utils.String
          (nilGet (utils.MapInterface (M.get (Schema.reloadData st s).data className))
            fieldName)
        let dataStep : Error × σ :=
          if "relation<".toList.isPrefixOf name.toList then
            st.DropCollection s.collection ("_Join:" ++ fieldName ++ ":" ++ className)
          else
            st.UpdateMany s.collection className []
              [("$unset", .obj [(if "*".toList.isPrefixOf name.toList
                then "_p_" ++ fieldName else fieldName, .null)])]
        match dataStep.1 with
        | some e => (some e, { Schema.reloadData st s with collection := dataStep.2 })
        | none =>
          ((st.updateSchema dataStep.2 className
              [("$unset", .obj [(fieldName, .null)])]).1,
            { Schema.reloadData st s with
              collection := (st.updateSchema dataStep.2 className
                [("$unset", .obj [(fieldName, .null)])]).2 }) := by
  have h2 := fieldNameIsValid_of_forClass _ _ h3
  unfold Schema.deleteField
  rw [if_neg (by simp [h1]), if_neg (by simp [h2]), if_neg (by simp [h3])]
  simp only [hasClass_eq, h4, Bool.not_false, Bool.true_eq_false, if_false,
    reloadData_collection]

theorem deleteField_invalid_class {σ : Type} (st : Storage σ) (s : Schema σ)
    (fieldName className : String) (h : ClassNameIsValid className = false) :
    Schema.deleteField st s fieldName className = (some (.err .InvalidClassName), s) := by
  unfold Schema.deleteField
  rw [if_pos h]

theorem deleteField_absent_class {σ : Type} (st : Storage σ) (s : Schema σ)
    (fieldName className : String)
    (h1 : ClassNameIsValid className = true)
    (h3 : fieldNameIsValidForClass fieldName className = true)
    (h4 : (M.get (Schema.reloadData st s).data className).isNil = true) :
    (Schema.deleteField st s fieldName className).1 = some (.err .InvalidClassName)
      ∧ (Schema.deleteField st s fieldName className).2.collection = s.collection := by
  have h2 := fieldNameIsValid_of_forClass _ _ h3
  unfold Schema.deleteField
  rw [if_neg (by simp [h1]), if_neg (by simp [h2]), if_neg (by simp [h3])]
  simp only [hasClass_eq, h4, Bool.not_true, if_true, reloadData_collection, and_self]

/-- C12: `deleteField` rejects before writing.  An invalid class name gives
`InvalidClassName`; with a valid class name an invalid field name gives
`InvalidKeyName`; with valid names a field that is a universal default column or a
default column of the class gives `ChangedImmutableFieldError`; after these checks
a class absent from the reloaded registry gives `InvalidClassName` and a field
absent from an existing class gives `ClassNotEmpty`.  In each case the database is
what it was before the call. -/
theorem deleteField_rejects (σ : Type) (st : Storage σ) (s : Schema σ)
    (fieldName className : String) :
    (ClassNameIsValid className = false →
      Schema.deleteField st s fieldName className = (some (.err .InvalidClassName), s))
    ∧ (ClassNameIsValid className = true → fieldNameIsValid fieldName = false →
      Schema.deleteField st s fieldName className = (some (.err .InvalidKeyName), s))
    ∧ (ClassNameIsValid className = true → fieldNameIsValid fieldName = true →
      ((nilGet (defaultColumnsOf "_Default") fieldName).isNil = false
        ∨ (nilGet (defaultColumnsOf className) fieldName).isNil = false) →
      Schema.deleteField st s fieldName className
        = (some (.err .ChangedImmutableFieldError), s))
    ∧ (ClassNameIsValid className = true →
      fieldNameIsValidForClass fieldName className = true →
      (M.get (Schema.reloadData st s).data className).isNil = true →
      (Schema.deleteField st s fieldName className).1 = some (.err .InvalidClassName)
        ∧ (Schema.deleteField st s fieldName className).2.collection = s.collection)
    ∧ (ClassNameIsValid className = true →
      fieldNameIsValidForClass fieldName className = true →
      (M.get (Schema.reloadData st s).data className).isNil = false →
      (nilGet (utils.MapInterface (M.get (Schema.reloadData st s).data className))
        fieldName).isNil = true →
      (Schema.deleteField st s fieldName className).1 = some (.err .ClassNotEmpty)
        ∧ (Schema.deleteField st s fieldName className).2.collection = s.collection) := by
  refine ⟨?_, ?_, ?_, ?_, ?_⟩
  · exact deleteField_invalid_class st s fieldName className
  · intro h1 h2
    unfold Schema.deleteField
    rw [if_neg (by simp [h1]), if_pos h2]
  · intro h1 h2 h3
    have hf : fieldNameIsValidForClass fieldName className = false := by
      unfold fieldNameIsValidForClass
      rw [if_neg (by simp [h2])]
      rcases h3 with h3 | h3
      · rw [if_pos (by simp [h3])]
      · by_cases hd : (!(nilGet (defaultColumnsOf "_Default") fieldName).isNil) = true
        · rw [if_pos hd]
        · rw [if_neg hd, if_pos]
          cases hc : defaultColumnsOf className with
          | none => rw [hc] at h3; cases h3
          | some cols => rw [hc] at h3; simp [h3]
    unfold Schema.deleteField
    rw [if_neg (by simp [h1]), if_neg (by simp [h2]), if_pos hf]
  · exact deleteField_absent_class st s fieldName className
  · intro h1 h3 h4 h5
    rw [deleteField_after_checks st s fieldName className h1 h3 h4, if_pos h5]
    exact ⟨rfl, reloadData_collection st s⟩

/-- C12, at the class `Book` of `titleDB`: the class name `9x`, the field names
`_x`, `objectId` and `pages`, and the unregistered class `Film` are rejected. -/
theorem deleteField_rejects_witness :
    Schema.deleteField memStorage (Load memStorage titleDB) "title" "9x"
        = (some (.err .InvalidClassName), Load memStorage titleDB)
    ∧ Schema.deleteField memStorage (Load memStorage titleDB) "_x" "Book"
        = (some (.err .InvalidKeyName), Load memStorage titleDB)
    ∧ Schema.deleteField memStorage (Load memStorage titleDB) "objectId" "Book"
        = (some (.err .ChangedImmutableFieldError), Load memStorage titleDB)
    ∧ ((Schema.deleteField memStorage (Load memStorage titleDB) "title" "Film").1
          = some (.err .InvalidClassName)
        ∧ (Schema.deleteField memStorage (Load memStorage titleDB) "title" "Film").2.collection
          = (Load memStorage titleDB).collection)
    ∧ ((Schema.deleteField memStorage (Load memStorage titleDB) "pages" "Book").1
          = some (.err .ClassNotEmpty)
        ∧ (Schema.deleteField memStorage (Load memStorage titleDB) "pages" "Book").2.collection
          = (Load memStorage titleDB).collection) :=
  ⟨(deleteField_rejects MemDB memStorage (Load memStorage titleDB) "title" "9x").1
      (by decide),
    (deleteField_rejects MemDB memStorage (Load memStorage titleDB) "_x" "Book").2.1
      (by decide) (by decide),
    (deleteField_rejects MemDB memStorage (Load memStorage titleDB) "objectId" "Book").2.2.1
      (by decide) (by decide) (Or.inl (by decide)),
    (deleteField_rejects MemDB memStorage (Load memStorage titleDB) "title" "Film").2.2.2.1
      (by decide) (by decide) (by decide),
    (deleteField_rejects MemDB memStorage (Load memStorage titleDB) "pages" "Book").2.2.2.2
      (by decide) (by decide) (by decide) (by decide)⟩

/-- C13: the effects of `deleteField` on an existing class `C` and a registered
field `f` that pass validation.  If the stored type of `f` starts with `relation<`,
the only data step is `DropCollection("_Join:<f>:<C>")` and no `UpdateMany` is
issued; otherwise the only data step is `UpdateMany` on `C` with the empty query
and `$unset` of the column `_p_<f>` (stored type starting with `*`) or `<f>`.  When
the data step fails its error is returned and nothing else is written; when it
succeeds the only further write is `updateSchema(C, {$unset: {f: nil}})`, whose
result is returned. -/
theorem deleteField_effects (σ : Type) (st : Storage σ) (s : Schema σ)
    (f C : String)
    (h1 : ClassNameIsValid C = true)
    (h3 : fieldNameIsValidForClass f C = true)
    (h4 : (M.get (Schema.reloadData st s).data C).isNil = false)
    (h5 : (nilGet (utils.MapInterface (M.get (Schema.reloadData st s).data C)) f).isNil
      = false) :
    ("relation<".toList.isPrefixOf (utils.String
        (nilGet (utils.MapInterface (M.get (Schema.reloadData st s).data C)) f)).toList
        = true →
      ((st.DropCollection s.collection ("_Join:" ++ f ++ ":" ++ C)).1 ≠ none →
        (Schema.deleteField st s f C).1
            = (st.DropCollection s.collection ("_Join:" ++ f ++ ":" ++ C)).1
          ∧ (Schema.deleteField st s f C).2.collection
            = (st.DropCollection s.collection ("_Join:" ++ f ++ ":" ++ C)).2)
      ∧ ((st.DropCollection s.collection ("_Join:" ++ f ++ ":" ++ C)).1 = none →
        (Schema.deleteField st s f C).1
            = (st.updateSchema
                (st.DropCollection s.collection ("_Join:" ++ f ++ ":" ++ C)).2 C
                [("$unset", .obj [(f, .null)])]).1
          ∧ (Schema.deleteField st s f C).2.collection
            = (st.updateSchema
                (st.DropCollection s.collection ("_Join:" ++ f ++ ":" ++ C)).2 C
                [("$unset", .obj [(f, .null)])]).2))
    ∧ ("relation<".toList.isPrefixOf (utils.String
        (nilGet (utils.MapInterface (M.get (Schema.reloadData st s).data C)) f)).toList
        = false →
      ∀ column : String,
        column = (if "*".toList.isPrefixOf (utils.String
            (nilGet (utils.MapInterface (M.get (Schema.reloadData st s).data C))
              f)).toList = true
          then "_p_" ++ f else f) →
      ((st.UpdateMany s.collection C [] [("$unset", .obj [(column, .null)])]).1 ≠ none →
        (Schema.deleteField st s f C).1
            = (st.UpdateMany s.collection C [] [("$unset", .obj [(column, .null)])]).1
          ∧ (Schema.deleteField st s f C).2.collection
            = (st.UpdateMany s.collection C [] [("$unset", .obj [(column, .null)])]).2)
      ∧ ((st.UpdateMany s.collection C [] [("$unset", .obj [(column, .null)])]).1 = none →
        (Schema.deleteField st s f C).1
            = (st.updateSchema
                (st.UpdateMany s.collection C [] [("$unset", .obj [(column, .null)])]).2 C
                [("$unset", .obj [(f, .null)])]).1
          ∧ (Schema.deleteField st s f C).2.collection
            = (st.updateSchema
                (st.UpdateMany s.collection C [] [("$unset", .obj [(column, .null)])]).2 C
                [("$unset", .obj [(f, .null)])]).2)) := by
  rw [deleteField_after_checks st s f C h1 h3 h4, if_neg (by simp [h5])]
  dsimp only
  constructor
  · intro hrel
    rw [if_pos hrel]
    constructor
    · intro hfail
      cases hd : (st.DropCollection s.collection ("_Join:" ++ f ++ ":" ++ C)).1 with
      | none => exact absurd hd hfail
      | some e => exact ⟨rfl, rfl⟩
    · intro hok
      rw [hok]
      exact ⟨rfl, rfl⟩
  · intro hrel column hcol
    rw [if_neg (by rw [hrel]; decide), ← hcol]
    constructor
    · intro hfail
      cases hd : (st.UpdateMany s.collection C [] [("$unset", .obj [(column, .null)])]).1 with
      | none => exact absurd hd hfail
      | some e => exact ⟨rfl, rfl⟩
    · intro hok
      rw [hok]
      exact ⟨rfl, rfl⟩

/-- C13, on the in-memory store: deleting the relation field `authors` of `Book`
drops the collection `_Join:authors:Book` and leaves the rows of `Book`; deleting
the pointer field `cover` unsets `_p_cover` on the rows of `Book`; in both cases
only the deleted entry leaves the schema row. -/
theorem deleteField_effects_witness :
    (Schema.deleteField memStorage (Load memStorage libraryDB) "authors" "Book").2.collection
      = { schemas :=
            [[("_id", .str "Book"), ("cover", .str "*Image"), ("title", .str "string")]],
          collections :=
            [("Book", [[("_id", .str "b1"), ("_p_cover", .str "Image$i1"),
              ("title", .str "Dune")]])] }
    ∧ (Schema.deleteField memStorage (Load memStorage libraryDB) "cover" "Book").2.collection
      = { schemas :=
            [[("_id", .str "Book"), ("authors", .str "relation<Author>"),
              ("title", .str "string")]],
          collections :=
            [("Book", [[("_id", .str "b1"), ("title", .str "Dune")]]),
             ("_Join:authors:Book",
              [[("owningId", .str "b1"), ("relatedId", .str "a1")]])] } :=
  ⟨((((deleteField_effects MemDB memStorage (Load memStorage libraryDB) "authors" "Book"
        (by decide) (by decide) (by decide) (by decide)).1 (by decide)).2
        (by decide)).2).trans (by decide),
    (((((deleteField_effects MemDB memStorage (Load memStorage libraryDB) "cover" "Book"
        (by decide) (by decide) (by decide) (by decide)).2 (by decide)) "_p_cover"
        (by decide)).2 (by decide)).2).trans (by decide)⟩

/-! ## UpdateClass and the persisted store -/

theorem deleteField_code_keeps_store {σ : Type} (st : Storage σ) (hst : st.OwnFaults)
    (s : Schema σ) (f C : String) (code : ErrCode)
    (h : (Schema.deleteField st s f C).1 = some (.err code)) :
    (Schema.deleteField st s f C).2.collection = s.collection := by
  by_cases h1 : ClassNameIsValid C = true
  · by_cases h3 : fieldNameIsValidForClass f C = true
    · by_cases h4 : (M.get (Schema.reloadData st s).data C).isNil = true
      · exact (deleteField_absent_class st s f C h1 h3 h4).2
      · have h4' : (M.get (Schema.reloadData st s).data C).isNil = false := by
          simpa using h4
        rw [deleteField_after_checks st s f C h1 h3 h4'] at h ⊢
        by_cases h5 : (nilGet (utils.MapInterface (M.get (Schema.reloadData st s).data C))
            f).isNil = true
        · rw [if_pos h5]
          exact reloadData_collection st s
        · exfalso
          rw [if_neg h5] at h
          dsimp only at h
          by_cases hrel : "relation<".toList.isPrefixOf (utils.String
              (nilGet (utils.MapInterface (M.get (Schema.reloadData st s).data C))
                f)).toList = true
          · rw [if_pos hrel] at h
            cases hd : (st.DropCollection s.collection ("_Join:" ++ f ++ ":" ++ C)).1 with
            | some e =>
              rw [hd] at h
              exact (hst s.collection code).2.1 _ (hd.trans h)
            | none =>
              rw [hd] at h
              exact (hst _ code).1 _ _ h
          · rw [if_neg hrel] at h
            cases hd : (st.UpdateMany s.collection C []
                [("$unset", .obj [(if "*".toList.isPrefixOf (utils.String
                  (nilGet (utils.MapInterface (M.get (Schema.reloadData st s).data C))
                    f)).toList = true then "_p_" ++ f else f, .null)])]).1 with
            | some e =>
              rw [hd] at h
              exact (hst s.collection code).2.2 _ _ _ (hd.trans h)
            | none =>
              rw [hd] at h
              exact (hst _ code).1 _ _ h
    · have h3' : fieldNameIsValidForClass f C = false := by simpa using h3
      unfold Schema.deleteField
      rw [if_neg (by simp [h1])]
      by_cases h2 : fieldNameIsValid f = false
      · rw [if_pos h2]
      · rw [if_neg h2, if_pos h3']
  · have h1' : ClassNameIsValid C = false := by simpa using h1
    rw [deleteField_invalid_class st s f C h1']

theorem deleteSubmitted_cons {σ : Type} (st : Storage σ) (className name : String)
    (v : Value) (rest : M) (insertedFields : List String) (s : Schema σ) :
    deleteSubmitted st className ((name, v) :: rest) insertedFields s =
      if utils.String (nilGet (utils.MapInterface v) "__op") = "Delete" then
        match (Schema.deleteField st s name className).1 with
        | some e => (.error e, (Schema.deleteField st s name className).2)
        | none =>
          deleteSubmitted st className rest insertedFields
            (Schema.deleteField st s name className).2
      else deleteSubmitted st className rest (insertedFields ++ [name]) s := rfl

theorem deleteSubmitted_reached {σ : Type} (st : Storage σ) (hst : st.OwnFaults)
    (className : String) (entries : M) (insertedFields : List String) (s : Schema σ) :
    (∃ (pre : M) (e : String × Value) (post : M) (ins : List String),
        entries = pre ++ e :: post
        ∧ utils.String (nilGet (utils.MapInterface e.2) "__op") = "Delete"
        ∧ (deleteSubmitted st className pre insertedFields s).1 = .ok ins
        ∧ (Schema.deleteField st (deleteSubmitted st className pre insertedFields s).2
            e.1 className).1 = none)
    ∨ ((∀ f, (deleteSubmitted st className entries insertedFields s).1 = .error f →
          ∃ code, f = .err code) →
        (deleteSubmitted st className entries insertedFields s).2.collection
          = s.collection) := by
  induction entries generalizing insertedFields with
  | nil => exact Or.inr (fun _ => rfl)
  | cons x rest ih =>
    obtain ⟨name, v⟩ := x
    rw [deleteSubmitted_cons]
    by_cases hop : utils.String (nilGet (utils.MapInterface v) "__op") = "Delete"
    · rw [if_pos hop]
      cases hd : (Schema.deleteField st s name className).1 with
      | none => exact Or.inl ⟨[], (name, v), rest, insertedFields, rfl, hop, rfl, hd⟩
      | some e =>
        refine Or.inr (fun hgood => ?_)
        obtain ⟨code, hcode⟩ := hgood e rfl
        exact deleteField_code_keeps_store st hst s name className code (by rw [hd, hcode])
    · rw [if_neg hop]
      rcases ih (insertedFields ++ [name]) with ⟨pre, e, post, ins, h1, h2, h3, h4⟩ | h
      · refine Or.inl ⟨(name, v) :: pre, e, post, ins, by rw [h1]; rfl, h2, ?_, ?_⟩
        · rw [deleteSubmitted_cons, if_neg hop]; exact h3
        · rw [deleteSubmitted_cons, if_neg hop]; exact h4
      · exact Or.inr h

theorem ok_else_error {α : Type} (c : Prop) [Decidable c] (a : α) (e : Except Fault α)
    (f : Fault) (h : (if c then Except.ok a else e) = .error f) : e = .error f := by
  by_cases hc : c
  · rw [if_pos hc] at h; cases h
  · rw [if_neg hc] at h; exact h

theorem mongoFieldTypeToSchemaAPIType_fault (t : String) (f : Fault)
    (h : mongoFieldTypeToSchemaAPIType t = .error f) : f = .panic := by
  unfold mongoFieldTypeToSchemaAPIType at h
  cases hl : t.toList with
  | nil =>
    rw [hl] at h
    injection h with h
    exact h.symm
  | cons c rest =>
    rw [hl] at h
    dsimp only at h
    have h1 := ok_else_error _ _ _ _ h
    by_cases hp : "relation<".toList.isPrefixOf (c :: rest) = true
    · rw [if_pos hp] at h1
      by_cases hlen : t.length - 1 < "relation<".length
      · rw [if_pos hlen] at h1
        injection h1 with h1
        exact h1.symm
      · rw [if_neg hlen] at h1
        cases h1
    · rw [if_neg hp] at h1
      have h2 := ok_else_error _ _ _ _ (ok_else_error _ _ _ _ (ok_else_error _ _ _ _
        (ok_else_error _ _ _ _ (ok_else_error _ _ _ _ (ok_else_error _ _ _ _
        (ok_else_error _ _ _ _ (ok_else_error _ _ _ _ (ok_else_error _ _ _ _ h1))))))))
      cases h2

theorem convertFields_fault (schema : M) (names : List String) (response : M) (f : Fault)
    (h : convertFields schema names response = .error f) : f = .panic := by
  induction names generalizing response with
  | nil => cases h
  | cons v rest ih =>
    have hstep : convertFields schema (v :: rest) response =
        match mongoFieldTypeToSchemaAPIType (utils.String (M.get schema v)) with
        | .error e => .error e
        | .ok t => convertFields schema rest (M.set response v (.obj t)) := rfl
    rw [hstep] at h
    cases ht : mongoFieldTypeToSchemaAPIType (utils.String (M.get schema v)) with
    | error e =>
      rw [ht] at h
      injection h with h
      subst h
      exact mongoFieldTypeToSchemaAPIType_fault _ _ ht
    | ok t =>
      rw [ht] at h
      exact ih _ h

theorem MongoSchemaToSchemaAPIResponse_fault (schema : Option M) (f : Fault)
    (h : MongoSchemaToSchemaAPIResponse schema = .error f) : f = .panic := by
  unfold MongoSchemaToSchemaAPIResponse mongoSchemaAPIResponseFields at h
  dsimp only at h
  cases hc : convertFields (nilEntries schema)
      (List.filter (fun k => !nonFieldSchemaKeys.contains k)
        (List.map Prod.fst (nilEntries schema))) [] with
  | error e =>
    rw [hc] at h
    injection h with h
    subst h
    exact convertFields_fault _ _ _ _ hc
  | ok r =>
    rw [hc] at h
    cases h

theorem validateFieldBody_fst {σ : Type} (st : Storage σ)
    (self : Schema σ → String → String → String → Bool → Error × Schema σ)
    (s : Schema σ) (C f T : String) (freeze : Bool) :
    (Schema.validateFieldBody st self s C f T freeze).1 = none := by
  unfold Schema.validateFieldBody
  simp only [apply_ite Prod.fst, ite_self]

theorem validateField_fst {σ : Type} (st : Storage σ) (s : Schema σ)
    (C f T : String) (freeze : Bool) :
    (Schema.validateField st s C f T freeze).1 = none :=
  validateFieldBody_fst st _ s C f T freeze

theorem validateInserted_fst {σ : Type} (st : Storage σ) (className : String)
    (mongoResult : Option M) (names : List String) (s : Schema σ) :
    (validateInserted st className mongoResult names s).1 = none := by
  induction names generalizing s with
  | nil => rfl
  | cons n rest ih =>
    have hstep : validateInserted st className mongoResult (n :: rest) s =
        match (Schema.validateField st s className n
            (utils.String (nilGet mongoResult n)) false).1 with
        | some e => (some e, (Schema.validateField st s className n
            (utils.String (nilGet mongoResult n)) false).2)
        | none => validateInserted st className mongoResult rest
            (Schema.validateField st s className n
              (utils.String (nilGet mongoResult n)) false).2 := rfl
    rw [hstep, validateField_fst]
    exact ih _

/-- C11 as amended: when the errors of the storage collaborator are its own and
`UpdateClass` returns an error of a validation check, the database is what it was
before the call, unless the deletion loop of this very call has made a `deleteField`
call that succeeded: the checks made up front have passed, the submitted fields are
`pre`, then a field `e` with `__op` `Delete`, then `post`, the loop has gone through
`pre` without an error, and `deleteField` for `e` in the state the loop has reached
there returns no error. -/
theorem UpdateClass_atomic (σ : Type) (st : Storage σ) (hst : st.OwnFaults)
    (s : Schema σ) (className : String) (submittedFields clp : Option M)
    (code : ErrCode)
    (h : (Schema.UpdateClass st s className submittedFields clp).1 = .error (.err code)) :
    (Schema.UpdateClass st s className submittedFields clp).2.collection = s.collection
    ∨ ∃ (pre : M) (e : String × Value) (post : M) (ins : List String)
        (newSchema mongoObject : M),
        (M.get s.data className).isNil = false
        ∧ checkSubmitted (M.set (utils.CopyMap (utils.MapInterface
            (M.get s.data className))) "_id" (.str className))
            (nilEntries submittedFields) = none
        ∧ buildMergedSchemaObject (M.set (utils.CopyMap (utils.MapInterface
            (M.get s.data className))) "_id" (.str className)) submittedFields
            = .ok newSchema
        ∧ mongoSchemaFromFieldsAndClassNameAndCLP (some newSchema) className clp
            = .ok mongoObject
        ∧ nilEntries submittedFields = pre ++ e :: post
        ∧ utils.String (nilGet (utils.MapInterface e.2) "__op") = "Delete"
        ∧ (deleteSubmitted st className pre [] s).1 = .ok ins
        ∧ (Schema.deleteField st (deleteSubmitted st className pre [] s).2
            e.1 className).1 = none := by
  unfold Schema.UpdateClass at h ⊢
  by_cases h0 : (M.get s.data className).isNil = true
  · rw [if_pos h0]; exact Or.inl rfl
  rw [if_neg h0] at h ⊢
  dsimp only at h ⊢
  cases hc : checkSubmitted (M.set (utils.CopyMap (utils.MapInterface
      (M.get s.data className))) "_id" (.str className)) (nilEntries submittedFields) with
  | some e => exact Or.inl rfl
  | none =>
    rw [hc] at h
    dsimp only at h ⊢
    cases hb : buildMergedSchemaObject (M.set (utils.CopyMap (utils.MapInterface
        (M.get s.data className))) "_id" (.str className)) submittedFields with
    | error e => exact Or.inl rfl
    | ok newSchema =>
      rw [hb] at h
      dsimp only at h ⊢
      cases hm : mongoSchemaFromFieldsAndClassNameAndCLP (some newSchema) className clp with
      | error e => exact Or.inl rfl
      | ok mongoObject =>
        rw [hm] at h
        dsimp only at h ⊢
        rcases deleteSubmitted_reached st hst className (nilEntries submittedFields) [] s
          with ⟨pre, e, post, ins, h1, h2, h3, h4⟩ | hkeep
        · exact Or.inr ⟨pre, e, post, ins, newSchema, mongoObject, by simpa using h0,
            rfl, rfl, hm, h1, h2, h3, h4⟩
        · left
          cases hd : (deleteSubmitted st className (nilEntries submittedFields) [] s).1 with
          | error e =>
            rw [hd] at h
            dsimp only at h ⊢
            injection h with h
            exact hkeep (fun f hf => ⟨code, by
              rw [hd] at hf; injection hf with hf; rw [← hf, h]⟩)
          | ok insertedFields =>
            exfalso
            rw [hd] at h
            dsimp only at h
            rw [validateInserted_fst] at h
            dsimp only at h
            have hp : ∀ (x : Schema σ), (Schema.setPermissions st x className clp).1 = none :=
              fun _ => rfl
            rw [hp] at h
            dsimp only at h
            have := MongoSchemaToSchemaAPIResponse_fault _ _ h
            cases this

theorem memStorage_ownFaults : memStorage.OwnFaults := by
  intro db code
  refine ⟨?_, ?_, ?_⟩
  · intro n u h; cases h
  · intro n h; cases h
  · intro n q u h; cases h

/-- C11 as amended, at class `Book` of `shelfDB`: retyping the registered `title` is
refused with `ClassNotEmpty` by the check made up front, no `deleteField` call is
made, and the database is the one before the call. -/
theorem UpdateClass_atomic_witness :
    (Schema.UpdateClass memStorage (Load memStorage shelfDB) "Book"
        (some [("title", apiT "Number")]) none).1 = .error (.err .ClassNotEmpty)
    ∧ (Schema.UpdateClass memStorage (Load memStorage shelfDB) "Book"
        (some [("title", apiT "Number")]) none).2.collection
      = (Load memStorage shelfDB).collection :=
  ⟨by decide,
    (UpdateClass_atomic MemDB memStorage memStorage_ownFaults (Load memStorage shelfDB)
      "Book" (some [("title", apiT "Number")]) none .ClassNotEmpty
      (by decide)).resolve_right
      (fun ⟨_, _, _, _, _, _, _, hc, _⟩ => absurd hc (by decide))⟩

/-- C11 as stated fails: on class `Book` of `shelfDB`, `UpdateClass` with `Delete`
for `title` and then for the default column `objectId` returns the validation error
`ChangedImmutableFieldError` of the second deletion after the first one has been
written: `title` is gone from the schema row and from the object row. -/
theorem UpdateClass_atomic_counterexample :
    (Schema.UpdateClass memStorage (Load memStorage shelfDB) "Book"
        (some [("title", .obj [("__op", .str "Delete")]),
          ("objectId", .obj [("__op", .str "Delete")])]) none).1
      = .error (.err .ChangedImmutableFieldError)
    ∧ (Schema.UpdateClass memStorage (Load memStorage shelfDB) "Book"
        (some [("title", .obj [("__op", .str "Delete")]),
          ("objectId", .obj [("__op", .str "Delete")])]) none).2.collection
      = { schemas :=
            [[("_id", .str "Book"), ("objectId", .str "string"),
              ("updatedAt", .str "string"), ("createdAt", .str "string")]],
          collections := [("Book", [[("_id", .str "b1")]])] }
    ∧ (Schema.UpdateClass memStorage (Load memStorage shelfDB) "Book"
        (some [("title", .obj [("__op", .str "Delete")]),
          ("objectId", .obj [("__op", .str "Delete")])]) none).2.collection
      ≠ (Load memStorage shelfDB).collection := by
  decide

/-! ## Type inference: proofs -/

theorem getObjectTypeFirst_cons (k : String) (v : Value) (tl : M) (key : String) :
    getObjectTypeFirst ((k, v) :: tl) key =
      if k = key then
        match v with
        | .arr (o :: _) => getObjectType o
        | _ => .error .panic
      else getObjectTypeFirst tl key := by
  cases v with
  | arr xs => cases xs <;> simp [getObjectTypeFirst]
  | _ => simp [getObjectTypeFirst]

theorem getObjectTypeFirst_eq (m : M) (key : String) (o : Value) (rest : List Value)
    (h : M.get m key = .arr (o :: rest)) :
    getObjectTypeFirst m key = getObjectType o := by
  induction m with
  | nil => simp [M.get, M.find?] at h
  | cons e tl ih =>
    obtain ⟨k, v⟩ := e
    by_cases hk : k = key
    · have hv : v = .arr (o :: rest) := by
        simpa [M.get, M.find?, hk] using h
      subst hv
      rw [getObjectTypeFirst_cons, if_pos hk]
    · have h' : M.get tl key = .arr (o :: rest) := by
        simpa [M.get, M.find?, hk] using h
      rw [getObjectTypeFirst_cons, if_neg hk]
      exact ih h'

theorem getObjectTypeAt_eq (m : M) (key : String) (h : (M.get m key).isNil = false) :
    getObjectTypeAt m key = getObjectType (M.get m key) := by
  induction m with
  | nil => simp [M.get, M.find?, Value.isNil] at h
  | cons e tl ih =>
    obtain ⟨k, v⟩ := e
    by_cases hk : k = key
    · rw [getObjectTypeAt, if_pos hk]
      simp [M.get, M.find?, hk]
    · have h' : (M.get tl key).isNil = false := by
        simpa [M.get, M.find?, hk] using h
      rw [getObjectTypeAt, if_neg hk, ih h']
      simp [M.get, M.find?, hk]

/-- The defining equation of `getObjectType` on a map. -/
theorem getObjectType_obj (object : M) :
    getObjectType (.obj object) =
      if !(M.get object "__type").isNil then
        if utils.String (M.get object "__type") = "Pointer" then
          if !(M.get object "className").isNil then
            .ok ("*" ++ utils.String (M.get object "className"))
          else getObjectType_rest object
        else if utils.String (M.get object "__type") = "File" then
          if !(M.get object "name").isNil then .ok "file" else getObjectType_rest object
        else if utils.String (M.get object "__type") = "Date" then
          if !(M.get object "iso").isNil then .ok "date" else getObjectType_rest object
        else if utils.String (M.get object "__type") = "GeoPoint" then
          if !(M.get object "latitude").isNil && !(M.get object "longitude").isNil then
            .ok "geopoint"
          else getObjectType_rest object
        else if utils.String (M.get object "__type") = "Bytes" then
          if !(M.get object "base64").isNil then .ok "bytes"
          else getObjectType_rest object
        else .ok ""
      else getObjectType_rest object := by
  rfl

/-- The function `getObjectType` on a map that has no `__type`. -/
theorem getObjectType_no_type (m : M) (ht : (M.get m "__type").isNil = true) :
    getObjectType (.obj m) =
      if !(M.get m "$ne").isNil then getObjectTypeAt m "$ne"
      else if !(M.get m "__op").isNil then
        if utils.String (M.get m "__op") = "Increment" then .ok "number"
        else if utils.String (M.get m "__op") = "Delete" then .ok ""
        else if utils.String (M.get m "__op") = "Add"
            ∨ utils.String (M.get m "__op") = "AddUnique"
            ∨ utils.String (M.get m "__op") = "Remove" then .ok "array"
        else if utils.String (M.get m "__op") = "AddRelation"
            ∨ utils.String (M.get m "__op") = "RemoveRelation" then
          match nilEntriesS (utils.SliceInterface (M.get m "objects")) with
          | [] => .error .panic
          | o :: _ =>
            .ok ("relation<" ++ utils.String (nilGet (utils.MapInterface o) "className")
              ++ ">")
        else if utils.String (M.get m "__op") = "Batch" then getObjectTypeFirst m "ops"
        else .ok ""
      else .ok "object" := by
  rw [getObjectType_obj, if_neg (by rw [ht]; decide)]
  rfl

/-- The function `getObjectType` on a map with an `__op` and neither `__type` nor
`$ne`. -/
theorem getObjectType_op (m : M) (op : String) (ht : (M.get m "__type").isNil = true)
    (hne : (M.get m "$ne").isNil = true) (hop : M.get m "__op" = .str op) :
    getObjectType (.obj m) =
      if op = "Increment" then .ok "number"
      else if op = "Delete" then .ok ""
      else if op = "Add" ∨ op = "AddUnique" ∨ op = "Remove" then .ok "array"
      else if op = "AddRelation" ∨ op = "RemoveRelation" then
        match nilEntriesS (utils.SliceInterface (M.get m "objects")) with
        | [] => .error .panic
        | o :: _ =>
          .ok ("relation<" ++ utils.String (nilGet (utils.MapInterface o) "className")
            ++ ">")
      else if op = "Batch" then getObjectTypeFirst m "ops"
      else .ok "" := by
  have hs : utils.String (M.get m "__op") = op := by rw [hop]; rfl
  rw [getObjectType_no_type m ht, if_neg (by rw [hne]; decide),
    if_pos (by rw [hop]; rfl)]
  simp only [hs]

/-- The function `getObjectType` on a map with a string `__type`. -/
theorem getObjectType_type (m : M) (t : String) (ht : M.get m "__type" = .str t)
    (field : String) (tok : String)
    (hmem : (t, field, tok) ∈ [("File", "name", "file"), ("Date", "iso", "date"),
      ("Bytes", "base64", "bytes")])
    (hf : (M.get m field).isNil = false) :
    getObjectType (.obj m) = .ok tok := by
  simp only [List.mem_cons, Prod.mk.injEq, List.mem_singleton, List.not_mem_nil,
    or_false] at hmem
  have hs : utils.String (M.get m "__type") = t := by rw [ht]; rfl
  rw [getObjectType_obj, if_pos (by rw [ht]; rfl), hs]
  rcases hmem with ⟨rfl, rfl, rfl⟩ | ⟨rfl, rfl, rfl⟩ | ⟨rfl, rfl, rfl⟩ <;>
    simp [hf]

/-- C15: `getType` on well-formed values.  Scalars: `bool` gives `boolean`,
`string` gives `string`, `float64` gives `number`; every list gives `array`.  A map
with `__type` `Pointer` and `className` `X` gives `*X`, `File` with `name` gives
`file`, `Date` with `iso` gives `date`, `GeoPoint` with `latitude` and `longitude`
gives `geopoint`, `Bytes` with `base64` gives `bytes`.  A map with an `__op` (and
neither `__type` nor `$ne`): `Increment` gives `number`, `Delete` gives `""`,
`Add`, `AddUnique`, `Remove` give `array`, `AddRelation` and `RemoveRelation` with
non-empty `objects` give `relation<className of the first object>`, `Batch` with
non-empty `ops` gives the type inferred for the first sub-operation.  A map with
none of `__type`, `$ne`, `__op` gives `object`.  None of these calls fails. -/
theorem getType_table :
    (∀ b, getType (.bool b) = .ok "boolean")
    ∧ (∀ s, getType (.str s) = .ok "string")
    ∧ (∀ n, getType (.num n) = .ok "number")
    ∧ (∀ xs, getType (.arr xs) = .ok "array")
    ∧ (∀ (m : M) (X : String), M.get m "__type" = .str "Pointer" →
        M.get m "className" = .str X → getType (.obj m) = .ok ("*" ++ X))
    ∧ (∀ m : M, M.get m "__type" = .str "File" → (M.get m "name").isNil = false →
        getType (.obj m) = .ok "file")
    ∧ (∀ m : M, M.get m "__type" = .str "Date" → (M.get m "iso").isNil = false →
        getType (.obj m) = .ok "date")
    ∧ (∀ m : M, M.get m "__type" = .str "GeoPoint" →
        (M.get m "latitude").isNil = false → (M.get m "longitude").isNil = false →
        getType (.obj m) = .ok "geopoint")
    ∧ (∀ m : M, M.get m "__type" = .str "Bytes" → (M.get m "base64").isNil = false →
        getType (.obj m) = .ok "bytes")
    ∧ (∀ m : M, (M.get m "__type").isNil = true → (M.get m "$ne").isNil = true →
        (M.get m "__op" = .str "Increment" → getType (.obj m) = .ok "number")
        ∧ (M.get m "__op" = .str "Delete" → getType (.obj m) = .ok "")
        ∧ (M.get m "__op" = .str "Add" ∨ M.get m "__op" = .str "AddUnique"
            ∨ M.get m "__op" = .str "Remove" → getType (.obj m) = .ok "array")
        ∧ (∀ (o : Value) (rest : List Value),
            M.get m "__op" = .str "AddRelation" ∨ M.get m "__op" = .str "RemoveRelation" →
            M.get m "objects" = .arr (o :: rest) →
            getType (.obj m) = .ok ("relation<"
              ++ utils.String (nilGet (utils.MapInterface o) "className") ++ ">"))
        ∧ (∀ (o : M) (rest : List Value), M.get m "__op" = .str "Batch" →
            M.get m "ops" = .arr (.obj o :: rest) →
            getType (.obj m) = getType (.obj o))
        ∧ ((M.get m "__op").isNil = true → getType (.obj m) = .ok "object")) := by
  refine ⟨fun _ => rfl, fun _ => rfl, fun _ => rfl, fun _ => rfl, ?_, ?_, ?_, ?_, ?_, ?_⟩
  · intro m X ht hc
    show getObjectType (.obj m) = _
    have hs : utils.String (M.get m "__type") = "Pointer" := by rw [ht]; rfl
    rw [getObjectType_obj, if_pos (by rw [ht]; rfl), if_pos hs,
      if_pos (by rw [hc]; rfl), hc]
    rfl
  · intro m ht hf
    exact getObjectType_type m _ ht "name" "file" (by simp) hf
  · intro m ht hf
    exact getObjectType_type m _ ht "iso" "date" (by simp) hf
  · intro m ht h1 h2
    show getObjectType (.obj m) = _
    have hs : utils.String (M.get m "__type") = "GeoPoint" := by rw [ht]; rfl
    rw [getObjectType_obj, if_pos (by rw [ht]; rfl), hs]
    simp [h1, h2]
  · intro m ht hf
    exact getObjectType_type m _ ht "base64" "bytes" (by simp) hf
  · intro m ht hne
    refine ⟨?_, ?_, ?_, ?_, ?_, ?_⟩
    · intro hop
      show getObjectType (.obj m) = _
      rw [getObjectType_op m _ ht hne hop]
      simp
    · intro hop
      show getObjectType (.obj m) = _
      rw [getObjectType_op m _ ht hne hop]
      simp
    · intro hop
      show getObjectType (.obj m) = _
      rcases hop with hop | hop | hop <;> rw [getObjectType_op m _ ht hne hop] <;> simp
    · intro o rest hop hobj
      show getObjectType (.obj m) = _
      rcases hop with hop | hop <;>
        rw [getObjectType_op m _ ht hne hop, hobj] <;>
        simp [utils.SliceInterface, nilEntriesS]
    · intro o rest hop hops
      show getObjectType (.obj m) = getObjectType (.obj o)
      rw [getObjectType_op m _ ht hne hop, getObjectTypeFirst_eq m "ops" _ rest hops]
      simp
    · intro hop
      show getObjectType (.obj m) = _
      rw [getObjectType_no_type m ht, if_neg (by rw [hne]; decide),
        if_neg (by rw [hop]; decide)]

/-- C15, at `{"__op": "Batch", "ops": [{"__op": "Increment", "amount": 1}]}` and at
`{"__op": "AddRelation", "objects": [{"__type": "Pointer", "className": "Author",
"objectId": "a1"}]}`. -/
theorem getType_table_witness :
    getType (.obj [("__op", .str "Batch"),
        ("ops", .arr [.obj [("__op", .str "Increment"), ("amount", .num 1)]])])
      = getType (.obj [("__op", .str "Increment"), ("amount", .num 1)])
    ∧ getType (.obj [("__op", .str "AddRelation"),
        ("objects", .arr [.obj [("__type", .str "Pointer"), ("className", .str "Author"),
          ("objectId", .str "a1")]])])
      = .ok "relation<Author>" :=
  ⟨(getType_table.2.2.2.2.2.2.2.2.2
      [("__op", .str "Batch"),
        ("ops", .arr [.obj [("__op", .str "Increment"), ("amount", .num 1)]])]
      (by decide) (by decide)).2.2.2.2.1
      [("__op", .str "Increment"), ("amount", .num 1)] [] (by decide) (by decide),
    ((getType_table.2.2.2.2.2.2.2.2.2
      [("__op", .str "AddRelation"),
        ("objects", .arr [.obj [("__type", .str "Pointer"), ("className", .str "Author"),
          ("objectId", .str "a1")]])]
      (by decide) (by decide)).2.2.2.1
      (.obj [("__type", .str "Pointer"), ("className", .str "Author"),
        ("objectId", .str "a1")]) [] (Or.inl (by decide)) (by decide)).trans
      (by decide)⟩

/-- C14, the code at failing inputs.  Creation: class `_Role` requires `name` and
`ACL`, the object `{}` has neither (both are in `missingColumns`), the query has no
`objectId`, and `validateObject` returns `nil`.  Update: the query has an
`objectId`, the object sets `name` to `{"__op": "Delete"}` (`name` is in
`missingColumns`), and `validateObject` returns `nil`. -/
theorem validateObject_ignores_required :
    requiredColumns.lookup "_Role" = some ["name", "ACL"]
    ∧ missingColumns ["name", "ACL"] (some []) none = ["name", "ACL"]
    ∧ (Schema.validateObject memStorage (Load memStorage emptyDB) "_Role"
        (some []) none).1 = none
    ∧ missingColumns ["name", "ACL"]
        (some [("name", .obj [("__op", .str "Delete")])])
        (some [("objectId", .str "r1")]) = ["name"]
    ∧ (Schema.validateObject memStorage (Load memStorage emptyDB) "_Role"
        (some [("name", .obj [("__op", .str "Delete")])])
        (some [("objectId", .str "r1")])).1 = none := by
  decide

/-! ## Strings: proofs -/

theorem splitChars_ne_nil (sep : Char) (cs : List Char) : splitChars sep cs ≠ [] := by
  cases cs with
  | nil => simp [splitChars]
  | cons c cs =>
    unfold splitChars
    by_cases h : c = sep
    · simp [h]
    · rw [if_neg h]
      cases splitChars sep cs <;> simp

theorem splitChars_cons (sep c : Char) (cs : List Char) :
    splitChars sep (c :: cs) =
      if c = sep then [] :: splitChars sep cs
      else ((c :: (splitChars sep cs).head!) :: (splitChars sep cs).tail) := by
  rw [splitChars]
  by_cases h : c = sep
  · rw [if_pos h, if_pos h]
  · rw [if_neg h, if_neg h]
    cases hs : splitChars sep cs with
    | nil => exact absurd hs (splitChars_ne_nil sep cs)
    | cons p ps => rfl

theorem joinChars_cons_cons (sep : Char) (p q : List Char) (ps : List (List Char)) :
    joinChars sep (p :: q :: ps) = p ++ sep :: joinChars sep (q :: ps) := rfl

theorem joinChars_cons_of_ne_nil (sep : Char) (p : List Char) (ps : List (List Char))
    (h : ps ≠ []) : joinChars sep (p :: ps) = p ++ sep :: joinChars sep ps := by
  cases ps with
  | nil => exact absurd rfl h
  | cons q qs => rfl

theorem joinChars_splitChars (sep : Char) (cs : List Char) :
    joinChars sep (splitChars sep cs) = cs := by
  induction cs with
  | nil => rfl
  | cons c cs ih =>
    rw [splitChars_cons]
    by_cases h : c = sep
    · rw [if_pos h, joinChars_cons_of_ne_nil _ _ _ (splitChars_ne_nil sep cs), ih, h]
      rfl
    · rw [if_neg h]
      cases hs : splitChars sep cs with
      | nil => exact absurd hs (splitChars_ne_nil sep cs)
      | cons p ps =>
        rw [hs] at ih
        cases ps with
        | nil =>
          simp only [List.head!, List.tail, joinChars] at ih ⊢
          rw [ih]
        | cons q qs =>
          simp only [List.head!, List.tail]
          rw [joinChars_cons_cons] at ih ⊢
          rw [List.cons_append, ih]

theorem splitChars_no_sep (sep : Char) (cs : List Char) :
    ∀ p ∈ splitChars sep cs, sep ∉ p := by
  induction cs with
  | nil => intro p hp; simp [splitChars] at hp; subst hp; simp
  | cons c cs ih =>
    intro p hp
    rw [splitChars_cons] at hp
    by_cases h : c = sep
    · rw [if_pos h] at hp
      rcases List.mem_cons.1 hp with rfl | hp
      · simp
      · exact ih p hp
    · rw [if_neg h] at hp
      cases hs : splitChars sep cs with
      | nil => exact absurd hs (splitChars_ne_nil sep cs)
      | cons q qs =>
        rw [hs] at hp ih
        simp only [List.head!, List.tail] at hp
        rcases List.mem_cons.1 hp with rfl | hp
        · intro hmem
          rcases List.mem_cons.1 hmem with h1 | h1
          · exact h h1.symm
          · exact ih q (List.mem_cons_self _ _) h1
        · exact ih p (List.mem_cons_of_mem _ hp)

theorem splitChars_of_no_sep (sep : Char) (p : List Char) (h : sep ∉ p) :
    splitChars sep p = [p] := by
  induction p with
  | nil => rfl
  | cons c cs ih =>
    have hc : c ≠ sep := fun e => h (by rw [e]; exact List.mem_cons_self _ _)
    have hcs : sep ∉ cs := fun e => h (List.mem_cons_of_mem _ e)
    rw [splitChars_cons, if_neg hc, ih hcs]
    rfl

theorem splitChars_append_sep (sep : Char) (p rest : List Char) (h : sep ∉ p) :
    splitChars sep (p ++ sep :: rest) = p :: splitChars sep rest := by
  induction p with
  | nil => simp [splitChars]
  | cons c cs ih =>
    have hc : c ≠ sep := fun e => h (by rw [e]; exact List.mem_cons_self _ _)
    have hcs : sep ∉ cs := fun e => h (List.mem_cons_of_mem _ e)
    rw [List.cons_append, splitChars_cons, if_neg hc, ih hcs]
    rfl

theorem splitChars_joinChars (sep : Char) (parts : List (List Char)) (hne : parts ≠ [])
    (h : ∀ p ∈ parts, sep ∉ p) : splitChars sep (joinChars sep parts) = parts := by
  induction parts with
  | nil => exact absurd rfl hne
  | cons p ps ih =>
    cases ps with
    | nil => exact splitChars_of_no_sep sep p (h p (List.mem_cons_self _ _))
    | cons q qs =>
      rw [joinChars_cons_cons, splitChars_append_sep _ _ _ (h p (List.mem_cons_self _ _)),
        ih (by simp) (fun x hx => h x (List.mem_cons_of_mem _ hx))]

theorem leChars_cons_cons (a b : Char) (as bs : List Char) :
    leChars (a :: as) (b :: bs) =
      if a < b then true else if b < a then false else leChars as bs := rfl

theorem leChars_refl (l : List Char) : leChars l l = true := by
  induction l with
  | nil => rfl
  | cons a as ih =>
    rw [leChars_cons_cons, if_neg (lt_irrefl a), if_neg (lt_irrefl a), ih]

theorem leChars_total (l r : List Char) : leChars l r = true ∨ leChars r l = true := by
  induction l generalizing r with
  | nil => exact Or.inl rfl
  | cons a as ih =>
    cases r with
    | nil => exact Or.inr rfl
    | cons b bs =>
      rw [leChars_cons_cons, leChars_cons_cons]
      rcases lt_trichotomy a b with h | h | h
      · rw [if_pos h]; exact Or.inl rfl
      · subst h
        simp only [lt_irrefl, if_false]
        exact ih bs
      · right
        rw [if_pos h]

theorem leChars_trans (l m r : List Char) (h1 : leChars l m = true)
    (h2 : leChars m r = true) : leChars l r = true := by
  induction l generalizing m r with
  | nil => rfl
  | cons a as ih =>
    cases m with
    | nil => cases h1
    | cons b bs =>
      cases r with
      | nil => cases h2
      | cons c cs =>
        rw [leChars_cons_cons] at h1 h2 ⊢
        by_cases hab : a < b
        · by_cases hbc : b < c
          · rw [if_pos (lt_trans hab hbc)]
          · rw [if_neg hbc] at h2
            by_cases hcb : c < b
            · rw [if_pos hcb] at h2; cases h2
            · have : b = c := le_antisymm (not_lt.1 hcb) (not_lt.1 hbc)
              subst this
              rw [if_pos hab]
        · rw [if_neg hab] at h1
          by_cases hba : b < a
          · rw [if_pos hba] at h1; cases h1
          · rw [if_neg hba] at h1
            have : a = b := le_antisymm (not_lt.1 hba) (not_lt.1 hab)
            subst this
            by_cases hac : a < c
            · rw [if_pos hac]
            · rw [if_neg hac] at h2 ⊢
              by_cases hca : c < a
              · rw [if_pos hca] at h2; cases h2
              · rw [if_neg hca] at h2 ⊢
                exact ih bs cs h1 h2

theorem leChars_prefix (p r : List Char) : leChars p (p ++ r) = true := by
  induction p with
  | nil => rfl
  | cons a as ih =>
    rw [List.cons_append, leChars_cons_cons, if_neg (lt_irrefl a), if_neg (lt_irrefl a), ih]

theorem leChars_longer (p : List Char) (c : Char) (r : List Char) :
    leChars (p ++ c :: r) p = false := by
  induction p with
  | nil => rfl
  | cons a as ih =>
    rw [List.cons_append, leChars_cons_cons, if_neg (lt_irrefl a), if_neg (lt_irrefl a), ih]

instance : IsTotal String StringsLE :=
  ⟨fun s t => leChars_total s.toList t.toList⟩

instance : IsTrans String StringsLE :=
  ⟨fun s t u h1 h2 => leChars_trans s.toList t.toList u.toList h1 h2⟩

theorem sortStrings_sorted (l : List String) : (sortStrings l).Pairwise StringsLE :=
  List.sorted_insertionSort StringsLE l

theorem mem_sortStrings (l : List String) (x : String) : x ∈ sortStrings l ↔ x ∈ l :=
  (List.perm_insertionSort StringsLE l).mem_iff

/-! ## Include normalisation: proofs -/

theorem joinChars_append (sep : Char) (a b : List (List Char)) (ha : a ≠ []) (hb : b ≠ []) :
    joinChars sep (a ++ b) = joinChars sep a ++ sep :: joinChars sep b := by
  induction a with
  | nil => exact absurd rfl ha
  | cons p ps ih =>
    cases ps with
    | nil =>
      rw [List.singleton_append, joinChars_cons_of_ne_nil _ _ _ hb]
      rfl
    | cons q qs =>
      rw [List.cons_append, joinChars_cons_of_ne_nil _ _ _ (by simp), ih (by simp),
        joinChars_cons_cons, List.append_assoc]
      rfl

theorem stringsJoin_stringsSplit (x : String) (sep : Char) :
    stringsJoin (stringsSplit x sep) sep = x := by
  unfold stringsJoin stringsSplit
  rw [List.map_map]
  have : (String.toList ∘ String.mk) = id := rfl
  rw [this, List.map_id, joinChars_splitChars]
  rfl

theorem stringsSplit_stringsJoin_take (path : String) (sep : Char) (k : Nat) (hk : 1 ≤ k) :
    stringsSplit (stringsJoin ((stringsSplit path sep).take k) sep) sep
      = (stringsSplit path sep).take k := by
  unfold stringsJoin stringsSplit
  rw [← List.map_take, List.map_map]
  have : (String.toList ∘ String.mk) = id := rfl
  rw [this, List.map_id]
  show List.map String.mk (splitChars sep (joinChars sep _)) = _
  rw [splitChars_joinChars]
  · intro h
    have hl := congrArg List.length h
    rw [List.length_take] at hl
    have := List.length_pos.2 (splitChars_ne_nil sep path.toList)
    simp only [List.length_nil] at hl
    omega
  · intro p hp
    exact splitChars_no_sep sep path.toList p (List.mem_of_mem_take hp)

theorem mem_joinedPrefixes (parts : List String) (x : String) :
    x ∈ joinedPrefixes parts ↔
      ∃ k, 1 ≤ k ∧ k ≤ parts.length ∧ x = stringsJoin (parts.take k) '.' := by
  unfold joinedPrefixes
  rw [List.mem_map]
  constructor
  · rintro ⟨i, hi, rfl⟩
    exact ⟨i + 1, by omega, by rw [List.mem_range] at hi; omega, rfl⟩
  · rintro ⟨k, h1, h2, rfl⟩
    refine ⟨k - 1, by rw [List.mem_range]; omega, ?_⟩
    have : k - 1 + 1 = k := by omega
    rw [this]

theorem mem_pathSetOf (paths : List String) (x : String) :
    x ∈ pathSetOf paths ↔
      ∃ path ∈ paths, ∃ k, 1 ≤ k ∧ k ≤ (stringsSplit path '.').length
        ∧ x = stringsJoin ((stringsSplit path '.').take k) '.' := by
  induction paths with
  | nil => simp [pathSetOf]
  | cons p ps ih =>
    rw [pathSetOf, List.mem_append, ih, mem_joinedPrefixes]
    constructor
    · rintro (h | ⟨path, hp, h⟩)
      · exact ⟨p, List.mem_cons_self _ _, h⟩
      · exact ⟨path, List.mem_cons_of_mem _ hp, h⟩
    · rintro ⟨path, hp, h⟩
      rcases List.mem_cons.1 hp with rfl | hp
      · exact Or.inl h
      · exact Or.inr ⟨path, hp, h⟩

/-- A shorter prefix of a path comes strictly before a longer one in the order of
the strings. -/
theorem prefix_not_ge (path : String) (k m : Nat) (hk : 1 ≤ k) (hkm : k < m)
    (hm : m ≤ (stringsSplit path '.').length) :
    ¬ StringsLE (stringsJoin ((stringsSplit path '.').take m) '.')
        (stringsJoin ((stringsSplit path '.').take k) '.') := by
  unfold StringsLE stringsJoin
  show ¬ leChars (joinChars '.' _) (joinChars '.' _) = true
  have hsplit : (stringsSplit path '.').take m
      = (stringsSplit path '.').take k ++ ((stringsSplit path '.').take m).drop k := by
    have := (List.take_append_drop k ((stringsSplit path '.').take m)).symm
    rw [List.take_take, min_eq_left (le_of_lt hkm)] at this
    exact this
  have ha : List.map String.toList ((stringsSplit path '.').take k) ≠ [] := by
    intro h
    have hl := congrArg List.length h
    simp only [List.length_map, List.length_take, List.length_nil] at hl
    omega
  have hb : List.map String.toList (((stringsSplit path '.').take m).drop k) ≠ [] := by
    intro h
    have hl := congrArg List.length h
    simp only [List.length_map, List.length_drop, List.length_take, List.length_nil] at hl
    omega
  rw [hsplit, List.map_append, joinChars_append _ _ _ ha hb, leChars_longer]
  simp

/-! ## NewQuery: proofs -/

/-- `NewQuery` without options, case by case. -/
theorem NewQuery_none (auth : Auth) (className : String) (w : Option M) :
    NewQuery auth className w none =
      if auth.IsMaster = false then
        if auth.User.isSome then
          match nilGet auth.User "objectId" with
          | .str id =>
            if className = "_Session" then
              .ok { initialQuery auth className w with
                findOptions := [("acl", stringsValue [id])],
                Where := some [("$and", .arr [whereValue w,
                  .obj [("__type", .str "Pointer"), ("className", .str "_User"),
                    ("objectId", .str id)]])] }
            else
              .ok { initialQuery auth className w with
                findOptions := [("acl", stringsValue [id])] }
          | _ => .error .panic
        else if className = "_Session" then .error (.err .InvalidSessionToken)
        else .ok { initialQuery auth className w with findOptions := [("acl", .null)] }
      else .ok (initialQuery auth className w) := by
  unfold NewQuery initialQuery
  simp only [nilEntries, Option.getD, applyOptions]
  by_cases hm : auth.IsMaster = false
  · rw [if_pos hm, if_pos hm]
    by_cases hu : auth.User.isSome = true
    · rw [if_pos hu, if_pos hu]
      cases ho : nilGet auth.User "objectId" with
      | str id =>
        by_cases hs : className = "_Session"
        · simp [hs, M.set, M.get, M.find?, Value.isNil, stringsValue]
        · simp [hs, M.set]
      | _ => rfl
    · rw [if_neg hu, if_neg hu]
      by_cases hs : className = "_Session"
      · simp [hs, M.set, M.get, M.find?, Value.isNil]
      · simp [hs, M.set]
  · rw [if_neg hm, if_neg hm]

theorem NewQuery_none_fields (auth : Auth) (className : String) (w : Option M) (q : Query)
    (h : NewQuery auth className w none = .ok q) :
    q.auth = auth ∧ q.className = className ∧ q.response = [] ∧ q.doCount = false
      ∧ q.include_ = [] ∧ q.keys = [] ∧ q.redirectKey = "" ∧ q.redirectClassName = "" := by
  rw [NewQuery_none] at h
  by_cases h1 : auth.IsMaster = false
  · rw [if_pos h1] at h
    by_cases h2 : auth.User.isSome = true
    · rw [if_pos h2] at h
      cases ho : nilGet auth.User "objectId" with
      | str id =>
        rw [ho] at h
        dsimp only at h
        by_cases hs : className = "_Session"
        · rw [if_pos hs] at h
          injection h with h; subst h; exact ⟨rfl, rfl, rfl, rfl, rfl, rfl, rfl, rfl⟩
        · rw [if_neg hs] at h
          injection h with h; subst h; exact ⟨rfl, rfl, rfl, rfl, rfl, rfl, rfl, rfl⟩
      | null => rw [ho] at h; cases h
      | bool b => rw [ho] at h; cases h
      | num n => rw [ho] at h; cases h
      | arr xs => rw [ho] at h; cases h
      | obj m => rw [ho] at h; cases h
    · rw [if_neg h2] at h
      by_cases hs : className = "_Session"
      · rw [if_pos hs] at h; cases h
      · rw [if_neg hs] at h
        injection h with h; subst h; exact ⟨rfl, rfl, rfl, rfl, rfl, rfl, rfl, rfl⟩
  · rw [if_neg h1] at h
    injection h with h; subst h; exact ⟨rfl, rfl, rfl, rfl, rfl, rfl, rfl, rfl⟩

theorem NewQuery_options (auth : Auth) (className : String) (w options : Option M) :
    NewQuery auth className w options =
      match NewQuery auth className w none with
      | .error e => .error e
      | .ok q => applyOptions (nilEntries options) q := by
  unfold NewQuery
  simp only [nilEntries, Option.getD, applyOptions]
  split <;> rfl

theorem applyOptions_include (q1 : Query) (s : String) :
    (applyOptions [("include", .str s)] q1).map (fun q => q.include_) =
      .ok (q1.include_ ++ (sortStrings (pathSetOf (stringsSplit s ','))).map
        (fun set => stringsSplit set '.')) := by
  simp [applyOptions, applyOption, Except.map]

theorem NewQuery_include (auth : Auth) (className : String) (w : Option M) (s : String)
    (q : Query) (h : NewQuery auth className w (some [("include", .str s)]) = .ok q) :
    q.include_ = (sortStrings (pathSetOf (stringsSplit s ','))).map
      (fun set => stringsSplit set '.') := by
  rw [NewQuery_options] at h
  cases hn : NewQuery auth className w none with
  | error e => rw [hn] at h; cases h
  | ok q1 =>
    rw [hn] at h
    have hq1 := (NewQuery_none_fields auth className w q1 hn).2.2.2.2.1
    change applyOptions [("include", .str s)] q1 = .ok q at h
    have h2 := applyOptions_include q1 s
    rw [h, hq1] at h2
    simp only [Except.map, List.nil_append] at h2
    injection h2

theorem applyOption_include_other (q q' : Query) (k : String) (v : Value)
    (hk : k ≠ "include") (h : applyOption q k v = .ok q') : q'.include_ = q.include_ := by
  unfold applyOption at h
  by_cases h1 : k = "keys"
  · rw [if_pos h1] at h
    cases v <;> (injection h with h; rw [← h])
  rw [if_neg h1] at h
  by_cases h2 : k = "count"
  · rw [if_pos h2] at h
    injection h with h; rw [← h]
  rw [if_neg h2] at h
  by_cases h3 : k = "skip"
  · rw [if_pos h3] at h
    injection h with h; rw [← h]
  rw [if_neg h3] at h
  by_cases h4 : k = "limit"
  · rw [if_pos h4] at h
    injection h with h; rw [← h]
  rw [if_neg h4] at h
  by_cases h5 : k = "order"
  · rw [if_pos h5] at h
    cases v <;> (injection h with h; rw [← h])
  rw [if_neg h5, if_neg hk] at h
  by_cases h7 : k = "redirectClassNameForKey"
  · rw [if_pos h7] at h
    cases v <;> (injection h with h; rw [← h])
  rw [if_neg h7] at h
  cases h

theorem applyOptions_include_absent (options : M) (q q' : Query)
    (hno : M.find? options "include" = none)
    (h : applyOptions options q = .ok q') : q'.include_ = q.include_ := by
  induction options generalizing q with
  | nil =>
    injection h with h
    rw [h]
  | cons kv rest ih =>
    obtain ⟨k, v⟩ := kv
    rw [M.find?] at hno
    by_cases hk : k = "include"
    · rw [if_pos hk] at hno
      cases hno
    · rw [if_neg hk] at hno
      unfold applyOptions at h
      cases hx : applyOption q k v with
      | error e => rw [hx] at h; cases h
      | ok q1 =>
        rw [hx] at h
        rw [ih q1 hno h, applyOption_include_other q q1 k v hk hx]

theorem find?_none_of_not_mem (m : M) (k : String) (h : k ∉ m.map Prod.fst) :
    M.find? m k = none := by
  induction m with
  | nil => rfl
  | cons kv rest ih =>
    obtain ⟨k', v⟩ := kv
    rw [List.map_cons, List.mem_cons, not_or] at h
    rw [M.find?, if_neg (fun hk => h.1 hk.symm)]
    exact ih h.2

theorem applyOptions_include_present (options : M) (q q' : Query) (s : String)
    (hnodup : (options.map Prod.fst).Nodup)
    (hfind : M.find? options "include" = some (.str s))
    (h : applyOptions options q = .ok q') :
    q'.include_ = q.include_ ++ (sortStrings (pathSetOf (stringsSplit s ','))).map
      (fun set => stringsSplit set '.') := by
  induction options generalizing q with
  | nil => cases hfind
  | cons kv rest ih =>
    obtain ⟨k, v⟩ := kv
    rw [List.map_cons, List.nodup_cons] at hnodup
    rw [M.find?] at hfind
    unfold applyOptions at h
    cases hx : applyOption q k v with
    | error e => rw [hx] at h; cases h
    | ok q1 =>
      rw [hx] at h
      by_cases hk : k = "include"
      · rw [if_pos hk] at hfind
        injection hfind with hfind
        subst hk
        subst hfind
        have hrest := find?_none_of_not_mem rest "include" hnodup.1
        rw [applyOptions_include_absent rest q1 q' hrest h]
        have h2 := applyOptions_include q s
        simp only [applyOptions, hx, Except.map] at h2
        injection h2
      · rw [if_neg hk] at hfind
        rw [ih q1 hnodup.2 hfind h, applyOption_include_other q q1 k v hk hx]

theorem NewQuery_include_of (auth : Auth) (className : String) (w : Option M) (options : M)
    (s : String) (q : Query) (hnodup : (options.map Prod.fst).Nodup)
    (hfind : M.find? options "include" = some (.str s))
    (h : NewQuery auth className w (some options) = .ok q) :
    q.include_ = (sortStrings (pathSetOf (stringsSplit s ','))).map
      (fun set => stringsSplit set '.') := by
  rw [NewQuery_options] at h
  cases hn : NewQuery auth className w none with
  | error e => rw [hn] at h; cases h
  | ok q1 =>
    rw [hn] at h
    have hq1 := (NewQuery_none_fields auth className w q1 hn).2.2.2.2.1
    change applyOptions options q1 = .ok q at h
    rw [applyOptions_include_present options q1 q s hnodup hfind h, hq1]
    rfl

/-- C16: for every option map whose `include` is the string `s`, the list `include`
that `NewQuery` builds, read as dotted paths, is in ascending order; it contains
every non-empty prefix of every requested path; and every non-empty proper prefix of
a listed path is listed at an earlier position. -/
theorem NewQuery_include_normalised (auth : Auth) (className : String) (w : Option M)
    (options : M) (s : String) (q : Query) (hnodup : (options.map Prod.fst).Nodup)
    (hfind : M.find? options "include" = some (.str s))
    (h : NewQuery auth className w (some options) = .ok q) :
    (q.include_.map (fun path => stringsJoin path '.')).Pairwise StringsLE
    ∧ (∀ path ∈ stringsSplit s ',', ∀ k, 1 ≤ k → k ≤ (stringsSplit path '.').length →
        (stringsSplit path '.').take k ∈ q.include_)
    ∧ (∀ (i : Nat) (p : List String), q.include_[i]? = some p →
        ∀ k, 1 ≤ k → k < p.length →
          ∃ j, j < i ∧ q.include_[j]? = some (p.take k)) := by
  have hinc := NewQuery_include_of auth className w options s q hnodup hfind h
  have hsorted := sortStrings_sorted (pathSetOf (stringsSplit s ','))
  refine ⟨?_, ?_, ?_⟩
  · rw [hinc, List.map_map]
    have : ((fun path => stringsJoin path '.') ∘ fun set => stringsSplit set '.') = id := by
      funext x
      exact stringsJoin_stringsSplit x '.'
    rw [this, List.map_id]
    exact hsorted
  · intro path hp k hk1 hk2
    rw [hinc, List.mem_map]
    refine ⟨stringsJoin ((stringsSplit path '.').take k) '.', ?_, ?_⟩
    · rw [mem_sortStrings, mem_pathSetOf]
      exact ⟨path, hp, k, hk1, hk2, rfl⟩
    · exact stringsSplit_stringsJoin_take path '.' k hk1
  · intro i p hi k hk1 hk2
    rw [hinc, List.getElem?_map] at hi
    cases hx : (sortStrings (pathSetOf (stringsSplit s ',')))[i]? with
    | none => rw [hx] at hi; cases hi
    | some x =>
      rw [hx] at hi
      injection hi with hi
      have hxmem : x ∈ pathSetOf (stringsSplit s ',') :=
        (mem_sortStrings _ _).1 (List.mem_iff_getElem?.2 ⟨i, hx⟩)
      obtain ⟨path, hpath, m, hm1, hm2, hxeq⟩ := (mem_pathSetOf _ _).1 hxmem
      have hp : p = (stringsSplit path '.').take m := by
        rw [← hi, hxeq]
        exact stringsSplit_stringsJoin_take path '.' m hm1
      have hlen : p.length = m := by
        rw [hp, List.length_take]
        exact min_eq_left hm2
      have hkm : k < m := by omega
      have hymem : stringsJoin ((stringsSplit path '.').take k) '.'
          ∈ sortStrings (pathSetOf (stringsSplit s ',')) := by
        rw [mem_sortStrings, mem_pathSetOf]
        exact ⟨path, hpath, k, hk1, by omega, rfl⟩
      obtain ⟨j, hj⟩ := List.mem_iff_getElem?.1 hymem
      have hnot := prefix_not_ge path k m hk1 hkm hm2
      obtain ⟨hil, hix⟩ := List.getElem?_eq_some_iff.1 hx
      obtain ⟨hjl, hjx⟩ := List.getElem?_eq_some_iff.1 hj
      have hji : j < i := by
        by_contra hcon
        have hij : i ≤ j := by omega
        rcases Nat.lt_or_eq_of_le hij with hlt | heq
        · have := List.pairwise_iff_getElem.1 hsorted i j hil hjl hlt
          rw [hix, hjx, hxeq] at this
          exact hnot this
        · subst heq
          have hxy : x = stringsJoin ((stringsSplit path '.').take k) '.' := by
            rw [← hix, hjx]
          rw [← hxeq, hxy] at hnot
          exact hnot (leChars_refl _)
      refine ⟨j, hji, ?_⟩
      rw [hinc, List.getElem?_map, hj]
      show some (stringsSplit _ '.') = _
      rw [stringsSplit_stringsJoin_take path '.' k hk1, hp, List.take_take,
        min_eq_left (le_of_lt hkm)]

/-- C16, at the option string of the claim: `include` `user.session,name.friend`
gives the paths `name`, `name.friend`, `user`, `user.session`, in this order. -/
theorem NewQuery_include_normalised_witness :
    (NewQuery ⟨true, none, []⟩ "Post" (some [])
        (some [("include", .str "user.session,name.friend")])).map (fun q => q.include_)
      = .ok [["name"], ["name", "friend"], ["user"], ["user", "session"]]
    ∧ (∀ path ∈ stringsSplit "user.session,name.friend" ',',
        ∀ k, 1 ≤ k → k ≤ (stringsSplit path '.').length →
          (stringsSplit path '.').take k
            ∈ [["name"], ["name", "friend"], ["user"], ["user", "session"]]) :=
  ⟨by decide,
    (NewQuery_include_normalised ⟨true, none, []⟩ "Post" (some [])
      [("include", .str "user.session,name.friend")] "user.session,name.friend"
      { initialQuery ⟨true, none, []⟩ "Post" (some []) with
        include_ := [["name"], ["name", "friend"], ["user"], ["user", "session"]] }
      (by decide) rfl (by decide)).2.1⟩

/-- C17, the code at the inputs of the claim: for the option string
`user.session,user.name` the list `include` holds the path `user` twice, and for
`user,user` it holds it twice as well. -/
theorem NewQuery_include_duplicates :
    (NewQuery ⟨true, none, []⟩ "Post" (some [])
        (some [("include", .str "user.session,user.name")])).map (fun q => q.include_)
      = .ok [["user"], ["user"], ["user", "name"], ["user", "session"]]
    ∧ ¬ ([["user"], ["user"], ["user", "name"], ["user", "session"]] :
          List (List String)).Nodup
    ∧ (NewQuery ⟨true, none, []⟩ "Post" (some [])
        (some [("include", .str "user,user")])).map (fun q => q.include_)
      = .ok [["user"], ["user"]] := by
  decide

theorem applyOption_Where (q q' : Query) (k : String) (v : Value)
    (h : applyOption q k v = .ok q') : q'.Where = q.Where := by
  unfold applyOption at h
  by_cases h1 : k = "keys"
  · rw [if_pos h1] at h
    cases v <;> (injection h with h; rw [← h])
  rw [if_neg h1] at h
  by_cases h2 : k = "count"
  · rw [if_pos h2] at h
    injection h with h; rw [← h]
  rw [if_neg h2] at h
  by_cases h3 : k = "skip"
  · rw [if_pos h3] at h
    injection h with h; rw [← h]
  rw [if_neg h3] at h
  by_cases h4 : k = "limit"
  · rw [if_pos h4] at h
    injection h with h; rw [← h]
  rw [if_neg h4] at h
  by_cases h5 : k = "order"
  · rw [if_pos h5] at h
    cases v <;> (injection h with h; rw [← h])
  rw [if_neg h5] at h
  by_cases h6 : k = "include"
  · rw [if_pos h6] at h
    cases v <;> (injection h with h; rw [← h])
  rw [if_neg h6] at h
  by_cases h7 : k = "redirectClassNameForKey"
  · rw [if_pos h7] at h
    cases v <;> (injection h with h; rw [← h])
  rw [if_neg h7] at h
  cases h

theorem applyOptions_Where (options : M) (q q' : Query)
    (h : applyOptions options q = .ok q') : q'.Where = q.Where := by
  induction options generalizing q with
  | nil =>
    injection h with h
    rw [h]
  | cons kv rest ih =>
    obtain ⟨k, v⟩ := kv
    unfold applyOptions at h
    cases hk : applyOption q k v with
    | error e => rw [hk] at h; cases h
    | ok q1 =>
      rw [hk] at h
      rw [ih q1 h, applyOption_Where q q1 k v hk]

theorem NewQuery_none_Where (auth : Auth) (className : String) (w : Option M) :
    (auth.IsMaster = false → auth.User = none →
      NewQuery auth "_Session" w none = .error (.err .InvalidSessionToken))
    ∧ (∀ u id q, auth.IsMaster = false → auth.User = some u →
        M.get u "objectId" = .str id → NewQuery auth "_Session" w none = .ok q →
        q.Where = some [("$and", .arr [whereValue w,
          .obj [("__type", .str "Pointer"), ("className", .str "_User"),
            ("objectId", .str id)]])])
    ∧ (∀ q, (auth.IsMaster = true ∨ className ≠ "_Session") →
        NewQuery auth className w none = .ok q → q.Where = w) := by
  refine ⟨?_, ?_, ?_⟩
  · intro hm hu
    simp [NewQuery, hm, hu, nilEntries, applyOptions, M.get, M.set, M.find?, Value.isNil,
      initialQuery]
  · intro u id q hm hu hid h
    have hid2 : (u.find? "objectId").getD Value.null = .str id := hid
    simp [NewQuery, hm, hu, nilEntries, applyOptions, M.get, M.set, M.find?, Value.isNil,
      initialQuery, nilGet, hid2, stringsValue] at h
    rw [← h]
  · intro q hc h
    rcases hc with hm | hc
    · simp [NewQuery, hm, nilEntries, applyOptions, initialQuery] at h
      rw [← h]
    · by_cases hm : auth.IsMaster = true
      · simp [NewQuery, hm, nilEntries, applyOptions, initialQuery] at h
        rw [← h]
      · have hm : auth.IsMaster = false := by simpa using hm
        cases hu : auth.User with
        | none =>
          simp [NewQuery, hm, hu, hc, nilEntries, applyOptions, initialQuery] at h
          rw [← h]
        | some u =>
          cases hv : M.get u "objectId" <;>
            simp [NewQuery, hm, hu, hc, nilEntries, applyOptions, initialQuery, nilGet, hv] at h
          rw [← h]

/-- C18, what the code does: for a caller that is not master and the class
`_Session`, an anonymous caller gets InvalidSessionToken; an authenticated caller
whose `objectId` is the string `id` gets the `Where` `$and` of the original where and
the pointer map itself, which constrains the fields `__type`, `className` and
`objectId` and not the field `user`; for master callers and for other classes
`Where` is the original where. -/
theorem NewQuery_session_scope (auth : Auth) (className : String) (w options : Option M) :
    (auth.IsMaster = false → auth.User = none →
      NewQuery auth "_Session" w options = .error (.err .InvalidSessionToken))
    ∧ (∀ u id q, auth.IsMaster = false → auth.User = some u →
        M.get u "objectId" = .str id → NewQuery auth "_Session" w options = .ok q →
        q.Where = some [("$and", .arr [whereValue w,
            .obj [("__type", .str "Pointer"), ("className", .str "_User"),
              ("objectId", .str id)]])]
        ∧ q.Where ≠ some [("$and", .arr [whereValue w,
            .obj [("user", .obj [("__type", .str "Pointer"), ("className", .str "_User"),
              ("objectId", .str id)])]])])
    ∧ (∀ q, (auth.IsMaster = true ∨ className ≠ "_Session") →
        NewQuery auth className w options = .ok q → q.Where = w) := by
  refine ⟨?_, ?_, ?_⟩
  · intro hm hu
    rw [NewQuery_options, (NewQuery_none_Where auth className w).1 hm hu]
  · intro u id q hm hu hid h
    rw [NewQuery_options] at h
    cases hn : NewQuery auth "_Session" w none with
    | error e => rw [hn] at h; cases h
    | ok q1 =>
      rw [hn] at h
      have h1 := (NewQuery_none_Where auth className w).2.1 u id q1 hm hu hid hn
      have h2 := applyOptions_Where _ _ _ h
      rw [h2, h1]
      refine ⟨rfl, ?_⟩
      intro hcon
      simp at hcon
  · intro q hc h
    rw [NewQuery_options] at h
    cases hn : NewQuery auth className w none with
    | error e => rw [hn] at h; cases h
    | ok q1 =>
      rw [hn] at h
      rw [applyOptions_Where _ _ _ h]
      exact (NewQuery_none_Where auth className w).2.2 q1 hc hn

/-- C18, at a caller with `objectId` `u1` and the where `{}`: the second conjunct
is the pointer map, with no key `user`. -/
theorem NewQuery_session_scope_witness :
    (NewQuery ⟨false, some [("objectId", .str "u1")], []⟩ "_Session" (some []) none).map
        (fun q => q.Where)
      = .ok (some [("$and", .arr [.obj [],
          .obj [("__type", .str "Pointer"), ("className", .str "_User"),
            ("objectId", .str "u1")]])])
    ∧ (initialQuery ⟨false, some [("objectId", .str "u1")], []⟩ "_Session"
          (some [("$and", .arr [.obj [],
            .obj [("__type", .str "Pointer"), ("className", .str "_User"),
              ("objectId", .str "u1")]])])).Where
        ≠ some [("$and", .arr [whereValue (some []),
            .obj [("user", .obj [("__type", .str "Pointer"), ("className", .str "_User"),
              ("objectId", .str "u1")])]])] :=
  ⟨by decide,
    ((NewQuery_session_scope ⟨false, some [("objectId", .str "u1")], []⟩ "_Session"
      (some []) none).2.1 [("objectId", .str "u1")] "u1"
      { initialQuery ⟨false, some [("objectId", .str "u1")], []⟩ "_Session"
          (some [("$and", .arr [.obj [],
            .obj [("__type", .str "Pointer"), ("className", .str "_User"),
              ("objectId", .str "u1")]])]) with
        findOptions := [("acl", stringsValue ["u1"])] }
      rfl rfl (by decide) (by decide)).2⟩

theorem findObjectWithKey_arr (s : List Value) (key : String) :
    findObjectWithKey (.arr s) key = findObjectWithKeyS s key := by
  rw [findObjectWithKey]

theorem findObjectWithKey_obj (m : M) (key : String) :
    findObjectWithKey (.obj m) key =
      if (M.get m key).isNil then findObjectWithKeyM m key else some m := by
  rw [findObjectWithKey]

theorem findObjectWithKeyS_cons (v : Value) (rest : List Value) (key : String) :
    findObjectWithKeyS (v :: rest) key =
      (findObjectWithKey v key).orElse (fun _ => findObjectWithKeyS rest key) := by
  rw [findObjectWithKeyS]
  cases findObjectWithKey v key <;> rfl

theorem findObjectWithKeyM_cons (k : String) (v : Value) (rest : List (String × Value))
    (key : String) :
    findObjectWithKeyM ((k, v) :: rest) key =
      (findObjectWithKey v key).orElse (fun _ => findObjectWithKeyM rest key) := by
  rw [findObjectWithKeyM]
  cases findObjectWithKey v key <;> rfl

theorem replaceObjectWithKey_arr (new : M) (s : List Value) (key : String) :
    replaceObjectWithKey new (.arr s) key = .arr (replaceObjectWithKeyS new s key) := by
  rw [replaceObjectWithKey]

theorem replaceObjectWithKey_obj (new : M) (m : M) (key : String) :
    replaceObjectWithKey new (.obj m) key =
      if (M.get m key).isNil then .obj (replaceObjectWithKeyM new m key) else .obj new := by
  rw [replaceObjectWithKey]

theorem replaceObjectWithKeyS_cons (new : M) (v : Value) (rest : List Value)
    (key : String) :
    replaceObjectWithKeyS new (v :: rest) key =
      if (findObjectWithKey v key).isSome then replaceObjectWithKey new v key :: rest
      else v :: replaceObjectWithKeyS new rest key := by
  rw [replaceObjectWithKeyS]
  cases findObjectWithKey v key <;> rfl

theorem replaceObjectWithKeyM_cons (new : M) (k : String) (v : Value)
    (rest : List (String × Value)) (key : String) :
    replaceObjectWithKeyM new ((k, v) :: rest) key =
      if (findObjectWithKey v key).isSome then (k, replaceObjectWithKey new v key) :: rest
      else (k, v) :: replaceObjectWithKeyM new rest key := by
  rw [replaceObjectWithKeyM]
  cases findObjectWithKey v key <;> rfl

theorem bindsKeyAnywhere_arr (key : String) (s : List Value) :
    bindsKeyAnywhere key (.arr s) = bindsKeyAnywhereS key s := by
  rw [bindsKeyAnywhere]

theorem bindsKeyAnywhere_obj (key : String) (m : M) :
    bindsKeyAnywhere key (.obj m) = (!(M.get m key).isNil || bindsKeyAnywhereM key m) := by
  rw [bindsKeyAnywhere]

theorem bindsKeyAnywhereS_cons (key : String) (v : Value) (rest : List Value) :
    bindsKeyAnywhereS key (v :: rest)
      = (bindsKeyAnywhere key v || bindsKeyAnywhereS key rest) := by
  rw [bindsKeyAnywhereS]

theorem bindsKeyAnywhereM_cons (key : String) (k : String) (v : Value)
    (rest : List (String × Value)) :
    bindsKeyAnywhereM key ((k, v) :: rest)
      = (bindsKeyAnywhere key v || bindsKeyAnywhereM key rest) := by
  rw [bindsKeyAnywhereM]

theorem replaceObjectWithKey_isNil (new : M) (v : Value) (key : String) :
    (replaceObjectWithKey new v key).isNil = v.isNil := by
  cases v with
  | arr s => rw [replaceObjectWithKey_arr]; rfl
  | obj m =>
    rw [replaceObjectWithKey_obj]
    by_cases h : (M.get m key).isNil = true
    · rw [if_pos h]; rfl
    · rw [if_neg h]; rfl
  | _ => simp [replaceObjectWithKey]

theorem get_cons (k' : String) (v : Value) (rest : M) (k : String) :
    M.get ((k', v) :: rest) k = if k' = k then v else M.get rest k := by
  unfold M.get
  rw [M.find?]
  by_cases h : k' = k
  · rw [if_pos h, if_pos h]; rfl
  · rw [if_neg h, if_neg h]

theorem get_replaceObjectWithKeyM_isNil (new : M) (o : M) (key k : String) :
    (M.get (replaceObjectWithKeyM new o key) k).isNil = (M.get o k).isNil := by
  induction o with
  | nil => rw [replaceObjectWithKeyM]
  | cons kv rest ih =>
    obtain ⟨k', v⟩ := kv
    rw [replaceObjectWithKeyM_cons]
    by_cases h : (findObjectWithKey v key).isSome = true
    · rw [if_pos h, get_cons, get_cons]
      by_cases hk : k' = k
      · rw [if_pos hk, if_pos hk, replaceObjectWithKey_isNil]
      · rw [if_neg hk, if_neg hk]
    · rw [if_neg h, get_cons, get_cons]
      by_cases hk : k' = k
      · rw [if_pos hk, if_pos hk]
      · rw [if_neg hk, if_neg hk, ih]

mutual
/-- The search finds nothing exactly in the trees where no map has a value
other than `nil` under the key. -/
theorem findObjectWithKey_eq_none :
    ∀ (v : Value) (key : String),
      findObjectWithKey v key = none ↔ bindsKeyAnywhere key v = false
  | .arr s, key => by
    rw [findObjectWithKey_arr, bindsKeyAnywhere_arr]
    exact findObjectWithKeyS_eq_none s key
  | .obj m, key => by
    rw [findObjectWithKey_obj, bindsKeyAnywhere_obj]
    by_cases h : (M.get m key).isNil = true
    · rw [if_pos h, h]
      simpa using findObjectWithKeyM_eq_none m key
    · rw [if_neg h]
      have h2 : (M.get m key).isNil = false := by simpa using h
      simp [h2]
  | .null, key => by simp [findObjectWithKey, bindsKeyAnywhere]
  | .bool _, key => by simp [findObjectWithKey, bindsKeyAnywhere]
  | .num _, key => by simp [findObjectWithKey, bindsKeyAnywhere]
  | .str _, key => by simp [findObjectWithKey, bindsKeyAnywhere]
theorem findObjectWithKeyS_eq_none :
    ∀ (s : List Value) (key : String),
      findObjectWithKeyS s key = none ↔ bindsKeyAnywhereS key s = false
  | [], key => by simp [findObjectWithKeyS, bindsKeyAnywhereS]
  | v :: rest, key => by
    rw [findObjectWithKeyS_cons, bindsKeyAnywhereS_cons, Bool.or_eq_false_iff,
      ← findObjectWithKey_eq_none v key, ← findObjectWithKeyS_eq_none rest key]
    cases findObjectWithKey v key <;> simp [Option.orElse]
theorem findObjectWithKeyM_eq_none :
    ∀ (m : List (String × Value)) (key : String),
      findObjectWithKeyM m key = none ↔ bindsKeyAnywhereM key m = false
  | [], key => by simp [findObjectWithKeyM, bindsKeyAnywhereM]
  | (k, v) :: rest, key => by
    rw [findObjectWithKeyM_cons, bindsKeyAnywhereM_cons, Bool.or_eq_false_iff,
      ← findObjectWithKey_eq_none v key, ← findObjectWithKeyM_eq_none rest key]
    cases findObjectWithKey v key <;> simp [Option.orElse]
end

mutual
/-- A map that the search returns lies in the tree: a key bound nowhere in the tree
is bound nowhere in that map. -/
theorem binds_of_find :
    ∀ (v : Value) (key k : String) (m : M), findObjectWithKey v key = some m →
      bindsKeyAnywhere k v = false → bindsKeyAnywhere k (.obj m) = false
  | .arr s, key, k, m => by
    rw [findObjectWithKey_arr, bindsKeyAnywhere_arr]
    exact binds_of_findS s key k m
  | .obj o, key, k, m => by
    rw [findObjectWithKey_obj]
    by_cases h : (M.get o key).isNil = true
    · rw [if_pos h]
      intro hf hb
      rw [bindsKeyAnywhere_obj, Bool.or_eq_false_iff] at hb
      exact binds_of_findM o key k m hf hb.2
    · rw [if_neg h]
      intro hf hb
      injection hf with hf
      rw [← hf]
      exact hb
  | .null, key, k, m => by simp [findObjectWithKey]
  | .bool _, key, k, m => by simp [findObjectWithKey]
  | .num _, key, k, m => by simp [findObjectWithKey]
  | .str _, key, k, m => by simp [findObjectWithKey]
theorem binds_of_findS :
    ∀ (s : List Value) (key k : String) (m : M), findObjectWithKeyS s key = some m →
      bindsKeyAnywhereS k s = false → bindsKeyAnywhere k (.obj m) = false
  | [], key, k, m => by simp [findObjectWithKeyS]
  | v :: rest, key, k, m => by
    rw [findObjectWithKeyS_cons, bindsKeyAnywhereS_cons, Bool.or_eq_false_iff]
    intro hf hb
    cases hv : findObjectWithKey v key with
    | some a =>
      rw [hv] at hf
      simp only [Option.orElse] at hf
      injection hf with hf
      rw [hf] at hv
      exact binds_of_find v key k m hv hb.1
    | none =>
      rw [hv] at hf
      exact binds_of_findS rest key k m hf hb.2
theorem binds_of_findM :
    ∀ (o : List (String × Value)) (key k : String) (m : M),
      findObjectWithKeyM o key = some m →
      bindsKeyAnywhereM k o = false → bindsKeyAnywhere k (.obj m) = false
  | [], key, k, m => by simp [findObjectWithKeyM]
  | (_, v) :: rest, key, k, m => by
    rw [findObjectWithKeyM_cons, bindsKeyAnywhereM_cons, Bool.or_eq_false_iff]
    intro hf hb
    cases hv : findObjectWithKey v key with
    | some a =>
      rw [hv] at hf
      simp only [Option.orElse] at hf
      injection hf with hf
      rw [hf] at hv
      exact binds_of_find v key k m hv hb.1
    | none =>
      rw [hv] at hf
      exact binds_of_findM rest key k m hf hb.2
end

mutual
/-- Writing a map in which `k` is bound nowhere into a tree in which `k` is bound
nowhere gives such a tree. -/
theorem binds_replace :
    ∀ (new : M) (v : Value) (key k : String), bindsKeyAnywhere k v = false →
      bindsKeyAnywhere k (.obj new) = false →
      bindsKeyAnywhere k (replaceObjectWithKey new v key) = false
  | new, .arr s, key, k => by
    rw [replaceObjectWithKey_arr, bindsKeyAnywhere_arr, bindsKeyAnywhere_arr]
    exact binds_replaceS new s key k
  | new, .obj o, key, k => by
    rw [replaceObjectWithKey_obj]
    intro hb hn
    by_cases h : (M.get o key).isNil = true
    · rw [if_pos h]
      rw [bindsKeyAnywhere_obj, Bool.or_eq_false_iff] at hb ⊢
      rw [get_replaceObjectWithKeyM_isNil]
      exact ⟨hb.1, binds_replaceM new o key k hb.2 hn⟩
    · rw [if_neg h]
      exact hn
  | new, .null, key, k => by
    intro h _
    simpa [replaceObjectWithKey] using h
  | new, .bool _, key, k => by
    intro h _
    simpa [replaceObjectWithKey] using h
  | new, .num _, key, k => by
    intro h _
    simpa [replaceObjectWithKey] using h
  | new, .str _, key, k => by
    intro h _
    simpa [replaceObjectWithKey] using h
theorem binds_replaceS :
    ∀ (new : M) (s : List Value) (key k : String), bindsKeyAnywhereS k s = false →
      bindsKeyAnywhere k (.obj new) = false →
      bindsKeyAnywhereS k (replaceObjectWithKeyS new s key) = false
  | new, [], key, k => by
    intro h _
    simpa [replaceObjectWithKeyS] using h
  | new, v :: rest, key, k => by
    rw [replaceObjectWithKeyS_cons, bindsKeyAnywhereS_cons, Bool.or_eq_false_iff]
    intro hb hn
    by_cases h : (findObjectWithKey v key).isSome = true
    · rw [if_pos h, bindsKeyAnywhereS_cons, Bool.or_eq_false_iff]
      exact ⟨binds_replace new v key k hb.1 hn, hb.2⟩
    · rw [if_neg h, bindsKeyAnywhereS_cons, Bool.or_eq_false_iff]
      exact ⟨hb.1, binds_replaceS new rest key k hb.2 hn⟩
theorem binds_replaceM :
    ∀ (new : M) (o : List (String × Value)) (key k : String),
      bindsKeyAnywhereM k o = false →
      bindsKeyAnywhere k (.obj new) = false →
      bindsKeyAnywhereM k (replaceObjectWithKeyM new o key) = false
  | new, [], key, k => by
    intro h _
    simpa [replaceObjectWithKeyM] using h
  | new, (k', v) :: rest, key, k => by
    rw [replaceObjectWithKeyM_cons, bindsKeyAnywhereM_cons, Bool.or_eq_false_iff]
    intro hb hn
    by_cases h : (findObjectWithKey v key).isSome = true
    · rw [if_pos h, bindsKeyAnywhereM_cons, Bool.or_eq_false_iff]
      exact ⟨binds_replace new v key k hb.1 hn, hb.2⟩
    · rw [if_neg h, bindsKeyAnywhereM_cons, Bool.or_eq_false_iff]
      exact ⟨hb.1, binds_replaceM new rest key k hb.2 hn⟩
end

theorem bindsKeyAnywhereM_delete (k op : String) (m : M)
    (h : bindsKeyAnywhereM k m = false) : bindsKeyAnywhereM k (M.delete m op) = false := by
  induction m with
  | nil => exact h
  | cons kv rest ih =>
    obtain ⟨k', v⟩ := kv
    rw [bindsKeyAnywhereM_cons, Bool.or_eq_false_iff] at h
    unfold M.delete
    rw [List.filter_cons]
    split
    · rw [bindsKeyAnywhereM_cons, Bool.or_eq_false_iff]
      exact ⟨h.1, ih h.2⟩
    · exact ih h.2

theorem get_delete_isNil (k op : String) (m : M) (h : (M.get m k).isNil = true) :
    (M.get (M.delete m op) k).isNil = true := by
  unfold M.get M.delete at *
  rw [find?_filter_key m (fun x => decide (x ≠ op)) k]
  split
  · exact h
  · rfl

theorem bindsKeyAnywhereM_set (k out : String) (v : Value) (m : M)
    (h : bindsKeyAnywhereM k m = false) (hv : bindsKeyAnywhere k v = false) :
    bindsKeyAnywhereM k (M.set m out v) = false := by
  induction m with
  | nil =>
    rw [M.set, bindsKeyAnywhereM_cons, hv, h]
    rfl
  | cons kv rest ih =>
    obtain ⟨k', v'⟩ := kv
    rw [bindsKeyAnywhereM_cons, Bool.or_eq_false_iff] at h
    rw [M.set]
    split
    · rw [bindsKeyAnywhereM_cons, Bool.or_eq_false_iff]
      exact ⟨hv, h.2⟩
    · rw [bindsKeyAnywhereM_cons, Bool.or_eq_false_iff]
      exact ⟨h.1, ih h.2⟩

theorem bindsKeyAnywhere_get (k out : String) (m : M)
    (h : bindsKeyAnywhereM k m = false) : bindsKeyAnywhere k (M.get m out) = false := by
  induction m with
  | nil => simp [M.get, M.find?, bindsKeyAnywhere]
  | cons kv rest ih =>
    obtain ⟨k', v'⟩ := kv
    rw [bindsKeyAnywhereM_cons, Bool.or_eq_false_iff] at h
    rw [get_cons]
    split
    · exact h.1
    · exact ih h.2

theorem bindsKeyAnywhereS_append (k : String) (xs ys : List Value)
    (hx : bindsKeyAnywhereS k xs = false) (hy : bindsKeyAnywhereS k ys = false) :
    bindsKeyAnywhereS k (xs ++ ys) = false := by
  induction xs with
  | nil => exact hy
  | cons x rest ih =>
    rw [bindsKeyAnywhereS_cons, Bool.or_eq_false_iff] at hx
    rw [List.cons_append, bindsKeyAnywhereS_cons, Bool.or_eq_false_iff]
    exact ⟨hx.1, ih hx.2⟩

theorem bindsKeyAnywhere_set (k out : String) (v : Value) (m : M) (hk : k ≠ out)
    (h : bindsKeyAnywhere k (.obj m) = false) (hv : bindsKeyAnywhere k v = false) :
    bindsKeyAnywhere k (.obj (M.set m out v)) = false := by
  rw [bindsKeyAnywhere_obj, Bool.or_eq_false_iff] at h ⊢
  rw [get_set_ne m out k v hk]
  exact ⟨h.1, bindsKeyAnywhereM_set k out v m h.2 hv⟩

theorem bindsKeyAnywhere_delete (k op : String) (m : M)
    (h : bindsKeyAnywhere k (.obj m) = false) :
    bindsKeyAnywhere k (.obj (M.delete m op)) = false := by
  rw [bindsKeyAnywhere_obj, Bool.or_eq_false_iff] at h ⊢
  refine ⟨?_, bindsKeyAnywhereM_delete k op m h.2⟩
  have h1 : (M.get m k).isNil = true := by simpa using h.1
  rw [get_delete_isNil k op m h1]
  rfl

/-- The end of a replace method binds no key other than `out` that was not bound
before, when the values bind none. -/
theorem bindsKeyAnywhere_replaceOperator (k op out : String) (m : M) (values : S)
    (hk : k ≠ out) (h : bindsKeyAnywhere k (.obj m) = false)
    (hv : bindsKeyAnywhereS k values = false) :
    bindsKeyAnywhere k (.obj (replaceOperator m op out values)) = false := by
  have hd := bindsKeyAnywhere_delete k op m h
  unfold replaceOperator
  dsimp only
  split
  · apply bindsKeyAnywhere_set k out _ _ hk hd
    rw [bindsKeyAnywhere_arr]
    apply bindsKeyAnywhereS_append k _ _ _ hv
    rw [bindsKeyAnywhere_obj, Bool.or_eq_false_iff] at hd
    have hg := bindsKeyAnywhere_get k out _ hd.2
    cases hx : M.get (M.delete m op) out with
    | arr xs =>
      rw [hx, bindsKeyAnywhere_arr] at hg
      exact hg
    | _ => rfl
  · apply bindsKeyAnywhere_set k out _ _ hk hd
    rw [bindsKeyAnywhere_arr]
    exact hv

/-- After the end of a replace method the operator is not bound in the map. -/
theorem get_replaceOperator (op out : String) (m : M) (values : S) (hk : op ≠ out) :
    (M.get (replaceOperator m op out values) op).isNil = true := by
  have hd : (M.get (M.delete m op) op).isNil = true := by
    unfold M.get M.delete
    rw [find?_filter_key m (fun x => decide (x ≠ op)) op]
    simp
    rfl
  unfold replaceOperator
  dsimp only
  split
  · rw [get_set_ne _ out op _ hk]
    exact hd
  · rw [get_set_ne _ out op _ hk]
    exact hd

theorem NewQuery_empty_fields (auth : Auth) (className : String) (w : Option M)
    (q : Query) (h : NewQuery auth className w (some []) = .ok q) :
    q.auth = auth ∧ q.className = className ∧ q.response = [] ∧ q.doCount = false
      ∧ q.include_ = [] ∧ q.keys = [] ∧ q.redirectKey = "" ∧ q.redirectClassName = "" := by
  rw [NewQuery_options] at h
  cases hn : NewQuery auth className w none with
  | error e => rw [hn] at h; cases h
  | ok q1 =>
    rw [hn] at h
    have h2 : q1 = q := by
      injection h
    rw [← h2]
    exact NewQuery_none_fields auth className w q1 hn

theorem selectValues_noResults (response : Option M) (key : String)
    (h : utils.HasResults response = false) : selectValues response key = [] := by
  unfold selectValues
  rw [h]
  rfl

theorem pointerValues_noResults (response : Option M) (className : Value)
    (h : utils.HasResults response = false) : pointerValues response className = [] := by
  unfold pointerValues
  rw [h]
  rfl

theorem sameFrame_refl (q : Query) : sameFrame q q :=
  ⟨rfl, rfl, rfl, rfl, rfl⟩

theorem sameFrame_trans (a b c : Query) (h1 : sameFrame a b) (h2 : sameFrame b c) :
    sameFrame a c := by
  obtain ⟨a1, a2, a3, a4, a5⟩ := h1
  obtain ⟨b1, b2, b3, b4, b5⟩ := h2
  exact ⟨b1.trans a1, b2.trans a2, b3.trans a3, b4.trans a4, b5.trans a5⟩

theorem sameFrame_Where (q : Query) (w : Option M) : sameFrame q { q with Where := w } :=
  ⟨rfl, rfl, rfl, rfl, rfl⟩

theorem whereValue_of_find (w : Option M) (op : String) (obj : M)
    (h : findObjectWithKey (whereValue w) op = some obj) : ∃ m, w = some m := by
  cases w with
  | none => simp [whereValue, findObjectWithKey] at h
  | some m => exact ⟨m, rfl⟩

theorem whereValue_writeObjectWithKey (m : M) (op : String) (new : M) :
    whereValue (writeObjectWithKey (some m) op new)
      = replaceObjectWithKey new (.obj m) op := by
  unfold writeObjectWithKey
  show whereValue (utils.MapInterface (replaceObjectWithKey new (.obj m) op)) = _
  rw [replaceObjectWithKey_obj]
  split <;> rfl

/-- One round of `replaceSelect` or `replaceDontSelect` that goes on to the next
round: the tree of the next round. -/
theorem replaceSelectFamily_succ (exec : Query → Option (Option M × Error × Query))
    (op out : String) (fuel : Nat) (q : Query) (r : Error × Query)
    (h : replaceSelectFamily exec op out (fuel + 1) q = some r) :
    (findObjectWithKey (whereValue q.Where) op = none ∧ r = (none, q))
    ∨ (∃ e, r = (some e, q))
    ∨ (∃ obj query response after,
        findObjectWithKey (whereValue q.Where) op = some obj
        ∧ NewQuery q.auth (utils.String (nilGet (utils.MapInterface
            (nilGet (utils.MapInterface (M.get obj op)) "query")) "className"))
            (if (nilGet (utils.MapInterface
              (nilGet (utils.MapInterface (M.get obj op)) "query")) "where").isNil
              then some [] else none) (some []) = .ok query
        ∧ exec query = some (response, none, after)
        ∧ replaceSelectFamily exec op out fuel
            { q with Where := (writeObjectWithKey q.Where op
                (replaceOperator obj op out (selectValues response
                  (utils.String (nilGet (utils.MapInterface (M.get obj op)) "key"))))) }
          = some r) := by
  rw [replaceSelectFamily] at h
  cases hf : findObjectWithKey (whereValue q.Where) op with
  | none =>
    rw [hf] at h
    left
    injection h with h
    exact ⟨rfl, h.symm⟩
  | some obj =>
    rw [hf] at h
    dsimp only at h
    split at h
    · right; left
      injection h with h
      exact ⟨_, h.symm⟩
    · split at h
      · right; left
        injection h with h
        exact ⟨_, h.symm⟩
      · split at h
        · right; left
          injection h with h
          exact ⟨_, h.symm⟩
        · rename_i query hq
          split at h
          · cases h
          · right; left
            injection h with h
            exact ⟨_, h.symm⟩
          · rename_i response after hx
            right; right
            exact ⟨obj, query, response, after, rfl, hq, hx, h⟩

/-- One round of `replaceInQuery` or `replaceNotInQuery`. -/
theorem replaceInQueryFamily_succ (exec : Query → Option (Option M × Error × Query))
    (op out : String) (fuel : Nat) (q : Query) (r : Error × Query)
    (h : replaceInQueryFamily exec op out (fuel + 1) q = some r) :
    (findObjectWithKey (whereValue q.Where) op = none ∧ r = (none, q))
    ∨ (∃ e, r.1 = some e)
    ∨ (∃ obj query response after,
        findObjectWithKey (whereValue q.Where) op = some obj
        ∧ NewQuery q.auth
            (utils.String (nilGet (utils.MapInterface (M.get obj op)) "className"))
            (utils.MapInterface (nilGet (utils.MapInterface (M.get obj op)) "where"))
            (some []) = .ok query
        ∧ exec query = some (response, none, after)
        ∧ replaceInQueryFamily exec op out fuel
            { q with Where := (writeObjectWithKey q.Where op
                (replaceOperator obj op out (pointerValues response
                  (nilGet (utils.MapInterface (M.get obj op)) "className")))) }
          = some r) := by
  rw [replaceInQueryFamily] at h
  cases hf : findObjectWithKey (whereValue q.Where) op with
  | none =>
    rw [hf] at h
    left
    injection h with h
    exact ⟨rfl, h.symm⟩
  | some obj =>
    rw [hf] at h
    dsimp only at h
    split at h
    · right; left
      injection h with h
      exact ⟨_, by rw [← h]⟩
    · split at h
      · right; left
        injection h with h
        exact ⟨_, by rw [← h]⟩
      · rename_i query hq
        split at h
        · cases h
        · right; left
          injection h with h
          exact ⟨_, by rw [← h]⟩
        · rename_i response after hx
          right; right
          exact ⟨obj, query, response, after, rfl, hq, hx, h⟩

/-- What a round that goes on does to the tree: no key other than `out` gets
bound, when the nested run gave no rows. -/
theorem binds_write (w : Option M) (op out k : String) (obj : M)
    (hf : findObjectWithKey (whereValue w) op = some obj) (hk : k ≠ out)
    (hb : bindsKeyAnywhere k (whereValue w) = false) :
    bindsKeyAnywhere k
      (whereValue (writeObjectWithKey w op (replaceOperator obj op out []))) = false := by
  obtain ⟨m, hm⟩ := whereValue_of_find w op obj hf
  subst hm
  rw [whereValue_writeObjectWithKey]
  apply binds_replace _ _ op k hb
  exact bindsKeyAnywhere_replaceOperator k op out obj [] hk (binds_of_find _ op k obj hf hb) rfl

theorem replaceSelectFamily_ok (exec : Query → Option (Option M × Error × Query))
    (hexec : NoRows exec) (op out : String) :
    ∀ (fuel : Nat) (q after : Query),
      replaceSelectFamily exec op out fuel q = some (none, after) →
      findObjectWithKey (whereValue after.Where) op = none ∧ sameFrame q after
      ∧ ∀ k, k ≠ out → bindsKeyAnywhere k (whereValue q.Where) = false →
          bindsKeyAnywhere k (whereValue after.Where) = false := by
  intro fuel
  induction fuel with
  | zero =>
    intro q after h
    rw [replaceSelectFamily] at h
    cases h
  | succ fuel ih =>
    intro q after h
    rcases replaceSelectFamily_succ exec op out fuel q _ h with
      ⟨hf, hr⟩ | ⟨e, hr⟩ | ⟨obj, query, response, nested, hf, hq, hx, hrec⟩
    · injection hr with _ hr
      subst hr
      exact ⟨hf, sameFrame_refl _, fun _ _ hb => hb⟩
    · cases hr
    · have hfields := NewQuery_empty_fields _ _ _ query hq
      have hno := hexec query response nested hfields.2.2.2.2.2.1 hfields.2.2.2.2.1
        hfields.2.2.2.1 hx
      rw [selectValues_noResults _ _ hno] at hrec
      obtain ⟨h1, h2, h3⟩ := ih _ after hrec
      refine ⟨h1, sameFrame_trans _ _ _ (sameFrame_Where q _) h2, ?_⟩
      intro k hk hb
      exact h3 k hk (binds_write q.Where op out k obj hf hk hb)

theorem replaceInQueryFamily_ok (exec : Query → Option (Option M × Error × Query))
    (hexec : NoRows exec) (op out : String) :
    ∀ (fuel : Nat) (q after : Query),
      replaceInQueryFamily exec op out fuel q = some (none, after) →
      findObjectWithKey (whereValue after.Where) op = none ∧ sameFrame q after
      ∧ ∀ k, k ≠ out → bindsKeyAnywhere k (whereValue q.Where) = false →
          bindsKeyAnywhere k (whereValue after.Where) = false := by
  intro fuel
  induction fuel with
  | zero =>
    intro q after h
    rw [replaceInQueryFamily] at h
    cases h
  | succ fuel ih =>
    intro q after h
    rcases replaceInQueryFamily_succ exec op out fuel q _ h with
      ⟨hf, hr⟩ | ⟨e, hr⟩ | ⟨obj, query, response, nested, hf, hq, hx, hrec⟩
    · injection hr with _ hr
      subst hr
      exact ⟨hf, sameFrame_refl _, fun _ _ hb => hb⟩
    · cases hr
    · have hfields := NewQuery_empty_fields _ _ _ query hq
      have hno := hexec query response nested hfields.2.2.2.2.2.1 hfields.2.2.2.2.1
        hfields.2.2.2.1 hx
      rw [pointerValues_noResults _ _ hno] at hrec
      obtain ⟨h1, h2, h3⟩ := ih _ after hrec
      refine ⟨h1, sameFrame_trans _ _ _ (sameFrame_Where q _) h2, ?_⟩
      intro k hk hb
      exact h3 k hk (binds_write q.Where op out k obj hf hk hb)

theorem getUserAndRoleACL_frame (q : Query) :
    sameFrame q (getUserAndRoleACL q).2 ∧ (getUserAndRoleACL q).2.Where = q.Where := by
  unfold getUserAndRoleACL
  split
  · exact ⟨sameFrame_refl _, rfl⟩
  · split <;> exact ⟨⟨rfl, rfl, rfl, rfl, rfl⟩, rfl⟩

theorem redirectClassNameForKey_frame (orm : Orm) (q : Query) :
    sameFrame q (redirectClassNameForKey orm q).2
      ∧ (redirectClassNameForKey orm q).2.Where = q.Where := by
  unfold redirectClassNameForKey
  split <;> exact ⟨⟨rfl, rfl, rfl, rfl, rfl⟩, rfl⟩

theorem validateClientClassCreation_snd (orm : Orm) (q : Query) :
    (validateClientClassCreation orm q).2 = q := by
  unfold validateClientClassCreation
  dsimp only
  split
  · rfl
  · split
    · rfl
    · split
      · rfl
      · split <;> rfl

theorem andThen_ok (r : Option (Error × Query)) (next : Query → Option (Error × Query))
    (after : Query) (h : andThen r next = some (none, after)) :
    ∃ mid, r = some (none, mid) ∧ next mid = some (none, after) := by
  unfold andThen at h
  split at h
  · cases h
  · injection h with h
    injection h with h _
    cases h
  · exact ⟨_, rfl, h⟩

/-- The tree that `BuildRestWhere` leaves when it returns no error binds none of
the four operators, for nested runs that give no rows. -/
theorem BuildRestWhereWith_ok (orm : Orm)
    (exec : Query → Option (Option M × Error × Query)) (hexec : NoRows exec)
    (fuel : Nat) (q after : Query)
    (h : BuildRestWhereWith orm exec fuel q = some (none, after)) :
    sameFrame q after
      ∧ ∀ key ∈ desugaredKeys, bindsKeyAnywhere key (whereValue after.Where) = false := by
  unfold BuildRestWhereWith at h
  obtain ⟨q1, h1, h⟩ := andThen_ok _ _ _ h
  obtain ⟨q2, h2, h⟩ := andThen_ok _ _ _ h
  obtain ⟨q3, h3, h⟩ := andThen_ok _ _ _ h
  obtain ⟨q4, h4, h⟩ := andThen_ok _ _ _ h
  obtain ⟨q5, h5, h⟩ := andThen_ok _ _ _ h
  obtain ⟨q6, h6, h⟩ := andThen_ok _ _ _ h
  obtain ⟨q7, h7, h⟩ := andThen_ok _ _ _ h
  injection h with h
  injection h with _ h
  subst h
  have f1 : sameFrame q q1 := by
    have := (getUserAndRoleACL_frame q).1
    injection h1 with h1
    rw [h1] at this
    exact this
  have f2 : sameFrame q1 q2 := by
    have := (redirectClassNameForKey_frame orm q1).1
    injection h2 with h2
    rw [h2] at this
    exact this
  have f3 : q3 = q2 := by
    have := validateClientClassCreation_snd orm q2
    injection h3 with h3
    rw [h3] at this
    exact this
  subst f3
  obtain ⟨a4, b4, _⟩ := replaceSelectFamily_ok exec hexec _ _ fuel _ _ h4
  obtain ⟨a5, b5, c5⟩ := replaceSelectFamily_ok exec hexec _ _ fuel _ _ h5
  obtain ⟨a6, b6, c6⟩ := replaceInQueryFamily_ok exec hexec _ _ fuel _ _ h6
  obtain ⟨a7, b7, c7⟩ := replaceInQueryFamily_ok exec hexec _ _ fuel _ _ h7
  refine ⟨?_, ?_⟩
  · exact sameFrame_trans _ _ _ f1 (sameFrame_trans _ _ _ f2 (sameFrame_trans _ _ _ b4
      (sameFrame_trans _ _ _ b5 (sameFrame_trans _ _ _ b6 b7))))
  · rw [findObjectWithKey_eq_none] at a4 a5 a6 a7
    intro key hkey
    simp only [desugaredKeys, List.mem_cons, List.mem_singleton, List.not_mem_nil,
      or_false] at hkey
    rcases hkey with hk | hk | hk | hk
    · subst hk
      exact c7 _ (by decide) (c6 _ (by decide) (c5 _ (by decide) a4))
    · subst hk
      exact c7 _ (by decide) (c6 _ (by decide) a5)
    · subst hk
      exact c7 _ (by decide) a6
    · subst hk
      exact a7

theorem get_set_same (m : M) (k : String) (v : Value) : M.get (M.set m k v) k = v := by
  induction m with
  | nil => simp [M.set, M.get, M.find?]
  | cons kv rest ih =>
    obtain ⟨k', v'⟩ := kv
    rw [M.set]
    by_cases h : k' = k
    · rw [if_pos h, get_cons, if_pos rfl]
    · rw [if_neg h, get_cons, if_neg h, ih]

/-- Every run of `Execute` on a query without `keys`, `include` and `count` gives
a response without rows. -/
theorem Execute_noRows (orm : Orm) : ∀ fuel, NoRows (Execute orm fuel) := by
  intro fuel
  induction fuel with
  | zero =>
    intro query response after _ _ _ h
    rw [Execute] at h
    cases h
  | succ fuel ih =>
    intro query response after hk hi hc h
    rw [Execute] at h
    split at h
    · cases h
    · cases h
    · rename_i q1 hb
      obtain ⟨⟨_, fk, fi, fc, _⟩, _⟩ := BuildRestWhereWith_ok orm _ ih _ _ _ hb
      have hfind : runFind orm q1
          = (none, { q1 with response := M.set q1.response "results" (.arr []) }) := by
        unfold runFind
        simp [fk, hk]
      rw [hfind] at h
      dsimp only at h
      have hcount : ∀ q : Query, q.doCount = false → runCount orm q = (none, q) := by
        intro q hq
        unfold runCount
        rw [if_pos hq]
      rw [hcount _ (by rw [← hc, ← fc])] at h
      dsimp only at h
      unfold handleIncludeWith at h
      dsimp only at h
      rw [fi, hi, handleIncludeLoop] at h
      dsimp only at h
      injection h with h
      injection h with h _
      rw [← h]
      unfold utils.HasResults nilGet
      simp [get_set_same, utils.SliceInterface, nilEntriesS]

/-- C19, amended: for every where tree and every storage collaborator, when
`BuildRestWhere` returns without error, no map anywhere in `q.Where` has a value
other than `nil` under one of the keys `$select`, `$dontSelect`, `$inQuery`,
`$notInQuery`. -/
theorem BuildRestWhere_desugared (orm : Orm) (fuel : Nat) (q after : Query)
    (h : BuildRestWhere orm fuel q = some (none, after)) :
    ∀ key ∈ desugaredKeys, bindsKeyAnywhere key (whereValue after.Where) = false :=
  (BuildRestWhereWith_ok orm _ (Execute_noRows orm fuel) fuel q after h).2

/-- C19, at the query of the comment on `replaceSelect`: `BuildRestWhere` returns
the tree with `$in` in the place of `$select`, and none of the four operators is
left. -/
theorem BuildRestWhere_desugared_witness :
    BuildRestWhere teamOrm 2 hometownQuery
        = some (none, { hometownQuery with
            Where := some [("hometown", .obj [("$in", .arr [])])] })
    ∧ ∀ key ∈ desugaredKeys,
        bindsKeyAnywhere key (.obj [("hometown", .obj [("$in", .arr [])])]) = false :=
  ⟨by decide,
    BuildRestWhere_desugared teamOrm 2 hometownQuery
      { hometownQuery with Where := some [("hometown", .obj [("$in", .arr [])])] }
      (by decide)⟩

/-- C19 as stated fails: for the where `{"a": {"$select": null}}`, `BuildRestWhere`
returns without error and the map under `a` still has the key `$select`. -/
theorem BuildRestWhere_desugared_counterexample :
    BuildRestWhere teamOrm 1 nullSelectQuery = some (none, nullSelectQuery)
    ∧ hasKeyAnywhere "$select" (whereValue nullSelectQuery.Where) = true := by
  decide

theorem replaceSelectFamily_malformed (exec : Query → Option (Option M × Error × Query))
    (op out : String) (fuel : Nat) (q : Query) (obj : M)
    (hf : findObjectWithKey (whereValue q.Where) op = some obj)
    (hm : hasExactlyKeys (M.get obj op) "query" "key" = false) :
    replaceSelectFamily exec op out (fuel + 1) q = some (some (.err .InvalidQuery), q) := by
  rw [replaceSelectFamily, hf]
  dsimp only
  rw [if_pos]
  unfold hasExactlyKeys at hm
  cases hv : M.get obj op with
  | obj m =>
    rw [hv] at hm
    simp only [Bool.and_eq_false_iff, decide_eq_false_iff_not] at hm
    simp only [utils.MapInterface, nilGet, nilEntries, Option.getD, Option.isNone,
      Bool.false_or, Bool.or_eq_true, decide_eq_true_eq, M.get]
    unfold M.has at hm
    rcases hm with (hm | hm) | hm
    · right; exact hm
    · left; left
      cases hx : M.find? m "query" with
      | none => rfl
      | some x => rw [hx] at hm; simp at hm
    · left; right
      cases hx : M.find? m "key" with
      | none => rfl
      | some x => rw [hx] at hm; simp at hm
  | _ => rfl

theorem replaceInQueryFamily_malformed (exec : Query → Option (Option M × Error × Query))
    (op out : String) (fuel : Nat) (q : Query) (obj : M)
    (hf : findObjectWithKey (whereValue q.Where) op = some obj)
    (hm : hasExactlyKeys (M.get obj op) "where" "className" = false) :
    replaceInQueryFamily exec op out (fuel + 1) q = some (some (.err .InvalidQuery), q) := by
  rw [replaceInQueryFamily, hf]
  dsimp only
  rw [if_pos]
  unfold hasExactlyKeys at hm
  cases hv : M.get obj op with
  | obj m =>
    rw [hv] at hm
    simp only [Bool.and_eq_false_iff, decide_eq_false_iff_not] at hm
    simp only [utils.MapInterface, nilGet, nilEntries, Option.getD, Option.isNone,
      Bool.false_or, Bool.or_eq_true, decide_eq_true_eq, M.get]
    unfold M.has at hm
    rcases hm with (hm | hm) | hm
    · right; exact hm
    · left; left
      cases hx : M.find? m "where" with
      | none => rfl
      | some x => rw [hx] at hm; simp at hm
    · left; right
      cases hx : M.find? m "className" with
      | none => rfl
      | some x => rw [hx] at hm; simp at hm
  | _ => rfl

theorem replaceSelectFamily_absent (exec : Query → Option (Option M × Error × Query))
    (op out : String) (fuel : Nat) (q : Query)
    (h : bindsKeyAnywhere op (whereValue q.Where) = false) :
    replaceSelectFamily exec op out (fuel + 1) q = some (none, q) := by
  rw [replaceSelectFamily, (findObjectWithKey_eq_none _ _).2 h]

theorem replaceInQueryFamily_absent (exec : Query → Option (Option M × Error × Query))
    (op out : String) (fuel : Nat) (q : Query)
    (h : bindsKeyAnywhere op (whereValue q.Where) = false) :
    replaceInQueryFamily exec op out (fuel + 1) q = some (none, q) := by
  rw [replaceInQueryFamily, (findObjectWithKey_eq_none _ _).2 h]

theorem andThen_pass (r : Error × Query) (next : Query → Option (Error × Query))
    (h : r.1 = none) : andThen (some r) next = next r.2 := by
  obtain ⟨e, q⟩ := r
  cases e with
  | none => rfl
  | some e => cases h

theorem guards_Where (orm : Orm) (q : Query) :
    (validateClientClassCreation orm
      (redirectClassNameForKey orm (getUserAndRoleACL q).2).2).2.Where = q.Where := by
  rw [validateClientClassCreation_snd, (redirectClassNameForKey_frame orm _).2,
    (getUserAndRoleACL_frame q).2]

/-- The run of `BuildRestWhere` up to the operators, when the three steps before
them return no error. -/
theorem BuildRestWhereWith_guards (orm : Orm)
    (exec : Query → Option (Option M × Error × Query)) (fuel : Nat) (q : Query)
    (hacl : (getUserAndRoleACL q).1 = none)
    (hcc : (validateClientClassCreation orm
      (redirectClassNameForKey orm (getUserAndRoleACL q).2).2).1 = none) :
    ∃ q3, q3.Where = q.Where ∧
      BuildRestWhereWith orm exec fuel q =
        andThen (replaceSelectWith exec fuel q3) fun q =>
        andThen (replaceDontSelectWith exec fuel q) fun q =>
        andThen (replaceInQueryWith exec fuel q) fun q =>
        andThen (replaceNotInQueryWith exec fuel q) fun q =>
        some (none, q) := by
  refine ⟨(validateClientClassCreation orm
      (redirectClassNameForKey orm (getUserAndRoleACL q).2).2).2, guards_Where orm q, ?_⟩
  unfold BuildRestWhereWith
  rw [andThen_pass _ _ hacl, andThen_pass (redirectClassNameForKey orm _) _ ?_,
    andThen_pass (validateClientClassCreation orm _) _ hcc]
  unfold redirectClassNameForKey
  split <;> rfl

/-! ## The values of `$select` and failures of `BuildRestWhere`: proofs -/

theorem findObjectWithKey_node (key : String) (node : M)
    (hnode : (M.get node key).isNil = false) :
    findObjectWithKey (.obj node) key = some node := by
  rw [findObjectWithKey_obj, hnode]
  rfl

theorem findObjectWithKey_field (field key : String) (node : M) (hf : field ≠ key)
    (hnode : (M.get node key).isNil = false) :
    findObjectWithKey (.obj [(field, .obj node)]) key = some node := by
  rw [findObjectWithKey_obj, get_cons, if_neg hf]
  have h0 : (M.get [] key).isNil = true := rfl
  rw [h0, if_pos rfl, findObjectWithKeyM_cons, findObjectWithKey_node key node hnode]
  rfl

theorem replaceObjectWithKey_field (field key : String) (node new : M) (hf : field ≠ key)
    (hnode : (M.get node key).isNil = false) :
    replaceObjectWithKey new (.obj [(field, .obj node)]) key = .obj [(field, .obj new)] := by
  rw [replaceObjectWithKey_obj, get_cons, if_neg hf]
  have h0 : (M.get [] key).isNil = true := rfl
  rw [h0, if_pos rfl, replaceObjectWithKeyM_cons, findObjectWithKey_node key node hnode,
    replaceObjectWithKey_obj, hnode]
  rfl

/-- C21, what the code does: for every storage collaborator and every where tree
with one `$select` node under `field`, when `replaceSelect` returns without error the
node is the node without `$select` whose `$in` holds what it held before and no value
from the rows of the storage collaborator. -/
theorem replaceSelect_inserts_nothing (orm : Orm) (fuel : Nat) (q after : Query)
    (field : String) (node : M)
    (hw : q.Where = some [(field, .obj node)]) (hf : field ≠ "$select")
    (hsel : (M.get node "$select").isNil = false)
    (hrest : bindsKeyAnywhereM "$select" (M.delete node "$select") = false)
    (h : replaceSelect orm fuel q = some (none, after)) :
    after.Where = some [(field, .obj (replaceOperator node "$select" "$in" []))] := by
  unfold replaceSelect replaceSelectWith at h
  cases fuel with
  | zero => rw [replaceSelectFamily] at h; cases h
  | succ fuel =>
    have hfind : findObjectWithKey (whereValue q.Where) "$select" = some node := by
      rw [hw]
      exact findObjectWithKey_field field "$select" node hf hsel
    rcases replaceSelectFamily_succ _ _ _ fuel q _ h with
      ⟨hnone, _⟩ | ⟨e, hr⟩ | ⟨obj, query, response, nested, hobj, hq, hx, hrec⟩
    · rw [hfind] at hnone; cases hnone
    · cases hr
    · rw [hfind] at hobj
      injection hobj with hobj
      subst hobj
      have hfields := NewQuery_empty_fields _ _ _ query hq
      have hno := Execute_noRows orm (fuel + 1) query response nested hfields.2.2.2.2.2.1
        hfields.2.2.2.2.1 hfields.2.2.2.1 hx
      rw [selectValues_noResults _ _ hno] at hrec
      have hnew : whereValue (writeObjectWithKey q.Where "$select"
          (replaceOperator node "$select" "$in" []))
          = .obj [(field, .obj (replaceOperator node "$select" "$in" []))] := by
        rw [hw, whereValue_writeObjectWithKey]
        exact replaceObjectWithKey_field field "$select" node _ hf hsel
      have hW : writeObjectWithKey q.Where "$select"
          (replaceOperator node "$select" "$in" [])
          = some [(field, .obj (replaceOperator node "$select" "$in" []))] := by
        cases hx : writeObjectWithKey q.Where "$select"
            (replaceOperator node "$select" "$in" []) with
        | none => rw [hx] at hnew; cases hnew
        | some m =>
          rw [hx] at hnew
          injection hnew with hnew
          rw [hnew]
      rw [hW] at hrec
      have hclean : findObjectWithKey
          (.obj [(field, .obj (replaceOperator node "$select" "$in" []))]) "$select"
          = none := by
        rw [findObjectWithKey_eq_none, bindsKeyAnywhere_obj, get_cons, if_neg hf,
          bindsKeyAnywhereM_cons, bindsKeyAnywhere_obj,
          get_replaceOperator "$select" "$in" node [] (by decide)]
        have h1 : bindsKeyAnywhereM "$select" (replaceOperator node "$select" "$in" [])
            = false := by
          unfold replaceOperator
          dsimp only
          split
          · apply bindsKeyAnywhereM_set _ _ _ _ hrest
            rw [bindsKeyAnywhere_arr, List.append_nil]
            have hg := bindsKeyAnywhere_get "$select" "$in" _ hrest
            cases hx : M.get (M.delete node "$select") "$in" with
            | arr xs =>
              rw [hx, bindsKeyAnywhere_arr] at hg
              exact hg
            | _ => rfl
          · exact bindsKeyAnywhereM_set _ _ _ _ hrest rfl
        rw [h1]
        rfl
      cases fuel with
      | zero => rw [replaceSelectFamily] at hrec; cases hrec
      | succ fuel =>
        rcases replaceSelectFamily_succ _ _ _ fuel _ _ hrec with
          ⟨_, hr⟩ | ⟨e, hr⟩ | ⟨obj, _, _, _, hobj, _⟩
        · injection hr with _ hr
          rw [hr]
        · cases hr
        · change findObjectWithKey
            (.obj [(field, .obj (replaceOperator node "$select" "$in" []))]) "$select"
            = some obj at hobj
          rw [hclean] at hobj
          cases hobj

/-- C21, at the example of the claim, with two `Team` rows that hold `minAge` 18
and 21: `replaceSelect` gives `{"age": {"$in": []}}`. -/
theorem replaceSelect_inserts_nothing_witness :
    replaceSelect minAgeOrm 2 ageQuery
        = some (none, { ageQuery with Where := some [("age", .obj [("$in", .arr [])])] })
    ∧ minAgeOrm.Find "Team" (some []) []
        = [.obj [("objectId", .str "t1"), ("minAge", .num 18)],
           .obj [("objectId", .str "t2"), ("minAge", .num 21)]]
    ∧ (some [("age", .obj [("$in", .arr [])])] : Option M)
        = some [("age", .obj (replaceOperator minAgeSelect "$select" "$in" []))] :=
  ⟨by decide, by decide,
    replaceSelect_inserts_nothing minAgeOrm 2 ageQuery
      { ageQuery with Where := some [("age", .obj [("$in", .arr [])])] } "age" minAgeSelect
      rfl (by decide) (by decide) (by decide) (by decide)⟩

/-- C22 as stated fails: `BuildRestWhere` writes to the tree it was given.  With
a well-formed `$select` under `age` and a `$dontSelect` that is not a map under
`name`, it returns InvalidQuery and the tree holds `$in` in the place of `$select`;
with a nested where that fails in its `$notInQuery`, it returns InvalidQuery and the
nested where holds `$in` in the place of its `$inQuery`. -/
theorem BuildRestWhere_partial_rewrite :
    BuildRestWhere minAgeOrm 2 halfQuery
        = some (some (.err .InvalidQuery), { halfQuery with
            Where := some [("age", .obj [("$in", .arr [])]),
              ("name", .obj [("$dontSelect", .num 5)])] })
    ∧ halfQuery.Where ≠ some [("age", .obj [("$in", .arr [])]),
        ("name", .obj [("$dontSelect", .num 5)])]
    ∧ (BuildRestWhere minAgeOrm 3 nestedFailQuery).map (fun r => (r.1, r.2.Where))
        = some (some (.err .InvalidQuery),
            some [("post", .obj [("$inQuery", .obj [("where", .obj [
                ("a", .obj [("$in", .arr [])]),
                ("b", .obj [("$notInQuery", .num 1)])]),
              ("className", .str "Post")])])]) := by
  decide

/-! ## Termination of the replace methods: proofs -/

theorem countKey_arr (key : String) (s : List Value) :
    countKey key (.arr s) = countKeyS key s := by
  rw [countKey]

theorem countKey_obj (key : String) (m : M) :
    countKey key (.obj m) = (if (M.get m key).isNil then 0 else 1) + countKeyM key m := by
  rw [countKey]

theorem countKeyS_cons (key : String) (v : Value) (rest : List Value) :
    countKeyS key (v :: rest) = countKey key v + countKeyS key rest := by
  rw [countKeyS]

theorem countKeyM_cons (key : String) (k : String) (v : Value)
    (rest : List (String × Value)) :
    countKeyM key ((k, v) :: rest) = countKey key v + countKeyM key rest := by
  rw [countKeyM]

theorem countKey_null (key : String) : countKey key .null = 0 := by
  simp [countKey]

mutual
/-- The map that the search returns binds the key. -/
theorem find_binds :
    ∀ (v : Value) (key : String) (obj : M), findObjectWithKey v key = some obj →
      (M.get obj key).isNil = false
  | .arr s, key, obj => by
    rw [findObjectWithKey_arr]
    exact find_bindsS s key obj
  | .obj m, key, obj => by
    rw [findObjectWithKey_obj]
    by_cases h : (M.get m key).isNil = true
    · rw [if_pos h]
      exact find_bindsM m key obj
    · rw [if_neg h]
      intro hf
      injection hf with hf
      rw [← hf]
      simpa using h
  | .null, key, obj => by simp [findObjectWithKey]
  | .bool _, key, obj => by simp [findObjectWithKey]
  | .num _, key, obj => by simp [findObjectWithKey]
  | .str _, key, obj => by simp [findObjectWithKey]
theorem find_bindsS :
    ∀ (s : List Value) (key : String) (obj : M), findObjectWithKeyS s key = some obj →
      (M.get obj key).isNil = false
  | [], key, obj => by simp [findObjectWithKeyS]
  | v :: rest, key, obj => by
    rw [findObjectWithKeyS_cons]
    intro hf
    cases hv : findObjectWithKey v key with
    | some a =>
      rw [hv] at hf
      simp only [Option.orElse] at hf
      injection hf with hf
      rw [hf] at hv
      exact find_binds v key obj hv
    | none =>
      rw [hv] at hf
      exact find_bindsS rest key obj hf
theorem find_bindsM :
    ∀ (m : List (String × Value)) (key : String) (obj : M),
      findObjectWithKeyM m key = some obj → (M.get obj key).isNil = false
  | [], key, obj => by simp [findObjectWithKeyM]
  | (_, v) :: rest, key, obj => by
    rw [findObjectWithKeyM_cons]
    intro hf
    cases hv : findObjectWithKey v key with
    | some a =>
      rw [hv] at hf
      simp only [Option.orElse] at hf
      injection hf with hf
      rw [hf] at hv
      exact find_binds v key obj hv
    | none =>
      rw [hv] at hf
      exact find_bindsM rest key obj hf
end

mutual
/-- The count of a key after a write to the map that the search returns: what the
old map counted goes, what the new map counts comes. -/
theorem countKey_replace :
    ∀ (new : M) (v : Value) (key k : String) (obj : M),
      findObjectWithKey v key = some obj →
      countKey k (replaceObjectWithKey new v key) + countKey k (.obj obj)
        = countKey k v + countKey k (.obj new)
  | new, .arr s, key, k, obj => by
    rw [findObjectWithKey_arr, replaceObjectWithKey_arr, countKey_arr, countKey_arr]
    exact countKey_replaceS new s key k obj
  | new, .obj m, key, k, obj => by
    rw [findObjectWithKey_obj, replaceObjectWithKey_obj]
    by_cases h : (M.get m key).isNil = true
    · rw [if_pos h, if_pos h]
      intro hf
      have := countKey_replaceM new m key k obj hf
      rw [countKey_obj k (replaceObjectWithKeyM new m key), countKey_obj k m,
        get_replaceObjectWithKeyM_isNil]
      omega
    · rw [if_neg h, if_neg h]
      intro hf
      injection hf with hf
      rw [hf]
      omega
  | new, .null, key, k, obj => by simp [findObjectWithKey]
  | new, .bool _, key, k, obj => by simp [findObjectWithKey]
  | new, .num _, key, k, obj => by simp [findObjectWithKey]
  | new, .str _, key, k, obj => by simp [findObjectWithKey]
theorem countKey_replaceS :
    ∀ (new : M) (s : List Value) (key k : String) (obj : M),
      findObjectWithKeyS s key = some obj →
      countKeyS k (replaceObjectWithKeyS new s key) + countKey k (.obj obj)
        = countKeyS k s + countKey k (.obj new)
  | new, [], key, k, obj => by simp [findObjectWithKeyS]
  | new, v :: rest, key, k, obj => by
    rw [findObjectWithKeyS_cons, replaceObjectWithKeyS_cons]
    intro hf
    cases hv : findObjectWithKey v key with
    | some a =>
      rw [hv] at hf
      simp only [Option.orElse] at hf
      injection hf with hf
      rw [hf] at hv
      rw [if_pos (by rfl), countKeyS_cons, countKeyS_cons]
      have := countKey_replace new v key k obj hv
      omega
    | none =>
      rw [hv] at hf
      rw [if_neg (by simp), countKeyS_cons, countKeyS_cons]
      have := countKey_replaceS new rest key k obj hf
      omega
theorem countKey_replaceM :
    ∀ (new : M) (m : List (String × Value)) (key k : String) (obj : M),
      findObjectWithKeyM m key = some obj →
      countKeyM k (replaceObjectWithKeyM new m key) + countKey k (.obj obj)
        = countKeyM k m + countKey k (.obj new)
  | new, [], key, k, obj => by simp [findObjectWithKeyM]
  | new, (k', v) :: rest, key, k, obj => by
    rw [findObjectWithKeyM_cons, replaceObjectWithKeyM_cons]
    intro hf
    cases hv : findObjectWithKey v key with
    | some a =>
      rw [hv] at hf
      simp only [Option.orElse] at hf
      injection hf with hf
      rw [hf] at hv
      rw [if_pos (by rfl), countKeyM_cons, countKeyM_cons]
      have := countKey_replace new v key k obj hv
      omega
    | none =>
      rw [hv] at hf
      rw [if_neg (by simp), countKeyM_cons, countKeyM_cons]
      have := countKey_replaceM new rest key k obj hf
      omega
end

theorem countKey_of_find (v : Value) (key k : String) (obj : M)
    (h : findObjectWithKey v key = some obj) : countKey k (.obj obj) ≤ countKey k v := by
  have := countKey_replace [] v key k obj h
  have h0 : countKey k (.obj []) = 0 := by
    rw [countKey_obj]
    rfl
  omega

theorem countKeyM_delete (k op : String) (m : M) :
    countKeyM k (M.delete m op) ≤ countKeyM k m := by
  induction m with
  | nil => exact Nat.le_refl _
  | cons kv rest ih =>
    obtain ⟨k', v⟩ := kv
    unfold M.delete at ih ⊢
    rw [List.filter_cons]
    split
    · rw [countKeyM_cons, countKeyM_cons]
      omega
    · rw [countKeyM_cons]
      omega

theorem get_delete_ne (m : M) (k op : String) (h : k ≠ op) :
    M.get (M.delete m op) k = M.get m k := by
  unfold M.get M.delete
  rw [find?_filter_key m (fun x => decide (x ≠ op)) k]
  simp [h]

theorem get_delete_self (m : M) (op : String) : M.get (M.delete m op) op = .null := by
  unfold M.get M.delete
  rw [find?_filter_key m (fun x => decide (x ≠ op)) op]
  simp

theorem countKey_get_le (k key : String) (m : M) :
    countKey k (M.get m key) ≤ countKeyM k m := by
  induction m with
  | nil =>
    show countKey k .null ≤ _
    rw [countKey_null]
    exact Nat.zero_le _
  | cons kv rest ih =>
    obtain ⟨k', v⟩ := kv
    rw [get_cons, countKeyM_cons]
    split <;> omega

theorem countKeyM_set (k out : String) (v : Value) (m : M)
    (h : countKey k v ≤ countKey k (M.get m out)) :
    countKeyM k (M.set m out v) ≤ countKeyM k m := by
  induction m with
  | nil =>
    have h0 : countKey k (M.get [] out) = 0 := countKey_null k
    rw [M.set, countKeyM_cons]
    rw [h0] at h
    show _ ≤ 0
    rw [countKeyM]
    omega
  | cons kv rest ih =>
    obtain ⟨k', v'⟩ := kv
    rw [get_cons] at h
    rw [M.set]
    by_cases hk : k' = out
    · rw [if_pos hk] at h ⊢
      rw [countKeyM_cons, countKeyM_cons]
      omega
    · rw [if_neg hk] at h ⊢
      rw [countKeyM_cons, countKeyM_cons]
      have := ih h
      omega

theorem countKeyS_append (k : String) (xs ys : List Value) :
    countKeyS k (xs ++ ys) = countKeyS k xs + countKeyS k ys := by
  induction xs with
  | nil =>
    rw [List.nil_append, countKeyS]
    omega
  | cons x rest ih =>
    rw [List.cons_append, countKeyS_cons, countKeyS_cons, ih]
    omega

theorem countKeyM_replaceOperator_le (k op out : String) (m : M) :
    countKeyM k (replaceOperator m op out []) ≤ countKeyM k m := by
  unfold replaceOperator
  dsimp only
  split
  · refine Nat.le_trans (countKeyM_set k out _ _ ?_) (countKeyM_delete k op m)
    rw [List.append_nil, countKey_arr]
    cases hx : M.get (M.delete m op) out with
    | arr xs =>
      rw [countKey_arr]
      exact Nat.le_refl _
    | _ => exact Nat.zero_le _
  · refine Nat.le_trans (countKeyM_set k out _ _ ?_) (countKeyM_delete k op m)
    rw [countKey_arr]
    exact Nat.zero_le _

/-- The map at the end of a replace method with no values counts, for every key
other than `out`, at most what the map counted before. -/
theorem countKey_replaceOperator_le (k op out : String) (m : M) (hk : k ≠ out) :
    countKey k (.obj (replaceOperator m op out [])) ≤ countKey k (.obj m) := by
  have hM := countKeyM_replaceOperator_le k op out m
  have hT : (if (M.get (replaceOperator m op out []) k).isNil then 0 else 1)
      ≤ (if (M.get m k).isNil then 0 else 1) := by
    have hg : M.get (replaceOperator m op out []) k = M.get (M.delete m op) k := by
      unfold replaceOperator
      dsimp only
      split <;> rw [get_set_ne _ out k _ hk]
    rw [hg]
    by_cases hop : k = op
    · subst hop
      rw [get_delete_self]
      exact Nat.zero_le _
    · rw [get_delete_ne m k op hop]
  rw [countKey_obj, countKey_obj]
  omega

/-- The map at the end of a replace method with no values counts one operator
less. -/
theorem countKey_replaceOperator_lt (op out : String) (m : M) (hk : op ≠ out)
    (hb : (M.get m op).isNil = false) :
    countKey op (.obj (replaceOperator m op out [])) < countKey op (.obj m) := by
  have hM := countKeyM_replaceOperator_le op op out m
  rw [countKey_obj, countKey_obj, get_replaceOperator op out m [] hk, hb]
  simp only [if_true]
  have : (if false = true then 0 else 1) = 1 := rfl
  omega

/-- One pass of a replace method with no values: the operator occurs less often
in the tree, and no other key except `out` occurs more often. -/
theorem countKey_write (w : Option M) (op out : String) (obj : M) (hk : op ≠ out)
    (hf : findObjectWithKey (whereValue w) op = some obj) :
    countKey op (whereValue (writeObjectWithKey w op (replaceOperator obj op out [])))
        < countKey op (whereValue w)
    ∧ ∀ k, k ≠ out →
        countKey k (whereValue (writeObjectWithKey w op (replaceOperator obj op out [])))
          ≤ countKey k (whereValue w) := by
  obtain ⟨m, hm⟩ := whereValue_of_find w op obj hf
  subst hm
  rw [whereValue_writeObjectWithKey]
  change findObjectWithKey (.obj m) op = some obj at hf
  show countKey op (replaceObjectWithKey (replaceOperator obj op out []) (.obj m) op)
        < countKey op (.obj m)
    ∧ ∀ k, k ≠ out →
        countKey k (replaceObjectWithKey (replaceOperator obj op out []) (.obj m) op)
          ≤ countKey k (.obj m)
  constructor
  · have h1 := countKey_replace (replaceOperator obj op out []) _ op op obj hf
    have h2 := countKey_replaceOperator_lt op out obj hk (find_binds _ op obj hf)
    omega
  · intro k hko
    have h1 := countKey_replace (replaceOperator obj op out []) _ op k obj hf
    have h2 := countKey_replaceOperator_le k op out obj hko
    omega

theorem operatorCount_write (w : Option M) (op out : String) (obj : M)
    (hop : op ∈ desugaredKeys) (hout : out ∉ desugaredKeys)
    (hf : findObjectWithKey (whereValue w) op = some obj) :
    operatorCount (whereValue (writeObjectWithKey w op (replaceOperator obj op out [])))
      < operatorCount (whereValue w) := by
  have hne : op ≠ out := fun h => hout (h ▸ hop)
  obtain ⟨hlt, hle⟩ := countKey_write w op out obj hne hf
  have h1 := hle "$select" (fun h => hout (h ▸ by decide))
  have h2 := hle "$dontSelect" (fun h => hout (h ▸ by decide))
  have h3 := hle "$inQuery" (fun h => hout (h ▸ by decide))
  have h4 := hle "$notInQuery" (fun h => hout (h ▸ by decide))
  unfold operatorCount
  simp only [desugaredKeys, List.mem_cons, List.mem_singleton, List.not_mem_nil,
    or_false] at hop
  rcases hop with h | h | h | h <;> subst h <;> omega

theorem countKey_str (k s : String) : countKey k (.str s) = 0 := by
  simp [countKey]

theorem countKey_whereValue_MapInterface (k : String) (v : Value) :
    countKey k (whereValue (utils.MapInterface v)) ≤ countKey k v := by
  cases v with
  | obj m => exact Nat.le_refl _
  | _ => exact Nat.zero_le _

theorem countKey_nilGet_MapInterface (k key : String) (v : Value) :
    countKey k (nilGet (utils.MapInterface v) key) ≤ countKey k v := by
  cases v with
  | obj m =>
    show countKey k (M.get m key) ≤ _
    have := countKey_get_le k key m
    rw [countKey_obj]
    omega
  | _ => exact Nat.zero_le _

/-- The nested where of an operator counts, for every key, at most what the values of
the map that holds the operator count. -/
theorem countKey_nested_le (k op : String) (obj : M) :
    countKey k (whereValue (utils.MapInterface
      (nilGet (utils.MapInterface (M.get obj op)) "where"))) ≤ countKeyM k obj :=
  Nat.le_trans (countKey_whereValue_MapInterface k _)
    (Nat.le_trans (countKey_nilGet_MapInterface k "where" _) (countKey_get_le k op obj))

theorem operatorCount_obj (obj : M) :
    operatorCount (.obj obj) =
      (if (M.get obj "$select").isNil then 0 else 1) + countKeyM "$select" obj
      + ((if (M.get obj "$dontSelect").isNil then 0 else 1) + countKeyM "$dontSelect" obj)
      + ((if (M.get obj "$inQuery").isNil then 0 else 1) + countKeyM "$inQuery" obj)
      + ((if (M.get obj "$notInQuery").isNil then 0 else 1)
          + countKeyM "$notInQuery" obj) := by
  unfold operatorCount
  rw [countKey_obj, countKey_obj, countKey_obj, countKey_obj]

theorem operatorCount_of_find (v : Value) (op : String) (obj : M)
    (h : findObjectWithKey v op = some obj) :
    operatorCount (.obj obj) ≤ operatorCount v := by
  unfold operatorCount
  have h1 := countKey_of_find v op "$select" obj h
  have h2 := countKey_of_find v op "$dontSelect" obj h
  have h3 := countKey_of_find v op "$inQuery" obj h
  have h4 := countKey_of_find v op "$notInQuery" obj h
  omega

/-- A map that binds one of the four operators counts at least one operator more
than its values. -/
theorem operatorCount_binds (op : String) (obj : M) (hop : op ∈ desugaredKeys)
    (hb : (M.get obj op).isNil = false) :
    countKeyM "$select" obj + countKeyM "$dontSelect" obj + countKeyM "$inQuery" obj
      + countKeyM "$notInQuery" obj < operatorCount (.obj obj) := by
  rw [operatorCount_obj]
  simp only [desugaredKeys, List.mem_cons, List.mem_singleton, List.not_mem_nil,
    or_false] at hop
  rcases hop with h | h | h | h <;> subst h <;> rw [hb] <;>
    simp only [Bool.false_eq_true, if_false] <;> omega

/-- The nested where of an `$inQuery` or `$notInQuery` counts fewer operators than the
tree in which the operator was found. -/
theorem operatorCount_nested (w : Option M) (op : String) (obj : M)
    (hop : op ∈ desugaredKeys)
    (hf : findObjectWithKey (whereValue w) op = some obj) :
    operatorCount (whereValue (utils.MapInterface
      (nilGet (utils.MapInterface (M.get obj op)) "where")))
      < operatorCount (whereValue w) := by
  have h0 := operatorCount_of_find _ op obj hf
  have hb := operatorCount_binds op obj hop (find_binds _ op obj hf)
  have h1 := countKey_nested_le "$select" op obj
  have h2 := countKey_nested_le "$dontSelect" op obj
  have h3 := countKey_nested_le "$inQuery" op obj
  have h4 := countKey_nested_le "$notInQuery" op obj
  have hu : operatorCount (whereValue (utils.MapInterface
      (nilGet (utils.MapInterface (M.get obj op)) "where")))
      ≤ countKeyM "$select" obj + countKeyM "$dontSelect" obj + countKeyM "$inQuery" obj
        + countKeyM "$notInQuery" obj := by
    unfold operatorCount
    omega
  omega

/-- A tree in which an operator is found counts at least one operator. -/
theorem operatorCount_pos (w : Option M) (op : String) (obj : M)
    (hop : op ∈ desugaredKeys)
    (hf : findObjectWithKey (whereValue w) op = some obj) :
    0 < operatorCount (whereValue w) := by
  have h0 := operatorCount_of_find _ op obj hf
  have hb := operatorCount_binds op obj hop (find_binds _ op obj hf)
  omega

theorem operatorCount_session (w : Option M) (id : String) :
    operatorCount (.obj [("$and", .arr [whereValue w,
        .obj [("__type", .str "Pointer"), ("className", .str "_User"),
          ("objectId", .str id)]])])
      = operatorCount (whereValue w) := by
  unfold operatorCount
  simp only [countKey_obj, countKeyM_cons, countKey_arr, countKeyS_cons, countKey_str,
    get_cons]
  simp [countKeyM, countKeyS, M.get, M.find?, Value.isNil]

/-- The query that a nested `NewQuery` builds counts the operators of the where it
was given. -/
theorem operatorCount_NewQuery (auth : Auth) (className : String) (w : Option M)
    (query : Query) (h : NewQuery auth className w (some []) = .ok query) :
    operatorCount (whereValue query.Where) = operatorCount (whereValue w) := by
  rw [NewQuery_options] at h
  cases hn : NewQuery auth className w none with
  | error e => rw [hn] at h; cases h
  | ok q1 =>
    rw [hn] at h
    have hq : q1 = query := by injection h
    subst hq
    rw [NewQuery_none] at hn
    by_cases hm : auth.IsMaster = false
    · rw [if_pos hm] at hn
      by_cases hu : auth.User.isSome = true
      · rw [if_pos hu] at hn
        cases ho : nilGet auth.User "objectId" with
        | str id =>
          rw [ho] at hn
          dsimp only at hn
          by_cases hs : className = "_Session"
          · rw [if_pos hs] at hn
            injection hn with hn
            rw [← hn]
            exact operatorCount_session w id
          · rw [if_neg hs] at hn
            injection hn with hn
            rw [← hn]
            rfl
        | null => rw [ho] at hn; cases hn
        | bool b => rw [ho] at hn; cases hn
        | num n => rw [ho] at hn; cases hn
        | arr xs => rw [ho] at hn; cases hn
        | obj m => rw [ho] at hn; cases hn
      · rw [if_neg hu] at hn
        by_cases hs : className = "_Session"
        · rw [if_pos hs] at hn; cases hn
        · rw [if_neg hs] at hn
          injection hn with hn
          rw [← hn]
          rfl
    · rw [if_neg hm] at hn
      injection hn with hn
      rw [← hn]
      rfl

theorem operatorCount_empty_where (c : Bool) :
    operatorCount (whereValue (if c = true then some [] else none)) = 0 := by
  cases c <;> rfl

/-- The rounds of `replaceSelect` and `replaceDontSelect` come to an end: with more
fuel than the tree counts operators, and nested runs that end, the method returns,
and when it returns without error the tree counts no more operators than before. -/
theorem replaceSelectFamily_terminates (exec : Query → Option (Option M × Error × Query))
    (hexec : NoRows exec) (op out : String) (hop : op ∈ desugaredKeys)
    (hout : out ∉ desugaredKeys) (n : Nat)
    (hterm : ∀ query : Query, query.include_ = [] →
      operatorCount (whereValue query.Where) < n → ∃ r, exec query = some r) :
    ∀ (fuel : Nat) (q : Query), operatorCount (whereValue q.Where) < fuel →
      operatorCount (whereValue q.Where) ≤ n →
      ∃ r, replaceSelectFamily exec op out fuel q = some r
        ∧ (r.1 = none →
          operatorCount (whereValue r.2.Where) ≤ operatorCount (whereValue q.Where)) := by
  intro fuel
  induction fuel with
  | zero =>
    intro q h _
    exact absurd h (Nat.not_lt_zero _)
  | succ fuel ih =>
    intro q hfuel hn
    rw [replaceSelectFamily]
    cases hf : findObjectWithKey (whereValue q.Where) op with
    | none => exact ⟨_, rfl, fun _ => Nat.le_refl _⟩
    | some obj =>
      dsimp only
      split
      · exact ⟨_, rfl, fun h => by cases h⟩
      · split
        · exact ⟨_, rfl, fun h => by cases h⟩
        · split
          · exact ⟨_, rfl, fun h => by cases h⟩
          · rename_i query hq
            have hfields := NewQuery_empty_fields _ _ _ query hq
            have hcount := operatorCount_NewQuery _ _ _ query hq
            rw [operatorCount_empty_where] at hcount
            have hpos := operatorCount_pos q.Where op obj hop hf
            obtain ⟨r, hr⟩ := hterm query hfields.2.2.2.2.1 (by omega)
            obtain ⟨response, err, after⟩ := r
            rw [hr]
            cases err with
            | some e => exact ⟨_, rfl, fun h => by cases h⟩
            | none =>
              dsimp only
              have hno := hexec query response after hfields.2.2.2.2.2.1
                hfields.2.2.2.2.1 hfields.2.2.2.1 hr
              rw [selectValues_noResults _ _ hno]
              have hlt := operatorCount_write q.Where op out obj hop hout hf
              obtain ⟨r, hr, hb⟩ := ih
                { q with Where := (writeObjectWithKey q.Where op
                    (replaceOperator obj op out [])) }
                (by show operatorCount (whereValue (writeObjectWithKey q.Where op
                      (replaceOperator obj op out []))) < fuel
                    omega)
                (by show operatorCount (whereValue (writeObjectWithKey q.Where op
                      (replaceOperator obj op out []))) ≤ n
                    omega)
              refine ⟨r, hr, fun h => ?_⟩
              have := hb h
              change operatorCount (whereValue r.2.Where)
                ≤ operatorCount (whereValue (writeObjectWithKey q.Where op
                    (replaceOperator obj op out []))) at this
              omega

/-- The rounds of `replaceInQuery` and `replaceNotInQuery` come to an end, in the same
way. -/
theorem replaceInQueryFamily_terminates
    (exec : Query → Option (Option M × Error × Query))
    (hexec : NoRows exec) (op out : String) (hop : op ∈ desugaredKeys)
    (hout : out ∉ desugaredKeys) (n : Nat)
    (hterm : ∀ query : Query, query.include_ = [] →
      operatorCount (whereValue query.Where) < n → ∃ r, exec query = some r) :
    ∀ (fuel : Nat) (q : Query), operatorCount (whereValue q.Where) < fuel →
      operatorCount (whereValue q.Where) ≤ n →
      ∃ r, replaceInQueryFamily exec op out fuel q = some r
        ∧ (r.1 = none →
          operatorCount (whereValue r.2.Where) ≤ operatorCount (whereValue q.Where)) := by
  intro fuel
  induction fuel with
  | zero =>
    intro q h _
    exact absurd h (Nat.not_lt_zero _)
  | succ fuel ih =>
    intro q hfuel hn
    rw [replaceInQueryFamily]
    cases hf : findObjectWithKey (whereValue q.Where) op with
    | none => exact ⟨_, rfl, fun _ => Nat.le_refl _⟩
    | some obj =>
      dsimp only
      split
      · exact ⟨_, rfl, fun h => by cases h⟩
      · split
        · exact ⟨_, rfl, fun h => by cases h⟩
        · rename_i query hq
          have hfields := NewQuery_empty_fields _ _ _ query hq
          have hcount := operatorCount_NewQuery _ _ _ query hq
          have hnested := operatorCount_nested q.Where op obj hop hf
          obtain ⟨r, hr⟩ := hterm query hfields.2.2.2.2.1 (by omega)
          obtain ⟨response, err, after⟩ := r
          rw [hr]
          cases err with
          | some e => exact ⟨_, rfl, fun h => by cases h⟩
          | none =>
            dsimp only
            have hno := hexec query response after hfields.2.2.2.2.2.1
              hfields.2.2.2.2.1 hfields.2.2.2.1 hr
            rw [pointerValues_noResults _ _ hno]
            have hlt := operatorCount_write q.Where op out obj hop hout hf
            obtain ⟨r, hr, hb⟩ := ih
              { q with Where := (writeObjectWithKey q.Where op
                  (replaceOperator obj op out [])) }
              (by show operatorCount (whereValue (writeObjectWithKey q.Where op
                    (replaceOperator obj op out []))) < fuel
                  omega)
              (by show operatorCount (whereValue (writeObjectWithKey q.Where op
                    (replaceOperator obj op out []))) ≤ n
                  omega)
            refine ⟨r, hr, fun h => ?_⟩
            have := hb h
            change operatorCount (whereValue r.2.Where)
              ≤ operatorCount (whereValue (writeObjectWithKey q.Where op
                  (replaceOperator obj op out []))) at this
            omega

theorem andThen_returns (a : Option (Error × Query))
    (next : Query → Option (Error × Query)) (r : Error × Query) (ha : a = some r)
    (hnext : r.1 = none → ∃ x, next r.2 = some x) : ∃ x, andThen a next = some x := by
  obtain ⟨e, q⟩ := r
  subst ha
  cases e with
  | some e => exact ⟨_, rfl⟩
  | none => exact hnext rfl

/-- With more fuel than the tree counts operators and nested runs that end,
`BuildRestWhere` returns. -/
theorem BuildRestWhereWith_terminates (orm : Orm)
    (exec : Query → Option (Option M × Error × Query)) (hexec : NoRows exec) (n : Nat)
    (hterm : ∀ query : Query, query.include_ = [] →
      operatorCount (whereValue query.Where) < n → ∃ r, exec query = some r)
    (fuel : Nat) (q : Query) (hfuel : operatorCount (whereValue q.Where) < fuel)
    (hn : operatorCount (whereValue q.Where) ≤ n) :
    ∃ r, BuildRestWhereWith orm exec fuel q = some r := by
  unfold BuildRestWhereWith
  refine andThen_returns _ _ _ rfl (fun _ => ?_)
  refine andThen_returns _ _ _ rfl (fun _ => ?_)
  refine andThen_returns _ _ _ rfl (fun _ => ?_)
  have hw : (validateClientClassCreation orm
      (redirectClassNameForKey orm (getUserAndRoleACL q).2).2).2.Where = q.Where :=
    guards_Where orm q
  generalize (validateClientClassCreation orm
      (redirectClassNameForKey orm (getUserAndRoleACL q).2).2).2 = q3 at hw
  rw [← hw] at hfuel hn
  obtain ⟨r4, h4, b4⟩ := replaceSelectFamily_terminates exec hexec "$select" "$in"
    (by decide) (by decide) n hterm fuel q3 hfuel hn
  refine andThen_returns _ _ r4 h4 (fun hr4 => ?_)
  have c4 := b4 hr4
  obtain ⟨r5, h5, b5⟩ := replaceSelectFamily_terminates exec hexec "$dontSelect" "$nin"
    (by decide) (by decide) n hterm fuel r4.2 (by omega) (by omega)
  refine andThen_returns _ _ r5 h5 (fun hr5 => ?_)
  have c5 := b5 hr5
  obtain ⟨r6, h6, b6⟩ := replaceInQueryFamily_terminates exec hexec "$inQuery" "$in"
    (by decide) (by decide) n hterm fuel r5.2 (by omega) (by omega)
  refine andThen_returns _ _ r6 h6 (fun hr6 => ?_)
  have c6 := b6 hr6
  obtain ⟨r7, h7, _⟩ := replaceInQueryFamily_terminates exec hexec "$notInQuery" "$nin"
    (by decide) (by decide) n hterm fuel r6.2 (by omega) (by omega)
  exact andThen_returns _ _ r7 h7 (fun _ => ⟨_, rfl⟩)

theorem runFind_include (orm : Orm) (q : Query) :
    (runFind orm q).1 = none ∧ (runFind orm q).2.include_ = q.include_ :=
  ⟨rfl, rfl⟩

theorem runCount_include (orm : Orm) (q : Query) :
    (runCount orm q).2.include_ = q.include_ := by
  unfold runCount
  split
  · rfl
  · dsimp only
    split <;> rfl

theorem handleIncludeWith_nil (exec : Query → Option (Option M × Error × Query))
    (q : Query) (h : q.include_ = []) :
    handleIncludeWith exec q = some (none, { q with include_ := [], response := q.response }) := by
  unfold handleIncludeWith
  rw [h, handleIncludeLoop]

/-- A query without includes runs to its end when the fuel is more than the number
of operators in its tree. -/
theorem Execute_terminates (orm : Orm) :
    ∀ (fuel : Nat) (q : Query), q.include_ = [] →
      operatorCount (whereValue q.Where) < fuel → ∃ r, Execute orm fuel q = some r := by
  intro fuel
  induction fuel with
  | zero =>
    intro q _ h
    exact absurd h (Nat.not_lt_zero _)
  | succ fuel ih =>
    intro q hi hfuel
    rw [Execute]
    obtain ⟨r, hr⟩ := BuildRestWhereWith_terminates orm (Execute orm fuel)
      (Execute_noRows orm fuel) (operatorCount (whereValue q.Where))
      (fun query hq hlt => ih query hq (by omega)) (fuel + 1) q hfuel (Nat.le_refl _)
    obtain ⟨e, q1⟩ := r
    rw [hr]
    cases e with
    | some e => exact ⟨_, rfl⟩
    | none =>
      dsimp only
      have hframe := (BuildRestWhereWith_ok orm _ (Execute_noRows orm fuel) _ _ _ hr).1
      have hi1 : q1.include_ = [] := by rw [hframe.2.2.1, hi]
      have hi2 : (runCount orm (runFind orm q1).2).2.include_ = [] := by
        rw [runCount_include, (runFind_include orm q1).2, hi1]
      split
      · exact ⟨_, rfl⟩
      · rename_i q2 hf
        have hq2 : q2 = (runFind orm q1).2 := by rw [hf]
        subst hq2
        split
        · exact ⟨_, rfl⟩
        · rename_i q3 hc
          have hq3 : q3 = (runCount orm (runFind orm q1).2).2 := by rw [hc]
          subst hq3
          rw [handleIncludeWith_nil _ _ hi2]
          exact ⟨_, rfl⟩

/-- C23: for every storage collaborator and every where tree, each of
`replaceSelect`, `replaceDontSelect`, `replaceInQuery` and `replaceNotInQuery` returns
as soon as the fuel is more than the number of operators in the tree, and when it
returns without error it has reached its base case: the search finds its operator no
more.  Each pass that goes on leaves fewer occurrences of its operator in the
tree. -/
theorem replace_terminates (orm : Orm) (q : Query) (fuel : Nat)
    (h : operatorCount (whereValue q.Where) < fuel) :
    (∃ r, replaceSelect orm fuel q = some r
      ∧ (r.1 = none → findObjectWithKey (whereValue r.2.Where) "$select" = none))
    ∧ (∃ r, replaceDontSelect orm fuel q = some r
      ∧ (r.1 = none → findObjectWithKey (whereValue r.2.Where) "$dontSelect" = none))
    ∧ (∃ r, replaceInQuery orm fuel q = some r
      ∧ (r.1 = none → findObjectWithKey (whereValue r.2.Where) "$inQuery" = none))
    ∧ (∃ r, replaceNotInQuery orm fuel q = some r
      ∧ (r.1 = none → findObjectWithKey (whereValue r.2.Where) "$notInQuery" = none))
    ∧ ∀ op ∈ desugaredKeys, ∀ (out : String) (obj : M), out ∉ desugaredKeys →
        findObjectWithKey (whereValue q.Where) op = some obj →
        countKey op (whereValue (writeObjectWithKey q.Where op
            (replaceOperator obj op out [])))
          < countKey op (whereValue q.Where) := by
  have hterm : ∀ query : Query, query.include_ = [] →
      operatorCount (whereValue query.Where) < operatorCount (whereValue q.Where) →
      ∃ r, Execute orm fuel query = some r :=
    fun query hq hlt => Execute_terminates orm fuel query hq (by omega)
  have hno := Execute_noRows orm fuel
  refine ⟨?_, ?_, ?_, ?_, ?_⟩
  · obtain ⟨r, hr, _⟩ := replaceSelectFamily_terminates _ hno "$select" "$in"
      (by decide) (by decide) _ hterm fuel q h (Nat.le_refl _)
    refine ⟨r, hr, fun h1 => ?_⟩
    obtain ⟨e, after⟩ := r
    cases h1
    exact (replaceSelectFamily_ok _ hno _ _ fuel q after hr).1
  · obtain ⟨r, hr, _⟩ := replaceSelectFamily_terminates _ hno "$dontSelect" "$nin"
      (by decide) (by decide) _ hterm fuel q h (Nat.le_refl _)
    refine ⟨r, hr, fun h1 => ?_⟩
    obtain ⟨e, after⟩ := r
    cases h1
    exact (replaceSelectFamily_ok _ hno _ _ fuel q after hr).1
  · obtain ⟨r, hr, _⟩ := replaceInQueryFamily_terminates _ hno "$inQuery" "$in"
      (by decide) (by decide) _ hterm fuel q h (Nat.le_refl _)
    refine ⟨r, hr, fun h1 => ?_⟩
    obtain ⟨e, after⟩ := r
    cases h1
    exact (replaceInQueryFamily_ok _ hno _ _ fuel q after hr).1
  · obtain ⟨r, hr, _⟩ := replaceInQueryFamily_terminates _ hno "$notInQuery" "$nin"
      (by decide) (by decide) _ hterm fuel q h (Nat.le_refl _)
    refine ⟨r, hr, fun h1 => ?_⟩
    obtain ⟨e, after⟩ := r
    cases h1
    exact (replaceInQueryFamily_ok _ hno _ _ fuel q after hr).1
  · intro op hop out obj hout hf
    exact (countKey_write q.Where op out obj (fun h => hout (h ▸ hop)) hf).1

/-- C23, at the query of the comment on `replaceSelect`, whose tree counts one
operator: with fuel 2 the four methods return, and the pass of `replaceSelect` leaves
no `$select`. -/
theorem replace_terminates_witness :
    operatorCount (whereValue hometownQuery.Where) = 1
    ∧ replaceSelect teamOrm 2 hometownQuery
        = some (none, { hometownQuery with
            Where := some [("hometown", .obj [("$in", .arr [])])] })
    ∧ (∃ r, replaceSelect teamOrm 2 hometownQuery = some r
      ∧ (r.1 = none → findObjectWithKey (whereValue r.2.Where) "$select" = none))
    ∧ (∃ r, replaceInQuery teamOrm 2 hometownQuery = some r
      ∧ (r.1 = none → findObjectWithKey (whereValue r.2.Where) "$inQuery" = none)) :=
  have h := replace_terminates teamOrm hometownQuery 2 (by decide)
  ⟨by decide, by decide, h.1, h.2.2.1⟩

/-! ## runFind: proofs -/

theorem find?_set (m : M) (k k' : String) (v : Value) :
    M.find? (M.set m k v) k' = if k = k' then some v else M.find? m k' := by
  induction m with
  | nil =>
    rw [M.set, M.find?]
    rfl
  | cons e rest ih =>
    obtain ⟨k0, v0⟩ := e
    rw [M.set]
    by_cases h0 : k0 = k
    · rw [if_pos h0, M.find?, M.find?]
      by_cases hk : k = k'
      · rw [if_pos hk, if_pos hk]
      · rw [if_neg hk, if_neg hk, if_neg (fun h => hk (h0 ▸ h))]
    · rw [if_neg h0, M.find?, M.find?, ih]
      by_cases h1 : k0 = k'
      · rw [if_pos h1, if_pos h1, if_neg (fun h => h0 (h1.trans h.symm))]
      · rw [if_neg h1, if_neg h1]

theorem find?_projectKeys_acc (obj : Option M) (keys : List String) (acc : M) (k : String) :
    M.find? (keys.foldl (fun newObj s =>
        if (nilGet obj s).isNil then newObj else M.set newObj s (nilGet obj s)) acc) k
      = if k ∈ keys ∧ (nilGet obj k).isNil = false then some (nilGet obj k)
        else M.find? acc k := by
  induction keys generalizing acc with
  | nil => simp
  | cons s rest ih =>
    rw [List.foldl_cons, ih]
    by_cases hk : k ∈ rest ∧ (nilGet obj k).isNil = false
    · rw [if_pos hk, if_pos ⟨List.mem_cons_of_mem _ hk.1, hk.2⟩]
    · rw [if_neg hk]
      by_cases hs : (nilGet obj s).isNil = true
      · rw [if_pos hs]
        by_cases hks : k = s
        · subst hks
          rw [if_neg]
          intro h
          rw [hs] at h
          exact absurd h.2 (by decide)
        · rw [if_neg]
          intro h
          rcases List.mem_cons.1 h.1 with h1 | h1
          · exact hks h1
          · exact hk ⟨h1, h.2⟩
      · rw [if_neg hs, find?_set]
        have hs2 : (nilGet obj s).isNil = false := by simpa using hs
        by_cases hks : s = k
        · subst hks
          rw [if_pos rfl, if_pos ⟨List.mem_cons_self _ _, hs2⟩]
        · rw [if_neg hks, if_neg]
          intro h
          rcases List.mem_cons.1 h.1 with h1 | h1
          · exact hks h1.symm
          · exact hk ⟨h1, h.2⟩

/-- The row that `runFind` builds from a storage row holds exactly the entries of
that row under the requested keys whose value is not `nil`. -/
theorem find?_projectKeys (obj : Option M) (keys : List String) (k : String) :
    M.find? (projectKeys obj keys) k
      = if k ∈ keys ∧ (nilGet obj k).isNil = false then some (nilGet obj k) else none := by
  unfold projectKeys
  rw [find?_projectKeys_acc]
  rfl

/-- The rows that `runFind` works on: the rows of the storage collaborator, without
`password` for the class `_User`. -/
theorem runFind_results (orm : Orm) (q : Query) :
    resultsOf (runFind orm q).2 =
      if q.keys.length > 0 ∧ (orm.Find q.className q.Where q.findOptions).length > 0 then
        (orm.Find q.className q.Where q.findOptions).map (fun v =>
          .obj (projectKeys
            (if q.className = "_User" then
              (utils.MapInterface v).map (fun user => M.delete user "password")
             else utils.MapInterface v) q.keys))
      else [] := by
  unfold resultsOf runFind
  dsimp only
  rw [get_set_same]
  by_cases hu : q.className = "_User"
  · simp only [hu, if_true, List.length_map, List.map_map]
    split
    · simp only [utils.SliceInterface, nilEntriesS, Option.getD]
      apply List.map_congr_left
      intro v _
      simp only [Function.comp]
      cases v <;> rfl
    · rfl
  · simp only [hu, if_false]
    split <;> rfl

theorem nilGet_delete_self (obj : Option M) (k : String) :
    nilGet (obj.map (fun user => M.delete user k)) k = .null := by
  cases obj with
  | none => rfl
  | some m =>
    show M.get (M.delete m k) k = .null
    unfold M.get M.delete
    rw [find?_filter_key m (fun x => decide (x ≠ k)) k]
    simp

theorem nilGet_delete_ne (obj : Option M) (k k' : String) (h : k' ≠ k) :
    nilGet (obj.map (fun user => M.delete user k)) k' = nilGet obj k' := by
  cases obj with
  | none => rfl
  | some m =>
    show M.get (M.delete m k) k' = M.get m k'
    unfold M.get M.delete
    rw [find?_filter_key m (fun x => decide (x ≠ k)) k']
    simp [h]

/-- C24: for every query on class `_User`, every storage collaborator and every
list of keys, every row of `response["results"]` after `runFind` is a map without
the key `password`. -/
theorem runFind_no_password (orm : Orm) (q : Query) (h : q.className = "_User") :
    ∀ row ∈ resultsOf (runFind orm q).2, ∃ m, row = .obj m ∧ M.has m "password" = false := by
  intro row hrow
  rw [runFind_results] at hrow
  split at hrow
  · rw [List.mem_map] at hrow
    obtain ⟨v, _, hv⟩ := hrow
    refine ⟨_, hv.symm, ?_⟩
    unfold M.has
    rw [find?_projectKeys, nilGet_delete_self, if_neg]
    · rfl
    · intro hc
      exact absurd hc.2 (by decide)
  · cases hrow

/-- C24, at a storage row with a password and the keys of the option string
`password`: the result row has the `objectId` only. -/
theorem runFind_no_password_witness :
    resultsOf (runFind userOrm passwordQuery).2 = [.obj [("objectId", .str "u1")]]
    ∧ ∀ row ∈ resultsOf (runFind userOrm passwordQuery).2,
        ∃ m, row = .obj m ∧ M.has m "password" = false :=
  ⟨by decide, runFind_no_password userOrm passwordQuery rfl⟩

theorem applyOption_keys_other (q q' : Query) (k : String) (v : Value)
    (hk : k ≠ "keys") (h : applyOption q k v = .ok q') : q'.keys = q.keys := by
  unfold applyOption at h
  rw [if_neg hk] at h
  by_cases h2 : k = "count"
  · rw [if_pos h2] at h
    injection h with h; rw [← h]
  rw [if_neg h2] at h
  by_cases h3 : k = "skip"
  · rw [if_pos h3] at h
    injection h with h; rw [← h]
  rw [if_neg h3] at h
  by_cases h4 : k = "limit"
  · rw [if_pos h4] at h
    injection h with h; rw [← h]
  rw [if_neg h4] at h
  by_cases h5 : k = "order"
  · rw [if_pos h5] at h
    cases v <;> (injection h with h; rw [← h])
  rw [if_neg h5] at h
  by_cases h6 : k = "include"
  · rw [if_pos h6] at h
    cases v <;> (injection h with h; rw [← h])
  rw [if_neg h6] at h
  by_cases h7 : k = "redirectClassNameForKey"
  · rw [if_pos h7] at h
    cases v <;> (injection h with h; rw [← h])
  rw [if_neg h7] at h
  cases h

theorem applyOptions_keys_absent (options : M) (q q' : Query)
    (hno : M.find? options "keys" = none)
    (h : applyOptions options q = .ok q') : q'.keys = q.keys := by
  induction options generalizing q with
  | nil =>
    injection h with h
    rw [h]
  | cons kv rest ih =>
    obtain ⟨k, v⟩ := kv
    rw [M.find?] at hno
    by_cases hk : k = "keys"
    · rw [if_pos hk] at hno
      cases hno
    · rw [if_neg hk] at hno
      unfold applyOptions at h
      cases hx : applyOption q k v with
      | error e => rw [hx] at h; cases h
      | ok q1 =>
        rw [hx] at h
        rw [ih q1 hno h, applyOption_keys_other q q1 k v hk hx]

theorem applyOptions_keys_present (options : M) (q q' : Query) (s : String)
    (hnodup : (options.map Prod.fst).Nodup)
    (hfind : M.find? options "keys" = some (.str s))
    (h : applyOptions options q = .ok q') :
    q'.keys = stringsSplit s ',' ++ ["objectId", "createdAt", "updatedAt"] := by
  induction options generalizing q with
  | nil => cases hfind
  | cons kv rest ih =>
    obtain ⟨k, v⟩ := kv
    rw [List.map_cons, List.nodup_cons] at hnodup
    rw [M.find?] at hfind
    unfold applyOptions at h
    cases hx : applyOption q k v with
    | error e => rw [hx] at h; cases h
    | ok q1 =>
      rw [hx] at h
      by_cases hk : k = "keys"
      · rw [if_pos hk] at hfind
        injection hfind with hfind
        subst hk
        subst hfind
        have hrest := find?_none_of_not_mem rest "keys" hnodup.1
        rw [applyOptions_keys_absent rest q1 q' hrest h]
        unfold applyOption at hx
        rw [if_pos rfl] at hx
        injection hx with hx
        rw [← hx]
      · rw [if_neg hk] at hfind
        exact ih q1 hnodup.2 hfind h

/-- C25, amended: for every query built with a `keys` option string, `q.keys` is the
comma-separated requested keys followed by `objectId`, `createdAt`, `updatedAt`; and
whenever `runFind` runs with these keys it returns one result row per storage row, in
the same order, each holding exactly the entries of the storage row under the keys of
`q.keys` whose value in that row is not `nil`, except `password` for the class
`_User`. -/
theorem keys_projection (orm : Orm) (auth : Auth) (className : String) (w : Option M)
    (options : M) (s : String) (q : Query) (hnodup : (options.map Prod.fst).Nodup)
    (hfind : M.find? options "keys" = some (.str s))
    (h : NewQuery auth className w (some options) = .ok q) :
    q.keys = stringsSplit s ',' ++ ["objectId", "createdAt", "updatedAt"]
    ∧ ∀ run : Query, run.keys = q.keys →
        (resultsOf (runFind orm run).2).length
          = (orm.Find run.className run.Where run.findOptions).length
        ∧ ∀ (i : Nat) (v : Value),
            (orm.Find run.className run.Where run.findOptions)[i]? = some v →
            ∃ m, (resultsOf (runFind orm run).2)[i]? = some (.obj m)
              ∧ ∀ k, M.find? m k =
                  if k ∈ q.keys ∧ ¬ (run.className = "_User" ∧ k = "password")
                      ∧ (nilGet (utils.MapInterface v) k).isNil = false
                  then some (nilGet (utils.MapInterface v) k) else none := by
  have hkeys : q.keys = stringsSplit s ',' ++ ["objectId", "createdAt", "updatedAt"] := by
    rw [NewQuery_options] at h
    cases hn : NewQuery auth className w none with
    | error e => rw [hn] at h; cases h
    | ok q1 =>
      rw [hn] at h
      exact applyOptions_keys_present options q1 q s hnodup hfind h
  refine ⟨hkeys, ?_⟩
  intro run hrun
  have hlen : run.keys.length > 0 := by
    rw [hrun, hkeys, List.length_append]
    simp
  rw [runFind_results]
  by_cases hrows : (orm.Find run.className run.Where run.findOptions).length > 0
  · rw [if_pos ⟨hlen, hrows⟩]
    refine ⟨List.length_map _ _, ?_⟩
    intro i v hv
    rw [List.getElem?_map, hv]
    refine ⟨_, rfl, ?_⟩
    intro k
    rw [find?_projectKeys, hrun]
    by_cases hu : run.className = "_User"
    · rw [if_pos hu]
      by_cases hp : k = "password"
      · subst hp
        rw [nilGet_delete_self, if_neg, if_neg]
        · intro hc
          exact hc.2.1 ⟨hu, rfl⟩
        · intro hc
          exact absurd hc.2 (by decide)
      · rw [nilGet_delete_ne _ _ _ hp]
        by_cases hc : k ∈ q.keys ∧ (nilGet (utils.MapInterface v) k).isNil = false
        · rw [if_pos hc, if_pos ⟨hc.1, fun h => hp h.2, hc.2⟩]
        · rw [if_neg hc, if_neg (fun h => hc ⟨h.1, h.2.2⟩)]
    · rw [if_neg hu]
      by_cases hc : k ∈ q.keys ∧ (nilGet (utils.MapInterface v) k).isNil = false
      · rw [if_pos hc, if_pos ⟨hc.1, fun h => hu h.1, hc.2⟩]
      · rw [if_neg hc, if_neg (fun h => hc ⟨h.1, h.2.2⟩)]
  · rw [if_neg (fun h => hrows h.2)]
    have h0 : orm.Find run.className run.Where run.findOptions = [] := by
      cases hx : orm.Find run.className run.Where run.findOptions with
      | nil => rfl
      | cons a b => rw [hx] at hrows; simp at hrows
    rw [h0]
    refine ⟨rfl, ?_⟩
    intro i v hv
    simp at hv

/-- C25, at the class `Team` and the option string `city`: one row, with the `city`
and the `objectId` of the storage row. -/
theorem keys_projection_witness :
    NewQuery masterAuth "Team" (some []) (some [("keys", .str "city")])
        = .ok { teamQuery with keys := ["city", "objectId", "createdAt", "updatedAt"] }
    ∧ resultsOf (runFind teamOrm
          { teamQuery with keys := ["city", "objectId", "createdAt", "updatedAt"] }).2
        = [.obj [("city", .str "abc"), ("objectId", .str "t1")]]
    ∧ (resultsOf (runFind teamOrm
          { teamQuery with keys := ["city", "objectId", "createdAt", "updatedAt"] }).2).length
        = (teamOrm.Find "Team" (some []) []).length :=
  ⟨by decide, by decide,
    ((keys_projection teamOrm masterAuth "Team" (some []) [("keys", .str "city")] "city"
      { teamQuery with keys := ["city", "objectId", "createdAt", "updatedAt"] }
      (by decide) rfl (by decide)).2
      { teamQuery with keys := ["city", "objectId", "createdAt", "updatedAt"] } rfl).1⟩

/-- C25 as stated fails for the class `_User`: with the option string `password`
the key `password` is in `q.keys` and the storage row holds a password, and the
result row does not hold it. -/
theorem keys_projection_counterexample :
    NewQuery masterAuth "_User" (some []) (some [("keys", .str "password")])
        = .ok passwordQuery
    ∧ "password" ∈ passwordQuery.keys
    ∧ userOrm.Find "_User" (some []) []
        = [.obj [("objectId", .str "u1"), ("username", .str "ann"),
            ("password", .str "secret")]]
    ∧ resultsOf (runFind userOrm passwordQuery).2 = [.obj [("objectId", .str "u1")]] := by
  decide

/-- C26, what the code does: for every query built without a `keys` option,
`q.keys` is empty, and whenever `runFind` runs with no keys, `response["results"]`
is the empty list, whatever rows the storage collaborator returns. -/
theorem runFind_without_keys (orm : Orm) (auth : Auth) (className : String)
    (w options : Option M) (q : Query)
    (hk : M.find? (nilEntries options) "keys" = none)
    (h : NewQuery auth className w options = .ok q) :
    q.keys = [] ∧ ∀ run : Query, run.keys = q.keys → resultsOf (runFind orm run).2 = [] := by
  have hkeys : q.keys = [] := by
    rw [NewQuery_options] at h
    cases hn : NewQuery auth className w none with
    | error e => rw [hn] at h; cases h
    | ok q1 =>
      rw [hn] at h
      rw [applyOptions_keys_absent _ q1 q hk h]
      exact (NewQuery_none_fields auth className w q1 hn).2.2.2.2.2.1
  refine ⟨hkeys, ?_⟩
  intro run hrun
  rw [runFind_results, if_neg]
  intro hc
  rw [hrun, hkeys] at hc
  exact absurd hc.1 (by decide)

/-- C26, at the class `Team`: the storage collaborator returns one row and
`response["results"]` is empty. -/
theorem runFind_without_keys_witness :
    NewQuery masterAuth "Team" (some []) none = .ok teamQuery
    ∧ teamOrm.Find "Team" (some []) []
        = [.obj [("objectId", .str "t1"), ("city", .str "abc")]]
    ∧ resultsOf (runFind teamOrm teamQuery).2 = [] :=
  ⟨by decide, by decide,
    (runFind_without_keys teamOrm masterAuth "Team" (some []) none teamQuery rfl
      (by decide)).2 teamQuery rfl⟩

/-! ## Pointers and includes: proofs -/

theorem find?_foldl_set (row p : M) (k : String) (hnodup : (row.map Prod.fst).Nodup) :
    M.find? (row.foldl (fun pointer kv => M.set pointer kv.1 kv.2) p) k
      = if M.has row k then M.find? row k else M.find? p k := by
  induction row generalizing p with
  | nil => rfl
  | cons kv rest ih =>
    obtain ⟨k0, v0⟩ := kv
    rw [List.map_cons, List.nodup_cons] at hnodup
    rw [List.foldl_cons, ih _ hnodup.2, find?_set]
    unfold M.has
    rw [M.find?]
    by_cases h0 : k0 = k
    · subst h0
      rw [if_pos rfl, if_pos rfl, find?_none_of_not_mem rest k0 hnodup.1]
      rfl
    · rw [if_neg h0, if_neg h0]

theorem replacePointers_maps (pointers : List M) (replace : M) :
    replacePointers (pointers.map Value.obj) replace
      = .ok (pointers.map (fun p => .obj (replacePointer replace p))) := by
  induction pointers with
  | nil => rfl
  | cons p rest ih =>
    rw [List.map_cons, replacePointers]
    simp only [utils.MapInterface]
    rw [ih]
    rfl

/-- C27: for every list of pointer maps and every replacement map, `replacePointers`
returns, and gives each pointer rewritten on its own.  A pointer whose object id has
an entry other than `nil` in the replacement map has `__type` `Object` afterwards, so
`findPointers` no longer returns it, and under every other key it holds the value of
the resolved row where the row has that key and its own value elsewhere.  A pointer
whose object id has no such entry is unchanged. -/
theorem replacePointers_splice (pointers : List M) (replace : M) :
    replacePointers (pointers.map Value.obj) replace
      = .ok (pointers.map (fun p => .obj (replacePointer replace p)))
    ∧ ∀ p ∈ pointers,
        ((M.get replace (utils.String (M.get p "objectId"))).isNil = false →
          M.get (replacePointer replace p) "__type" = .str "Object"
          ∧ findPointers (.obj (replacePointer replace p)) [] = []
          ∧ ∀ row, utils.MapInterface (M.get replace (utils.String (M.get p "objectId")))
                = some row → (row.map Prod.fst).Nodup →
              ∀ k, k ≠ "__type" →
                M.find? (replacePointer replace p) k
                  = if M.has row k then M.find? row k else M.find? p k)
        ∧ ((M.get replace (utils.String (M.get p "objectId"))).isNil = true →
          replacePointer replace p = p) := by
  refine ⟨replacePointers_maps pointers replace, ?_⟩
  intro p _
  constructor
  · intro h
    have htype : M.get (replacePointer replace p) "__type" = .str "Object" := by
      unfold replacePointer
      dsimp only
      rw [if_neg (by rw [h]; decide), get_set_same]
    refine ⟨htype, ?_, ?_⟩
    · rw [findPointers, htype, if_neg (by decide)]
    · intro row hrow hnodup k hk
      unfold replacePointer
      dsimp only
      rw [if_neg (by rw [h]; decide), find?_set, if_neg (Ne.symm hk), hrow]
      exact find?_foldl_set row p k hnodup
  · intro h
    unfold replacePointer
    dsimp only
    rw [if_pos h]

/-- C27, at a pointer to `u1`, which the replacement map resolves, and a pointer to
`u2`, which it does not. -/
theorem replacePointers_splice_witness :
    replacePointers [.obj userPointer, .obj strayPointer] userReplace
      = .ok [.obj [("__type", .str "Object"), ("className", .str "_User"),
                ("objectId", .str "u1"), ("note", .str "new"), ("username", .str "ann")],
             .obj strayPointer]
    ∧ M.get (replacePointer userReplace userPointer) "__type" = .str "Object"
    ∧ findPointers (.obj (replacePointer userReplace userPointer)) [] = []
    ∧ findPointers (.obj userPointer) [] = [.obj userPointer]
    ∧ replacePointer userReplace strayPointer = strayPointer :=
  have h := (replacePointers_splice [userPointer, strayPointer] userReplace).2
  ⟨by decide, ((h userPointer (by decide)).1 (by decide)).1,
    ((h userPointer (by decide)).1 (by decide)).2.1, by decide,
    (h strayPointer (by decide)).2 (by decide)⟩

/-- C28, what the code does: `handleInclude` returns `nil` whenever it returns,
also when `includePath` has returned an error, and `Execute` then returns its
response. -/
theorem handleInclude_drops_error (orm : Orm) (fuel : Nat) (q : Query)
    (r : Error × Query) (h : handleInclude orm fuel q = some r) :
    r.1 = none ∧ r.2.include_ = [] := by
  unfold handleInclude handleIncludeWith at h
  split at h
  · cases h
  · injection h with h
    rw [← h]
    exact ⟨rfl, rfl⟩

/-- C28, at a query whose included pointer is of class `_Session` and whose caller
is anonymous: the nested `NewQuery` of `includePath` fails with InvalidSessionToken,
`handleInclude` returns `nil` and `Execute` returns the response with the pointer
still in it. -/
theorem handleInclude_drops_error_witness :
    NewQuery anonymousAuth "Post" (some [])
        (some [("keys", .str "user"), ("include", .str "user")]) = .ok includeQuery
    ∧ includePath sessionPointerOrm 1 anonymousAuth includeResponse ["user"]
        = some (some (.err .InvalidSessionToken), includeResponse)
    ∧ handleInclude sessionPointerOrm 1 { includeQuery with response := includeResponse }
        = some (none, { includeQuery with response := includeResponse, include_ := [] })
    ∧ (Execute sessionPointerOrm 1 includeQuery).map (fun r => (r.1, r.2.1))
        = some (some includeResponse, none)
    ∧ (none : Error) = none ∧ ([] : List (List String)) = [] :=
  ⟨by decide, by decide, by decide, by decide,
    handleInclude_drops_error sessionPointerOrm 1
      { includeQuery with response := includeResponse }
      (none, { includeQuery with response := includeResponse, include_ := [] })
      (by decide)⟩

/-! ## Schema writes without a guard: proofs -/

/-- C29, what the code does: for every unregistered field `key` of class `C` and
every non-empty type `T` (not a second geopoint), `validateField(C, key, T, false)`
returns `nil`, and the schema after the call is the registry reloaded over the
database after exactly one upsert for row `C`, whose update is `{$set: {key: T}}` and
whose match query is `{key: {$exists: true}}`, not `{key: {$exists: false}}`. -/
theorem validateField_upsert_guard (σ : Type) (st : Storage σ) (s : Schema σ)
    (C key T : String)
    (hdot : dotAfterStart key = false)
    (hunreg : utils.String (nilGet (utils.MapInterface (M.get s.data C)) key) = "")
    (hT : T ≠ "")
    (hgeo : (decide (T = "geopoint")
      && (nilEntries (utils.MapInterface (M.get s.data C))).any
          (fun p => decide (utils.String p.2 = "geopoint"))) = false) :
    Schema.validateField st s C key T false
      = (none, Schema.reloadData st { s with collection :=
          (st.upsertSchema s.collection C [(key, .obj [("$exists", .bool true)])]
            [("$set", .obj [(key, .str T)])]).2 })
    ∧ ([(key, .obj [("$exists", .bool true)])] : M)
        ≠ [(key, .obj [("$exists", .bool false)])] := by
  refine ⟨?_, by simp⟩
  unfold Schema.validateField
  rw [Schema.validateFieldBody]
  simp only [transformKey, hdot, Bool.false_eq_true, if_false]
  rw [if_neg (by rw [hunreg]; simp), if_neg hT]
  simp only [hgeo, Bool.false_eq_true, if_false]
  rw [Schema.validateFieldBody]
  simp only [transformKey, hdot, Bool.false_eq_true, if_false, if_true]
  split_ifs <;> rfl

/-- C29, on the in-memory store.  With a registry that does not know `title` yet and
a row of `Book` that holds `title` as `string`, `validateField(Book, title, number,
false)` overwrites the stored type with `number`; with a row of `Book` without
`title`, the upsert matches no row, the insert fails on the duplicate `_id`, and the
field is not stored. -/
theorem validateField_upsert_guard_witness :
    (Schema.validateField memStorage staleSchema "Book" "title" "number" false).2.collection
        = { schemas := [[("_id", .str "Book"), ("title", .str "number")]],
            collections := [] }
    ∧ (Schema.validateField memStorage (Load memStorage bareDB) "Book" "title" "string"
        false).2.collection = bareDB
    ∧ Schema.validateField memStorage staleSchema "Book" "title" "number" false
      = (none, Schema.reloadData memStorage { staleSchema with collection :=
          (memStorage.upsertSchema staleSchema.collection "Book"
            [("title", .obj [("$exists", .bool true)])]
            [("$set", .obj [("title", .str "number")])]).2 }) :=
  ⟨by decide, by decide,
    (validateField_upsert_guard MemDB memStorage staleSchema "Book" "title" "number"
      (by decide) (by decide) (by decide) (by decide)).1⟩

/-- C30, what the code does: `setPermissions` calls `validateCLP` and drops its
result; for every class and every CLP document it returns `nil`, and the schema after
the call is the registry reloaded over the database after `updateSchema` with
`{$set: {_metadata: {class_permissions: perms}}}`.  The document `{"drop": {"*":
true}}` is rejected by `validateCLP` with InvalidJSON and is stored in the row of
`Book`. -/
theorem setPermissions_stores_rejected :
    (∀ (σ : Type) (st : Storage σ) (s : Schema σ) (C : String) (perms : Option M),
      Schema.setPermissions st s C perms
        = (none, Schema.reloadData st { s with collection :=
            (st.updateSchema s.collection C
              [("$set", .obj [("_metadata",
                .obj [("class_permissions", mapValue perms)])])]).2 }))
    ∧ validateCLP (some dropCLP) = some (.err .InvalidJSON)
    ∧ (Schema.setPermissions memStorage (Load memStorage bareDB) "Book" (some dropCLP)).1
        = none
    ∧ (Schema.setPermissions memStorage (Load memStorage bareDB) "Book"
        (some dropCLP)).2.collection.schemas
        = [[("_id", .str "Book"),
            ("_metadata", .obj [("class_permissions", .obj dropCLP)])]] := by
  refine ⟨?_, by decide, by decide, by decide⟩
  intro σ st s C perms
  rfl

/-! ## Storage-to-wire conversion: proofs -/

theorem toList_eq_nil_iff (t : String) : t.toList = [] ↔ t = "" := by
  constructor
  · intro h
    exact String.ext h
  · intro h
    rw [h]
    rfl

/-- The two strings on which `mongoFieldTypeToSchemaAPIType` panics are the empty
string and `relation<`; on every other string it returns a map. -/
theorem mongoFieldTypeToSchemaAPIType_ok_iff (t : String) :
    (∃ m, mongoFieldTypeToSchemaAPIType t = .ok m) ↔ (t ≠ "" ∧ t ≠ "relation<") := by
  constructor
  · rintro ⟨m, h⟩
    constructor
    · intro he
      rw [he] at h
      cases h
    · intro he
      rw [he] at h
      have hp : mongoFieldTypeToSchemaAPIType "relation<" = .error .panic := by decide
      rw [hp] at h
      cases h
  · rintro ⟨h1, h2⟩
    unfold mongoFieldTypeToSchemaAPIType
    cases hl : t.toList with
    | nil => exact absurd ((toList_eq_nil_iff t).1 hl) h1
    | cons c rest =>
      dsimp only
      by_cases hc : c = '*'
      · rw [if_pos hc]
        exact ⟨_, rfl⟩
      · rw [if_neg hc]
        by_cases hp : "relation<".toList.isPrefixOf (c :: rest) = true
        · rw [if_pos hp]
          have hlen : ¬ (t.length - 1 < "relation<".length) := by
            obtain ⟨suffix, hs⟩ := List.isPrefixOf_iff_prefix.1 hp
            have hne : suffix ≠ [] := by
              intro hnil
              rw [hnil, List.append_nil] at hs
              apply h2
              apply String.ext
              show t.toList = "relation<".toList
              rw [hl, ← hs]
            have hlen2 : t.length = "relation<".toList.length + suffix.length := by
              show t.toList.length = _
              rw [hl, ← hs, List.length_append]
            have h9 : "relation<".toList.length = 9 := rfl
            have h9b : "relation<".length = 9 := rfl
            have hpos : 0 < suffix.length := List.length_pos.2 hne
            omega
          rw [if_neg hlen]
          exact ⟨_, rfl⟩
        · rw [if_neg hp]
          split_ifs <;> exact ⟨_, rfl⟩

theorem convertFields_ok_iff (schema : M) (names : List String) (response : M) :
    (∃ r, convertFields schema names response = .ok r)
      ↔ ∀ v ∈ names, utils.String (M.get schema v) ≠ ""
          ∧ utils.String (M.get schema v) ≠ "relation<" := by
  induction names generalizing response with
  | nil =>
    constructor
    · intro _ v hv
      cases hv
    · intro _
      exact ⟨response, rfl⟩
  | cons v rest ih =>
    have hstep : convertFields schema (v :: rest) response =
        match mongoFieldTypeToSchemaAPIType (utils.String (M.get schema v)) with
        | .error e => .error e
        | .ok t => convertFields schema rest (M.set response v (.obj t)) := rfl
    rw [hstep, List.forall_mem_cons, ← mongoFieldTypeToSchemaAPIType_ok_iff]
    cases ht : mongoFieldTypeToSchemaAPIType (utils.String (M.get schema v)) with
    | error e =>
      constructor
      · rintro ⟨r, hr⟩
        cases hr
      · rintro ⟨⟨m, hm⟩, _⟩
        cases hm
    | ok t =>
      dsimp only
      rw [ih]
      constructor
      · intro h
        exact ⟨⟨t, rfl⟩, h⟩
      · intro h
        exact h.2

theorem MongoSchemaToSchemaAPIResponse_ok_iff (schema : M) :
    (∃ r, MongoSchemaToSchemaAPIResponse (some schema) = .ok r)
      ↔ ∀ k ∈ schema.map Prod.fst, k ∉ nonFieldSchemaKeys →
          utils.String (M.get schema k) ≠ ""
            ∧ utils.String (M.get schema k) ≠ "relation<" := by
  have hc := convertFields_ok_iff schema
    (List.filter (fun k => !nonFieldSchemaKeys.contains k) (List.map Prod.fst schema)) []
  have hcond : (∀ v ∈ List.filter (fun k => !nonFieldSchemaKeys.contains k)
        (List.map Prod.fst schema),
        utils.String (M.get schema v) ≠ "" ∧ utils.String (M.get schema v) ≠ "relation<")
      ↔ ∀ k ∈ schema.map Prod.fst, k ∉ nonFieldSchemaKeys →
          utils.String (M.get schema k) ≠ ""
            ∧ utils.String (M.get schema k) ≠ "relation<" := by
    constructor
    · intro h k hk hn
      apply h k
      rw [List.mem_filter]
      refine ⟨hk, ?_⟩
      simpa using hn
    · intro h v hv
      rw [List.mem_filter] at hv
      apply h v hv.1
      simpa using hv.2
  rw [← hcond, ← hc]
  unfold MongoSchemaToSchemaAPIResponse mongoSchemaAPIResponseFields
  simp only [nilEntries, Option.getD]
  cases hx : convertFields schema
      (List.filter (fun k => !nonFieldSchemaKeys.contains k) (List.map Prod.fst schema)) []
    with
  | error e =>
    constructor
    · rintro ⟨r, hr⟩
      cases hr
    · rintro ⟨r, hr⟩
      cases hr
  | ok fields =>
    constructor
    · intro _
      exact ⟨fields, rfl⟩
    · intro _
      exact ⟨_, rfl⟩

/-- C31, what the code does: `mongoFieldTypeToSchemaAPIType` returns a map exactly on
the strings other than the empty string and `relation<`, and panics on these two (the
index `t[0]`, the slice `t[9:8]`); so `MongoSchemaToSchemaAPIResponse` returns a
response exactly for the rows in which no field holds the empty string, `relation<`
or a value that is not a string.  A token outside the known set, such as `bytes`,
gives the empty map. -/
theorem wire_conversion_partial :
    (∀ t : String, (∃ m, mongoFieldTypeToSchemaAPIType t = .ok m)
      ↔ (t ≠ "" ∧ t ≠ "relation<"))
    ∧ (∀ schema : M, (∃ r, MongoSchemaToSchemaAPIResponse (some schema) = .ok r)
      ↔ ∀ k ∈ schema.map Prod.fst, k ∉ nonFieldSchemaKeys →
          utils.String (M.get schema k) ≠ ""
            ∧ utils.String (M.get schema k) ≠ "relation<")
    ∧ mongoFieldTypeToSchemaAPIType "" = .error .panic
    ∧ mongoFieldTypeToSchemaAPIType "relation<" = .error .panic
    ∧ mongoFieldTypeToSchemaAPIType "bytes" = .ok []
    ∧ MongoSchemaToSchemaAPIResponse (some [("_id", .str "Book"), ("title", .str "")])
        = .error .panic
    ∧ MongoSchemaToSchemaAPIResponse (some [("_id", .str "Book"), ("pages", .num 5)])
        = .error .panic :=
  ⟨mongoFieldTypeToSchemaAPIType_ok_iff, MongoSchemaToSchemaAPIResponse_ok_iff,
    by decide, by decide, by decide, by decide, by decide⟩

/-! ## buildMergedSchemaObject: proofs -/

theorem mergeNewFields_cons (sys : List String) (newField : String) (v : Value)
    (rest acc : M) :
    mergeNewFields sys ((newField, v) :: rest) acc =
      mergeNewFields sys rest
        (if newField ≠ "objectId" ∧ isDeleteOp v = false ∧ sys.contains newField = false
         then M.set acc newField v else acc) := by
  rw [mergeNewFields]
  unfold isDeleteOp
  by_cases h1 : newField = "objectId"
  · simp [h1]
  · by_cases h2 : utils.String (nilGet (utils.MapInterface v) "__op") = "Delete"
    · simp [h1, h2]
    · by_cases hm : newField ∈ sys
      · have hlen : 0 < sys.length := List.length_pos_of_mem hm
        simp [h1, h2, hm, hlen]
      · simp [h1, h2, hm]

theorem find?_mergeNewFields_absent (sys : List String) (entries acc : M) (k : String)
    (h : M.find? entries k = none) :
    M.find? (mergeNewFields sys entries acc) k = M.find? acc k := by
  induction entries generalizing acc with
  | nil => rfl
  | cons kv rest ih =>
    obtain ⟨k0, v0⟩ := kv
    rw [M.find?] at h
    by_cases hk : k0 = k
    · rw [if_pos hk] at h
      cases h
    · rw [if_neg hk] at h
      rw [mergeNewFields_cons, ih _ h]
      split
      · rw [find?_set, if_neg hk]
      · rfl

/-- The second loop of `buildMergedSchemaObject`: a field of the put request is
stored with its value unless it is `objectId`, a `Delete`, or a default column of the
class; every other key is left as it was. -/
theorem find?_mergeNewFields (sys : List String) (entries acc : M) (k : String) (v : Value)
    (hnodup : (entries.map Prod.fst).Nodup) (h : M.find? entries k = some v) :
    M.find? (mergeNewFields sys entries acc) k =
      if k ≠ "objectId" ∧ isDeleteOp v = false ∧ sys.contains k = false then some v
      else M.find? acc k := by
  induction entries generalizing acc with
  | nil => cases h
  | cons kv rest ih =>
    obtain ⟨k0, v0⟩ := kv
    rw [List.map_cons, List.nodup_cons] at hnodup
    rw [M.find?] at h
    rw [mergeNewFields_cons]
    by_cases hk : k0 = k
    · rw [if_pos hk] at h
      injection h with h
      subst hk
      subst h
      rw [find?_mergeNewFields_absent sys rest _ k0
        (find?_none_of_not_mem rest k0 hnodup.1)]
      split
      · rw [find?_set, if_pos rfl]
      · rfl
    · rw [if_neg hk] at h
      rw [ih _ hnodup.2 h]
      split
      · rfl
      · split
        · rw [find?_set, if_neg hk]
        · rfl

theorem mergeOldFields_cons (sys : List String) (putRequest : Option M)
    (oldField : String) (v : Value) (rest acc : M) :
    mergeOldFields sys putRequest ((oldField, v) :: rest) acc =
      if oldField ∉ mergeSkippedKeys ∧ sys.contains oldField = false
          ∧ deletesField putRequest oldField = false then
        match mongoFieldTypeToSchemaAPIType (utils.String v) with
        | .error e => .error e
        | .ok t => mergeOldFields sys putRequest rest (M.set acc oldField (.obj t))
      else mergeOldFields sys putRequest rest acc := by
  rw [mergeOldFields]
  unfold deletesField isDeleteOp mergeSkippedKeys
  by_cases h1 : oldField ≠ "_id" ∧ oldField ≠ "ACL" ∧ oldField ≠ "updatedAt"
      ∧ oldField ≠ "createdAt" ∧ oldField ≠ "objectId"
  · obtain ⟨a1, a2, a3, a4, a5⟩ := h1
    by_cases hm : oldField ∈ sys
    · have hlen : 0 < sys.length := List.length_pos_of_mem hm
      simp [a1, a2, a3, a4, a5, hm, hlen]
    · simp only [a1, a2, a3, a4, a5, hm, ne_eq, not_false_eq_true, decide_True,
        Bool.and_self, if_true, List.elem_eq_mem, decide_False, Bool.and_false,
        Bool.false_eq_true, if_false, List.mem_cons, List.mem_singleton, List.not_mem_nil,
        or_false, or_self, true_and]
  · have : ¬ (oldField ∉ ["_id", "ACL", "updatedAt", "createdAt", "objectId"]
        ∧ sys.contains oldField = false
        ∧ (!(nilGet putRequest oldField).isNil
          && decide (utils.String (nilGet (utils.MapInterface (nilGet putRequest oldField))
              "__op") = "Delete")) = false) := by
      intro hc
      apply h1
      have := hc.1
      simp only [List.mem_cons, List.mem_singleton, List.not_mem_nil, or_false,
        not_or] at this
      exact this
    rw [if_neg this, if_neg]
    intro hc
    apply h1
    simpa [and_assoc] using hc

theorem find?_mergeOldFields_absent (sys : List String) (putRequest : Option M)
    (entries acc r : M) (k : String) (h : M.find? entries k = none)
    (hr : mergeOldFields sys putRequest entries acc = .ok r) :
    M.find? r k = M.find? acc k := by
  induction entries generalizing acc with
  | nil =>
    rw [mergeOldFields] at hr
    injection hr with hr
    rw [hr]
  | cons kv rest ih =>
    obtain ⟨k0, v0⟩ := kv
    rw [M.find?] at h
    by_cases hk : k0 = k
    · rw [if_pos hk] at h
      cases h
    · rw [if_neg hk] at h
      rw [mergeOldFields_cons] at hr
      split at hr
      · cases ht : mongoFieldTypeToSchemaAPIType (utils.String v0) with
        | error e => rw [ht] at hr; cases hr
        | ok t =>
          rw [ht] at hr
          rw [ih _ h hr, find?_set, if_neg hk]
      · exact ih _ h hr

/-- The first loop of `buildMergedSchemaObject`: a stored field is converted and
stored unless it is one of the five skipped keys, a default column of the class, or
deleted by the put request; every other key is left as it was. -/
theorem find?_mergeOldFields (sys : List String) (putRequest : Option M)
    (entries acc r : M) (k : String) (v : Value)
    (hnodup : (entries.map Prod.fst).Nodup) (h : M.find? entries k = some v)
    (hr : mergeOldFields sys putRequest entries acc = .ok r) :
    if k ∉ mergeSkippedKeys ∧ sys.contains k = false ∧ deletesField putRequest k = false
    then ∃ t, mongoFieldTypeToSchemaAPIType (utils.String v) = .ok t
      ∧ M.find? r k = some (.obj t)
    else M.find? r k = M.find? acc k := by
  induction entries generalizing acc with
  | nil => cases h
  | cons kv rest ih =>
    obtain ⟨k0, v0⟩ := kv
    rw [List.map_cons, List.nodup_cons] at hnodup
    rw [M.find?] at h
    rw [mergeOldFields_cons] at hr
    by_cases hk : k0 = k
    · rw [if_pos hk] at h
      injection h with h
      subst hk
      subst h
      have hrest := find?_none_of_not_mem rest k0 hnodup.1
      split at hr
      · rename_i hc
        rw [if_pos hc]
        cases ht : mongoFieldTypeToSchemaAPIType (utils.String v0) with
        | error e => rw [ht] at hr; cases hr
        | ok t =>
          rw [ht] at hr
          refine ⟨t, rfl, ?_⟩
          rw [find?_mergeOldFields_absent sys putRequest rest _ r k0 hrest hr, find?_set,
            if_pos rfl]
      · rename_i hc
        rw [if_neg hc]
        exact find?_mergeOldFields_absent sys putRequest rest _ r k0 hrest hr
    · rw [if_neg hk] at h
      split at hr
      · cases ht : mongoFieldTypeToSchemaAPIType (utils.String v0) with
        | error e => rw [ht] at hr; cases hr
        | ok t =>
          rw [ht] at hr
          have := ih _ hnodup.2 h hr
          rw [find?_set, if_neg hk] at this
          exact this
      · exact ih _ hnodup.2 h hr

theorem find?_of_get_ne_nil (m : M) (k : String) (h : (M.get m k).isNil = false) :
    M.find? m k = some (M.get m k) := by
  unfold M.get at h ⊢
  cases hf : M.find? m k with
  | none => rw [hf] at h; cases h
  | some v => rfl

theorem contains_eq_false_iff (sys : List String) (k : String) :
    sys.contains k = false ↔ k ∉ sys := by
  simp

theorem mergeOldFields_returns (sys : List String) (putRequest : Option M)
    (entries acc : M) :
    (∃ r, mergeOldFields sys putRequest entries acc = .ok r) ↔
      ∀ e ∈ entries, e.1 ∉ mergeSkippedKeys → e.1 ∉ sys →
        deletesField putRequest e.1 = false →
        utils.String e.2 ≠ "" ∧ utils.String e.2 ≠ "relation<" := by
  induction entries generalizing acc with
  | nil =>
    constructor
    · intro _ e hk
      cases hk
    · intro _
      exact ⟨acc, rfl⟩
  | cons kv rest ih =>
    obtain ⟨k0, v0⟩ := kv
    rw [mergeOldFields_cons]
    by_cases hc : k0 ∉ mergeSkippedKeys ∧ sys.contains k0 = false
        ∧ deletesField putRequest k0 = false
    · rw [if_pos hc]
      cases ht : mongoFieldTypeToSchemaAPIType (utils.String v0) with
      | error e =>
        constructor
        · rintro ⟨r, hr⟩
          cases hr
        · intro hall
          exfalso
          have hgood := (mongoFieldTypeToSchemaAPIType_ok_iff (utils.String v0)).2
            (hall (k0, v0) (List.mem_cons_self _ _) hc.1
              ((contains_eq_false_iff _ _).1 hc.2.1) hc.2.2)
          obtain ⟨m, hm⟩ := hgood
          rw [ht] at hm
          cases hm
      | ok t =>
        have hgood := (mongoFieldTypeToSchemaAPIType_ok_iff (utils.String v0)).1 ⟨t, ht⟩
        show (∃ r, mergeOldFields sys putRequest rest (M.set acc k0 (.obj t)) = .ok r) ↔ _
        rw [ih]
        constructor
        · intro hall e hk
          rcases List.mem_cons.1 hk with hk | hk
          · rw [hk]
            intro _ _ _
            exact hgood
          · exact hall e hk
        · intro hall e hk
          exact hall e (List.mem_cons_of_mem _ hk)
    · rw [if_neg hc, ih]
      constructor
      · intro hall e hk
        rcases List.mem_cons.1 hk with hk | hk
        · rw [hk]
          intro a b c
          exact absurd ⟨a, (contains_eq_false_iff _ _).2 b, c⟩ hc
        · exact hall e hk
      · intro hall e hk
        exact hall e (List.mem_cons_of_mem _ hk)

/-- C32 as amended: for a stored schema object and a put request (keys distinct, as in
a Go map), `buildMergedSchemaObject` returns a result exactly when every stored field
that it converts (not one of `_id`, `ACL`, `updatedAt`, `createdAt`, `objectId`, not a
default column of the class named by `_id`, not deleted by the put request) has a type
other than the empty one and `relation<`.  The result has no key `objectId` and no
default column of the class, and no field that the put request deletes; it holds every
stored field that is not one of the five keys, not a default column of the class and
not named in the put request, converted to its wire type; and it holds every field of
the put request that is not `objectId`, not a `Delete` and not a default column of the
class, with the value of the request, also when that field is `_id`, `createdAt`,
`updatedAt` or `ACL`. -/
theorem buildMergedSchemaObject_code (mongoObject putRequest : M)
    (hn1 : (mongoObject.map Prod.fst).Nodup) (hn2 : (putRequest.map Prod.fst).Nodup) :
    ((∃ result, buildMergedSchemaObject mongoObject (some putRequest) = .ok result) ↔
      ∀ e ∈ mongoObject, e.1 ∉ mergeSkippedKeys →
        e.1 ∉ sysSchemaFieldOf (utils.String (M.get mongoObject "_id")) →
        deletesField (some putRequest) e.1 = false →
        utils.String e.2 ≠ "" ∧ utils.String e.2 ≠ "relation<")
    ∧ ∀ result, buildMergedSchemaObject mongoObject (some putRequest) = .ok result →
      (∀ k, M.has result k = true →
        k ≠ "objectId" ∧ k ∉ sysSchemaFieldOf (utils.String (M.get mongoObject "_id")))
      ∧ (∀ k, deletesField (some putRequest) k = true → M.has result k = false)
      ∧ (∀ k v, M.find? mongoObject k = some v → k ∉ mergeSkippedKeys →
          k ∉ sysSchemaFieldOf (utils.String (M.get mongoObject "_id")) →
          M.find? putRequest k = none →
          ∃ t, mongoFieldTypeToSchemaAPIType (utils.String v) = .ok t
            ∧ M.find? result k = some (.obj t))
      ∧ (∀ k v, M.find? putRequest k = some v → k ≠ "objectId" →
          k ∉ sysSchemaFieldOf (utils.String (M.get mongoObject "_id")) →
          isDeleteOp v = false → M.find? result k = some v) := by
  refine ⟨?_, ?_⟩
  · rw [← mergeOldFields_returns _ (some putRequest) mongoObject []]
    unfold buildMergedSchemaObject
    dsimp only
    cases mergeOldFields (sysSchemaFieldOf (utils.String (M.get mongoObject "_id")))
        (some putRequest) mongoObject [] with
    | error e =>
      constructor
      · rintro ⟨r, hr⟩
        cases hr
      · rintro ⟨r, hr⟩
        cases hr
    | ok old => exact ⟨fun _ => ⟨old, rfl⟩, fun _ => ⟨_, rfl⟩⟩
  intro result h
  unfold buildMergedSchemaObject at h
  dsimp only at h
  cases ho : mergeOldFields (sysSchemaFieldOf (utils.String (M.get mongoObject "_id")))
      (some putRequest) mongoObject [] with
  | error e => rw [ho] at h; cases h
  | ok old =>
    rw [ho] at h
    injection h with h
    change mergeNewFields _ putRequest old = result at h
    have hold : ∀ k, (M.find? old k).isSome = true →
        k ∉ mergeSkippedKeys
          ∧ (sysSchemaFieldOf (utils.String (M.get mongoObject "_id"))).contains k = false
          ∧ deletesField (some putRequest) k = false := by
      intro k hk
      cases hm : M.find? mongoObject k with
      | none =>
        rw [find?_mergeOldFields_absent _ _ _ _ _ k hm ho] at hk
        cases hk
      | some v =>
        have := find?_mergeOldFields _ _ _ _ _ k v hn1 hm ho
        split at this
        · rename_i hc
          exact hc
        · rw [this] at hk
          cases hk
    refine ⟨?_, ?_, ?_, ?_⟩
    · intro k hk
      unfold M.has at hk
      rw [← h] at hk
      cases hp : M.find? putRequest k with
      | none =>
        rw [find?_mergeNewFields_absent _ _ _ k hp] at hk
        obtain ⟨a, b, _⟩ := hold k hk
        refine ⟨?_, (contains_eq_false_iff _ _).1 b⟩
        intro hc
        apply a
        rw [hc]
        decide
      | some v =>
        rw [find?_mergeNewFields _ _ _ k v hn2 hp] at hk
        split at hk
        · rename_i hc
          exact ⟨hc.1, (contains_eq_false_iff _ _).1 hc.2.2⟩
        · obtain ⟨a, b, _⟩ := hold k hk
          refine ⟨?_, (contains_eq_false_iff _ _).1 b⟩
          intro hc
          apply a
          rw [hc]
          decide
    · intro k hd
      have hd2 := hd
      unfold deletesField at hd2
      rw [Bool.and_eq_true] at hd2
      have hnil : (M.get putRequest k).isNil = false := by
        have := hd2.1
        simpa [nilGet] using this
      have hp := find?_of_get_ne_nil putRequest k hnil
      have hdel : isDeleteOp (M.get putRequest k) = true := hd2.2
      unfold M.has
      rw [← h, find?_mergeNewFields _ _ _ k _ hn2 hp, if_neg]
      · cases hx : (M.find? old k).isSome with
        | false => rfl
        | true =>
          have := (hold k hx).2.2
          rw [hd] at this
          cases this
      · intro hc
        rw [hdel] at hc
        exact absurd hc.2.1 (by decide)
    · intro k v hm hs hsys hp
      rw [← h, find?_mergeNewFields_absent _ _ _ k hp]
      have := find?_mergeOldFields _ _ _ _ _ k v hn1 hm ho
      rw [if_pos] at this
      · exact this
      · refine ⟨hs, (contains_eq_false_iff _ _).2 hsys, ?_⟩
        have hg : nilGet (some putRequest) k = .null := by
          show M.get putRequest k = .null
          unfold M.get
          rw [hp]
          rfl
        unfold deletesField
        rw [hg]
        rfl
    · intro k v hp hk hsys hdel
      rw [← h, find?_mergeNewFields _ _ _ k v hn2 hp, if_pos]
      exact ⟨hk, hdel, (contains_eq_false_iff _ _).2 hsys⟩

/-- C32 as amended, at the stored class `Book` with the fields `title` and `pages` and a
put request that deletes `pages` and adds `year`: the function returns a result, which
holds `title` converted, `year` with the value of the request, and no `pages`. -/
theorem buildMergedSchemaObject_code_witness :
    (∃ result, buildMergedSchemaObject
        [("_id", .str "Book"), ("title", .str "string"), ("pages", .str "number")]
        (some [("pages", .obj [("__op", .str "Delete")]), ("year", apiT "Number")])
          = .ok result)
    ∧ buildMergedSchemaObject
        [("_id", .str "Book"), ("title", .str "string"), ("pages", .str "number")]
        (some [("pages", .obj [("__op", .str "Delete")]), ("year", apiT "Number")])
          = .ok [("title", apiT "String"), ("year", apiT "Number")]
    ∧ M.find? [("title", apiT "String"), ("year", apiT "Number")] "year"
        = some (apiT "Number")
    ∧ M.has [("title", apiT "String"), ("year", apiT "Number")] "pages" = false :=
  ⟨(buildMergedSchemaObject_code
      [("_id", .str "Book"), ("title", .str "string"), ("pages", .str "number")]
      [("pages", .obj [("__op", .str "Delete")]), ("year", apiT "Number")]
      (by decide) (by decide)).1.2 (by decide),
    by decide,
    ((buildMergedSchemaObject_code
      [("_id", .str "Book"), ("title", .str "string"), ("pages", .str "number")]
      [("pages", .obj [("__op", .str "Delete")]), ("year", apiT "Number")]
      (by decide) (by decide)).2 [("title", apiT "String"), ("year", apiT "Number")]
      (by decide)).2.2.2 "year" (apiT "Number") rfl (by decide) (by decide) (by decide),
    ((buildMergedSchemaObject_code
      [("_id", .str "Book"), ("title", .str "string"), ("pages", .str "number")]
      [("pages", .obj [("__op", .str "Delete")]), ("year", apiT "Number")]
      (by decide) (by decide)).2 [("title", apiT "String"), ("year", apiT "Number")]
      (by decide)).2.1 "pages" (by decide)⟩

/-- C32 as stated fails: for the stored class `Book` with the field `title` and a put
request that gives `ACL` and `createdAt`, the result of `buildMergedSchemaObject` holds
the keys `ACL` and `createdAt`. -/
theorem buildMergedSchemaObject_counterexample :
    buildMergedSchemaObject [("_id", .str "Book"), ("title", .str "string")]
        (some [("ACL", apiT "ACL"), ("createdAt", apiT "Date")])
      = .ok [("title", apiT "String"), ("ACL", apiT "ACL"), ("createdAt", apiT "Date")]
    ∧ M.has [("title", apiT "String"), ("ACL", apiT "ACL"), ("createdAt", apiT "Date")]
        "ACL" = true
    ∧ M.has [("title", apiT "String"), ("ACL", apiT "ACL"), ("createdAt", apiT "Date")]
        "createdAt" = true := by
  decide

/-! ## Rounds of the replace methods: proofs -/

theorem BuildRestWhereWith_guardSteps (orm : Orm)
    (exec : Query → Option (Option M × Error × Query)) (fuel : Nat) (q : Query) :
    BuildRestWhereWith orm exec fuel q =
      andThen (some (guardSteps orm q)) fun q =>
      andThen (replaceSelectWith exec fuel q) fun q =>
      andThen (replaceDontSelectWith exec fuel q) fun q =>
      andThen (replaceInQueryWith exec fuel q) fun q =>
      andThen (replaceNotInQueryWith exec fuel q) fun q =>
      some (none, q) := by
  unfold BuildRestWhereWith guardSteps
  rcases h1 : getUserAndRoleACL q with ⟨e1, q1⟩
  cases e1 with
  | some e => rfl
  | none =>
    rcases h2 : redirectClassNameForKey orm q1 with ⟨e2, q2⟩
    cases e2 with
    | some e => simp only [andThen, h2]
    | none =>
      rcases h3 : validateClientClassCreation orm q2 with ⟨e3, q3⟩
      simp only [andThen, h2, h3]

theorem guardSteps_Where (orm : Orm) (q : Query) : (guardSteps orm q).2.Where = q.Where := by
  unfold guardSteps
  rcases h1 : getUserAndRoleACL q with ⟨e1, q1⟩
  have w1 : q1.Where = q.Where := by
    have := (getUserAndRoleACL_frame q).2
    rw [h1] at this
    exact this
  cases e1 with
  | some e => exact w1
  | none =>
    rcases h2 : redirectClassNameForKey orm q1 with ⟨e2, q2⟩
    have w2 : q2.Where = q1.Where := by
      have := (redirectClassNameForKey_frame orm q1).2
      rw [h2] at this
      exact this
    cases e2 with
    | some e =>
      simp only [h2]
      exact w2.trans w1
    | none =>
      simp only [h2]
      rw [validateClientClassCreation_snd]
      exact w2.trans w1

theorem replaceSelectFamily_round (exec : Query → Option (Option M × Error × Query))
    (op out : String) (fuel : Nat) (q next : Query)
    (h : selectRound exec op out q = some next) :
    replaceSelectFamily exec op out (fuel + 1) q
      = replaceSelectFamily exec op out fuel next := by
  unfold selectRound at h
  cases hf : findObjectWithKey (whereValue q.Where) op with
  | none => rw [hf] at h; cases h
  | some obj =>
    rw [hf] at h
    dsimp only at h
    split at h
    · cases h
    · rename_i h1
      split at h
      · cases h
      · rename_i h2
        split at h
        · cases h
        · rename_i query hq
          split at h
          · rename_i response after he
            injection h with h
            rw [replaceSelectFamily, hf]
            dsimp only
            rw [if_neg h1, if_neg h2, hq]
            dsimp only
            rw [he, ← h]
          · cases h

theorem replaceInQueryFamily_round (exec : Query → Option (Option M × Error × Query))
    (op out : String) (fuel : Nat) (q next : Query)
    (h : inQueryRound exec op out q = some next) :
    replaceInQueryFamily exec op out (fuel + 1) q
      = replaceInQueryFamily exec op out fuel next := by
  unfold inQueryRound at h
  cases hf : findObjectWithKey (whereValue q.Where) op with
  | none => rw [hf] at h; cases h
  | some obj =>
    rw [hf] at h
    dsimp only at h
    split at h
    · cases h
    · rename_i h1
      split at h
      · cases h
      · rename_i query hq
        split at h
        · rename_i response after he
          injection h with h
          rw [replaceInQueryFamily, hf]
          dsimp only
          rw [if_neg h1, hq]
          dsimp only
          rw [he, ← h]
        · cases h

theorem replaceSelectFamily_rounds (exec : Query → Option (Option M × Error × Query))
    (op out : String) (fuel : Nat) :
    ∀ (n : Nat) (q qn : Query), roundsOf (selectRound exec op out) n q = some qn →
      replaceSelectFamily exec op out (fuel + n) q
        = replaceSelectFamily exec op out fuel qn
  | 0, q, qn, h => by
    injection h with h
    rw [h]
    rfl
  | n + 1, q, qn, h => by
    rw [roundsOf] at h
    cases hr : selectRound exec op out q with
    | none => rw [hr] at h; cases h
    | some next =>
      rw [hr] at h
      dsimp only at h
      rw [← Nat.add_assoc, replaceSelectFamily_round exec op out (fuel + n) q next hr]
      exact replaceSelectFamily_rounds exec op out fuel n next qn h

theorem replaceInQueryFamily_rounds (exec : Query → Option (Option M × Error × Query))
    (op out : String) (fuel : Nat) :
    ∀ (n : Nat) (q qn : Query), roundsOf (inQueryRound exec op out) n q = some qn →
      replaceInQueryFamily exec op out (fuel + n) q
        = replaceInQueryFamily exec op out fuel qn
  | 0, q, qn, h => by
    injection h with h
    rw [h]
    rfl
  | n + 1, q, qn, h => by
    rw [roundsOf] at h
    cases hr : inQueryRound exec op out q with
    | none => rw [hr] at h; cases h
    | some next =>
      rw [hr] at h
      dsimp only at h
      rw [← Nat.add_assoc, replaceInQueryFamily_round exec op out (fuel + n) q next hr]
      exact replaceInQueryFamily_rounds exec op out fuel n next qn h

theorem andThen_next (a : Option (Error × Query)) (next : Query → Option (Error × Query))
    (mid : Query) (h : a = some (none, mid)) : andThen a next = next mid := by
  rw [h]; rfl

theorem andThen_stop (a : Option (Error × Query)) (next : Query → Option (Error × Query))
    (e : Fault) (after : Query) (h : a = some (some e, after)) :
    andThen a next = some (some e, after) := by
  rw [h]; rfl

theorem selectRounds_malformed (exec : Query → Option (Option M × Error × Query))
    (op out : String) (fuel n : Nat) (q qn : Query) (obj : M)
    (hr : roundsOf (selectRound exec op out) n q = some qn)
    (hf : findObjectWithKey (whereValue qn.Where) op = some obj)
    (hm : hasExactlyKeys (M.get obj op) "query" "key" = false) :
    replaceSelectFamily exec op out (fuel + n + 1) q
      = some (some (.err .InvalidQuery), qn) := by
  rw [Nat.add_right_comm, replaceSelectFamily_rounds exec op out (fuel + 1) n q qn hr]
  exact replaceSelectFamily_malformed exec op out fuel qn obj hf hm

theorem inQueryRounds_malformed (exec : Query → Option (Option M × Error × Query))
    (op out : String) (fuel n : Nat) (q qn : Query) (obj : M)
    (hr : roundsOf (inQueryRound exec op out) n q = some qn)
    (hf : findObjectWithKey (whereValue qn.Where) op = some obj)
    (hm : hasExactlyKeys (M.get obj op) "where" "className" = false) :
    replaceInQueryFamily exec op out (fuel + n + 1) q
      = some (some (.err .InvalidQuery), qn) := by
  rw [Nat.add_right_comm, replaceInQueryFamily_rounds exec op out (fuel + 1) n q qn hr]
  exact replaceInQueryFamily_malformed exec op out fuel qn obj hf hm

/-- C20 as amended: in every round of a replace step, the first one or one that
comes after `n` rounds of the step that have each replaced a well-formed operator, in
which the map returned by `findObjectWithKey` holds under `$select` or `$dontSelect` a
value that is not a map with exactly the keys `query` and `key`, or under `$inQuery`
or `$notInQuery` a value that is not a map with exactly the keys `where` and
`className`, the step returns `InvalidQuery` and leaves the tree as the earlier rounds
left it, and the round does so whatever a nested run would do; `BuildRestWhere`
returns `InvalidQuery` too when the steps before that replace step return no error. -/
theorem replace_rejects_malformed (orm : Orm)
    (exec : Query → Option (Option M × Error × Query)) (fuel n : Nat)
    (q q1 q2 q3 qn : Query) (obj : M) :
    (findObjectWithKey (whereValue qn.Where) "$select" = some obj →
      hasExactlyKeys (M.get obj "$select") "query" "key" = false →
      (∀ run, replaceSelectWith run (fuel + 1) qn = some (some (.err .InvalidQuery), qn))
      ∧ (roundsOf (selectRound exec "$select" "$in") n q = some qn →
          replaceSelectWith exec (fuel + n + 1) q = some (some (.err .InvalidQuery), qn))
      ∧ ((guardSteps orm q).1 = none →
          roundsOf (selectRound exec "$select" "$in") n (guardSteps orm q).2 = some qn →
          BuildRestWhereWith orm exec (fuel + n + 1) q
            = some (some (.err .InvalidQuery), qn)))
    ∧ (findObjectWithKey (whereValue qn.Where) "$dontSelect" = some obj →
      hasExactlyKeys (M.get obj "$dontSelect") "query" "key" = false →
      (∀ run, replaceDontSelectWith run (fuel + 1) qn
          = some (some (.err .InvalidQuery), qn))
      ∧ (roundsOf (selectRound exec "$dontSelect" "$nin") n q = some qn →
          replaceDontSelectWith exec (fuel + n + 1) q
            = some (some (.err .InvalidQuery), qn))
      ∧ ((guardSteps orm q).1 = none →
          replaceSelectWith exec (fuel + n + 1) (guardSteps orm q).2 = some (none, q1) →
          roundsOf (selectRound exec "$dontSelect" "$nin") n q1 = some qn →
          BuildRestWhereWith orm exec (fuel + n + 1) q
            = some (some (.err .InvalidQuery), qn)))
    ∧ (findObjectWithKey (whereValue qn.Where) "$inQuery" = some obj →
      hasExactlyKeys (M.get obj "$inQuery") "where" "className" = false →
      (∀ run, replaceInQueryWith run (fuel + 1) qn = some (some (.err .InvalidQuery), qn))
      ∧ (roundsOf (inQueryRound exec "$inQuery" "$in") n q = some qn →
          replaceInQueryWith exec (fuel + n + 1) q = some (some (.err .InvalidQuery), qn))
      ∧ ((guardSteps orm q).1 = none →
          replaceSelectWith exec (fuel + n + 1) (guardSteps orm q).2 = some (none, q1) →
          replaceDontSelectWith exec (fuel + n + 1) q1 = some (none, q2) →
          roundsOf (inQueryRound exec "$inQuery" "$in") n q2 = some qn →
          BuildRestWhereWith orm exec (fuel + n + 1) q
            = some (some (.err .InvalidQuery), qn)))
    ∧ (findObjectWithKey (whereValue qn.Where) "$notInQuery" = some obj →
      hasExactlyKeys (M.get obj "$notInQuery") "where" "className" = false →
      (∀ run, replaceNotInQueryWith run (fuel + 1) qn
          = some (some (.err .InvalidQuery), qn))
      ∧ (roundsOf (inQueryRound exec "$notInQuery" "$nin") n q = some qn →
          replaceNotInQueryWith exec (fuel + n + 1) q
            = some (some (.err .InvalidQuery), qn))
      ∧ ((guardSteps orm q).1 = none →
          replaceSelectWith exec (fuel + n + 1) (guardSteps orm q).2 = some (none, q1) →
          replaceDontSelectWith exec (fuel + n + 1) q1 = some (none, q2) →
          replaceInQueryWith exec (fuel + n + 1) q2 = some (none, q3) →
          roundsOf (inQueryRound exec "$notInQuery" "$nin") n q3 = some qn →
          BuildRestWhereWith orm exec (fuel + n + 1) q
            = some (some (.err .InvalidQuery), qn))) := by
  refine ⟨?_, ?_, ?_, ?_⟩
  · intro hf hm
    refine ⟨fun run => replaceSelectFamily_malformed run _ _ fuel qn obj hf hm,
      fun hr => selectRounds_malformed exec _ _ fuel n q qn obj hr hf hm, ?_⟩
    intro hg hr
    rw [BuildRestWhereWith_guardSteps, andThen_pass _ _ hg]
    exact andThen_stop _ _ _ _ (selectRounds_malformed exec _ _ fuel n _ qn obj hr hf hm)
  · intro hf hm
    refine ⟨fun run => replaceSelectFamily_malformed run _ _ fuel qn obj hf hm,
      fun hr => selectRounds_malformed exec _ _ fuel n q qn obj hr hf hm, ?_⟩
    intro hg h1 hr
    rw [BuildRestWhereWith_guardSteps, andThen_pass _ _ hg, andThen_next _ _ q1 h1]
    exact andThen_stop _ _ _ _ (selectRounds_malformed exec _ _ fuel n _ qn obj hr hf hm)
  · intro hf hm
    refine ⟨fun run => replaceInQueryFamily_malformed run _ _ fuel qn obj hf hm,
      fun hr => inQueryRounds_malformed exec _ _ fuel n q qn obj hr hf hm, ?_⟩
    intro hg h1 h2 hr
    rw [BuildRestWhereWith_guardSteps, andThen_pass _ _ hg, andThen_next _ _ q1 h1,
      andThen_next _ _ q2 h2]
    exact andThen_stop _ _ _ _ (inQueryRounds_malformed exec _ _ fuel n _ qn obj hr hf hm)
  · intro hf hm
    refine ⟨fun run => replaceInQueryFamily_malformed run _ _ fuel qn obj hf hm,
      fun hr => inQueryRounds_malformed exec _ _ fuel n q qn obj hr hf hm, ?_⟩
    intro hg h1 h2 h3 hr
    rw [BuildRestWhereWith_guardSteps, andThen_pass _ _ hg, andThen_next _ _ q1 h1,
      andThen_next _ _ q2 h2, andThen_next _ _ q3 h3]
    exact andThen_stop _ _ _ _ (inQueryRounds_malformed exec _ _ fuel n _ qn obj hr hf hm)

/-- C20 as amended, at a well-formed `$select` under `age` followed by a `$select`
that is not a map under `name`: after the round that replaces the first one,
`replaceSelect` and `BuildRestWhere` return InvalidQuery; and at a `$select` with a
`query` and no `key`, `replaceSelect` returns InvalidQuery with nested runs that never
finish. -/
theorem replace_rejects_malformed_witness :
    replaceSelect minAgeOrm 2 twoSelectQuery
        = some (some (.err .InvalidQuery), { twoSelectQuery with
            Where := some [("age", .obj [("$in", .arr [])]),
              ("name", .obj [("$select", .num 5)])] })
    ∧ BuildRestWhere minAgeOrm 2 twoSelectQuery
        = some (some (.err .InvalidQuery), { twoSelectQuery with
            Where := some [("age", .obj [("$in", .arr [])]),
              ("name", .obj [("$select", .num 5)])] })
    ∧ replaceSelectWith (fun _ => none) 1 keylessSelectQuery
        = some (some (.err .InvalidQuery), keylessSelectQuery) :=
  have h := (replace_rejects_malformed minAgeOrm (Execute minAgeOrm 2) 0 1 twoSelectQuery
    twoSelectQuery twoSelectQuery twoSelectQuery
    { twoSelectQuery with
      Where := some [("age", .obj [("$in", .arr [])]), ("name", .obj [("$select", .num 5)])] }
    [("$select", .num 5)]).1 (by decide) (by decide)
  ⟨h.2.1 (by decide), h.2.2 (by decide) (by decide),
    ((replace_rejects_malformed teamOrm (fun _ => none) 0 0 keylessSelectQuery
      keylessSelectQuery keylessSelectQuery keylessSelectQuery keylessSelectQuery
      [("$select", .obj [("query", .obj [("className", .str "Team")])])]).1
      (by decide) (by decide)).1 (fun _ => none)⟩

/-- C20 as stated fails, in three ways.  The where `{"a": {"$select": null}}` holds a
`$select` whose value is not a map, and `replaceSelect` and `BuildRestWhere` return no
error: the search passes over a `nil` value.  With a well-formed `$select` on
`_Session` before a `$select` that is not a map, for a caller without a user, both
return the error `InvalidSessionToken` of the nested query of the first one.  With a
`$select` that is not a map inside the nested `where` of a well-formed `$select`, both
return no error: the inner one goes away with the outer one. -/
theorem replace_rejects_malformed_counterexample :
    (malformedAnywhere "$select" "query" "key" (whereValue nullSelectQuery.Where) = true
      ∧ replaceSelect teamOrm 1 nullSelectQuery = some (none, nullSelectQuery)
      ∧ BuildRestWhere teamOrm 1 nullSelectQuery = some (none, nullSelectQuery))
    ∧ (malformedAnywhere "$select" "query" "key" (whereValue sessionSelectQuery.Where) = true
      ∧ replaceSelect teamOrm 2 sessionSelectQuery
          = some (some (.err .InvalidSessionToken), sessionSelectQuery)
      ∧ BuildRestWhere teamOrm 2 sessionSelectQuery
          = some (some (.err .InvalidSessionToken), sessionSelectQuery))
    ∧ (malformedAnywhere "$select" "query" "key" (whereValue innerSelectQuery.Where) = true
      ∧ replaceSelect minAgeOrm 2 innerSelectQuery
          = some (none, { innerSelectQuery with
              Where := some [("age", .obj [("$in", .arr [])])] })
      ∧ BuildRestWhere minAgeOrm 2 innerSelectQuery
          = some (none, { innerSelectQuery with
              Where := some [("age", .obj [("$in", .arr [])])] })) := by
  decide

/-! ## The tree after a failure of `BuildRestWhere`: proofs -/

theorem replaceSelectFamily_first (exec : Query → Option (Option M × Error × Query))
    (op out : String) (fuel : Nat) (q : Query) (r : Error × Query)
    (h : replaceSelectFamily exec op out (fuel + 1) q = some r)
    (hn : selectRound exec op out q = none) :
    (r = (none, q) ∧ bindsKeyAnywhere op (whereValue q.Where) = false)
    ∨ ∃ e, r = (some e, q) := by
  unfold selectRound at hn
  rw [replaceSelectFamily] at h
  split at hn
  · rename_i hf
    rw [hf] at h
    injection h with h
    exact Or.inl ⟨h.symm, (findObjectWithKey_eq_none _ _).1 hf⟩
  · rename_i obj hf
    rw [hf] at h
    dsimp only at h hn
    right
    split at hn
    · rename_i h1
      rw [if_pos h1] at h
      injection h with h
      exact ⟨_, h.symm⟩
    · rename_i h1
      rw [if_neg h1] at h
      split at hn
      · rename_i h2
        rw [if_pos h2] at h
        injection h with h
        exact ⟨_, h.symm⟩
      · rename_i h2
        rw [if_neg h2] at h
        split at hn
        · rename_i e hq
          rw [hq] at h
          injection h with h
          exact ⟨_, h.symm⟩
        · rename_i query hq
          rw [hq] at h
          dsimp only at h hn
          split at hn
          · cases hn
          · rename_i hne
            cases he : exec query with
            | none => rw [he] at h; cases h
            | some x =>
              obtain ⟨response, err, after⟩ := x
              cases err with
              | none => exact absurd he (hne response after)
              | some e =>
                rw [he] at h
                injection h with h
                exact ⟨_, h.symm⟩

theorem replaceInQueryFamily_first (exec : Query → Option (Option M × Error × Query))
    (op out : String) (fuel : Nat) (q : Query) (r : Error × Query)
    (h : replaceInQueryFamily exec op out (fuel + 1) q = some r)
    (hn : inQueryRound exec op out q = none) :
    (r = (none, q) ∧ bindsKeyAnywhere op (whereValue q.Where) = false)
    ∨ (∃ e, r = (some e, q))
    ∨ ∃ e, inQueryFailure exec op q = some r.2 ∧ r.1 = some e := by
  unfold inQueryRound at hn
  rw [replaceInQueryFamily] at h
  split at hn
  · rename_i hf
    rw [hf] at h
    injection h with h
    exact Or.inl ⟨h.symm, (findObjectWithKey_eq_none _ _).1 hf⟩
  · rename_i obj hf
    rw [hf] at h
    dsimp only at h hn
    right
    split at hn
    · rename_i h1
      rw [if_pos h1] at h
      injection h with h
      exact Or.inl ⟨_, h.symm⟩
    · rename_i h1
      rw [if_neg h1] at h
      split at hn
      · rename_i e hq
        rw [hq] at h
        injection h with h
        exact Or.inl ⟨_, h.symm⟩
      · rename_i query hq
        rw [hq] at h
        dsimp only at h hn
        split at hn
        · cases hn
        · rename_i hne
          cases he : exec query with
          | none => rw [he] at h; cases h
          | some x =>
            obtain ⟨response, err, after⟩ := x
            cases err with
            | none => exact absurd he (hne response after)
            | some e =>
              rw [he] at h
              injection h with h
              right
              refine ⟨e, ?_, ?_⟩
              · unfold inQueryFailure
                rw [hf]
                dsimp only
                rw [if_neg h1, hq]
                dsimp only
                rw [he, ← h]
              · rw [← h]

theorem andThen_error (a : Option (Error × Query)) (next : Query → Option (Error × Query))
    (e : Fault) (after : Query) (h : andThen a next = some (some e, after)) :
    a = some (some e, after)
    ∨ ∃ mid, a = some (none, mid) ∧ next mid = some (some e, after) := by
  cases a with
  | none => cases h
  | some r =>
    obtain ⟨err, mid⟩ := r
    cases err with
    | some e1 => exact Or.inl h
    | none => exact Or.inr ⟨mid, rfl, h⟩

/-- C22 as amended: when `BuildRestWhere` returns an error, the where tree is the one
that was passed in unless the first replace round of the call has written to it: the
three steps before the replace methods returned no error and, for the first of
`$select`, `$dontSelect`, `$inQuery`, `$notInQuery` that has a value other than `nil`
somewhere in the tree, the round on the map that `findObjectWithKey` returns either
replaced the operator (it reached the recursive call at its end), or was a round of
`replaceInQuery` or `replaceNotInQuery` whose nested query returned an error and left
a where tree other than the one passed in. -/
theorem BuildRestWhere_error_tree (orm : Orm)
    (exec : Query → Option (Option M × Error × Query)) (fuel : Nat) (q : Query)
    (e : Fault) (after : Query)
    (h : BuildRestWhereWith orm exec fuel q = some (some e, after)) :
    after.Where = q.Where
    ∨ ((guardSteps orm q).1 = none
      ∧ ((selectRound exec "$select" "$in" (guardSteps orm q).2).isSome = true
        ∨ (bindsKeyAnywhere "$select" (whereValue q.Where) = false
          ∧ (selectRound exec "$dontSelect" "$nin" (guardSteps orm q).2).isSome = true)
        ∨ (bindsKeyAnywhere "$select" (whereValue q.Where) = false
          ∧ bindsKeyAnywhere "$dontSelect" (whereValue q.Where) = false
          ∧ ((inQueryRound exec "$inQuery" "$in" (guardSteps orm q).2).isSome = true
            ∨ (inQueryFailure exec "$inQuery" (guardSteps orm q).2 = some after
              ∧ after.Where ≠ q.Where)))
        ∨ (bindsKeyAnywhere "$select" (whereValue q.Where) = false
          ∧ bindsKeyAnywhere "$dontSelect" (whereValue q.Where) = false
          ∧ bindsKeyAnywhere "$inQuery" (whereValue q.Where) = false
          ∧ ((inQueryRound exec "$notInQuery" "$nin" (guardSteps orm q).2).isSome = true
            ∨ (inQueryFailure exec "$notInQuery" (guardSteps orm q).2 = some after
              ∧ after.Where ≠ q.Where))))) := by
  rw [BuildRestWhereWith_guardSteps] at h
  have hw := guardSteps_Where orm q
  rcases hg : guardSteps orm q with ⟨ge, g⟩
  rw [hg] at h hw
  dsimp only at hw ⊢
  cases ge with
  | some e1 =>
    left
    injection h with h
    injection h with _ h
    rw [← h]
    exact hw
  | none =>
    change (andThen (replaceSelectWith exec fuel g) _) = _ at h
    rw [← hw]
    cases fuel with
    | zero => cases h
    | succ fuel =>
      -- the step of `$select`
      cases hs : selectRound exec "$select" "$in" g with
      | some next => exact Or.inr ⟨rfl, Or.inl rfl⟩
      | none =>
        rcases andThen_error _ _ _ _ h with h1 | ⟨m1, h1, hc1⟩
        · rcases replaceSelectFamily_first exec _ _ fuel g _ h1 hs with ⟨hr, _⟩ | ⟨e1, hr⟩
          · cases hr
          · injection hr with _ hr
            left
            rw [hr]
        clear h
        rcases replaceSelectFamily_first exec _ _ fuel g _ h1 hs with ⟨hr, hb1⟩ | ⟨e1, hr⟩
        swap
        · cases hr
        injection hr with _ hr
        subst hr
        -- the step of `$dontSelect`
        cases hs2 : selectRound exec "$dontSelect" "$nin" m1 with
        | some next => exact Or.inr ⟨rfl, Or.inr (Or.inl ⟨hb1, rfl⟩)⟩
        | none =>
          rcases andThen_error _ _ _ _ hc1 with h2 | ⟨m2, h2, hc2⟩
          · rcases replaceSelectFamily_first exec _ _ fuel m1 _ h2 hs2
              with ⟨hr, _⟩ | ⟨e1, hr⟩
            · cases hr
            · injection hr with _ hr
              left
              rw [hr]
          clear hc1
          rcases replaceSelectFamily_first exec _ _ fuel m1 _ h2 hs2
            with ⟨hr, hb2⟩ | ⟨e1, hr⟩
          swap
          · cases hr
          injection hr with _ hr
          subst hr
          -- the step of `$inQuery`
          cases hs3 : inQueryRound exec "$inQuery" "$in" m2 with
          | some next => exact Or.inr ⟨rfl, Or.inr (Or.inr (Or.inl ⟨hb1, hb2, Or.inl rfl⟩))⟩
          | none =>
            rcases andThen_error _ _ _ _ hc2 with h3 | ⟨m3, h3, hc3⟩
            · rcases replaceInQueryFamily_first exec _ _ fuel m2 _ h3 hs3
                with ⟨hr, _⟩ | ⟨e1, hr⟩ | ⟨e1, hr, _⟩
              · cases hr
              · injection hr with _ hr
                left
                rw [hr]
              · by_cases hsame : after.Where = m2.Where
                · exact Or.inl hsame
                · exact Or.inr ⟨rfl, Or.inr (Or.inr (Or.inl ⟨hb1, hb2, Or.inr ⟨hr, hsame⟩⟩))⟩
            clear hc2
            rcases replaceInQueryFamily_first exec _ _ fuel m2 _ h3 hs3
              with ⟨hr, hb3⟩ | ⟨e1, hr⟩ | ⟨e1, _, hr⟩
            rotate_left
            · cases hr
            · cases hr
            injection hr with _ hr
            subst hr
            -- the step of `$notInQuery`
            cases hs4 : inQueryRound exec "$notInQuery" "$nin" m3 with
            | some next =>
              exact Or.inr ⟨rfl, Or.inr (Or.inr (Or.inr ⟨hb1, hb2, hb3, Or.inl rfl⟩))⟩
            | none =>
              rcases andThen_error _ _ _ _ hc3 with h4 | ⟨m4, h4, hc4⟩
              · rcases replaceInQueryFamily_first exec _ _ fuel m3 _ h4 hs4
                  with ⟨hr, _⟩ | ⟨e1, hr⟩ | ⟨e1, hr, _⟩
                · cases hr
                · injection hr with _ hr
                  left
                  rw [hr]
                · by_cases hsame : after.Where = m3.Where
                  · exact Or.inl hsame
                  · exact Or.inr ⟨rfl, Or.inr (Or.inr (Or.inr
                      ⟨hb1, hb2, hb3, Or.inr ⟨hr, hsame⟩⟩))⟩
              · cases hc4

/-- C22 as amended, at a `$select` with a `query` and no `key`: `BuildRestWhere`
returns InvalidQuery, no round has written to the tree, and the tree is the one passed
in; and at a well-formed `$select` followed by a `$dontSelect` that is not a map, where
the tree is not the one passed in: the first round of `replaceSelect` has replaced the
`$select`. -/
theorem BuildRestWhere_error_tree_witness :
    (∃ after, BuildRestWhere teamOrm 1 keylessSelectQuery
        = some (some (.err .InvalidQuery), after)
      ∧ after.Where = keylessSelectQuery.Where)
    ∧ (selectRound (Execute minAgeOrm 2) "$select" "$in"
        (guardSteps minAgeOrm halfQuery).2).isSome = true :=
  ⟨⟨keylessSelectQuery, by decide,
    (BuildRestWhere_error_tree teamOrm (Execute teamOrm 1) 1 keylessSelectQuery
      (.err .InvalidQuery) keylessSelectQuery (by decide)).resolve_right (by decide)⟩,
    (((BuildRestWhere_error_tree minAgeOrm (Execute minAgeOrm 2) 2 halfQuery
      (.err .InvalidQuery)
      { halfQuery with
        Where := some [("age", .obj [("$in", .arr [])]),
          ("name", .obj [("$dontSelect", .num 5)])] }
      (by decide)).resolve_left (by decide)).2).resolve_right (by decide)⟩

end Tomato
